import Mathlib

/-!
# wrsort.c : handicap rating, par curve and statistics engine

A shallow embedding of `src/c/wrsort.c` and theorems about it.

Conventions of the embedding

* C `unsigned` values are `Nat`, reduced with `u32` wherever the C code can wrap;
  C `int` values are `Int`, reduced with `i32` where a conversion from `unsigned`
  or an `unsigned` computation produces them.
* C `double` values are exact rationals `ℚ` (no rounding, no NaN, no infinities).
  The conversion `double -> int` is truncation toward zero (`d2i`), and
  `double -> unsigned` is the same followed by `u32` (`d2u`).
* Where the rounding of a double operation decides a property, the function is embedded a
  second time with every double operation rounded to binary64 by `fl` (round to nearest,
  ties to even, subnormal numbers included); these definitions carry the source name with
  the suffix `_fl`, and a value is a double when `fl` leaves it unchanged (`is_double`).
  Overflow to infinity is not part of `fl`: the theorems on the `_fl` definitions bound
  the values that enter them. `weight_adjust_d` works on `dbl`, a double that may be NaN.
* The linked list headed by `ov_head` is a `List entry_t` in link order; loops that
  walk it through `entry_get_first` / `entry_get_next` are recursions over that list
  which skip the entries the iterator filter rejects and update the others in place.
* Global variables are the fields of `state`; `max_player_id` is an argument of the
  function that reads it.
* The array `history[RACE_HISTORY]` of a player is the list of its slots in index order;
  a loop over the indices is a recursion over that list.
* `player_db` is a function from indices to records, and a pointer `&player_db[k]` is the
  index `k`.
* Of the text `dump_promotion_report` prints, the players a line is printed for are kept,
  in order.
* `sqrt` of libm is a parameter of the functions that call it.
* `g_entry_cnt` and the list headed by `rat_head` are arguments of `collate_stats`, which
  returns the new rating list next to the globals.
* The parser works on the globals `parse_state`. A line of the event file is the list of
  the labelled fields the loop of `event_process_line` meets (`token`), each with the value
  its case reads; character buffers are `String`s, whose capacity is not modelled. There
  the list headed by `ov_head` is the list of the indices of its entries in `entry_db`.
* `label_get` and `label_copy_toupper` work on a C string as the list of its characters
  before the terminator; the bytes of the buffer behind the terminator are NUL.
-/

namespace Wrsort

/-! ## Constants (`#define`s) -/

def MAX_RACERS : Nat := 2048
def MAX_PLAYERS : Nat := 2048
def RACE_HISTORY : Nat := 20
def MAX_POINTS_PLACES : Nat := 10
def MAX_RACER_POINTS : Nat := 20
def MIN_POINTS : Nat := 0
def DIV_IN_USE : Nat := 4
def DIV_COUNT : Nat := 8
def DIV_ALL : Nat := 0
def ROOKIE_TIME : Nat := 3
def RATING_WEIGHT_CAP : Nat := 5
def NULL_PLAYER : Nat := 0
def EVENT_QUALIFIER : Int := 0
def SUB_DIVISION_RANGE : ℚ := 1 / 3
def TRUE : Nat := 1
def FALSE : Nat := 0
def NO_HARM_HANDICAP : Nat := TRUE
def MIN_PROMOTION_EVENT_COUNT : Nat := 4

/-! ## Machine integers and doubles -/

/-- Reduction of an integer to the range of a 32-bit `unsigned`. -/
@[irreducible]
def u32 (n : Int) : Nat := (n % 4294967296).toNat

/-- Reduction of an integer to the range of a 32-bit two's complement `int`. -/
@[irreducible]
def i32 (n : Int) : Int := (n + 2147483648) % 4294967296 - 2147483648

/-- Conversion of a `double` to `int`: truncation toward zero. -/
def d2i (x : ℚ) : Int := Int.tdiv x.num x.den

/-- Conversion of a `double` to `unsigned`: truncation toward zero, reduced to 32 bits
(C defines the conversion for values whose integer part is in `0 .. 2^32 - 1`). -/
def d2u (x : ℚ) : Nat := u32 (d2i x)

/-! ## Enumerations -/

inductive dq_reason_e where
  | DQ_OK
  | DQ_SUBMITTED
  | DQ_VERIFIED
  | DQ_OFF_TRACK
  | DQ_CONTACT
  | DQ_NO_REPLAY
  | DQ_TIME_ERROR
  | DQ_NAME_VIOLATION
  | DQ_CUSTOM_VIOLATION
  deriving DecidableEq, Repr

inductive dq_iter_e where
  | ITER_DQ_ALL
  | ITER_DQ_OK
  | ITER_DQ_BAD
  deriving DecidableEq, Repr

/-- Values of `event_status_e`. -/
def STATUS_NONE : Nat := 0
def STATUS_PROVISIONAL : Nat := 1
def STATUS_FINAL : Nat := 2

/-- Values of `sub_div_e`. -/
def SUB_DIV_GOLD : Nat := 0
def SUB_DIV_SILVER : Nat := 1
def SUB_DIV_BRONZE : Nat := 2

/-! ## Data types -/

structure ttime_t where
  min : Nat
  sec : Nat
  msec : Nat
  time : ℚ
  deriving DecidableEq

structure race_result_t where
  race_id : Nat
  status : Nat
  points : Nat
  dq : dq_reason_e
  rating : ℚ
  weight : ℚ
  deriving DecidableEq

structure player_t where
  id : Nat
  valid : Nat
  real_rating : ℚ
  rating : ℚ
  total_weight : ℚ
  div : Nat
  sub_div : Nat
  event_count : Nat
  dq_count : Nat
  verified_count : Nat
  history_count : Nat
  qualifier : race_result_t
  history : List race_result_t
  latest : race_result_t
  deriving DecidableEq

structure entry_t where
  player_id : Nat
  dq : dq_reason_e
  time : ttime_t
  prov_div : Int
  overall_place : Int
  place : Int
  points : Int
  hcp_delta : ℚ
  rating : ℚ
  deriving DecidableEq

structure stat_t where
  count : Nat
  mean : ttime_t
  par : ttime_t
  gold : ttime_t
  silver : ttime_t
  bronze : ttime_t
  std_dev : ℚ
  q_mean : ttime_t
  q_std_dev : ℚ
  perf : Nat → Nat
  hcp_delta : ℚ

structure event_t where
  week : Int
  season : Int
  season_race : Int
  status : Nat
  par_multiple : Nat → ℚ
  trophy_multiple : Nat → ℚ
  squeeze : ℚ
  scoot : ℚ
  weight : ℚ
  auto_squeeze : Int
  auto_scoot : Int

/-- The global variables of the program that the rating engine reads and writes:
`g_event`, `custom_trophy_adjust`, the list headed by `ov_head`, `player_db`,
`div_stat` and `ostat`. -/
structure state where
  g_event : event_t
  custom_trophy_adjust : Nat → ℚ
  ov : List entry_t
  player_db : Nat → player_t
  div_stat : Nat → stat_t
  ostat : stat_t

/-! ## Static tables -/

def g_points_table : List (List Nat) :=
  [ [0, 0, 0, 0, 0, 0, 0, 0, 0, 0, 0],
    [0, 3, 0, 0, 0, 0, 0, 0, 0, 0, 0],
    [0, 6, 0, 0, 0, 0, 0, 0, 0, 0, 0],
    [0, 7, 2, 0, 0, 0, 0, 0, 0, 0, 0],
    [0, 8, 3, 0, 0, 0, 0, 0, 0, 0, 0],
    [0, 9, 4, 1, 0, 0, 0, 0, 0, 0, 0],
    [0, 9, 5, 2, 0, 0, 0, 0, 0, 0, 0],
    [0, 9, 6, 3, 1, 0, 0, 0, 0, 0, 0],
    [0, 9, 7, 4, 2, 0, 0, 0, 0, 0, 0],
    [0, 9, 7, 5, 3, 1, 0, 0, 0, 0, 0],
    [0, 10, 8, 6, 3, 1, 0, 0, 0, 0, 0],
    [0, 10, 8, 6, 4, 2, 1, 0, 0, 0, 0],
    [0, 10, 9, 7, 4, 3, 1, 0, 0, 0, 0],
    [0, 10, 9, 7, 5, 4, 2, 1, 0, 0, 0],
    [0, 10, 9, 8, 5, 4, 3, 1, 0, 0, 0],
    [0, 10, 9, 8, 6, 5, 3, 2, 1, 0, 0],
    [0, 10, 9, 8, 6, 5, 4, 3, 1, 0, 0],
    [0, 10, 9, 8, 7, 6, 4, 3, 2, 1, 0],
    [0, 10, 9, 8, 7, 6, 5, 4, 2, 1, 0],
    [0, 10, 9, 8, 7, 6, 5, 4, 3, 2, 1],
    [0, 10, 9, 8, 7, 6, 5, 4, 3, 2, 1] ]

/-- Read of `g_points_table[idx][place]`; an index outside the table (undefined
behaviour in C) reads 0 here. -/
def points_table_at (idx place : Int) : Nat :=
  if 0 ≤ idx ∧ 0 ≤ place then
    ((g_points_table.getD idx.toNat []).getD place.toNat 0)
  else 0

def flat_par_multiple : Nat → ℚ :=
  fun i => [-1, 0, 1, 2, 3, 4, 5, 6, 7, 8].getD i 0

def standard_par_multiple : Nat → ℚ :=
  fun i => [-1/2, 0, 1, 5/2, 9/2, 7, 10, 27/2, 35/2, 22].getD i 0

def qual_trophy_multiple : Nat → ℚ :=
  fun i => [1/3 - 1/20, 2/3 - 1/20, 1].getD i 0

def flat_trophy_multiple : Nat → ℚ :=
  fun i => [1/3, 2/3, 1].getD i 0

def standard_trophy_multiple : Nat → ℚ :=
  fun i => [3/10, 3/10 + 1/3, 1].getD i 0

/-! ## Disqualification and points -/

def dq_ok (dq : dq_reason_e) : Bool :=
  if dq = dq_reason_e.DQ_OK ∨ dq = dq_reason_e.DQ_VERIFIED ∨ dq = dq_reason_e.DQ_SUBMITTED then
    true
  else
    false

/-- Function `entry_points`: `racers` is the `unsigned` argument, `idx` its
conversion to `int`. -/
def entry_points (entry : entry_t) (racers : Nat) : Nat :=
  let idx : Int := i32 racers
  if dq_ok entry.dq then
    if entry.place ≤ MAX_POINTS_PLACES then
      let idx := if idx > MAX_RACER_POINTS then (MAX_RACER_POINTS : Int) else idx
      let points := points_table_at idx entry.place
      if points < MIN_POINTS then MIN_POINTS else points
    else MIN_POINTS
  else 0

/-! ## Player database interface -/

def player_get (db : Nat → player_t) (id : Nat) : player_t :=
  if id ≥ MAX_PLAYERS then db NULL_PLAYER else db id

/-- The index of `player_db` that `player_get` returns a pointer to. -/
def player_index (id : Nat) : Nat :=
  if id ≥ MAX_PLAYERS then NULL_PLAYER else id

def player_is_rookie (db : Nat → player_t) (id : Nat) : Bool :=
  let player := player_get db id
  if player.qualifier.status = STATUS_FINAL ∨
      (player.total_weight ≥ ROOKIE_TIME ∧ player.verified_count ≥ ROOKIE_TIME) then
    false
  else
    true

def player_div (db : Nat → player_t) (id : Nat) : Nat :=
  (player_get db id).div

def player_subdiv (db : Nat → player_t) (id : Nat) : Nat :=
  (player_get db id).sub_div

/-! ## Time functions -/

def time_to_usec (t : ttime_t) : Int :=
  i32 ((t.min * 60 * 1000 + t.sec * 1000 + t.msec : Nat) : Int)

/-- Function `time_from_usec`, as the value it stores in `*t`. -/
def time_from_usec (usec : Int) : ttime_t :=
  let min := u32 (Int.tdiv usec (60 * 1000))
  let usec1 := i32 (usec - (min : Int) * 60 * 1000)
  let sec := u32 (Int.tdiv usec1 1000)
  { time := (usec : ℚ) / 1000
    min := min
    sec := sec
    msec := u32 (usec1 - (sec : Int) * 1000) }

def time_compare (left right : entry_t) : Int :=
  i32 (time_to_usec left.time - time_to_usec right.time)

/-- Function `weight_adjust` in exact arithmetic, for ratings that are numbers;
`weight_adjust_d` is the same function on doubles that may be NaN, every operation
rounded. -/
def weight_adjust (player_rating event_rating : ℚ) : ℚ :=
  let delta := event_rating - player_rating
  let delta := if player_rating ≤ 0 ∨ delta < 1 then 1 else delta
  1 / 2 + 1 / (2 * delta)

/-! ## Entry iterator -/

def entry_div (db : Nat → player_t) (entry : entry_t) : Nat :=
  let retval := player_div db entry.player_id
  if retval = 0 then u32 entry.prov_div else retval

def entry_subdiv (db : Nat → player_t) (entry : entry_t) : Nat :=
  player_subdiv db entry.player_id

def entry_dq_match (status : dq_reason_e) (query : dq_iter_e) : Bool :=
  match query with
  | dq_iter_e.ITER_DQ_ALL => true
  | dq_iter_e.ITER_DQ_OK => dq_ok status
  | dq_iter_e.ITER_DQ_BAD => !dq_ok status

/-- Function `entry_match` for a link that holds the entry `e`; `div` and `dq` are
the filter stored in the iterator (every caller passes a `div` in `0..DIV_COUNT`). -/
def entry_match (db : Nat → player_t) (div : Nat) (dq : dq_iter_e) (e : entry_t) : Bool :=
  if (div = DIV_ALL ∨ entry_div db e = div) ∧ entry_dq_match e.dq dq = true then
    true
  else
    false

/-! ## Rating of one entry (`time_rate`) -/

/-- The `if / else if / else` of `time_rate` that picks the sub-division: the result
is `(subdiv, base, range, rating)` where `rating` is `e->rating` after the branch. -/
def time_rate_bracket (div : stat_t) (e : entry_t) : Nat × ℚ × ℚ × ℚ :=
  let rating : ℚ := 3 * (e.prov_div : ℚ)
  if time_to_usec e.time < time_to_usec div.gold then
    (SUB_DIV_GOLD, div.par.time, div.gold.time - div.par.time, rating)
  else if time_to_usec e.time < time_to_usec div.silver then
    (SUB_DIV_SILVER, div.gold.time, div.silver.time - div.gold.time, rating + 1)
  else
    (SUB_DIV_BRONZE, div.silver.time, div.bronze.time - div.silver.time, rating + 2)

/-- Value of `e->rating` in `time_rate` after the line `e->rating = e->rating/3.0f`,
before the cap. -/
def time_rate_normalized (ds : Nat → stat_t) (e : entry_t) : ℚ :=
  let div := ds e.prov_div.toNat
  let b := time_rate_bracket div e
  let base := b.2.1
  let range := b.2.2.1
  let rating := b.2.2.2
  let rating := if range > 0 then rating + (e.time.time - base) / range else rating
  rating / 3

/-- Value of `e->rating` that `time_rate` stores (after the cap). -/
def time_rate_rating (ds : Nat → stat_t) (e : entry_t) : ℚ :=
  let rating := time_rate_normalized ds e
  if rating > ((DIV_IN_USE + 1 : Nat) : ℚ) then ((DIV_IN_USE + 1 : Nat) : ℚ) - 1 / 1000 else rating

/-- Statement `stat->perf[k]++`. -/
def perf_inc (st : stat_t) (k : Nat) : stat_t :=
  { st with perf := Function.update st.perf k (u32 (st.perf k + 1)) }

/-- Function `time_rate`: the updated entry and the updated `div_stat`. -/
def time_rate (ev : event_t) (db : Nat → player_t) (ds : Nat → stat_t) (e : entry_t) :
    entry_t × (Nat → stat_t) :=
  let subdiv := (time_rate_bracket (ds e.prov_div.toNat) e).1
  let rating := time_rate_rating ds e
  let player := player_get db e.player_id
  if player.rating > 0 then
    let didx := if player.div > 0 then entry_div db e else e.prov_div.toNat
    let hcp_delta := rating - player.rating
    let k := if hcp_delta ≤ -(SUB_DIVISION_RANGE * (1 / 2)) then 0
      else if hcp_delta ≥ SUB_DIVISION_RANGE * (1 / 2) then 2 else 1
    ({ e with rating := rating, hcp_delta := hcp_delta },
      Function.update ds didx (perf_inc (ds didx) k))
  else if ev.week = EVENT_QUALIFIER then
    ({ e with rating := rating, hcp_delta := 0 },
      Function.update ds e.prov_div.toNat (perf_inc (ds e.prov_div.toNat) subdiv))
  else
    ({ e with rating := rating, hcp_delta := 0 }, ds)

/-! ## Par curve (`calculate_par`) -/

/-- Local `base_time` of `calculate_par`. -/
def par_base_time (s : state) : ℚ :=
  ((time_to_usec s.ostat.q_mean : ℚ) / 1000 - s.ostat.q_std_dev * 2) + s.g_event.scoot

/-- Local `par_inc` of `calculate_par`. -/
def par_inc (s : state) : ℚ :=
  s.ostat.q_std_dev * s.g_event.squeeze

/-- Local `parXlo` of `calculate_par` for division `div`. -/
def parXlo (s : state) (div : Nat) : ℚ :=
  if div ≥ DIV_IN_USE then
    s.g_event.par_multiple div + (DIV_IN_USE : ℚ) * (((div : Int) - (DIV_IN_USE : Int) : Int) : ℚ)
  else s.g_event.par_multiple div

/-- Local `parXhi` of `calculate_par` for division `div`. -/
def parXhi (s : state) (div : Nat) : ℚ :=
  if div + 1 ≥ DIV_IN_USE then
    s.g_event.par_multiple (div + 1) +
      (DIV_IN_USE : ℚ) * (((div : Int) + 1 - (DIV_IN_USE : Int) : Int) : ℚ)
  else s.g_event.par_multiple (div + 1)

/-- Threshold `stat->par` of division `div` after `time_from_usec`. -/
def par_of (s : state) (div : Nat) : ttime_t :=
  time_from_usec (d2i ((par_base_time s + par_inc s * parXlo s div) * 1000))

/-- Value of `stat->bronze.time` before it is rounded by `time_from_usec`. -/
def bronze_time (s : state) (div : Nat) : ℚ :=
  par_base_time s + par_inc s * parXhi s div - 1 / 1000

/-- Local `span` of `calculate_par` for division `div`. -/
def par_span (s : state) (div : Nat) : ℚ :=
  bronze_time s div - (par_of s div).time

/-- Value of `stat->gold.time` before it is rounded by `time_from_usec`. -/
def gold_time (s : state) (div : Nat) : ℚ :=
  (par_of s div).time + par_span s div * (s.g_event.trophy_multiple 0 + s.custom_trophy_adjust div)

/-- Value of `stat->silver.time` before it is rounded by `time_from_usec`. -/
def silver_time (s : state) (div : Nat) : ℚ :=
  (par_of s div).time + par_span s div * (s.g_event.trophy_multiple 1 + s.custom_trophy_adjust div)

/-- Body of the first loop of `calculate_par` for division `div`, as the new value
of `div_stat[div]`, in exact arithmetic; `calculate_par_div_fl` is the same body with
every double operation rounded. -/
def calculate_par_div (s : state) (div : Nat) (stat : stat_t) : stat_t :=
  { stat with
    par := par_of s div
    perf := fun _ => 0
    gold := time_from_usec (d2i (gold_time s div * 1000))
    silver := time_from_usec (d2i (silver_time s div * 1000))
    bronze := time_from_usec (d2i (bronze_time s div * 1000)) }

/-- First loop of `calculate_par`: `for (div = 1; div <= DIV_COUNT; div++)`. -/
def calculate_par_thresholds (s : state) : Nat → stat_t :=
  (List.range' 1 DIV_COUNT).foldl
    (fun ds div => Function.update ds div (calculate_par_div s div (ds div))) s.div_stat

/-- Block "close off current division" of the quality mean loop. -/
def par_close_mean (stat : stat_t) (q_count : Nat) : stat_t :=
  let msec := u32 ((stat.q_mean.msec : Int) + ((q_count / 2 : Nat) : Int))
  let msec := if q_count ≠ 0 then msec / q_count else 0
  { stat with q_mean := time_from_usec (i32 msec) }

/-- Statement `stat->q_mean.msec = 0`. -/
def par_reset_mean (stat : stat_t) : stat_t :=
  { stat with q_mean := { stat.q_mean with msec := 0 } }

/-- Statement `stat->q_mean.msec += time_to_usec(&cur->time)`. -/
def par_add_mean (stat : stat_t) (cur : entry_t) : stat_t :=
  { stat with q_mean :=
      { stat.q_mean with msec := u32 ((stat.q_mean.msec : Int) + time_to_usec cur.time) } }

/-- Second loop of `calculate_par` (quality mean and provisional division), from the
link that holds the head of the argument list, with the current `div`, `q_count`
and `div_stat`. -/
def par_quality_mean (db : Nat → player_t) :
    List entry_t → Nat → Nat → (Nat → stat_t) → List entry_t × (Nat → stat_t)
  | [], div, q_count, ds => ([], Function.update ds div (par_close_mean (ds div) q_count))
  | cur :: rest, div, q_count, ds =>
    if entry_match db DIV_ALL dq_iter_e.ITER_DQ_OK cur = true then
      if time_to_usec cur.time ≥ time_to_usec (ds div).bronze then
        let ds1 := Function.update ds div (par_close_mean (ds div) q_count)
        if div + 1 ≥ DIV_COUNT then
          (cur :: rest, ds1)
        else
          let ds2 := Function.update ds1 (div + 1) (par_reset_mean (ds1 (div + 1)))
          let ds3 := Function.update ds2 (div + 1) (par_add_mean (ds2 (div + 1)) cur)
          let r := par_quality_mean db rest (div + 1) 1 ds3
          ({ cur with prov_div := ((div + 1 : Nat) : Int) } :: r.1, r.2)
      else
        let ds3 := Function.update ds div (par_add_mean (ds div) cur)
        let r := par_quality_mean db rest div (q_count + 1) ds3
        ({ cur with prov_div := (div : Int) } :: r.1, r.2)
    else
      let r := par_quality_mean db rest div q_count ds
      (cur :: r.1, r.2)

/-- Block "close off division std deviation" of the quality deviation loop. -/
def par_close_dev (sqrt : ℚ → ℚ) (stat : stat_t) (q_count : Nat) : stat_t :=
  if q_count > 0 then
    { stat with q_std_dev := sqrt (stat.q_std_dev / (q_count : ℚ)) }
  else
    { stat with q_std_dev := 0 }

/-- Statement `stat->q_std_dev = 0`. -/
def par_reset_dev (stat : stat_t) : stat_t :=
  { stat with q_std_dev := 0 }

/-- Statement `stat->q_std_dev += (stat->q_mean.time - cur->time.time)^2`. -/
def par_add_dev (stat : stat_t) (cur : entry_t) : stat_t :=
  { stat with q_std_dev := stat.q_std_dev +
      (stat.q_mean.time - cur.time.time) * (stat.q_mean.time - cur.time.time) }

/-- Third loop of `calculate_par` (quality standard deviation). -/
def par_quality_dev (sqrt : ℚ → ℚ) (db : Nat → player_t) :
    List entry_t → Nat → Nat → (Nat → stat_t) → (Nat → stat_t)
  | [], div, q_count, ds => Function.update ds div (par_close_dev sqrt (ds div) q_count)
  | cur :: rest, div, q_count, ds =>
    if entry_match db DIV_ALL dq_iter_e.ITER_DQ_OK cur = true then
      if cur.prov_div = ((div + 2 : Nat) : Int) then
        let ds1 := Function.update ds div (par_close_dev sqrt (ds div) q_count)
        if div + 1 ≥ DIV_COUNT then
          ds1
        else
          let ds2 := Function.update ds1 (div + 1) (par_reset_dev (ds1 (div + 1)))
          let ds3 := Function.update ds2 (div + 1) (par_add_dev (ds2 (div + 1)) cur)
          par_quality_dev sqrt db rest (div + 1) 1 ds3
      else
        par_quality_dev sqrt db rest div (q_count + 1)
          (Function.update ds div (par_add_dev (ds div) cur))
    else
      par_quality_dev sqrt db rest div q_count ds

def calculate_par (sqrt : ℚ → ℚ) (s : state) : state :=
  let ds1 := calculate_par_thresholds s
  let ds2 := Function.update ds1 1 (par_reset_mean (ds1 1))
  let r := par_quality_mean s.player_db s.ov 1 0 ds2
  let ds3 := Function.update r.2 1 (par_reset_dev (r.2 1))
  let ds4 := par_quality_dev sqrt s.player_db r.1 1 0 ds3
  { s with ov := r.1, div_stat := ds4 }

/-! ## Rating and placement of all entries (`rate_times`) -/

/-- First loop of `rate_times`: `time_rate` and `overall_place` of every entry the
iterator `(DIV_ALL, ITER_DQ_OK)` returns. `i` is the loop counter, `prior` the
entry `prior` points to (none for a null pointer), `prior_place` the local. -/
def rate_overall (ev : event_t) (db : Nat → player_t) :
    List entry_t → Int → Option entry_t → Int → (Nat → stat_t) →
      List entry_t × (Nat → stat_t)
  | [], _, _, _, ds => ([], ds)
  | cur :: rest, i, prior, prior_place, ds =>
    if entry_match db DIV_ALL dq_iter_e.ITER_DQ_OK cur = true then
      let r := time_rate ev db ds cur
      match prior with
      | some p =>
        if time_compare cur p = 0 then
          let t := rate_overall ev db rest (i + 1) prior prior_place r.2
          ({ r.1 with overall_place := prior_place } :: t.1, t.2)
        else
          let t := rate_overall ev db rest (i + 1) (some cur) i r.2
          ({ r.1 with overall_place := i } :: t.1, t.2)
      | none =>
        let t := rate_overall ev db rest (i + 1) (some cur) i r.2
        ({ r.1 with overall_place := i } :: t.1, t.2)
    else
      let t := rate_overall ev db rest i prior prior_place ds
      (cur :: t.1, t.2)

/-- Loop "first, compute mean (average)" of `rate_times` for division `div`. -/
def rate_div_mean (db : Nat → player_t) (div : Nat) :
    List entry_t → stat_t → List entry_t × stat_t
  | [], stat => ([], stat)
  | cur :: rest, stat =>
    if entry_match db div dq_iter_e.ITER_DQ_OK cur = true then
      let stat1 : stat_t :=
        { stat with
          count := u32 ((stat.count : Int) + 1)
          mean := { stat.mean with msec := u32 ((stat.mean.msec : Int) + time_to_usec cur.time) }
          hcp_delta := stat.hcp_delta + cur.hcp_delta }
      let cur1 : entry_t :=
        { cur with time := { cur.time with time := (time_to_usec cur.time : ℚ) / 1000 } }
      let t := rate_div_mean db div rest stat1
      (cur1 :: t.1, t.2)
    else
      let t := rate_div_mean db div rest stat
      (cur :: t.1, t.2)

/-- Loop "next, compute standard deviation" of `rate_times` for division `div`. -/
def rate_div_dev (db : Nat → player_t) (div : Nat) : List entry_t → stat_t → stat_t
  | [], stat => stat
  | cur :: rest, stat =>
    if entry_match db div dq_iter_e.ITER_DQ_OK cur = true then
      rate_div_dev db div rest
        { stat with std_dev := stat.std_dev +
            (stat.mean.time - cur.time.time) * (stat.mean.time - cur.time.time) }
    else
      rate_div_dev db div rest stat

/-- Loop "assign place/points" of `rate_times` for division `div`; `count` is
`stat->count`. -/
def rate_div_place (db : Nat → player_t) (div : Nat) (count : Nat) :
    List entry_t → Int → Option entry_t → Int → List entry_t
  | [], _, _, _ => []
  | cur :: rest, i, prior, prior_place =>
    if entry_match db div dq_iter_e.ITER_DQ_OK cur = true then
      match prior with
      | some p =>
        if time_compare cur p = 0 then
          let cur1 : entry_t := { cur with place := prior_place }
          { cur1 with points := (entry_points cur1 count : Int) } ::
            rate_div_place db div count rest (i + 1) prior prior_place
        else
          let cur1 : entry_t := { cur with place := i }
          { cur1 with points := (entry_points cur1 count : Int) } ::
            rate_div_place db div count rest (i + 1) (some cur) i
      | none =>
        let cur1 : entry_t := { cur with place := i }
        { cur1 with points := (entry_points cur1 count : Int) } ::
          rate_div_place db div count rest (i + 1) (some cur) i
    else
      cur :: rate_div_place db div count rest i prior prior_place

/-- Statements `stat->count = 0; stat->mean.msec = 0; stat->hcp_delta = 0;
stat->std_dev = 0` at the head of the division loop of `rate_times`. -/
def rate_div_reset (stat : stat_t) : stat_t :=
  { stat with
    count := 0
    mean := { stat.mean with msec := 0 }
    hcp_delta := 0
    std_dev := 0 }

/-- Statements of `rate_times` between the mean loop and the deviation loop, on
`*stat`: rounding and division of the mean, `time_from_usec`, and the average
handicap delta. -/
def rate_div_close_mean (stat : stat_t) : stat_t :=
  let msec := u32 ((stat.mean.msec : Int) + ((stat.count / 2 : Nat) : Int))
  let msec := msec / stat.count
  { stat with
    mean := time_from_usec (i32 msec)
    hcp_delta := stat.hcp_delta / (stat.count : ℚ) }

/-- Statements `stat->std_dev = stat->std_dev / (double)stat->count;
stat->std_dev = sqrt(stat->std_dev)`. -/
def rate_div_close_dev (sqrt : ℚ → ℚ) (stat : stat_t) : stat_t :=
  { stat with std_dev := sqrt (stat.std_dev / (stat.count : ℚ)) }

/-- Body of the loop "finalize division stats" of `rate_times` for division `div`,
on the entry list, `div_stat` and `ostat`. -/
def rate_division (sqrt : ℚ → ℚ) (db : Nat → player_t)
    (x : List entry_t × (Nat → stat_t) × stat_t) (div : Nat) :
    List entry_t × (Nat → stat_t) × stat_t :=
  let r := rate_div_mean db div x.1 (rate_div_reset (x.2.1 div))
  if r.2.count = 0 then
    (r.1, Function.update x.2.1 div r.2, x.2.2)
  else
    let stat := rate_div_close_dev sqrt (rate_div_dev db div r.1 (rate_div_close_mean r.2))
    (rate_div_place db div stat.count r.1 1 none 0,
      Function.update x.2.1 div stat,
      { x.2.2 with hcp_delta := x.2.2.hcp_delta + r.2.hcp_delta })

def rate_times (sqrt : ℚ → ℚ) (s : state) : state :=
  let r := rate_overall s.g_event s.player_db s.ov 1 none 0 s.div_stat
  let x := (List.range' 1 DIV_COUNT).foldl (rate_division sqrt s.player_db) (r.1, r.2, s.ostat)
  { s with
    ov := x.1
    div_stat := x.2.1
    ostat := { x.2.2 with hcp_delta := x.2.2.hcp_delta / (x.2.2.count : ℚ) } }

/-! ## Long-term rating of a player (`player_update_rating`) -/

/-- The local `use_weight` of `player_update_rating` before the weight of the latest
result is added: the prior weight, capped. -/
def use_weight (p : player_t) : ℚ :=
  let use_weight := p.total_weight
  if use_weight ≥ RATING_WEIGHT_CAP then
    let use_weight := (RATING_WEIGHT_CAP : ℚ) - p.latest.weight
    if use_weight ≤ 0 then (RATING_WEIGHT_CAP : ℚ) else use_weight
  else
    use_weight

/-- The local `use_weight` of `player_update_rating` after `use_weight += p->latest.weight`:
the denominator of the fold. -/
def fold_weight (p : player_t) : ℚ :=
  use_weight p + p.latest.weight

/-- The local `real_agg` of `player_update_rating`. -/
def real_agg (p : player_t) : ℚ :=
  p.real_rating * use_weight p + p.latest.rating * p.latest.weight

/-- The local `agg` of `player_update_rating`, with `adj_rating` the smaller of the
rating of the latest result and the rating of the player. -/
def agg (p : player_t) : ℚ :=
  let adj_rating := if p.latest.rating < p.rating then p.latest.rating else p.rating
  p.rating * use_weight p + adj_rating * p.latest.weight

/-- The assignments to `real_rating` and `rating` in the `dq_ok` branch of
`player_update_rating`, for `p = &player_db[k]`; `player_is_rookie` reads the database
in which `real_rating` has already been stored. The quotients are exact here and rounded
in `fold_ratings_fl`. -/
def fold_ratings (db : Nat → player_t) (k : Nat) (p : player_t) : player_t :=
  if fold_weight p > 0 then
    let p1 := { p with real_rating := real_agg p / fold_weight p }
    if NO_HARM_HANDICAP = TRUE ∧ player_is_rookie (Function.update db k p1) p1.id = false then
      { p1 with rating := agg p / fold_weight p }
    else
      { p1 with rating := p1.real_rating }
  else
    { p with rating := 0 }

/-- The updates of `verified_count` and `total_weight` in the `dq_ok` branch of
`player_update_rating`; the sum of the `unsigned` count and the `double` weight is
converted back to `unsigned`. The sums are exact here and rounded in `fold_counts_fl`. -/
def fold_counts (p : player_t) : player_t :=
  let p1 :=
    if p.latest.dq = dq_reason_e.DQ_VERIFIED then
      { p with verified_count := d2u ((p.verified_count : ℚ) + p.latest.weight) }
    else p
  { p1 with total_weight := p1.total_weight + p1.latest.weight }

/-- The last statement of `player_update_rating`: a rating that is not positive is
replaced by the other one. -/
def rating_floor (p : player_t) : player_t :=
  if p.real_rating ≤ 0 then { p with real_rating := p.rating }
  else if p.rating ≤ 0 then { p with rating := p.real_rating }
  else p

/-- Function `player_update_rating` for the pointer `p = &player_db[k]`. -/
def player_update_rating (db : Nat → player_t) (k : Nat) : Nat → player_t :=
  if (db k).valid ≠ 0 then
    let p := { db k with event_count := u32 (((db k).event_count : Int) + 1) }
    let p :=
      if dq_ok p.latest.dq = true then
        fold_counts (fold_ratings (Function.update db k p) k p)
      else
        { p with dq_count := u32 ((p.dq_count : Int) + 1) }
    Function.update db k (rating_floor p)
  else
    db

/-! ## Database update (`db_update`) -/

/-- Function `race_result_set`, as the new value of `*player`. -/
def race_result_set (player : player_t) (week status : Nat) (dq : dq_reason_e)
    (weight rating : ℚ) : player_t :=
  { player with
    latest :=
      { player.latest with
        race_id := week
        status := status
        dq := dq
        weight := weight * weight_adjust player.rating rating
        rating := rating } }

/-- Function `race_result_swap` for two non-null pointers: the new `*a` and `*b`. -/
def race_result_swap (a b : race_result_t) : race_result_t × race_result_t :=
  (b, a)

/-- The search loop of `db_update` over `history[0 .. RACE_HISTORY)`, the array being the
list of its slots in index order. The arguments are the locals `oldest_history` and
`fold_rating`; the result is the array, `oldest_history`, `fold_rating` and
`update_done`. -/
def history_store (latest : race_result_t) :
    List race_result_t → Nat → Bool → List race_result_t × Nat × Bool × Bool
  | [], oldest_history, fold_rating => ([], oldest_history, fold_rating, false)
  | h :: t, oldest_history, fold_rating =>
    let oldest_history := if oldest_history > h.race_id then h.race_id else oldest_history
    if h.race_id = latest.race_id then
      (latest :: t, oldest_history,
        (if h.status = STATUS_FINAL then false else fold_rating), true)
    else
      let r := history_store latest t oldest_history fold_rating
      (h :: r.1, r.2.1, r.2.2.1, r.2.2.2)

/-- The swap loop of `db_update` over `history[0 .. RACE_HISTORY)`: the final `tmp` and
the array. -/
def history_rotate : race_result_t → List race_result_t → race_result_t × List race_result_t
  | tmp, [] => (tmp, [])
  | tmp, h :: t =>
    let s := race_result_swap tmp h
    let r := history_rotate s.1 t
    (r.1, s.2 :: r.2)

/-- The history branch of `db_update` (`g_event.week != EVENT_QUALIFIER`): the player
and the local `fold_rating` afterwards. -/
def db_update_history (player : player_t) (fold_rating : Bool) : player_t × Bool :=
  let r := history_store player.latest player.history 999999 fold_rating
  if r.2.2.2 = false then
    if r.2.1 > player.latest.race_id then
      ({ player with history := r.1 }, false)
    else
      ({ player with history := (history_rotate player.latest r.1).2 }, r.2.2.1)
  else
    ({ player with history := r.1 }, r.2.2.1)

/-- The qualifier branch of `db_update` (`g_event.week == EVENT_QUALIFIER`). -/
def db_update_qualifier (player : player_t) (fold_rating : Bool) : player_t × Bool :=
  if player.qualifier.status = STATUS_FINAL then (player, false)
  else ({ player with qualifier := player.latest }, fold_rating)

/-- The body of the loop of `db_update` for the entry `cur`. -/
def db_update_entry (ev : event_t) (db : Nat → player_t) (cur : entry_t) : Nat → player_t :=
  let k := player_index cur.player_id
  if (db k).valid ≠ 0 then
    let player := race_result_set (db k) (u32 ev.week) ev.status cur.dq ev.weight cur.rating
    let fold_rating := decide (ev.status = STATUS_FINAL)
    let r :=
      if ev.week = EVENT_QUALIFIER then db_update_qualifier player fold_rating
      else db_update_history player fold_rating
    if r.2 = true then player_update_rating (Function.update db k r.1) k
    else Function.update db k r.1
  else
    db

/-- The loop of `db_update` over the entries the iterator `(DIV_ALL, ITER_DQ_ALL)`
returns. -/
def db_update_entries (ev : event_t) : (Nat → player_t) → List entry_t → (Nat → player_t)
  | db, [] => db
  | db, cur :: rest =>
    if entry_match db DIV_ALL dq_iter_e.ITER_DQ_ALL cur = true then
      db_update_entries ev (db_update_entry ev db cur) rest
    else
      db_update_entries ev db rest

def db_update (s : state) : state :=
  { s with player_db := db_update_entries s.g_event s.player_db s.ov }

/-! ## Promotion report (`dump_promotion_report`) -/

/-- The indices `player_get_first` / `player_get_next` step through: `1 .. max_player_id`
(`max_player_id` is not negative once `init_db` has created player 0). -/
def player_iter (max_player_id : Nat) : List Nat :=
  List.range' 1 max_player_id

/-- The local `delta` of `dump_promotion_report`; the sum of the `unsigned` fields is
computed in `unsigned`. -/
def promotion_delta (player : player_t) : ℚ :=
  ((u32 ((player.div : Int) * 3 + (player.sub_div : Int) + 1) : Nat) : ℚ) - player.rating * 3

/-- The body of the first loop of `dump_promotion_report` for one player: the player
afterwards, and whether a promotion line is printed for it. The products are exact here
and rounded in `promotion_step_fl`. -/
def promotion_step (update_db : Bool) (player : player_t) : player_t × Bool :=
  if player.verified_count < MIN_PROMOTION_EVENT_COUNT then (player, false)
  else if (player.div > 1 ∨ player.sub_div > 0) ∧ player.rating ≠ 0 ∧
      promotion_delta player > 1 then
    let p_div := d2i player.rating
    if update_db = true then
      ({ player with
          div := u32 p_div
          sub_div := u32 (d2i (3 * (player.rating - (p_div : ℚ)))) }, true)
    else (player, true)
  else (player, false)

/-- The first loop of `dump_promotion_report` over the indices of the player iterator:
the database afterwards and the players a promotion line is printed for, in order. -/
def promotion_loop (update_db : Bool) :
    (Nat → player_t) → List Nat → (Nat → player_t) × List player_t
  | db, [] => (db, [])
  | db, idx :: rest =>
    if (player_get db idx).valid = TRUE then
      let r := promotion_step update_db (player_get db idx)
      let t := promotion_loop update_db (Function.update db (player_index idx) r.1) rest
      (t.1, if r.2 = true then player_get db idx :: t.2 else t.2)
    else
      promotion_loop update_db db rest

/-- The body of the second loop of `dump_promotion_report` (rookie placement). -/
def placement_step (update_db : Bool) (db : Nat → player_t) (player : player_t) :
    player_t × Bool :=
  if player.div = 0 ∧ player_is_rookie db player.id = false then
    let p_div := d2i player.rating
    if update_db = true then
      ({ player with
          div := u32 p_div
          sub_div := u32 (d2i (3 * (player.rating - (p_div : ℚ)))) }, true)
    else (player, true)
  else (player, false)

/-- The second loop of `dump_promotion_report`. -/
def placement_loop (update_db : Bool) :
    (Nat → player_t) → List Nat → (Nat → player_t) × List player_t
  | db, [] => (db, [])
  | db, idx :: rest =>
    if (player_get db idx).valid = TRUE then
      let r := placement_step update_db db (player_get db idx)
      let t := placement_loop update_db (Function.update db (player_index idx) r.1) rest
      (t.1, if r.2 = true then player_get db idx :: t.2 else t.2)
    else
      placement_loop update_db db rest

/-- Function `dump_promotion_report`: the state afterwards, the players printed under
"promotions" and the players printed under "rookie placement". -/
def dump_promotion_report (max_player_id : Nat) (s : state) :
    state × List player_t × List player_t :=
  let update_db := decide (s.g_event.status = STATUS_FINAL)
  let a := promotion_loop update_db s.player_db (player_iter max_player_id)
  let b := placement_loop update_db a.1 (player_iter max_player_id)
  ({ s with player_db := b.1 }, a.2, b.2)

/-! ## Time arithmetic (`time_add`, `time_subtract`) -/

/-- Function `time_add`, as the value it stores in `*dest`; the sum is an `int`. -/
def time_add (a b : ttime_t) : ttime_t :=
  time_from_usec (i32 (time_to_usec a + time_to_usec b))

/-- Function `time_subtract`, as the value it stores in `*dest`; the difference is an
`int`. -/
def time_subtract (a b : ttime_t) : ttime_t :=
  time_from_usec (i32 (time_to_usec a - time_to_usec b))

/-! ## Constants of the tuning loop -/

def AUTO_CYCLE_CNT : Nat := 10
def AUTO_SCOOT_FRACTION : Nat := 5

/-! ## Handicap ranking (`sort_ratings`) -/

def rating_compare (db : Nat → player_t) (left right : entry_t) : ℚ :=
  let left_delta := left.rating - (player_get db left.player_id).rating
  let right_delta := right.rating - (player_get db right.player_id).rating
  left_delta - right_delta

/-- Function `rating_insert`: the list headed by `head` with the link of `entry`
inserted in front of the first link whose entry does not compare below `entry`. -/
def rating_insert (db : Nat → player_t) : List entry_t → entry_t → List entry_t
  | [], entry => [entry]
  | cur :: rest, entry =>
    if rating_compare db cur entry < 0 then cur :: rating_insert db rest entry
    else entry :: cur :: rest

/-- Function `sort_ratings`: the list headed by `rat_head` after the loop over the
entries the iterator `(DIV_ALL, ITER_DQ_OK)` returns from the list headed by
`ov_head`. -/
def sort_ratings (db : Nat → player_t) : List entry_t → List entry_t → List entry_t
  | rat_head, [] => rat_head
  | rat_head, cur :: rest =>
    if entry_match db DIV_ALL dq_iter_e.ITER_DQ_OK cur = true then
      sort_ratings db (rating_insert db rat_head cur) rest
    else
      sort_ratings db rat_head rest

/-! ## Automatic scoot and squeeze -/

/-- The loop of `calculate_auto_scoot` over the entries the iterator `(div, ITER_DQ_OK)`
returns, from the counter `i` and the sum `accum`: the final `i` and `accum`. -/
def auto_scoot_loop (s : state) (div : Nat) : List entry_t → Nat → ℚ → Nat × ℚ
  | [], i, accum => (i, accum)
  | cur :: rest, i, accum =>
    if entry_match s.player_db div dq_iter_e.ITER_DQ_OK cur = true then
      if i < s.ostat.count / AUTO_SCOOT_FRACTION then
        let usec := (player_get s.player_db cur.player_id).rating - cur.rating
        let usec := usec * s.g_event.par_multiple 2
        let usec := usec * s.ostat.q_std_dev
        auto_scoot_loop s div rest (i + 1) (accum + usec * (3 / 4))
      else
        (i, accum)
    else
      auto_scoot_loop s div rest i accum

def calculate_auto_scoot (s : state) : ℚ :=
  let div := if (s.div_stat 1).count < 3 then DIV_ALL else 1
  let r := auto_scoot_loop s div s.ov 0 0
  let accum := if r.1 > 0 then r.2 / (r.1 : ℚ) else r.2
  s.g_event.scoot - accum

def calculate_auto_squeeze (s : state) : ℚ :=
  let accum := (List.range' 1 DIV_IN_USE).foldl
    (fun accum div => accum + ((s.div_stat div).count : ℚ) * (s.div_stat div).hcp_delta) 0
  let accum := if s.ostat.count > 0 then accum / (s.ostat.count : ℚ) else accum
  accum + s.g_event.squeeze

/-! ## Overall statistics and the tuning cycles (`collate_stats`) -/

/-- First loop of `collate_stats`: count, sum of the times and the `time` view of every
entry the iterator `(DIV_ALL, ITER_DQ_OK)` returns. -/
def collate_count (db : Nat → player_t) : List entry_t → stat_t → List entry_t × stat_t
  | [], o => ([], o)
  | cur :: rest, o =>
    if entry_match db DIV_ALL dq_iter_e.ITER_DQ_OK cur = true then
      let r := collate_count db rest
        { o with
          count := u32 ((o.count : Int) + 1)
          mean := { o.mean with msec := u32 ((o.mean.msec : Int) + time_to_usec cur.time) } }
      ({ cur with time := { cur.time with time := (time_to_usec cur.time : ℚ) / 1000 } } :: r.1,
        r.2)
    else
      let r := collate_count db rest o
      (cur :: r.1, r.2)

/-- Statements of `collate_stats` that close the overall mean. -/
def collate_close_mean (o : stat_t) : stat_t :=
  let msec := u32 ((o.mean.msec : Int) + ((o.count / 2 : Nat) : Int))
  let msec := msec / o.count
  { o with mean := time_from_usec (i32 msec) }

/-- Second loop of `collate_stats`: squared deviations from the mean, and count and sum of
the quality times (those not above the mean); the argument and result carry `q_count`. -/
def collate_dev (db : Nat → player_t) : List entry_t → Int × stat_t → Int × stat_t
  | [], x => x
  | cur :: rest, x =>
    if entry_match db DIV_ALL dq_iter_e.ITER_DQ_OK cur = true then
      let o := { x.2 with std_dev := x.2.std_dev +
        (x.2.mean.time - cur.time.time) * (x.2.mean.time - cur.time.time) }
      if time_to_usec cur.time ≤ time_to_usec o.mean then
        collate_dev db rest (i32 (x.1 + 1),
          { o with q_mean :=
              { o.q_mean with msec := u32 ((o.q_mean.msec : Int) + time_to_usec cur.time) } })
      else
        collate_dev db rest (x.1, o)
    else
      collate_dev db rest x

/-- Statements of `collate_stats` that close the overall deviation and the quality
mean. -/
def collate_close_dev (sqrt : ℚ → ℚ) (q_count : Int) (o : stat_t) : stat_t :=
  let std_dev := sqrt (o.std_dev / (o.count : ℚ))
  let msec := u32 ((o.q_mean.msec : Int) + Int.tdiv q_count 2)
  let msec := if q_count > 0 then u32 (((msec : Int)) / (u32 q_count : Int)) else 0
  { o with std_dev := std_dev, q_mean := time_from_usec (i32 msec) }

/-- Third loop of `collate_stats`: squared deviations of the quality times from the
quality mean. -/
def collate_q_dev (db : Nat → player_t) : List entry_t → stat_t → stat_t
  | [], o => o
  | cur :: rest, o =>
    if entry_match db DIV_ALL dq_iter_e.ITER_DQ_OK cur = true then
      if time_to_usec cur.time ≤ time_to_usec o.mean then
        collate_q_dev db rest
          { o with q_std_dev := o.q_std_dev +
            (o.q_mean.time - cur.time.time) * (o.q_mean.time - cur.time.time) }
      else
        collate_q_dev db rest o
    else
      collate_q_dev db rest o

/-- Statements of `collate_stats` that close the quality deviation. -/
def collate_close_q_dev (sqrt : ℚ → ℚ) (q_count : Int) (o : stat_t) : stat_t :=
  let q := if q_count ≠ 0 then o.q_std_dev / (q_count : ℚ) else 0
  { o with q_std_dev := sqrt q }

/-- One pass of the tuning loop of `collate_stats`, for the loop counter `i`. -/
def auto_cycle (sqrt : ℚ → ℚ) (s : state) (i : Nat) : state :=
  let s1 :=
    if s.g_event.auto_scoot = (TRUE : Int) ∧ i < AUTO_CYCLE_CNT - 2 then
      rate_times sqrt (calculate_par sqrt
        { s with g_event := { s.g_event with scoot := calculate_auto_scoot s } })
    else s
  if s1.g_event.auto_squeeze = (TRUE : Int) then
    rate_times sqrt (calculate_par sqrt
      { s1 with g_event := { s1.g_event with squeeze := calculate_auto_squeeze s1 } })
  else s1

/-- Statements of `collate_stats` from the close of the overall mean to the close of the
quality deviation: `ostat` afterwards, from the list and the `ostat` the first loop left. -/
def collate_overall (sqrt : ℚ → ℚ) (db : Nat → player_t) (ov : List entry_t) (o : stat_t) :
    stat_t :=
  let d := collate_dev db ov (0, collate_close_mean o)
  let o := collate_close_dev sqrt d.1 d.2
  collate_close_q_dev sqrt d.1 (collate_q_dev db ov o)

/-- The tuning loop of `collate_stats` with its guard. -/
def collate_tune (sqrt : ℚ → ℚ) (s : state) : state :=
  if s.g_event.auto_scoot = (TRUE : Int) ∨ s.g_event.auto_squeeze = (TRUE : Int) then
    (List.range AUTO_CYCLE_CNT).foldl (auto_cycle sqrt) s
  else s

/-- Function `collate_stats`: the globals and the list headed by `rat_head`
afterwards. -/
def collate_stats (sqrt : ℚ → ℚ) (g_entry_cnt : Nat) (rat_head : List entry_t) (s : state) :
    state × List entry_t :=
  if g_entry_cnt = 0 then (s, rat_head)
  else
    let r := collate_count s.player_db s.ov { s.ostat with count := 0 }
    if r.2.count = 0 then ({ s with ov := r.1, ostat := r.2 }, rat_head)
    else
      let o := collate_overall sqrt s.player_db r.1 r.2
      let s2 := collate_tune sqrt
        (rate_times sqrt (calculate_par sqrt { s with ov := r.1, ostat := o }))
      (s2, sort_ratings s2.player_db rat_head s2.ov)

/-! ## Constants and curve tables of the parser -/

def MAX_SPLITS : Nat := 5
def MAX_IMAGES : Nat := 7
def DEFAULT_SQUEEZE : ℚ := 6 / 5

/-- Values of `run_mode_e`. -/
def RUN_MODE_EVENT : Nat := 0
def RUN_MODE_QUALIFIER : Nat := 1
def RUN_MODE_REPORT : Nat := 2
def RUN_MODE_DB_FIX : Nat := 3

def default_par_multiple : Nat → ℚ :=
  fun i => [-1/2, 0, 1, 11/5, 7/2, 6, 8, 12, 18, 26].getD i 0

def hybrid_par_multiple : Nat → ℚ :=
  fun i => [-1/2, 0, 1, 11/4, 21/4, 17/2, 25/2, 71/4, 89/4, 29].getD i 0

def double_par_multiple : Nat → ℚ :=
  fun i => [-1/2, 0, 1, 3, 6, 10, 15, 21, 28, 36].getD i 0

def multiply_par_multiple : Nat → ℚ :=
  fun i => [-1/2, 0, 1, 3, 7, 15, 31, 63, 127, 255].getD i 0

def hybrid_trophy_multiple : Nat → ℚ :=
  fun i => [3/10, 3/10 + 1/3, 1].getD i 0

def double_trophy_multiple : Nat → ℚ :=
  fun i => [3/12, (3 + 4)/12, (3 + 4 + 5)/12].getD i 0

def multiply_trophy_multiple : Nat → ℚ :=
  fun i => [3/12, (3 + 4)/12, (3 + 4 + 5)/12].getD i 0

/-! ## Event file parser -/

/-- A field of a value list, as the loops of `parse_custom_gold_shift` and
`parse_custom_curve_shape` read it at `ptr`: whether its first character is `-`, `.` or a
digit, and the value `atof(ptr)`. -/
structure num_field where
  numeric : Bool
  val : ℚ

/-- What one pass of the loop of `event_process_line` reads from the line: the label
`label_get` returns at `ptr`, with the value the case of that label reads after
`label_skip` (`field_copy` for names, `parse_time` for times, `toupper(*ptr)` for
one-letter codes, `atoi` / `atof` for numbers, the fields that follow for value lists). -/
inductive token where
  | comment
  | psn (buf : String)
  | user (buf : String)
  | country
  | time (min sec msec : Nat)
  | split (min sec msec : Nat)
  | status (c : Char)
  | week (n : Int)
  | season (n : Int)
  | season_race (n : Int)
  | event_status (c : Char)
  | text
  | image (s : String)
  | report
  | db_fix
  | shape (c : Char) (fields : List num_field)
  | gold_shift (fields : List num_field)
  | squeeze (x : ℚ)
  | scoot (x : ℚ)
  | weight (x : ℚ)
  | other
  | no_label

/-- The global variables the parser reads and writes. The `char` arrays `name` and `psn`
of `player_db[i]` and the array `split` of `entry_db[i]` are kept in arrays of their own;
the list headed by `ov_head` is the list of the indices of its entries in `entry_db`. -/
structure parse_state where
  g_event : event_t
  g_run_mode : Nat
  img : Nat → String
  custom_trophy_adjust : Nat → ℚ
  custom_par_multiple : Nat → ℚ
  player_db : Nat → player_t
  player_name : Nat → String
  player_psn : Nat → String
  max_player_id : Int
  player_cnt : Int
  entry_db : Nat → entry_t
  entry_split : Nat → List ttime_t
  g_entry_cnt : Nat
  ov : List Nat

/-- Function `player_create`: the index of the new record in `player_db` (none for a null
pointer) and the globals afterwards. A null `name` or `psn` is `none`. -/
def player_create (name psn : Option String) (st : parse_state) : Option Nat × parse_state :=
  if st.max_player_id ≥ (MAX_PLAYERS : Int) then (none, st)
  else
    let id := st.max_player_id + 1
    let p : player_t := { (st.player_db id.toNat) with id := u32 id }
    let p : player_t := if p.id > 0 then { p with valid := TRUE } else p
    (some id.toNat,
      { st with
        player_cnt := i32 (st.player_cnt + 1)
        max_player_id := id
        player_name := Function.update st.player_name id.toNat (name.getD "NULL")
        player_psn := Function.update st.player_psn id.toNat (psn.getD "NULL")
        player_db := Function.update st.player_db id.toNat
          { p with
            real_rating := 0, rating := 0, total_weight := 0, div := 0
            sub_div := SUB_DIV_GOLD, event_count := 0, dq_count := 0 } })

/-- Function `player_lookup_by_psn`: the index of the record found. -/
def player_lookup_by_psn (st : parse_state) (psn : String) : Option Nat :=
  if psn = "" then none
  else (List.range' 1 st.max_player_id.toNat).find? (fun i => decide (psn = st.player_psn i))

/-- Function `player_lookup_by_name`: the index of the record found. -/
def player_lookup_by_name (st : parse_state) (name : String) : Option Nat :=
  if name = "" then none
  else (List.range' 1 st.max_player_id.toNat).find? (fun i => decide (name = st.player_name i))

/-- Function `time_insert` on the list of entry indices headed by `head`. -/
def time_insert (entry_db : Nat → entry_t) : List Nat → Nat → List Nat
  | [], entry => [entry]
  | cur :: rest, entry =>
    if time_compare (entry_db cur) (entry_db entry) < 0 then
      cur :: time_insert entry_db rest entry
    else entry :: cur :: rest

/-- Function `add_splits`, as the new value of `e->time`. -/
def add_splits (split : List ttime_t) : ttime_t :=
  split.foldl time_add { min := 0, sec := 0, msec := 0, time := 0 }

/-- What `parse_time` stores in `*time`. -/
def parse_time (min sec msec : Nat) (time : ttime_t) : ttime_t :=
  { time with min := min, sec := sec, msec := msec }

/-- The loop of the split labels over `entry->split[0 .. MAX_SPLITS)`: the array
afterwards and whether a slot was free. -/
def store_split (min sec msec : Nat) : List ttime_t → List ttime_t × Bool
  | [] => ([], false)
  | t :: rest =>
    if time_to_usec t = 0 then (parse_time min sec msec t :: rest, true)
    else
      let r := store_split min sec msec rest
      (t :: r.1, r.2)

/-- The status stored for the code letter `toupper(*ptr)`. -/
def status_of (c : Char) : dq_reason_e :=
  if c = 'O' then dq_reason_e.DQ_OFF_TRACK
  else if c = 'C' then dq_reason_e.DQ_CONTACT
  else if c = 'R' then dq_reason_e.DQ_NO_REPLAY
  else if c = 'T' then dq_reason_e.DQ_TIME_ERROR
  else if c = 'N' then dq_reason_e.DQ_NAME_VIOLATION
  else if c = 'X' then dq_reason_e.DQ_CUSTOM_VIOLATION
  else if c = 'S' ∨ c = 'U' then dq_reason_e.DQ_SUBMITTED
  else if c = 'V' ∨ c = 'G' then dq_reason_e.DQ_VERIFIED
  else dq_reason_e.DQ_OK

/-- Function `parse_custom_curve_shape`, after its first `field_skip`: the array
`custom_par_multiple` afterwards, from the index `i`. -/
def parse_custom_curve_shape : List num_field → Nat → (Nat → ℚ) → (Nat → ℚ)
  | [], _, par => par
  | f :: rest, i, par =>
    if f.numeric = true ∧ i ≤ DIV_COUNT then
      parse_custom_curve_shape rest (i + 1) (Function.update par i f.val)
    else
      parse_custom_curve_shape rest i par

/-- Function `parse_custom_gold_shift`: the array `custom_trophy_adjust` afterwards, from
the index `i`. -/
def parse_custom_gold_shift : List num_field → Nat → (Nat → ℚ) → (Nat → ℚ)
  | [], _, adj => adj
  | f :: rest, i, adj =>
    if f.numeric = true ∧ i ≤ DIV_COUNT then
      if f.val > -2 / 3 ∧ f.val < 2 / 3 then
        parse_custom_gold_shift rest (i + 1) (Function.update adj i f.val)
      else
        parse_custom_gold_shift rest i adj
    else
      parse_custom_gold_shift rest i adj

/-- The statements of `event_process_line` after its loop, for the entry
`entry = &entry_db[slot]`: the entry is registered if the line gave a time and a
player. -/
def register_entry (slot : Nat) (player : Option Nat) (got_entry : Bool) (st : parse_state) :
    parse_state :=
  match player with
  | some k =>
    if got_entry = true then
      let time := time_from_usec 0
      let e := { (st.entry_db slot) with player_id := (st.player_db k).id }
      let e :=
        if time_to_usec time > 0 then { e with time := time }
        else if time_to_usec ((st.entry_split slot).getD 0 time) > 0 then
          { e with time := add_splits (st.entry_split slot) }
        else e
      let entry_db := Function.update st.entry_db slot e
      { st with
        entry_db := entry_db
        ov := time_insert entry_db st.ov slot
        g_entry_cnt := u32 ((st.g_entry_cnt : Int) + 1) }
    else st
  | none => st

/-- The case `LABEL_SHAPE` for the letters that select a built-in curve. -/
def shape_event (c : Char) (ev : event_t) : event_t :=
  if c = 'F' then
    { ev with par_multiple := flat_par_multiple, trophy_multiple := flat_trophy_multiple }
  else if c = 'S' then
    { ev with par_multiple := standard_par_multiple,
              trophy_multiple := standard_trophy_multiple }
  else if c = 'H' then
    { ev with par_multiple := hybrid_par_multiple, trophy_multiple := hybrid_trophy_multiple }
  else if c = 'D' then
    { ev with par_multiple := double_par_multiple, trophy_multiple := double_trophy_multiple }
  else if c = 'M' then
    { ev with par_multiple := multiply_par_multiple,
              trophy_multiple := multiply_trophy_multiple }
  else ev

/-- The loop of `event_process_line` and the statements after it, for the entry
`entry = &entry_db[slot]`, from the locals `player` (the index of the record, none for a
null pointer) and `got_entry`. -/
def process_tokens (slot : Nat) :
    List token → Option Nat → Bool → parse_state → parse_state
  | [], player, got_entry, st => register_entry slot player got_entry st
  | t :: rest, player, got_entry, st =>
    match t with
    | token.comment => register_entry slot player got_entry st
    | token.no_label => register_entry slot player got_entry st
    | token.other => process_tokens slot rest player got_entry st
    | token.psn buf =>
      match (match player with
          | some k => some k
          | none => player_lookup_by_psn st buf) with
      | some k =>
        process_tokens slot rest (some k) got_entry
          { st with player_psn := Function.update st.player_psn k buf }
      | none =>
        if st.g_event.week = EVENT_QUALIFIER then
          match (player_create none (some buf) st).1 with
          | some k =>
            process_tokens slot rest (some k) got_entry (player_create none (some buf) st).2
          | none => (player_create none (some buf) st).2
        else st
    | token.user buf =>
      match (match player with
          | some k => some k
          | none => player_lookup_by_name st buf) with
      | some k =>
        process_tokens slot rest (some k) got_entry
          { st with player_name := Function.update st.player_name k buf }
      | none =>
        if st.g_event.week = EVENT_QUALIFIER then
          match (player_create (some buf) none st).1 with
          | some k =>
            process_tokens slot rest (some k) got_entry (player_create (some buf) none st).2
          | none => (player_create (some buf) none st).2
        else st
    | token.country => process_tokens slot rest player got_entry st
    | token.time min sec msec =>
      process_tokens slot rest player true
        { st with
          entry_db := Function.update st.entry_db slot
            { (st.entry_db slot) with time := parse_time min sec msec (st.entry_db slot).time } }
    | token.split min sec msec =>
      process_tokens slot rest player
        (if (store_split min sec msec (st.entry_split slot)).2 = true then true else got_entry)
        { st with
          entry_split := Function.update st.entry_split slot
            (store_split min sec msec (st.entry_split slot)).1 }
    | token.status c =>
      process_tokens slot rest player got_entry
        { st with
          entry_db := Function.update st.entry_db slot
            { (st.entry_db slot) with dq := status_of c } }
    | token.week n =>
      process_tokens slot rest player got_entry
        { st with g_event := { st.g_event with week := n } }
    | token.season n =>
      process_tokens slot rest player got_entry
        { st with g_event := { st.g_event with season := n } }
    | token.season_race n =>
      process_tokens slot rest player got_entry
        { st with g_event := { st.g_event with season_race := n } }
    | token.event_status c =>
      process_tokens slot rest player got_entry
        (if c = 'F' then { st with g_event := { st.g_event with status := STATUS_FINAL } }
          else if c = 'P' then
            { st with g_event := { st.g_event with status := STATUS_PROVISIONAL } }
          else st)
    | token.text => st
    | token.image s =>
      match (List.range MAX_IMAGES).find? (fun i => decide (st.img i = "")) with
      | some i => { st with img := Function.update st.img i s }
      | none => process_tokens slot rest player got_entry st
    | token.report =>
      process_tokens slot rest player got_entry { st with g_run_mode := RUN_MODE_REPORT }
    | token.db_fix =>
      process_tokens slot rest player got_entry { st with g_run_mode := RUN_MODE_DB_FIX }
    | token.shape c fields =>
      if c = 'F' ∨ c = 'S' ∨ c = 'H' ∨ c = 'D' ∨ c = 'M' then
        process_tokens slot rest player got_entry
          { st with g_event := shape_event c st.g_event }
      else if c = 'C' then
        { st with
          custom_par_multiple := parse_custom_curve_shape fields 0 st.custom_par_multiple
          g_event := { st.g_event with
            par_multiple := parse_custom_curve_shape fields 0 st.custom_par_multiple
            trophy_multiple := flat_trophy_multiple } }
      else process_tokens slot rest player got_entry st
    | token.gold_shift fields =>
      { st with
        custom_trophy_adjust := parse_custom_gold_shift fields 0 st.custom_trophy_adjust }
    | token.squeeze x =>
      process_tokens slot rest player got_entry
        { st with
          g_event := { st.g_event with
            squeeze := if x ≤ 0 then DEFAULT_SQUEEZE else x
            auto_squeeze := (FALSE : Int) } }
    | token.scoot x =>
      process_tokens slot rest player got_entry
        { st with g_event := { st.g_event with scoot := x, auto_scoot := (FALSE : Int) } }
    | token.weight x =>
      process_tokens slot rest player got_entry
        { st with g_event := { st.g_event with weight := if x < 0 then 1 else x } }

/-- Function `event_process_line` for the entry `entry = &entry_db[slot]`, as the globals
afterwards. -/
def event_process_line (line : List token) (slot : Nat) (st : parse_state) : parse_state :=
  process_tokens slot line none false st

/-- Function `scan_event` over the lines of the file. -/
def scan_event : List (List token) → parse_state → parse_state
  | [], st => st
  | line :: rest, st =>
    if st.g_entry_cnt < MAX_RACERS then
      scan_event rest (event_process_line line st.g_entry_cnt st)
    else st

/-! ## Lookup of a registered entry (`entry_find`) -/

/-- Function `entry_find`: the index of the first of the registered entries
`entry_db[0 .. g_entry_cnt-1]` with the `player_id` of `entry`, none for the null pointer.
No function of the program calls it; the local `prior_entry` of `event_process_line` is
not used either. -/
def entry_find (st : parse_state) (entry : entry_t) : Option Nat :=
  (List.range st.g_entry_cnt).find?
    (fun i => decide (entry.player_id = (st.entry_db i).player_id))

/-! ## Labels of the input files (`label_get`) -/

def MAX_STR_LEN : Nat := 128

/-- Values of `label_e`. -/
def LABEL_NONE : Nat := 0
def LABEL_COMMENT : Nat := 1
def LABEL_WEEK : Nat := 2
def LABEL_SEASON : Nat := 3
def LABEL_SEASON_RACE : Nat := 4
def LABEL_EVENT_STATUS : Nat := 5
def LABEL_CAR : Nat := 6
def LABEL_TRACK : Nat := 7
def LABEL_DESC : Nat := 8
def LABEL_OUTFILE : Nat := 9
def LABEL_STATFILE : Nat := 10
def LABEL_SHAPE : Nat := 11
def LABEL_GOLD_SHIFT : Nat := 12
def LABEL_SQUEEZE : Nat := 13
def LABEL_SCOOT : Nat := 14
def LABEL_WEIGHT : Nat := 15
def LABEL_NOTE : Nat := 16
def LABEL_IMAGE : Nat := 17
def LABEL_REPORT : Nat := 18
def LABEL_DB_FIX : Nat := 19
def LABEL_USER : Nat := 20
def LABEL_NAME : Nat := 21
def LABEL_PSN : Nat := 22
def LABEL_COUNTRY : Nat := 23
def LABEL_TIME : Nat := 24
def LABEL_TOTAL : Nat := 25
def LABEL_SPLIT : Nat := 26
def LABEL_SECTOR : Nat := 27
def LABEL_M3 : Nat := 28
def LABEL_MEGANE : Nat := 29
def LABEL_STATUS : Nat := 30
def LABEL_DISQ : Nat := 31
def LABEL_PLAYER_ID : Nat := 32
def LABEL_DIV : Nat := 33
def LABEL_SUB_DIV : Nat := 34
def LABEL_RATING : Nat := 35
def LABEL_REAL_RATING : Nat := 36
def LABEL_EVENT_CNT : Nat := 37
def LABEL_DQ_CNT : Nat := 38
def LABEL_VERIFIED_CNT : Nat := 39
def LABEL_QUALIFIER : Nat := 40
def LABEL_HISTORY : Nat := 41
def LABEL_ENUM_COUNT : Nat := 42

/-- The table `g_label`, in the order of `label_e`. -/
def g_label : List String :=
  ["NULL", "#", "WEEK", "SEASON", "SEASON_RACE", "EVENT_STATUS", "CAR", "TRACK", "DESC", "OUT",
    "STATFILE", "SHAPE", "GOLD_SHIFT", "SQUEEZE", "SCOOT", "WEIGHT", "COMMENT", "IMAGE",
    "REPORT", "DB_FIX", "USER", "NAME", "PSN", "COUNTRY", "TIME", "TOTAL", "SPLIT", "SECTOR",
    "M3", "MEGANE", "STATUS", "DISQ", "PLAYER_ID", "DIV", "SUB", "RATING", "RRATING", "EVENTS",
    "DQS", "VERI", "QUAL", "HISTORY", ""]

/-- Function `isspace` of libc in the C locale. -/
def isspace (c : Char) : Bool :=
  decide (c = ' ' ∨ (9 ≤ c.toNat ∧ c.toNat ≤ 13))

/-- Function `toupper` of libc in the C locale. -/
def toupper (c : Char) : Char :=
  if 97 ≤ c.toNat ∧ c.toNat ≤ 122 then Char.ofNat (c.toNat - 32) else c

/-- First loop of `label_copy_toupper` (leading spaces): the rest of the string and
`len`. A C string is the list of its characters before the terminator. -/
def label_skip_space : List Char → Nat → List Char × Nat
  | [], len => ([], len)
  | c :: cs, len =>
    if isspace c = true ∧ len < MAX_STR_LEN then label_skip_space cs (len + 1)
    else (c :: cs, len)

/-- Second loop of `label_copy_toupper` (copy of the label): the C string stored in `out`
and `len`. The loop does not stop at the terminator; the bytes behind it are taken to be
NUL as well (`scan_event` clears the line buffer), so that the loop runs on to
`len = MAX_STR_LEN` and the string copied ends at the terminator. -/
def label_copy_upper : List Char → Nat → List Char × Nat
  | [], len => ([], if len < MAX_STR_LEN then MAX_STR_LEN else len)
  | c :: cs, len =>
    if isspace c = false ∧ len < MAX_STR_LEN then
      ((toupper c) :: (label_copy_upper cs (len + 1)).1, (label_copy_upper cs (len + 1)).2)
    else ([], len)

/-- Function `label_copy_toupper`: the C string stored in `out` and the value returned. -/
def label_copy_toupper (inp : List Char) : List Char × Nat :=
  label_copy_upper (label_skip_space inp 0).1 (label_skip_space inp 0).2

/-- Function `label_get` for a non-null `string`; `strncmp(copy, g_label[label],
strlen(g_label[label]))` is 0 exactly when `g_label[label]` is a prefix of `copy`. -/
def label_get (string : List Char) : Nat :=
  if (label_copy_toupper string).2 = 0 then LABEL_NONE
  else
    match (List.range' LABEL_COMMENT (LABEL_ENUM_COUNT - LABEL_COMMENT)).find?
        (fun label => ((g_label.getD label "").toList).isPrefixOf
          (label_copy_toupper string).1) with
    | some label => label
    | none => LABEL_NONE

/-! ## Rounding of `double` operations -/

/-- Rounding to the nearest integer, a tie going to the even one. -/
def round_even (y : ℚ) : Int :=
  if y - (⌊y⌋ : ℚ) < 1 / 2 then ⌊y⌋
  else if 1 / 2 < y - (⌊y⌋ : ℚ) then ⌊y⌋ + 1
  else if ⌊y⌋ % 2 = 0 then ⌊y⌋ else ⌊y⌋ + 1

/-- Exponent of the unit in the last place of a binary64 number of the size of `x`: 52
below the binary exponent of `x`, and -1074 in the subnormal range. -/
def ulp_exp (x : ℚ) : Int :=
  max (Int.log 2 |x| - 52) (-1074)

/-- Rounding of a number that is not negative to binary64. -/
def flp (x : ℚ) : ℚ :=
  (round_even (x / 2 ^ ulp_exp x) : ℚ) * 2 ^ ulp_exp x

/-- The binary64 value of the real number `x` under round-to-nearest, ties-to-even (the
format is sign and magnitude). The result of a C `double` operation is `fl` of the exact
result; overflow to an infinity is not modelled. -/
def fl (x : ℚ) : ℚ :=
  if x < 0 then -flp (-x) else flp x

/-- The number `x` is a binary64 value. -/
def is_double (x : ℚ) : Prop :=
  fl x = x

/-! ## Doubles with NaN (`weight_adjust`) -/

/-- A C `double` that may be NaN: NaN or a number. Infinities are not modelled. -/
inductive dbl where
  | nan : dbl
  | num (q : ℚ) : dbl
  deriving DecidableEq

/-- C `a - b` on doubles: NaN if an operand is NaN, the rounded difference otherwise. -/
def dsub : dbl → dbl → dbl
  | dbl.num a, dbl.num b => dbl.num (fl (a - b))
  | _, _ => dbl.nan

/-- C `a + b` on doubles. -/
def dadd : dbl → dbl → dbl
  | dbl.num a, dbl.num b => dbl.num (fl (a + b))
  | _, _ => dbl.nan

/-- C `a * b` on doubles. -/
def dmul : dbl → dbl → dbl
  | dbl.num a, dbl.num b => dbl.num (fl (a * b))
  | _, _ => dbl.nan

/-- C `a / b` on doubles; a quotient by 0 is an infinity or NaN in C and is outside the
model (given as NaN). -/
def ddiv : dbl → dbl → dbl
  | dbl.num a, dbl.num b => if b = 0 then dbl.nan else dbl.num (fl (a / b))
  | _, _ => dbl.nan

/-- C `a <= b` on doubles: false if an operand is NaN. -/
def dle : dbl → dbl → Bool
  | dbl.num a, dbl.num b => decide (a ≤ b)
  | _, _ => false

/-- C `a < b` on doubles: false if an operand is NaN. -/
def dlt : dbl → dbl → Bool
  | dbl.num a, dbl.num b => decide (a < b)
  | _, _ => false

/-- Function `weight_adjust` on doubles that may be NaN, every operation rounded. -/
def weight_adjust_d (player_rating event_rating : dbl) : dbl :=
  let delta := dsub event_rating player_rating
  let delta := if (dle player_rating (dbl.num 0) || dlt delta (dbl.num 1)) = true then dbl.num 1
    else delta
  dadd (dbl.num (1 / 2)) (ddiv (dbl.num 1) (dmul (dbl.num 2) delta))

/-! ## Long-term rating of a player, with rounding (`player_update_rating`) -/

/-- The local `use_weight` of `player_update_rating` before the weight of the latest
result is added, with the subtraction rounded. -/
def use_weight_fl (p : player_t) : ℚ :=
  let use_weight := p.total_weight
  if use_weight ≥ RATING_WEIGHT_CAP then
    let use_weight := fl ((RATING_WEIGHT_CAP : ℚ) - p.latest.weight)
    if use_weight ≤ 0 then (RATING_WEIGHT_CAP : ℚ) else use_weight
  else
    use_weight

/-- The local `use_weight` of `player_update_rating` after
`use_weight += p->latest.weight`, rounded. -/
def fold_weight_fl (p : player_t) : ℚ :=
  fl (use_weight_fl p + p.latest.weight)

/-- The local `real_agg` of `player_update_rating`, every operation rounded. -/
def real_agg_fl (p : player_t) : ℚ :=
  fl (fl (p.real_rating * use_weight_fl p) + fl (p.latest.rating * p.latest.weight))

/-- The local `agg` of `player_update_rating`, every operation rounded. -/
def agg_fl (p : player_t) : ℚ :=
  let adj_rating := if p.latest.rating < p.rating then p.latest.rating else p.rating
  fl (fl (p.rating * use_weight_fl p) + fl (adj_rating * p.latest.weight))

/-- The assignments to `real_rating` and `rating` in the `dq_ok` branch of
`player_update_rating`, for `p = &player_db[k]`, every operation rounded. -/
def fold_ratings_fl (db : Nat → player_t) (k : Nat) (p : player_t) : player_t :=
  if fold_weight_fl p > 0 then
    let p1 := { p with real_rating := fl (real_agg_fl p / fold_weight_fl p) }
    if NO_HARM_HANDICAP = TRUE ∧ player_is_rookie (Function.update db k p1) p1.id = false then
      { p1 with rating := fl (agg_fl p / fold_weight_fl p) }
    else
      { p1 with rating := p1.real_rating }
  else
    { p with rating := 0 }

/-- The updates of `verified_count` and `total_weight` in the `dq_ok` branch of
`player_update_rating`: the `unsigned` count is converted to `double`, the sum is rounded
and converted back to `unsigned`. -/
def fold_counts_fl (p : player_t) : player_t :=
  let p1 :=
    if p.latest.dq = dq_reason_e.DQ_VERIFIED then
      { p with verified_count := d2u (fl ((p.verified_count : ℚ) + p.latest.weight)) }
    else p
  { p1 with total_weight := fl (p1.total_weight + p1.latest.weight) }

/-- Function `player_update_rating` for the pointer `p = &player_db[k]`, every double
operation rounded. -/
def player_update_rating_fl (db : Nat → player_t) (k : Nat) : Nat → player_t :=
  if (db k).valid ≠ 0 then
    let p := { db k with event_count := u32 (((db k).event_count : Int) + 1) }
    let p :=
      if dq_ok p.latest.dq = true then
        fold_counts_fl (fold_ratings_fl (Function.update db k p) k p)
      else
        { p with dq_count := u32 ((p.dq_count : Int) + 1) }
    Function.update db k (rating_floor p)
  else
    db

/-! ## Promotion report, with rounding (`dump_promotion_report`) -/

/-- The local `delta` of `dump_promotion_report`, the product and the difference rounded;
the sum of the `unsigned` fields is computed in `unsigned` and converted to `double`. -/
def promotion_delta_fl (player : player_t) : ℚ :=
  fl (((u32 ((player.div : Int) * 3 + (player.sub_div : Int) + 1) : Nat) : ℚ) -
    fl (player.rating * 3))

/-- The body of the first loop of `dump_promotion_report` for one player, every double
operation rounded: the player afterwards, and whether a promotion line is printed for
it. -/
def promotion_step_fl (update_db : Bool) (player : player_t) : player_t × Bool :=
  if player.verified_count < MIN_PROMOTION_EVENT_COUNT then (player, false)
  else if (player.div > 1 ∨ player.sub_div > 0) ∧ player.rating ≠ 0 ∧
      promotion_delta_fl player > 1 then
    let p_div := d2i player.rating
    if update_db = true then
      ({ player with
          div := u32 p_div
          sub_div := u32 (d2i (fl (3 * fl (player.rating - (p_div : ℚ))))) }, true)
    else (player, true)
  else (player, false)

/-- The first loop of `dump_promotion_report` over the indices of the player iterator,
every double operation rounded. -/
def promotion_loop_fl (update_db : Bool) :
    (Nat → player_t) → List Nat → (Nat → player_t) × List player_t
  | db, [] => (db, [])
  | db, idx :: rest =>
    if (player_get db idx).valid = TRUE then
      let r := promotion_step_fl update_db (player_get db idx)
      let t := promotion_loop_fl update_db (Function.update db (player_index idx) r.1) rest
      (t.1, if r.2 = true then player_get db idx :: t.2 else t.2)
    else
      promotion_loop_fl update_db db rest

/-- The body of the second loop of `dump_promotion_report` (rookie placement), every
double operation rounded. -/
def placement_step_fl (update_db : Bool) (db : Nat → player_t) (player : player_t) :
    player_t × Bool :=
  if player.div = 0 ∧ player_is_rookie db player.id = false then
    let p_div := d2i player.rating
    if update_db = true then
      ({ player with
          div := u32 p_div
          sub_div := u32 (d2i (fl (3 * fl (player.rating - (p_div : ℚ))))) }, true)
    else (player, true)
  else (player, false)

/-- The second loop of `dump_promotion_report`, every double operation rounded. -/
def placement_loop_fl (update_db : Bool) :
    (Nat → player_t) → List Nat → (Nat → player_t) × List player_t
  | db, [] => (db, [])
  | db, idx :: rest =>
    if (player_get db idx).valid = TRUE then
      let r := placement_step_fl update_db db (player_get db idx)
      let t := placement_loop_fl update_db (Function.update db (player_index idx) r.1) rest
      (t.1, if r.2 = true then player_get db idx :: t.2 else t.2)
    else
      placement_loop_fl update_db db rest

/-- Function `dump_promotion_report`, every double operation rounded: the state
afterwards, the players printed under "promotions" and the players printed under "rookie
placement". -/
def dump_promotion_report_fl (max_player_id : Nat) (s : state) :
    state × List player_t × List player_t :=
  let update_db := decide (s.g_event.status = STATUS_FINAL)
  let a := promotion_loop_fl update_db s.player_db (player_iter max_player_id)
  let b := placement_loop_fl update_db a.1 (player_iter max_player_id)
  ({ s with player_db := b.1 }, a.2, b.2)

/-! ## Par curve, with rounding (`calculate_par`) -/

/-- Function `time_from_usec`, as the value it stores in `*t`, the quotient
`(double)usec/1000.0` rounded. -/
def time_from_usec_fl (usec : Int) : ttime_t :=
  let min := u32 (Int.tdiv usec (60 * 1000))
  let usec1 := i32 (usec - (min : Int) * 60 * 1000)
  let sec := u32 (Int.tdiv usec1 1000)
  { time := fl ((usec : ℚ) / 1000)
    min := min
    sec := sec
    msec := u32 (usec1 - (sec : Int) * 1000) }

/-- Local `base_time` of `calculate_par`, every operation rounded. -/
def par_base_time_fl (s : state) : ℚ :=
  fl (fl (fl ((time_to_usec s.ostat.q_mean : ℚ) / 1000) - fl (s.ostat.q_std_dev * 2)) +
    s.g_event.scoot)

/-- Local `par_inc` of `calculate_par`, rounded. -/
def par_inc_fl (s : state) : ℚ :=
  fl (s.ostat.q_std_dev * s.g_event.squeeze)

/-- Local `parXlo` of `calculate_par` for division `div`; the `float` product of the two
small integers is exact, the sum is rounded. -/
def parXlo_fl (s : state) (div : Nat) : ℚ :=
  if div ≥ DIV_IN_USE then
    fl (s.g_event.par_multiple div +
      (DIV_IN_USE : ℚ) * (((div : Int) - (DIV_IN_USE : Int) : Int) : ℚ))
  else s.g_event.par_multiple div

/-- Local `parXhi` of `calculate_par` for division `div`; the `float` product of the two
small integers is exact, the sum is rounded. -/
def parXhi_fl (s : state) (div : Nat) : ℚ :=
  if div + 1 ≥ DIV_IN_USE then
    fl (s.g_event.par_multiple (div + 1) +
      (DIV_IN_USE : ℚ) * (((div : Int) + 1 - (DIV_IN_USE : Int) : Int) : ℚ))
  else s.g_event.par_multiple (div + 1)

/-- The `int` argument of `time_from_usec(&stat->par, stat->par.time*1000.0)`: the par
time in milliseconds, truncated. -/
def par_msec_fl (s : state) (div : Nat) : Int :=
  d2i (fl (fl (par_base_time_fl s + fl (par_inc_fl s * parXlo_fl s div)) * 1000))

/-- Threshold `stat->par` of division `div` after `time_from_usec`. -/
def par_of_fl (s : state) (div : Nat) : ttime_t :=
  time_from_usec_fl (par_msec_fl s div)

/-- Value of `stat->bronze.time` before `time_from_usec`; `0.001` is the double nearest
to 1/1000. -/
def bronze_time_fl (s : state) (div : Nat) : ℚ :=
  fl (fl (par_base_time_fl s + fl (par_inc_fl s * parXhi_fl s div)) - fl (1 / 1000))

/-- Local `span` of `calculate_par` for division `div`, rounded. -/
def par_span_fl (s : state) (div : Nat) : ℚ :=
  fl (bronze_time_fl s div - (par_of_fl s div).time)

/-- Value of `stat->gold.time` before `time_from_usec`, every operation rounded. -/
def gold_time_fl (s : state) (div : Nat) : ℚ :=
  fl ((par_of_fl s div).time +
    fl (par_span_fl s div * fl (s.g_event.trophy_multiple 0 + s.custom_trophy_adjust div)))

/-- Value of `stat->silver.time` before `time_from_usec`, every operation rounded. -/
def silver_time_fl (s : state) (div : Nat) : ℚ :=
  fl ((par_of_fl s div).time +
    fl (par_span_fl s div * fl (s.g_event.trophy_multiple 1 + s.custom_trophy_adjust div)))

/-- Body of the first loop of `calculate_par` for division `div`, as the new value
of `div_stat[div]`, every double operation rounded. -/
def calculate_par_div_fl (s : state) (div : Nat) (stat : stat_t) : stat_t :=
  { stat with
    par := par_of_fl s div
    perf := fun _ => 0
    gold := time_from_usec_fl (d2i (fl (gold_time_fl s div * 1000)))
    silver := time_from_usec_fl (d2i (fl (silver_time_fl s div * 1000)))
    bronze := time_from_usec_fl (d2i (fl (bronze_time_fl s div * 1000))) }

/-- First loop of `calculate_par`: `for (div = 1; div <= DIV_COUNT; div++)`, every double
operation rounded. -/
def calculate_par_thresholds_fl (s : state) : Nat → stat_t :=
  (List.range' 1 DIV_COUNT).foldl
    (fun ds div => Function.update ds div (calculate_par_div_fl s div (ds div))) s.div_stat

/-- Function `calculate_par` with the threshold loop rounded. The two quality loops are
those of `calculate_par`; they read the integer fields of the thresholds and do not write
a threshold. -/
def calculate_par_fl (sqrt : ℚ → ℚ) (s : state) : state :=
  let ds1 := calculate_par_thresholds_fl s
  let ds2 := Function.update ds1 1 (par_reset_mean (ds1 1))
  let r := par_quality_mean s.player_db s.ov 1 0 ds2
  let ds3 := Function.update r.2 1 (par_reset_dev (r.2 1))
  let ds4 := par_quality_dev sqrt s.player_db r.1 1 0 ds3
  { s with ov := r.1, div_stat := ds4 }

/-! ## Projections used in the statements -/

/-- The four thresholds of a division record. -/
def stat_t.thr (st : stat_t) : ttime_t × ttime_t × ttime_t × ttime_t :=
  (st.par, st.gold, st.silver, st.bronze)

/-- The number of entries of the list that the iterator `(div, ITER_DQ_OK)` returns. -/
def match_count (db : Nat → player_t) (div : Nat) (l : List entry_t) : Nat :=
  (l.filter (fun x => entry_match db div dq_iter_e.ITER_DQ_OK x)).length

/-- The number of entries of the list that the iterator `(div, ITER_DQ_OK)` returns and
whose total time is strictly smaller than that of `e`. -/
def faster_count (db : Nat → player_t) (div : Nat) (l : List entry_t) (e : entry_t) : Nat :=
  (l.filter (fun x => entry_match db div dq_iter_e.ITER_DQ_OK x &&
    decide (time_to_usec x.time < time_to_usec e.time))).length

/-- Two entries agree on the fields that the iterator filter and the time comparisons
read: player, status, provisional division and the time in minutes, seconds and
milliseconds. -/
def same_key (a b : entry_t) : Prop :=
  b.player_id = a.player_id ∧ b.dq = a.dq ∧ b.prov_div = a.prov_div ∧
    b.time.min = a.time.min ∧ b.time.sec = a.time.sec ∧ b.time.msec = a.time.msec

/-- The list is sorted by ascending total time. -/
def time_sorted (l : List entry_t) : Prop :=
  l.Pairwise (fun a b => time_to_usec a.time ≤ time_to_usec b.time)

/-- The handicap delta `time_rate` stores for an entry rated `rating`. -/
def hcp_of (db : Nat → player_t) (e : entry_t) (rating : ℚ) : ℚ :=
  if (player_get db e.player_id).rating > 0 then
    rating - (player_get db e.player_id).rating
  else 0

/-- Relation between an entry before (`e`) and after (`e'`) the division loop of
`rate_times`: the keys, the rating, the handicap delta and the overall place are kept, a
disqualified entry is unchanged, and the `time` view is either kept or set to the total
milliseconds / 1000. -/
def rate_keep (e e' : entry_t) : Prop :=
  same_key e e' ∧ e'.rating = e.rating ∧ e'.hcp_delta = e.hcp_delta ∧
    e'.overall_place = e.overall_place ∧ (dq_ok e.dq = false → e' = e) ∧
    (e'.time.time = e.time.time ∨ e'.time.time = (time_to_usec e.time : ℚ) / 1000)

/-- Relation between an entry of the list `l` before the division loop of `rate_times`
(`e`) and the same entry afterwards (`e'`), for the divisions of `dl`: standard
competition ranking by time within the division, and the points of that place. -/
def placed (db : Nat → player_t) (l : List entry_t) (dl : List Nat) (e e' : entry_t) : Prop :=
  ∀ d ∈ dl, entry_match db d dq_iter_e.ITER_DQ_OK e = true →
    e'.place = 1 + (faster_count db d l e : Int) ∧
    e'.points = (entry_points e' (match_count db d l) : Int)

/-- Relation between an entry before (`e`) and after (`e'`) `rate_times` run with the
player database `db` and the division records `ds`: keys kept, a disqualified entry
unchanged, a valid entry rated by `time_rate`, and the `time` view kept or set to the
total milliseconds / 1000. -/
def rated (db : Nat → player_t) (ds : Nat → stat_t) (e e' : entry_t) : Prop :=
  same_key e e' ∧ (dq_ok e.dq = false → e' = e) ∧
    (dq_ok e.dq = true →
      e'.rating = time_rate_rating ds e ∧
      e'.hcp_delta = hcp_of db e (time_rate_rating ds e)) ∧
    (e'.time.time = e.time.time ∨ e'.time.time = (time_to_usec e.time : ℚ) / 1000)

/-- The record `q` has the ratings, the accumulated weight and the three counters of the
record `p`. -/
def ratings_kept (p q : player_t) : Prop :=
  q.rating = p.rating ∧ q.real_rating = p.real_rating ∧ q.total_weight = p.total_weight ∧
    q.event_count = p.event_count ∧ q.dq_count = p.dq_count ∧
    q.verified_count = p.verified_count

/-- The record `q` differs from the record `p` at most in the results `latest`,
`qualifier` and `history`. -/
def results_only (p q : player_t) : Prop :=
  ratings_kept p q ∧ q.id = p.id ∧ q.valid = p.valid ∧ q.div = p.div ∧
    q.sub_div = p.sub_div ∧ q.history_count = p.history_count

/-- Relation between the globals before (`st`) and after (`st2`) a call of
`event_process_line` for the entry `entry_db[slot]`: the other entries are unchanged, and
the entry count is kept or incremented. -/
def line_effect (slot : Nat) (st st2 : parse_state) : Prop :=
  (∀ i : Nat, i ≠ slot → st2.entry_db i = st.entry_db i) ∧
    (st2.g_entry_cnt = st.g_entry_cnt ∨
      st2.g_entry_cnt = u32 ((st.g_entry_cnt : Int) + 1))

/-- Relation between an entry before (`e`) and after (`e'`) the quality mean loop of
`calculate_par`, for an entry the loop reached from division `div` on, `B d` being the
bronze threshold of division `d` in milliseconds: only `prov_div` is written, a
disqualified entry is unchanged, and a valid entry gets a division from `div` up to
`DIV_COUNT - 1`, with a time below the bronze threshold when that division is `div`, and
a time not below the bronze threshold of the division before when it is above 1. -/
def walk_assigned (B : Nat → Int) (div : Nat) (e e' : entry_t) : Prop :=
  e' = { e with prov_div := e'.prov_div } ∧
  (dq_ok e.dq = false → e' = e) ∧
  (dq_ok e.dq = true →
    (div : Int) ≤ e'.prov_div ∧ e'.prov_div < (DIV_COUNT : Int) ∧
    (e'.prov_div = (div : Int) → time_to_usec e.time < B div) ∧
    (1 < e'.prov_div → B (e'.prov_div.toNat - 1) ≤ time_to_usec e.time))

/-- Relation between a valid entry `a` and a later valid entry `b` of the list after
`calculate_par`: when `b` has the provisional division of `a`, its time is below the
bronze threshold `B` of that division. -/
def walk_first_only (B : Nat → Int) (a b : entry_t) : Prop :=
  dq_ok a.dq = true → dq_ok b.dq = true → a.prov_div = b.prov_div →
    time_to_usec b.time < B b.prov_div.toNat

/-- The `div_stat` after the quality mean loop of `calculate_par` closed division `div`
(with `q_count` entries) and opened division `div + 1` with the entry `cur`. -/
def par_mean_advance (ds : Nat → stat_t) (div q_count : Nat) (cur : entry_t) : Nat → stat_t :=
  let ds1 := Function.update ds div (par_close_mean (ds div) q_count)
  let ds2 := Function.update ds1 (div + 1) (par_reset_mean (ds1 (div + 1)))
  Function.update ds2 (div + 1) (par_add_mean (ds2 (div + 1)) cur)

/-- The `div_stat` after the quality deviation loop of `calculate_par` closed division
`div` (with `q_count` entries) and opened division `div + 1` with the entry `cur`. -/
def par_dev_advance (sqrt : ℚ → ℚ) (ds : Nat → stat_t) (div q_count : Nat) (cur : entry_t) :
    Nat → stat_t :=
  let ds1 := Function.update ds div (par_close_dev sqrt (ds div) q_count)
  let ds2 := Function.update ds1 (div + 1) (par_reset_dev (ds1 (div + 1)))
  Function.update ds2 (div + 1) (par_add_dev (ds2 (div + 1)) cur)

/-- The mean that `calculate_auto_scoot` takes off the scoot, for the entries `l` it
samples from: the first `ostat.count / AUTO_SCOOT_FRACTION` of them, each giving
`(player rating - entry rating) * par_multiple[2] * ostat.q_std_dev * 0.75`. -/
def scoot_sample_mean (s : state) (l : List entry_t) : ℚ :=
  let sample := l.take (s.ostat.count / AUTO_SCOOT_FRACTION)
  let accum := (sample.map (fun cur =>
    ((player_get s.player_db cur.player_id).rating - cur.rating) * s.g_event.par_multiple 2 *
      s.ostat.q_std_dev * (3 / 4))).sum
  if sample.length > 0 then accum / (sample.length : ℚ) else accum

/-- The total times (milliseconds) of the non-disqualified entries of the list, in list
order. -/
def valid_times (ov : List entry_t) : List Int :=
  (ov.filter (fun e => dq_ok e.dq)).map (fun e => time_to_usec e.time)

/-- The quality times for the mean `m`: the total times of the non-disqualified entries
that are not above `m`. -/
def quality_times (m : Int) (ov : List entry_t) : List Int :=
  (valid_times ov).filter (fun t => decide (t ≤ m))

/-- The array `history` accounts for the event `id`: its first slot of that event holds a
final result, or every slot holds a newer event and `id` is below the start value of
`oldest_history`. -/
def settled_history (id : Nat) (h : List race_result_t) : Prop :=
  (∃ pre x post, h = pre ++ x :: post ∧ (∀ y ∈ pre, y.race_id ≠ id) ∧ x.race_id = id ∧
      x.status = STATUS_FINAL) ∨
    (id < 999999 ∧ ∀ y ∈ h, id < y.race_id)

/-- The record `p` accounts for the event `ev`: a final qualifier result for the
qualifying event, `settled_history` for any other. -/
def settled (ev : event_t) (p : player_t) : Prop :=
  if ev.week = EVENT_QUALIFIER then p.qualifier.status = STATUS_FINAL
  else settled_history (u32 ev.week) p.history

/-! ## Spec-side definitions -/

/-- The rating formula in the words of the specification: division `d`, sub-division
offset `off` and fractional position `frac`. -/
def spec_rating (d : Int) (off : ℚ) (frac : ℚ) : ℚ :=
  (3 * ((d : ℚ) - 1) + off + frac) / 3

/-- The weight adjustment in the words of the specification. -/
def spec_weight_adjust (player_rating event_rating : ℚ) : ℚ :=
  1 / 2 + (1 / 2) / max (event_rating - player_rating) 1

/-- The capped prior weight in the words of the specification: the accumulated weight
below the cap, the cap less the event weight from the cap on. -/
def spec_capped_weight (p : player_t) : ℚ :=
  if p.total_weight < RATING_WEIGHT_CAP then p.total_weight
  else (RATING_WEIGHT_CAP : ℚ) - p.latest.weight

/-- The promotion delta in the words of the specification, in exact arithmetic:
`(3 * div + sub_div + 1) - 3 * rating`. -/
def spec_delta (player : player_t) : ℚ :=
  (3 * (player.div : ℚ) + (player.sub_div : ℚ) + 1) - 3 * player.rating


/-- The total times (milliseconds) of the non-disqualified entries of the list that have
the provisional division `d`, in list order. -/
def division_times (d : Nat) (ov : List entry_t) : List Int :=
  (ov.filter (fun e => dq_ok e.dq && decide (e.prov_div = (d : Int)))).map
    (fun e => time_to_usec e.time)

/-- The mean of a list of times, rounded to the nearest millisecond as the C code does:
`(sum + n/2) / n`. -/
def rounded_mean (ts : List Int) : Int :=
  (ts.sum + ((ts.length / 2 : Nat) : Int)) / (ts.length : Int)

/-- The inputs of the threshold loop of `calculate_par` for division `d` are at most
`2^300` in absolute value, so that no double operation of the loop overflows. -/
def par_inputs_bounded (s : state) (d : Nat) : Prop :=
  |s.ostat.q_std_dev| ≤ 2 ^ 300 ∧ |s.g_event.squeeze| ≤ 2 ^ 300 ∧
  |s.g_event.scoot| ≤ 2 ^ 300 ∧ |s.g_event.par_multiple d| ≤ 2 ^ 300 ∧
  |s.g_event.par_multiple (d + 1)| ≤ 2 ^ 300

/-! ## Concrete data for examples -/

/-- Stand-in for `sqrt` of libm in concrete evaluations: the square root rounded
down to a multiple of 1/1000. -/
def sqrt_milli (x : ℚ) : ℚ :=
  ((Nat.sqrt (d2i (x * 1000000)).toNat : Nat) : ℚ) / 1000

/-- A `ttime_t` after `memset(.., 0, ..)`. -/
def zero_time : ttime_t :=
  { min := 0, sec := 0, msec := 0, time := 0 }

/-- A `stat_t` after `memset(.., 0, ..)`. -/
def zero_stat : stat_t :=
  { count := 0, mean := zero_time, par := zero_time, gold := zero_time, silver := zero_time,
    bronze := zero_time, std_dev := 0, q_mean := zero_time, q_std_dev := 0,
    perf := fun _ => 0, hcp_delta := 0 }

/-- A `race_result_t` after `memset(.., 0, ..)`. -/
def zero_result : race_result_t :=
  { race_id := 0, status := 0, points := 0, dq := dq_reason_e.DQ_OK, rating := 0, weight := 0 }

/-- A `player_t` after `memset(.., 0, ..)`. -/
def zero_player : player_t :=
  { id := 0, valid := 0, real_rating := 0, rating := 0, total_weight := 0, div := 0,
    sub_div := 0, event_count := 0, dq_count := 0, verified_count := 0, history_count := 0,
    qualifier := zero_result, history := List.replicate RACE_HISTORY zero_result,
    latest := zero_result }

/-- An `entry_t` after `memset(.., 0, ..)` with the given player, status and time
(the `time` view already set to the total milliseconds / 1000). -/
def entry_at (player_id : Nat) (dq : dq_reason_e) (min sec msec : Nat) : entry_t :=
  { player_id := player_id, dq := dq,
    time := { min := min, sec := sec, msec := msec,
              time := ((min * 60 * 1000 + sec * 1000 + msec : Nat) : ℚ) / 1000 },
    prov_div := 0, overall_place := 0, place := 0, points := 0, hcp_delta := 0, rating := 0 }

/-- An event of week 1 with the standard curve, squeeze 1.2 and scoot 0. -/
def example_event : event_t :=
  { week := 1, season := 0, season_race := 0, status := STATUS_PROVISIONAL,
    par_multiple := standard_par_multiple, trophy_multiple := standard_trophy_multiple,
    squeeze := 6 / 5, scoot := 0, weight := 1, auto_squeeze := 0, auto_scoot := 0 }

/-- A state with the entries `ov`, no registered player, and overall quality mean
1:00.000 with quality deviation `q_std_dev`. -/
def example_state (ov : List entry_t) (q_std_dev : ℚ) : state :=
  { g_event := example_event
    custom_trophy_adjust := fun _ => 0
    ov := ov
    player_db := fun _ => zero_player
    div_stat := fun _ => zero_stat
    ostat := { zero_stat with
      count := ov.length
      mean := { min := 1, sec := 0, msec := 0, time := 60 }
      q_mean := { min := 1, sec := 0, msec := 0, time := 60 }
      q_std_dev := q_std_dev } }

/-- A single valid entry of 1:00.000. -/
def single_entry : List entry_t :=
  [entry_at 1 dq_reason_e.DQ_OK 1 0 0]

/-- A `div_stat` whose division 1 has thresholds 58.000 / 58.359 / 58.759 / 59.199 and
whose division 4 has thresholds 70.000 / 71.000 / 72.000 / 73.000 (seconds). -/
def example_div_stat : Nat → stat_t :=
  fun d =>
    if d = 1 then
      { zero_stat with
        par := time_from_usec 58000, gold := time_from_usec 58359,
        silver := time_from_usec 58759, bronze := time_from_usec 59199 }
    else if d = 4 then
      { zero_stat with
        par := time_from_usec 70000, gold := time_from_usec 71000,
        silver := time_from_usec 72000, bronze := time_from_usec 73000 }
    else zero_stat

/-- A valid entry of 0:58.000 with provisional division 1 (its time is the par of
division 1 in `example_div_stat`). -/
def entry_on_par : entry_t :=
  { entry_at 1 dq_reason_e.DQ_OK 0 58 0 with prov_div := 1 }

/-- A valid entry of 0:50.000 with provisional division 1 (eight seconds faster than
the par of division 1 in `example_div_stat`). -/
def entry_fast : entry_t :=
  { entry_at 1 dq_reason_e.DQ_OK 0 50 0 with prov_div := 1 }

/-- A valid entry of 0:58.500 with provisional division 1 (in the silver bracket of
division 1 in `example_div_stat`). -/
def entry_silver : entry_t :=
  { entry_at 1 dq_reason_e.DQ_OK 0 58 500 with prov_div := 1 }

/-- A valid entry of 1:13.000 with provisional division 4 (its time is the bronze
threshold of division 4 in `example_div_stat`). -/
def entry_on_bronze : entry_t :=
  { entry_at 1 dq_reason_e.DQ_OK 1 13 0 with prov_div := 4 }

/-- A state with two valid entries of provisional division 1 (0:58.000 and 0:58.500), no
registered player, and the division thresholds of `example_div_stat`. -/
def placing_state : state :=
  { example_state [entry_on_par, entry_silver] 1 with div_stat := example_div_stat }

/-- A valid player with both ratings 1 and accumulated weight -2, whose latest result is
valid with rating 2 and weight 1. -/
def player_negative_weight : player_t :=
  { zero_player with
    id := 1, valid := 1, real_rating := 1, rating := 1, total_weight := -2
    latest := { zero_result with rating := 2, weight := 1 } }

/-- A valid player with both ratings 2 and accumulated weight 1, whose qualifier is
final and whose latest result is valid with rating 1 and weight 1. -/
def player_seasoned : player_t :=
  { zero_player with
    id := 1, valid := 1, real_rating := 2, rating := 2, total_weight := 1
    qualifier := { zero_result with status := STATUS_FINAL }
    latest := { zero_result with rating := 1, weight := 1 } }

/-- A valid player with a final qualifier, real rating 5, displayed rating 1 and
accumulated weight -2, whose latest result is valid with rating 2 and weight 1. -/
def player_qualified_negative : player_t :=
  { zero_player with
    id := 1, valid := 1, real_rating := 5, rating := 1, total_weight := -2
    qualifier := { zero_result with status := STATUS_FINAL }
    latest := { zero_result with rating := 2, weight := 1 } }

/-- A valid player with both ratings 1 and accumulated weight 4.5, whose latest result is
valid with rating 12 and weight 1. -/
def player_near_cap : player_t :=
  { zero_player with
    id := 1, valid := 1, real_rating := 1, rating := 1, total_weight := 9 / 2
    latest := { zero_result with rating := 12, weight := 1 } }

/-- A valid player without history (both ratings and the accumulated weight 0), whose
latest result is valid with rating 7/2 and weight 1. -/
def player_new : player_t :=
  { zero_player with
    id := 1, valid := 1
    latest := { zero_result with rating := 7 / 2, weight := 1 } }

/-- A valid player with 2 verified results, whose latest result is verified with
rating 2 and weight 3/4. -/
def player_verified : player_t :=
  { zero_player with
    id := 1, valid := 1, real_rating := 2, rating := 2, total_weight := 2
    verified_count := 2
    latest := { zero_result with dq := dq_reason_e.DQ_VERIFIED, rating := 2, weight := 3 / 4 } }

/-- A provisional event of week 1 with one valid entry of player 1, every slot of the
player database holding `player_seasoned`. -/
def provisional_state : state :=
  { example_state single_entry 0 with player_db := fun _ => player_seasoned }

/-- A full history whose slots 0 .. 19 hold the final results of the events 1 .. 20. -/
def history_ascending : List race_result_t :=
  (List.range' 1 RACE_HISTORY).map
    (fun i => { zero_result with race_id := i, status := STATUS_FINAL })

/-- A full history whose slots 0 .. 19 hold the final results of the events 20 .. 1
(newest first). -/
def history_descending : List race_result_t :=
  (List.range' 1 RACE_HISTORY).reverse.map
    (fun i => { zero_result with race_id := i, status := STATUS_FINAL })

/-- A full history whose slots all hold a final result of the event 2000000. -/
def history_far : List race_result_t :=
  List.replicate RACE_HISTORY { zero_result with race_id := 2000000, status := STATUS_FINAL }

/-- A valid player 1 with both ratings 1, accumulated weight 1, no qualifier and the
given history. -/
def player_with_history (h : List race_result_t) : player_t :=
  { zero_player with
    id := 1, valid := 1, real_rating := 1, rating := 1, total_weight := 1, history := h }

/-- A valid entry of player 1 rated 2. -/
def entry_rated : entry_t :=
  { entry_at 1 dq_reason_e.DQ_OK 1 0 0 with rating := 2 }

/-- A state with the event of the given week and status (weight 1), the single entry
`entry_rated`, and every slot of the player database holding `player_with_history h`. -/
def update_state (week : Int) (status : Nat) (h : List race_result_t) : state :=
  { example_state [entry_rated] 0 with
    g_event := { example_event with week := week, status := status }
    player_db := fun _ => player_with_history h }

/-- A valid player of division 2, sub-division 0, with 4 verified results and rating 2:
its promotion delta is exactly 1. -/
def player_on_edge : player_t :=
  { zero_player with
    id := 1, valid := 1, real_rating := 2, rating := 2, total_weight := 4
    div := 2, sub_div := 0, verified_count := 4 }

/-- A final event of week 1 with no entry, every slot of the player database holding
`player_on_edge`. -/
def edge_state : state :=
  { example_state [] 0 with
    g_event := { example_event with status := STATUS_FINAL }
    player_db := fun _ => player_on_edge }

/-- The globals of the parser after `init_db`, with a provisional event of week 1: player 0
created (not valid), no entry, no registered player. -/
def empty_parse_state : parse_state :=
  { g_event := example_event
    g_run_mode := RUN_MODE_EVENT
    img := fun _ => ""
    custom_trophy_adjust := fun _ => 0
    custom_par_multiple := default_par_multiple
    player_db := fun _ => zero_player
    player_name := fun _ => ""
    player_psn := fun _ => ""
    max_player_id := 0
    player_cnt := 0
    entry_db := fun _ => entry_at 0 dq_reason_e.DQ_OK 0 0 0
    entry_split := fun _ => List.replicate MAX_SPLITS zero_time
    g_entry_cnt := 0
    ov := [] }

/-- A parser state whose player database holds the records 0 .. MAX_PLAYERS - 1. -/
def full_parse_state : parse_state :=
  { empty_parse_state with max_player_id := 2047, player_cnt := 2047 }

/-- A parser state for an event of week 1 in which player 1 is registered under the
tag `GTP_A`. -/
def known_parse_state : parse_state :=
  { empty_parse_state with
    max_player_id := 1
    player_cnt := 1
    player_db := fun i => if i = 1 then { zero_player with id := 1, valid := 1 } else zero_player
    player_psn := fun i => if i = 1 then "GTP_A" else "" }

/-- Two submission lines of the tag `GTP_A`, with the times 1:00.000 and 1:01.000. -/
def repeated_lines : List (List token) :=
  [[token.psn "GTP_A", token.time 1 0 0], [token.psn "GTP_A", token.time 1 1 0]]

/-- The state `example_state single_entry 0` with automatic scoot switched on (and
automatic squeeze off). -/
def scoot_tuned_state : state :=
  { example_state single_entry 0 with g_event := { example_event with auto_scoot := 1 } }

/-- A single valid entry of 0:58.500. -/
def single_quick_entry : List entry_t :=
  [entry_at 1 dq_reason_e.DQ_OK 0 58 500]

/-- Two valid entries of 1:00.000 and 1:02.000, in time order. -/
def spread_entries : List entry_t :=
  [entry_at 1 dq_reason_e.DQ_OK 1 0 0, entry_at 2 dq_reason_e.DQ_OK 1 2 0]

/-- A valid player of division 1, sub-division 1, with 4 verified results and rating
0.5. -/
def player_below_one : player_t :=
  { zero_player with
    id := 1, valid := 1, real_rating := 1 / 2, rating := 1 / 2, total_weight := 4
    div := 1, sub_div := 1, verified_count := 4 }

/-- A valid player of division 3, sub-division 2, with 4 verified results and rating
7/3. -/
def player_rising : player_t :=
  { zero_player with
    id := 1, valid := 1, real_rating := 7 / 3, rating := 7 / 3, total_weight := 4
    div := 3, sub_div := 2, verified_count := 4 }

/-- A final event of week 1 with no entry, every slot of the player database holding the
record `p`. -/
def final_state (p : player_t) : state :=
  { example_state [] 0 with
    g_event := { example_event with status := STATUS_FINAL }
    player_db := fun _ => p }

/-- A valid entry of 1:00.000 of player `i` with provisional division 2, rating 2 and
handicap delta 0. -/
def unrated_entry (i : Nat) : entry_t :=
  { entry_at i dq_reason_e.DQ_OK 1 0 0 with prov_div := 2, rating := 2 }

/-- Five valid entries of the players 1 .. 5, no player registered (every rating of the
database is 0), quality deviation 1. -/
def unrated_state : state :=
  example_state [unrated_entry 1, unrated_entry 2, unrated_entry 3, unrated_entry 4,
    unrated_entry 5] 1

/-- The state `unrated_state` with every record of the database rated 2. -/
def rated_state : state :=
  { unrated_state with player_db := fun _ => { zero_player with rating := 2 } }

/-- An entry array whose slot `i` holds a valid entry of player 1 with the time
1:00.000 + `i` milliseconds. -/
def staggered_db : Nat → entry_t :=
  fun i => entry_at 1 dq_reason_e.DQ_OK 1 0 i

/-- A submission line of the tag `GTP_A` with the total time 1:00.000 and the split times
0:30.000 and 0:31.000. -/
def split_line : List token :=
  [token.psn "GTP_A", token.time 1 0 0, token.split 0 30 0, token.split 0 31 0]

/-- Three entries: 1:00.000, 1:02.000 and a disqualified 0:50.000. -/
def mixed_entries : List entry_t :=
  [entry_at 1 dq_reason_e.DQ_OK 1 0 0, entry_at 2 dq_reason_e.DQ_OK 1 2 0,
    entry_at 3 dq_reason_e.DQ_CONTACT 0 50 0]

/-- Three valid entries of 0:58.500, 0:59.000 and 1:00.000, in time order. -/
def trio_entries : List entry_t :=
  [entry_at 1 dq_reason_e.DQ_OK 0 58 500, entry_at 2 dq_reason_e.DQ_OK 0 59 0,
    entry_at 3 dq_reason_e.DQ_OK 1 0 0]

/-- A valid player with 2 verified results, whose latest result is verified with
rating 2 and weight 1. -/
def player_verified_whole : player_t :=
  { zero_player with
    id := 1, valid := 1, real_rating := 2, rating := 2, total_weight := 2
    verified_count := 2
    latest := { zero_result with dq := dq_reason_e.DQ_VERIFIED, rating := 2, weight := 1 } }

/-- A valid player with 2 verified results, whose latest result is verified with
rating 2 and the weight `1 - 2^-53 = 0.99999999999999988897769753748...`, the largest
double below 1. -/
def player_verified_near_one : player_t :=
  { zero_player with
    id := 1, valid := 1, real_rating := 2, rating := 2, total_weight := 2
    verified_count := 2
    latest := { zero_result with
      dq := dq_reason_e.DQ_VERIFIED, rating := 2
      weight := 9007199254740991 / 9007199254740992 } }

/-- A valid player without history (both ratings and the accumulated weight 0), whose
latest result is valid with the rating 1.258 and the weight 0.1, both as the nearest
doubles. -/
def player_new_tenth : player_t :=
  { zero_player with
    id := 1, valid := 1
    latest := { zero_result with
      rating := 5665528331232084 / 4503599627370496
      weight := 3602879701896397 / 36028797018963968 } }

/-- A valid player who is not a rookie (final qualifier), with both ratings 1.001 and
accumulated weight 3, whose latest result is valid with the rating 2.001 and the weight
0.8, all as the nearest doubles. -/
def player_rounding : player_t :=
  { zero_player with
    id := 1, valid := 1
    real_rating := 2254051613498933 / 2251799813685248
    rating := 2254051613498933 / 2251799813685248
    total_weight := 3
    qualifier := { zero_result with status := STATUS_FINAL }
    latest := { zero_result with
      rating := 4505851427184181 / 2251799813685248
      weight := 3602879701896397 / 4503599627370496 } }

/-- A valid player of division 3, sub-division 2, with 4 verified results and rating
2.5. -/
def player_climbing : player_t :=
  { zero_player with
    id := 1, valid := 1, real_rating := 5 / 2, rating := 5 / 2, total_weight := 4
    div := 3, sub_div := 2, verified_count := 4 }

/-- A valid player of division 1, sub-division 1, with 4 verified results, whose rating
is the double nearest to 1/3 (0.33333333333333331). -/
def player_third : player_t :=
  { zero_player with
    id := 1, valid := 1
    real_rating := 6004799503160661 / 18014398509481984
    rating := 6004799503160661 / 18014398509481984
    total_weight := 4
    div := 1, sub_div := 1, verified_count := 4 }

/-- The table `double_trophy_multiple` as the doubles the program holds: 0.25, the double
nearest to 7/12, and 1. -/
def double_trophy_doubles : Nat → ℚ :=
  fun i => [1 / 4, 5254199565265579 / 9007199254740992, 1].getD i 0

/-- An event of week 1 with the double curve, squeeze 1 and the given scoot. -/
def double_event (scoot : ℚ) : event_t :=
  { week := 1, season := 0, season_race := 0, status := STATUS_PROVISIONAL,
    par_multiple := double_par_multiple, trophy_multiple := double_trophy_doubles,
    squeeze := 1, scoot := scoot, weight := 1, auto_squeeze := 0, auto_scoot := 0 }

/-- A state without entries and registered players, with the double curve, the given
overall quality mean and deviation, scoot, and custom trophy adjustment (the same for
every division). -/
def double_state (q_mean : ttime_t) (q_std_dev scoot adjust : ℚ) : state :=
  { g_event := double_event scoot
    custom_trophy_adjust := fun _ => adjust
    ov := []
    player_db := fun _ => zero_player
    div_stat := fun _ => zero_stat
    ostat := { zero_stat with q_mean := q_mean, q_std_dev := q_std_dev } }

/-- Overall quality mean 1:00.000 with deviation 0, scoot 0, no adjustment. -/
def par_state_level : state :=
  double_state { min := 1, sec := 0, msec := 0, time := 60 } 0 0 0

/-- Overall quality mean 1:06.002 with deviation 1, scoot 1/2048 s (0.00048828125), and
the custom trophy adjustment -0.25. -/
def par_state_half : state :=
  double_state { min := 1, sec := 6, msec := 2, time := 66002 / 1000 } 1 (1 / 2048) (-(1 / 4))

/-- Overall quality mean 1:00.000 with deviation 1, scoot 0, no adjustment. -/
def par_state_plain : state :=
  double_state { min := 1, sec := 0, msec := 0, time := 60 } 1 0 0

/-! # Theorems -/

/-! ## Machine integers, truncation and time round trip -/

theorem i32_of_range (n : Int) (h1 : -2147483648 ≤ n) (h2 : n < 2147483648) : i32 n = n := by
  unfold i32; omega

theorem i32_range (n : Int) : -2147483648 ≤ i32 n ∧ i32 n < 2147483648 := by
  unfold i32; omega

theorem i32_eq_iff (a b : Int) : i32 a = i32 b ↔ a % 4294967296 = b % 4294967296 := by
  unfold i32; omega

theorem u32_cast (n : Int) : ((u32 n : Nat) : Int) = n % 4294967296 := by
  unfold u32; omega

theorem time_to_from_usec (u : Int) : time_to_usec (time_from_usec u) = i32 u := by
  unfold time_to_usec time_from_usec
  simp only []
  rw [i32_eq_iff]
  push_cast
  simp only [u32_cast]
  generalize Int.tdiv u (60 * 1000) = q
  generalize Int.tdiv (i32 (u - q % 4294967296 * 60 * 1000)) 1000 = r
  unfold i32
  omega

theorem time_from_usec_time (u : Int) : (time_from_usec u).time = (u : ℚ) / 1000 := rfl

theorem d2i_eq (x : ℚ) : d2i x = if 0 ≤ x then ⌊x⌋ else ⌈x⌉ := by
  unfold d2i
  split_ifs with h
  · rw [Rat.floor_def]
    have : 0 ≤ x.num := Rat.num_nonneg.mpr h
    rw [Int.tdiv_eq_ediv this (Int.ofNat_nonneg _)]
  · push_neg at h
    have hn : x.num < 0 := Rat.num_neg.mpr h
    have : ⌈x⌉ = -⌊-x⌋ := by simp [Int.floor_neg]
    rw [this, Rat.floor_def]
    simp only [Rat.neg_num, Rat.neg_den]
    have h2 : Int.tdiv x.num x.den = -(Int.tdiv (-x.num) x.den) := by
      rw [Int.neg_tdiv]; simp
    rw [h2, Int.tdiv_eq_ediv (by omega) (Int.ofNat_nonneg _)]

theorem d2i_mono {x y : ℚ} (h : x ≤ y) : d2i x ≤ d2i y := by
  rw [d2i_eq, d2i_eq]
  split_ifs with hx hy hy
  · exact Int.floor_mono h
  · exact absurd (le_trans hx h) hy
  · push_neg at hx
    have : ⌈x⌉ ≤ 0 := by
      apply Int.ceil_le.mpr; simpa using hx.le
    have : 0 ≤ ⌊y⌋ := Int.floor_nonneg.mpr hy
    omega
  · exact Int.ceil_mono h

theorem d2i_int (n : Int) : d2i (n : ℚ) = n := by
  rw [d2i_eq]; split_ifs <;> simp

/-! ## Thresholds are written only by the first loop of `calculate_par` -/

theorem thr_update (ds : Nat → stat_t) (k : Nat) (v : stat_t) (h : v.thr = (ds k).thr) (d : Nat) :
    ((Function.update ds k v) d).thr = (ds d).thr := by
  by_cases hd : d = k
  · subst hd; simp [h]
  · simp [Function.update_noteq hd]

theorem par_close_mean_thr (st : stat_t) (q : Nat) : (par_close_mean st q).thr = st.thr := by
  unfold par_close_mean stat_t.thr
  simp only []
theorem par_reset_mean_thr (st : stat_t) : (par_reset_mean st).thr = st.thr := by
  unfold par_reset_mean stat_t.thr
  simp only []
theorem par_add_mean_thr (st : stat_t) (c : entry_t) : (par_add_mean st c).thr = st.thr := by
  unfold par_add_mean stat_t.thr
  simp only []
theorem par_reset_dev_thr (st : stat_t) : (par_reset_dev st).thr = st.thr := by
  unfold par_reset_dev stat_t.thr
  simp only []
theorem par_close_dev_thr (sqrt : ℚ → ℚ) (st : stat_t) (q : Nat) :
    (par_close_dev sqrt st q).thr = st.thr := by
  unfold par_close_dev; unfold stat_t.thr; split_ifs <;> simp only []
theorem par_add_dev_thr (st : stat_t) (c : entry_t) : (par_add_dev st c).thr = st.thr := by
  unfold par_add_dev stat_t.thr
  simp only []

theorem par_quality_mean_thr (db : Nat → player_t) (L : List entry_t) :
    ∀ (div q : Nat) (ds : Nat → stat_t) (d : Nat),
      ((par_quality_mean db L div q ds).2 d).thr = (ds d).thr := by
  induction L with
  | nil =>
    intro div q ds d
    simp only [par_quality_mean]
    exact thr_update ds div _ (par_close_mean_thr _ _) d
  | cons cur rest ih =>
    intro div q ds d
    simp only [par_quality_mean]
    split_ifs with h1 h2 h3
    · exact thr_update ds div _ (par_close_mean_thr _ _) d
    · simp only []
      rw [ih]
      rw [thr_update _ _ _ (par_add_mean_thr _ _), thr_update _ _ _ (par_reset_mean_thr _),
        thr_update _ _ _ (par_close_mean_thr _ _)]
    · simp only []
      rw [ih, thr_update _ _ _ (par_add_mean_thr _ _)]
    · simp only []
      rw [ih]

theorem par_quality_dev_thr (sqrt : ℚ → ℚ) (db : Nat → player_t) (L : List entry_t) :
    ∀ (div q : Nat) (ds : Nat → stat_t) (d : Nat),
      ((par_quality_dev sqrt db L div q ds) d).thr = (ds d).thr := by
  induction L with
  | nil =>
    intro div q ds d
    simp only [par_quality_dev]
    exact thr_update ds div _ (par_close_dev_thr _ _ _) d
  | cons cur rest ih =>
    intro div q ds d
    simp only [par_quality_dev]
    split_ifs with h1 h2 h3
    · exact thr_update ds div _ (par_close_dev_thr _ _ _) d
    · rw [ih]
      rw [thr_update _ _ _ (par_add_dev_thr _ _), thr_update _ _ _ (par_reset_dev_thr _),
        thr_update _ _ _ (par_close_dev_thr _ _ _)]
    · rw [ih, thr_update _ _ _ (par_add_dev_thr _ _)]
    · rw [ih]

theorem foldl_update_eq {α : Type} (f : Nat → α → α) (l : List Nat) (hl : l.Nodup) :
    ∀ (ds : Nat → α) (d : Nat),
      (l.foldl (fun ds div => Function.update ds div (f div (ds div))) ds) d =
        if d ∈ l then f d (ds d) else ds d := by
  induction l with
  | nil => intro ds d; simp
  | cons a t ih =>
    intro ds d
    rw [List.nodup_cons] at hl
    simp only [List.foldl_cons]
    rw [ih hl.2]
    by_cases hda : d = a
    · subst hda
      simp [hl.1]
    · simp [hda, Function.update_noteq hda]

theorem calculate_par_thresholds_eq (s : state) (d : Nat) :
    calculate_par_thresholds s d =
      if 1 ≤ d ∧ d ≤ DIV_COUNT then calculate_par_div s d (s.div_stat d) else s.div_stat d := by
  unfold calculate_par_thresholds
  rw [foldl_update_eq (fun div st => calculate_par_div s div st) _ (List.nodup_range' 1 DIV_COUNT)]
  simp only [List.mem_range'_1, DIV_COUNT]
  by_cases h : 1 ≤ d ∧ d ≤ 8
  · rw [if_pos h, if_pos (by omega)]
  · rw [if_neg h, if_neg (by omega)]

theorem calculate_par_thr (sqrt : ℚ → ℚ) (s : state) (d : Nat) :
    ((calculate_par sqrt s).div_stat d).thr = (calculate_par_thresholds s d).thr := by
  unfold calculate_par
  simp only []
  rw [par_quality_dev_thr, thr_update _ _ _ (par_reset_dev_thr _), par_quality_mean_thr,
    thr_update _ _ _ (par_reset_mean_thr _)]


/-! ## The thresholds of a division, in exact arithmetic -/

theorem calculate_par_stat (sqrt : ℚ → ℚ) (s : state) (d : Nat) (hd1 : 1 ≤ d)
    (hd2 : d ≤ DIV_COUNT) :
    ((calculate_par sqrt s).div_stat d).par = par_of s d ∧
    ((calculate_par sqrt s).div_stat d).gold = time_from_usec (d2i (gold_time s d * 1000)) ∧
    ((calculate_par sqrt s).div_stat d).silver = time_from_usec (d2i (silver_time s d * 1000)) ∧
    ((calculate_par sqrt s).div_stat d).bronze = time_from_usec (d2i (bronze_time s d * 1000)) := by
  have h := calculate_par_thr sqrt s d
  rw [calculate_par_thresholds_eq, if_pos ⟨hd1, hd2⟩] at h
  unfold stat_t.thr calculate_par_div at h
  simp only [Prod.mk.injEq] at h
  exact h

theorem par_of_time (s : state) (d : Nat) :
    (par_of s d).time * 1000 =
      ((d2i ((par_base_time s + par_inc s * parXlo s d) * 1000) : Int) : ℚ) := by
  unfold par_of
  rw [time_from_usec_time]
  field_simp

/-! ## Evaluation on the example state -/

theorem d2i_eval (n : Int) (d : Nat) (hd : 0 < d) (x : ℚ) (hx : x = (n : ℚ) / (d : ℚ)) :
    d2i x = Int.tdiv n d := by
  subst hx
  rw [d2i_eq]
  have hd' : (0 : ℚ) < (d : ℚ) := by exact_mod_cast hd
  split_ifs with h
  · have hn : 0 ≤ n := by
      have := (div_nonneg_iff.mp h)
      rcases this with ⟨h1, _⟩ | ⟨_, h2⟩
      · exact_mod_cast h1
      · linarith
    rw [Rat.floor_intCast_div_natCast, Int.tdiv_eq_ediv hn (Int.ofNat_nonneg _)]
  · push_neg at h
    have hn : n < 0 := by
      by_contra hc
      push_neg at hc
      have : (0:ℚ) ≤ (n:ℚ) / d := div_nonneg (by exact_mod_cast hc) hd'.le
      linarith
    have hc : ⌈(n:ℚ) / d⌉ = -⌊((-n : Int) : ℚ) / (d : ℚ)⌋ := by
      rw [show ((-n : Int) : ℚ) / (d : ℚ) = -((n : ℚ) / d) by push_cast; ring, Int.floor_neg,
        neg_neg]
    rw [hc, Rat.floor_intCast_div_natCast]
    have h2 : Int.tdiv n d = -(Int.tdiv (-n) d) := by
      rw [Int.neg_tdiv]; simp
    rw [h2, Int.tdiv_eq_ediv (by omega) (Int.ofNat_nonneg _)]

theorem ex_base (ov : List entry_t) (q : ℚ) : par_base_time (example_state ov q) = 60 - q * 2 := by
  have h : time_to_usec { min := 1, sec := 0, msec := 0, time := 60 } = 60000 := by
    unfold time_to_usec i32; norm_num
  unfold par_base_time example_state example_event
  simp only [h]
  norm_num

theorem ex_inc (ov : List entry_t) (q : ℚ) : par_inc (example_state ov q) = q * (6/5) := by
  unfold par_inc example_state example_event
  simp only []

theorem ex_lo (ov : List entry_t) (q : ℚ) : parXlo (example_state ov q) 1 = 0 := by
  unfold parXlo example_state example_event standard_par_multiple DIV_IN_USE
  norm_num

theorem ex_hi (ov : List entry_t) (q : ℚ) : parXhi (example_state ov q) 1 = 1 := by
  unfold parXhi example_state example_event standard_par_multiple DIV_IN_USE
  norm_num

theorem ex_par_ms (ov : List entry_t) (q : ℚ) (n : Int) (h : (60 - q * 2) * 1000 = (n : ℚ)) :
    d2i ((par_base_time (example_state ov q) + par_inc (example_state ov q) *
      parXlo (example_state ov q) 1) * 1000) = n := by
  rw [ex_base, ex_inc, ex_lo, mul_zero, add_zero, h, d2i_int]

theorem ex_par_time (ov : List entry_t) (q : ℚ) (n : Int) (h : (60 - q * 2) * 1000 = (n : ℚ)) :
    (par_of (example_state ov q) 1).time = (n : ℚ) / 1000 := by
  unfold par_of
  rw [ex_par_ms ov q n h, time_from_usec_time]

theorem ex_bronze (ov : List entry_t) (q : ℚ) :
    bronze_time (example_state ov q) 1 = 60 - q * 2 + q * (6 / 5) - 1 / 1000 := by
  unfold bronze_time
  rw [ex_base, ex_inc, ex_hi, mul_one]

theorem ex_trophy0 (ov : List entry_t) (q : ℚ) :
    (example_state ov q).g_event.trophy_multiple 0 + (example_state ov q).custom_trophy_adjust 1
      = 3 / 10 := by
  unfold example_state example_event standard_trophy_multiple
  norm_num

theorem ex_trophy1 (ov : List entry_t) (q : ℚ) :
    (example_state ov q).g_event.trophy_multiple 1 + (example_state ov q).custom_trophy_adjust 1
      = 3 / 10 + 1 / 3 := by
  unfold example_state example_event standard_trophy_multiple
  norm_num

theorem ex_span_one : par_span (example_state single_entry 1) 1 = 1199 / 1000 := by
  unfold par_span
  rw [ex_par_time single_entry 1 58000 (by norm_num), ex_bronze]
  norm_num

/-! ## C2: the rating formula of time_rate -/

theorem time_to_usec_entry_at (p : Nat) (dq : dq_reason_e) (m s ms : Nat)
    (h : m * 60 * 1000 + s * 1000 + ms < 2147483648) :
    time_to_usec (entry_at p dq m s ms).time = ((m * 60 * 1000 + s * 1000 + ms : Nat) : Int) := by
  unfold time_to_usec entry_at
  simp only []
  apply i32_of_range <;> omega

theorem time_to_from_usec_small (u : Int) (h1 : -2147483648 ≤ u) (h2 : u < 2147483648) :
    time_to_usec (time_from_usec u) = u := by
  rw [time_to_from_usec, i32_of_range u h1 h2]

theorem time_rate_fst_rating (ev : event_t) (db : Nat → player_t) (ds : Nat → stat_t)
    (e : entry_t) : (time_rate ev db ds e).1.rating = time_rate_rating ds e := by
  simp only [time_rate]
  split_ifs <;> rfl

theorem time_rate_stored (ev : event_t) (db : Nat → player_t) (ds : Nat → stat_t)
    (e : entry_t) :
    (time_rate ev db ds e).1.rating =
      (if time_rate_normalized ds e > 5 then 5 - 1 / 1000 else time_rate_normalized ds e) := by
  rw [time_rate_fst_rating]
  simp only [time_rate_rating, DIV_IN_USE]
  norm_num

theorem time_rate_base_eq (st : stat_t) (e : entry_t) :
    (time_rate_bracket st e).2.1 =
      (if time_to_usec e.time < time_to_usec st.gold then st.par.time
        else if time_to_usec e.time < time_to_usec st.silver then st.gold.time
        else st.silver.time) := by
  simp only [time_rate_bracket]
  split_ifs <;> rfl

/-- C2 (amended): the rating `time_rate` computes before the cap is
`(3*d + off + frac)/3` for the provisional division `d` (not `3*(d-1)`), where `off`
is 0, 1 or 2 by the gold and silver thresholds and `frac = (time - base)/range`, taken
as 0 whenever the bracket range is not positive; the stored rating is that value,
replaced by 4.999 when it exceeds `DIV_IN_USE + 1`. -/
theorem time_rate_formula (ev : event_t) (db : Nat → player_t) (ds : Nat → stat_t)
    (e : entry_t) :
    time_rate_normalized ds e =
      (3 * (e.prov_div : ℚ) +
        (if time_to_usec e.time < time_to_usec (ds e.prov_div.toNat).gold then 0
          else if time_to_usec e.time < time_to_usec (ds e.prov_div.toNat).silver then 1
          else 2) +
        (if (time_rate_bracket (ds e.prov_div.toNat) e).2.2.1 > 0 then
          (e.time.time - (time_rate_bracket (ds e.prov_div.toNat) e).2.1) /
            (time_rate_bracket (ds e.prov_div.toNat) e).2.2.1
          else 0)) / 3 ∧
    (time_rate_bracket (ds e.prov_div.toNat) e).2.1 =
      (if time_to_usec e.time < time_to_usec (ds e.prov_div.toNat).gold then
          (ds e.prov_div.toNat).par.time
        else if time_to_usec e.time < time_to_usec (ds e.prov_div.toNat).silver then
          (ds e.prov_div.toNat).gold.time
        else (ds e.prov_div.toNat).silver.time) ∧
    (time_rate_bracket (ds e.prov_div.toNat) e).2.2.1 =
      (if time_to_usec e.time < time_to_usec (ds e.prov_div.toNat).gold then
          (ds e.prov_div.toNat).gold.time - (ds e.prov_div.toNat).par.time
        else if time_to_usec e.time < time_to_usec (ds e.prov_div.toNat).silver then
          (ds e.prov_div.toNat).silver.time - (ds e.prov_div.toNat).gold.time
        else (ds e.prov_div.toNat).bronze.time - (ds e.prov_div.toNat).silver.time) ∧
    (time_rate ev db ds e).1.rating =
      (if time_rate_normalized ds e > 5 then 5 - 1 / 1000 else time_rate_normalized ds e) := by
  refine ⟨?_, ?_, ?_, ?_⟩
  · simp only [time_rate_normalized, time_rate_bracket]
    split_ifs <;> ring
  · simp only [time_rate_bracket]
    split_ifs <;> rfl
  · simp only [time_rate_bracket]
    split_ifs <;> rfl
  · have hr : time_rate_rating ds e =
        (if time_rate_normalized ds e > 5 then 5 - 1 / 1000 else time_rate_normalized ds e) := by
      simp only [time_rate_rating, DIV_IN_USE]
      norm_num
    rw [time_rate_fst_rating, hr]


theorem ex_ds1 : example_div_stat 1 =
    { zero_stat with
        par := time_from_usec 58000, gold := time_from_usec 58359,
        silver := time_from_usec 58759, bronze := time_from_usec 59199 } := by
  simp only [example_div_stat, if_true]

theorem ex_ds4 : example_div_stat 4 =
    { zero_stat with
        par := time_from_usec 70000, gold := time_from_usec 71000,
        silver := time_from_usec 72000, bronze := time_from_usec 73000 } := by
  simp only [example_div_stat]
  rw [if_neg (by decide), if_pos trivial]

theorem entry_on_par_normalized : time_rate_normalized example_div_stat entry_on_par = 1 := by
  have ht : time_to_usec entry_on_par.time = 58000 :=
    time_to_usec_entry_at 1 dq_reason_e.DQ_OK 0 58 0 (by norm_num)
  have hd : entry_on_par.prov_div = 1 := rfl
  have htt : entry_on_par.time.time = 58 := by
    simp only [entry_on_par, entry_at]; norm_num
  simp only [time_rate_normalized, time_rate_bracket, ht, hd, htt, Int.toNat_one, ex_ds1,
    time_to_from_usec_small 58359 (by norm_num) (by norm_num),
    time_to_from_usec_small 58759 (by norm_num) (by norm_num), time_from_usec_time]
  norm_num

theorem entry_fast_normalized : time_rate_normalized example_div_stat entry_fast < 0 := by
  have ht : time_to_usec entry_fast.time = 50000 :=
    time_to_usec_entry_at 1 dq_reason_e.DQ_OK 0 50 0 (by norm_num)
  have hd : entry_fast.prov_div = 1 := rfl
  have htt : entry_fast.time.time = 50 := by
    simp only [entry_fast, entry_at]; norm_num
  simp only [time_rate_normalized, time_rate_bracket, ht, hd, htt, Int.toNat_one, ex_ds1,
    time_to_from_usec_small 58359 (by norm_num) (by norm_num),
    time_to_from_usec_small 58759 (by norm_num) (by norm_num), time_from_usec_time]
  norm_num

theorem entry_on_bronze_normalized :
    time_rate_normalized example_div_stat entry_on_bronze = 5 := by
  have ht : time_to_usec entry_on_bronze.time = 73000 :=
    time_to_usec_entry_at 1 dq_reason_e.DQ_OK 1 13 0 (by norm_num)
  have hd : entry_on_bronze.prov_div = 4 := rfl
  have h4 : (4 : Int).toNat = 4 := rfl
  have htt : entry_on_bronze.time.time = 73 := by
    simp only [entry_on_bronze, entry_at]; norm_num
  simp only [time_rate_normalized, time_rate_bracket, ht, hd, htt, h4, ex_ds4,
    time_to_from_usec_small 71000 (by norm_num) (by norm_num),
    time_to_from_usec_small 72000 (by norm_num) (by norm_num), time_from_usec_time]
  norm_num


/-! ## C2, C3: counterexamples and bounds of the rating -/

/-- C2, counterexample: an entry of provisional division 1 whose time equals the par of its
division (gold bracket, so `off = 0`, and `frac = 0`) is rated 1 by `time_rate`, while the
formula `(3*(d-1) + off + frac)/3` gives 0. -/
theorem time_rate_not_spec_rating :
    time_to_usec entry_on_par.time < time_to_usec (example_div_stat 1).gold ∧
    (entry_on_par.time.time - (example_div_stat 1).par.time) /
      ((example_div_stat 1).gold.time - (example_div_stat 1).par.time) = 0 ∧
    time_rate_normalized example_div_stat entry_on_par = 1 ∧
    (time_rate example_event (fun _ => zero_player) example_div_stat entry_on_par).1.rating = 1 ∧
    spec_rating entry_on_par.prov_div 0 0 = 0 := by
  have ht : time_to_usec entry_on_par.time = 58000 :=
    time_to_usec_entry_at 1 dq_reason_e.DQ_OK 0 58 0 (by norm_num)
  have htt : entry_on_par.time.time = 58 := by
    simp only [entry_on_par, entry_at]; norm_num
  have hd : entry_on_par.prov_div = 1 := rfl
  refine ⟨?_, ?_, entry_on_par_normalized, ?_, ?_⟩
  · rw [ht, ex_ds1]
    simp only [time_to_from_usec_small 58359 (by norm_num) (by norm_num)]
    norm_num
  · rw [htt, ex_ds1]
    simp only [time_from_usec_time]
    norm_num
  · rw [time_rate_stored, entry_on_par_normalized]
    norm_num
  · rw [hd]
    simp only [spec_rating]
    norm_num

/-- C3 (amended): for every entry with provisional division `>= 0`, the rating `r` stored by
`time_rate` satisfies `r <= DIV_IN_USE + 1 = 5`; `r < 5` unless the value before the cap is
exactly 5 (the cap only applies above 5); and `0 <= r` whenever the entry's time is not
below the base of its bracket (or the bracket range is not positive). -/
theorem time_rate_bounds (ev : event_t) (db : Nat → player_t) (ds : Nat → stat_t) (e : entry_t)
    (hd : 0 ≤ e.prov_div) :
    (time_rate ev db ds e).1.rating ≤ 5 ∧
    (time_rate_normalized ds e ≠ 5 → (time_rate ev db ds e).1.rating < 5) ∧
    (((time_rate_bracket (ds e.prov_div.toNat) e).2.2.1 ≤ 0 ∨
        (time_rate_bracket (ds e.prov_div.toNat) e).2.1 ≤ e.time.time) →
      0 ≤ (time_rate ev db ds e).1.rating) := by
  rw [time_rate_stored ev db ds e]
  refine ⟨?_, ?_, ?_⟩
  · split_ifs with h
    · norm_num
    · exact not_lt.mp h
  · intro hne
    split_ifs with h
    · norm_num
    · exact lt_of_le_of_ne (not_lt.mp h) hne
  · intro hc
    have hn : 0 ≤ time_rate_normalized ds e := by
      have hdq : (0 : ℚ) ≤ (e.prov_div : ℚ) := by exact_mod_cast hd
      have hb : 0 ≤ (time_rate_bracket (ds e.prov_div.toNat) e).2.2.2 := by
        simp only [time_rate_bracket]
        split_ifs <;> simp only [] <;> linarith
      simp only [time_rate_normalized]
      split_ifs with hr
      · have hbase : (time_rate_bracket (ds e.prov_div.toNat) e).2.1 ≤ e.time.time := by
          rcases hc with hc | hc
          · exact absurd hr (not_lt.mpr hc)
          · exact hc
        have : 0 ≤ (e.time.time - (time_rate_bracket (ds e.prov_div.toNat) e).2.1) /
            (time_rate_bracket (ds e.prov_div.toNat) e).2.2.1 :=
          div_nonneg (by linarith) (le_of_lt hr)
        linarith
      · linarith
    split_ifs with h
    · norm_num
    · exact hn

/-- C3, counterexample: with provisional division 4 and a time equal to the bronze threshold
the stored rating is exactly 5 (not `< 5`), and with provisional division 1 and a time eight
seconds below par the stored rating is negative. -/
theorem time_rate_out_of_range :
    (time_rate example_event (fun _ => zero_player) example_div_stat entry_on_bronze).1.rating = 5 ∧
    (time_rate example_event (fun _ => zero_player) example_div_stat entry_fast).1.rating < 0 := by
  constructor
  · rw [time_rate_stored, entry_on_bronze_normalized]
    norm_num
  · rw [time_rate_stored]
    have := entry_fast_normalized
    rw [if_neg (by linarith)]
    exact this

/-- C3, witness: the entry on the par time of division 1 has a non-negative provisional
division, and its rating lies in `[0, 5)`. -/
theorem time_rate_bounds_witness :
    0 ≤ entry_on_par.prov_div ∧
    0 ≤ (time_rate example_event (fun _ => zero_player) example_div_stat entry_on_par).1.rating ∧
    (time_rate example_event (fun _ => zero_player) example_div_stat entry_on_par).1.rating < 5 :=
  ⟨by decide,
   (time_rate_bounds example_event (fun _ => zero_player) example_div_stat entry_on_par
      (by decide)).2.2 (Or.inr (by
        rw [time_rate_base_eq]
        have ht : time_to_usec entry_on_par.time = 58000 :=
          time_to_usec_entry_at 1 dq_reason_e.DQ_OK 0 58 0 (by norm_num)
        have htt : entry_on_par.time.time = 58 := by
          simp only [entry_on_par, entry_at]; norm_num
        have h1 : entry_on_par.prov_div.toNat = 1 := rfl
        rw [h1, ht, htt, ex_ds1]
        simp only [time_to_from_usec_small 58359 (by norm_num) (by norm_num),
          time_from_usec_time]
        norm_num)),
   (time_rate_bounds example_event (fun _ => zero_player) example_div_stat entry_on_par
      (by decide)).2.1 (by rw [entry_on_par_normalized]; norm_num)⟩


/-! ## C6, C7: points table -/

theorem points_table_rows :
    ∀ i : Fin 21, ∀ p : Fin 11, 1 ≤ p.val →
      (g_points_table.getD i.val []).getD p.val 0 ≤ (g_points_table.getD i.val []).getD 1 0 ∧
      (g_points_table.getD i.val []).getD 1 0 ≤ 10 := by
  decide

theorem entry_points_eq (entry : entry_t) (racers : Nat)
    (hdq : dq_ok entry.dq = true) (hn : racers < 2147483648)
    (hp1 : 0 ≤ entry.place) (hp2 : entry.place ≤ 10) :
    entry_points entry racers =
      (g_points_table.getD (min racers MAX_RACER_POINTS) []).getD entry.place.toNat 0 := by
  have hi : i32 (racers : Int) = (racers : Int) := i32_of_range _ (by omega) (by omega)
  simp only [entry_points, hdq, if_true, hi, MAX_POINTS_PLACES, MAX_RACER_POINTS, MIN_POINTS,
    points_table_at]
  have hidx : (if (racers : Int) > ((20 : Nat) : Int) then ((20 : Nat) : Int) else (racers : Int)) =
      ((min racers 20 : Nat) : Int) := by
    split_ifs with h
    · have : min racers 20 = 20 := by omega
      rw [this]
    · have : min racers 20 = racers := by omega
      rw [this]
  rw [hidx]
  have hc : (0 : Int) ≤ ((min racers 20 : Nat) : Int) ∧ 0 ≤ entry.place :=
    ⟨Int.ofNat_nonneg _, hp1⟩
  have hp2' : entry.place ≤ ((10 : Nat) : Int) := by exact_mod_cast hp2
  simp only [hc, hp2', if_true, and_self, Int.toNat_ofNat, Nat.not_lt_zero, if_false]

theorem entry_points_high_place (entry : entry_t) (racers : Nat)
    (hp : entry.place > 10) : entry_points entry racers = 0 := by
  simp only [entry_points, MAX_POINTS_PLACES, MIN_POINTS]
  have : ¬ entry.place ≤ ((10 : Nat) : Int) := by push_neg; exact_mod_cast hp
  split_ifs <;> rfl

/-- Function `entry_points` returns 0 for an entry whose status is a disqualification. -/
theorem entry_points_dq (entry : entry_t) (racers : Nat) (h : dq_ok entry.dq = false) :
    entry_points entry racers = 0 := by
  simp only [entry_points, h]
  rfl

/-- C6: for a non-disqualified entry with place `p >= 1` and racer count `n` (any count that
fits an `int`), `entry_points` returns at most the first-place value of row
`min(n, MAX_RACER_POINTS)` of `g_points_table`, and at most 10. -/
theorem entry_points_le_row_max (entry : entry_t) (racers : Nat)
    (hdq : dq_ok entry.dq = true) (hp : 1 ≤ entry.place) (hn : racers < 2147483648) :
    entry_points entry racers ≤
        (g_points_table.getD (min racers MAX_RACER_POINTS) []).getD 1 0 ∧
      entry_points entry racers ≤ 10 := by
  by_cases hp2 : entry.place ≤ 10
  · rw [entry_points_eq entry racers hdq hn (by omega) hp2]
    have hi : min racers MAX_RACER_POINTS < 21 := by
      simp only [MAX_RACER_POINTS]; omega
    have hpl : entry.place.toNat < 11 := by omega
    have h := points_table_rows ⟨min racers MAX_RACER_POINTS, hi⟩ ⟨entry.place.toNat, hpl⟩
      (by simp only []; omega)
    simp only [] at h
    exact ⟨h.1, le_trans h.1 h.2⟩
  · rw [entry_points_high_place entry racers (by omega)]
    exact ⟨Nat.zero_le _, Nat.zero_le _⟩

/-- C6, witness: a valid entry placed second among five racers. -/
theorem entry_points_le_row_max_witness :
    dq_ok ({ entry_at 1 dq_reason_e.DQ_OK 1 0 0 with place := 2 } : entry_t).dq = true ∧
    entry_points { entry_at 1 dq_reason_e.DQ_OK 1 0 0 with place := 2 } 5 ≤
        (g_points_table.getD (min 5 MAX_RACER_POINTS) []).getD 1 0 ∧
      entry_points { entry_at 1 dq_reason_e.DQ_OK 1 0 0 with place := 2 } 5 ≤ 10 :=
  ⟨by decide,
    entry_points_le_row_max { entry_at 1 dq_reason_e.DQ_OK 1 0 0 with place := 2 } 5
      (by decide) (by decide) (by norm_num)⟩

/-- C7: for a non-disqualified entry and a racer count `n` (any count that fits an `int`),
`entry_points` returns `g_points_table[min(n, 20)][p]` for a place `p` in
`1..MAX_POINTS_PLACES` and 0 for `p > MAX_POINTS_PLACES`; with five racers the places
1, 2, 3, 4, 5 earn 9, 4, 1, 0, 0 points. -/
theorem entry_points_table (entry : entry_t) (racers : Nat)
    (hdq : dq_ok entry.dq = true) (hn : racers < 2147483648) :
    (1 ≤ entry.place → entry.place ≤ MAX_POINTS_PLACES →
      entry_points entry racers = (g_points_table.getD (min racers 20) []).getD entry.place.toNat 0) ∧
    (entry.place > MAX_POINTS_PLACES → entry_points entry racers = 0) ∧
    entry_points { entry with place := 1 } 5 = 9 ∧
    entry_points { entry with place := 2 } 5 = 4 ∧
    entry_points { entry with place := 3 } 5 = 1 ∧
    entry_points { entry with place := 4 } 5 = 0 ∧
    entry_points { entry with place := 5 } 5 = 0 := by
  refine ⟨?_, ?_, ?_, ?_, ?_, ?_, ?_⟩
  · intro h1 h2
    simp only [MAX_POINTS_PLACES] at h2
    exact entry_points_eq entry racers hdq hn (by omega) (by exact_mod_cast h2)
  · intro h
    simp only [MAX_POINTS_PLACES] at h
    exact entry_points_high_place entry racers (by exact_mod_cast h)
  all_goals
    rw [entry_points_eq _ 5 (by exact hdq) (by norm_num) (by simp only []; norm_num)
      (by simp only []; norm_num)]
    rfl

/-- C7, witness: a valid entry placed third among seven racers earns
`g_points_table[7][3] = 3` points. -/
theorem entry_points_table_witness :
    dq_ok ({ entry_at 1 dq_reason_e.DQ_OK 1 0 0 with place := 3 } : entry_t).dq = true ∧
    entry_points { entry_at 1 dq_reason_e.DQ_OK 1 0 0 with place := 3 } 7 = 3 :=
  ⟨by decide,
    ((entry_points_table { entry_at 1 dq_reason_e.DQ_OK 1 0 0 with place := 3 } 7
      (by decide) (by norm_num)).1 (by decide) (by decide)).trans (by decide)⟩


/-! ## C10: weight_adjust -/

/-- C10, counterexample: for a player without rating (`player_rating = 0`) and event rating
3, `weight_adjust` returns 1 while `0.5 + 0.5/max(3 - 0, 1)` is 2/3. -/
theorem weight_adjust_not_spec :
    weight_adjust 0 3 = 1 ∧ spec_weight_adjust 0 3 = 2 / 3 ∧
      weight_adjust 0 3 ≠ spec_weight_adjust 0 3 := by
  refine ⟨?_, ?_, ?_⟩ <;> norm_num [weight_adjust, spec_weight_adjust]

/-- C10 (amended): `weight_adjust(player_rating, event_rating)` is
`0.5 + 0.5 / max(event_rating - player_rating, 1)` when `player_rating > 0`, and 1 when
`player_rating <= 0` (the guard for players without a rating). -/
theorem weight_adjust_eq (player_rating event_rating : ℚ) :
    weight_adjust player_rating event_rating =
      if player_rating ≤ 0 then 1 else spec_weight_adjust player_rating event_rating := by
  unfold weight_adjust spec_weight_adjust
  simp only []
  by_cases hp : player_rating ≤ 0
  · simp [hp]; norm_num
  · simp only [hp, false_or, if_false]
    by_cases hd : event_rating - player_rating < 1
    · rw [if_pos hd, max_eq_right (le_of_lt hd)]; norm_num
    · rw [if_neg hd, max_eq_left (not_lt.mp hd)]
      have : event_rating - player_rating ≠ 0 := by push_neg at hd; linarith
      field_simp


/-! ## Entry keys and the iterator filter -/

theorem same_key_refl (a : entry_t) : same_key a a := ⟨rfl, rfl, rfl, rfl, rfl, rfl⟩

theorem same_key_trans {a b c : entry_t} (hab : same_key a b) (hbc : same_key b c) :
    same_key a c :=
  ⟨hbc.1.trans hab.1, hbc.2.1.trans hab.2.1, hbc.2.2.1.trans hab.2.2.1,
    hbc.2.2.2.1.trans hab.2.2.2.1, hbc.2.2.2.2.1.trans hab.2.2.2.2.1,
    hbc.2.2.2.2.2.trans hab.2.2.2.2.2⟩

theorem same_key_usec {a b : entry_t} (h : same_key a b) :
    time_to_usec b.time = time_to_usec a.time := by
  obtain ⟨-, -, -, h4, h5, h6⟩ := h
  simp only [time_to_usec, h4, h5, h6]

theorem same_key_div (db : Nat → player_t) {a b : entry_t} (h : same_key a b) :
    entry_div db b = entry_div db a := by
  obtain ⟨h1, -, h3, -, -, -⟩ := h
  simp only [entry_div, h1, h3]

theorem same_key_match (db : Nat → player_t) (div : Nat) (q : dq_iter_e) {a b : entry_t}
    (h : same_key a b) : entry_match db div q b = entry_match db div q a := by
  have hd := same_key_div db h
  obtain ⟨-, h2, -, -, -, -⟩ := h
  simp only [entry_match, hd, h2]

theorem entry_match_ok (db : Nat → player_t) (div : Nat) (e : entry_t) :
    entry_match db div dq_iter_e.ITER_DQ_OK e = true ↔
      (div = DIV_ALL ∨ entry_div db e = div) ∧ dq_ok e.dq = true := by
  rw [entry_match]
  have hq : entry_dq_match e.dq dq_iter_e.ITER_DQ_OK = dq_ok e.dq := rfl
  rw [hq]
  constructor
  · intro h
    by_contra hc
    rw [if_neg hc] at h
    cases h
  · intro h
    rw [if_pos h]

theorem entry_match_all (db : Nat → player_t) (e : entry_t) :
    entry_match db DIV_ALL dq_iter_e.ITER_DQ_OK e = dq_ok e.dq := by
  cases hd : dq_ok e.dq
  · cases hm : entry_match db DIV_ALL dq_iter_e.ITER_DQ_OK e
    · rfl
    · have := ((entry_match_ok db DIV_ALL e).mp hm).2
      rw [hd] at this; cases this
  · exact (entry_match_ok db DIV_ALL e).mpr ⟨Or.inl rfl, hd⟩

theorem time_compare_eq_zero (a b : entry_t) :
    time_compare a b = 0 ↔ time_to_usec a.time = time_to_usec b.time := by
  have ha : ∀ t : ttime_t, -2147483648 ≤ time_to_usec t ∧ time_to_usec t < 2147483648 := by
    intro t; simp only [time_to_usec]; exact i32_range _
  have h1 := ha a.time
  have h2 := ha b.time
  simp only [time_compare]
  generalize time_to_usec a.time = x at *
  generalize time_to_usec b.time = y at *
  unfold i32
  omega


/-! ## Counting the entries of a division -/

theorem match_count_nil (db : Nat → player_t) (div : Nat) : match_count db div [] = 0 := rfl

theorem match_count_append (db : Nat → player_t) (div : Nat) (a b : List entry_t) :
    match_count db div (a ++ b) = match_count db div a + match_count db div b := by
  simp only [match_count, List.filter_append, List.length_append]

theorem faster_count_append (db : Nat → player_t) (div : Nat) (a b : List entry_t) (e : entry_t) :
    faster_count db div (a ++ b) e = faster_count db div a e + faster_count db div b e := by
  simp only [faster_count, List.filter_append, List.length_append]

theorem match_count_single (db : Nat → player_t) (div : Nat) (x : entry_t) :
    match_count db div [x] = if entry_match db div dq_iter_e.ITER_DQ_OK x = true then 1 else 0 := by
  simp only [match_count, List.filter_cons, List.filter_nil]
  split_ifs <;> rfl

theorem faster_count_single (db : Nat → player_t) (div : Nat) (x e : entry_t) :
    faster_count db div [x] e =
      if entry_match db div dq_iter_e.ITER_DQ_OK x = true ∧
        time_to_usec x.time < time_to_usec e.time then 1 else 0 := by
  simp only [faster_count, List.filter_cons, List.filter_nil, Bool.and_eq_true, decide_eq_true_eq]
  split_ifs <;> rfl

theorem faster_count_congr (db : Nat → player_t) (div : Nat) (l : List entry_t) (e e' : entry_t)
    (h : time_to_usec e.time = time_to_usec e'.time) :
    faster_count db div l e = faster_count db div l e' := by
  simp only [faster_count, h]

theorem faster_count_zero (db : Nat → player_t) (div : Nat) (l : List entry_t) (e : entry_t)
    (h : ∀ y ∈ l, entry_match db div dq_iter_e.ITER_DQ_OK y = true →
      time_to_usec e.time ≤ time_to_usec y.time) :
    faster_count db div l e = 0 := by
  simp only [faster_count, List.length_eq_zero, List.filter_eq_nil_iff, Bool.and_eq_true,
    decide_eq_true_eq, not_and, not_lt]
  exact h

theorem faster_count_full (db : Nat → player_t) (div : Nat) (l : List entry_t) (e : entry_t)
    (h : ∀ x ∈ l, entry_match db div dq_iter_e.ITER_DQ_OK x = true →
      time_to_usec x.time < time_to_usec e.time) :
    faster_count db div l e = match_count db div l := by
  simp only [faster_count, match_count]
  congr 1
  apply List.filter_congr
  intro x hx
  cases hm : entry_match db div dq_iter_e.ITER_DQ_OK x
  · rfl
  · simp only [Bool.true_and, decide_eq_true_eq]
    exact h x hx hm

theorem match_count_zero (db : Nat → player_t) (div : Nat) (l : List entry_t)
    (h : match_count db div l = 0) :
    ∀ x ∈ l, ¬ entry_match db div dq_iter_e.ITER_DQ_OK x = true := by
  simp only [match_count, List.length_eq_zero, List.filter_eq_nil_iff] at h
  exact h


/-! ## Placement within a division -/

theorem time_sorted_head {c : entry_t} {r : List entry_t} (P : List entry_t)
    (h : time_sorted (P ++ c :: r)) :
    (∀ y ∈ c :: r, time_to_usec c.time ≤ time_to_usec y.time) := by
  have h2 := (List.pairwise_append.mp h).2.1
  rw [List.pairwise_cons] at h2
  intro y hy
  rcases List.mem_cons.mp hy with rfl | hy
  · exact le_refl _
  · exact h2.1 y hy

theorem rate_div_place_rank (db : Nat → player_t) (div count : Nat) :
    ∀ (L P : List entry_t) (i : Int) (prior : Option entry_t) (pp : Int),
      time_sorted (P ++ L) →
      i = 1 + (match_count db div P : Int) →
      (match prior with
        | none => match_count db div P = 0
        | some p =>
          (∀ x ∈ P, entry_match db div dq_iter_e.ITER_DQ_OK x = true →
            time_to_usec x.time ≤ time_to_usec p.time) ∧
          (∀ y ∈ L, time_to_usec p.time ≤ time_to_usec y.time) ∧
          pp = 1 + (faster_count db div P p : Int)) →
      List.Forall₂
        (fun e e' => entry_match db div dq_iter_e.ITER_DQ_OK e = true →
          e'.place = 1 + (faster_count db div (P ++ L) e : Int))
        L (rate_div_place db div count L i prior pp) := by
  intro L
  induction L with
  | nil => intro P i prior pp _ _ _; simp only [rate_div_place]; exact List.Forall₂.nil
  | cons cur rest ih =>
    intro P i prior pp hs hi hp
    have hs' : time_sorted ((P ++ [cur]) ++ rest) := by
      rw [List.append_assoc]; exact hs
    have hcur := time_sorted_head P hs
    have happ : ∀ e, faster_count db div (P ++ cur :: rest) e =
        faster_count db div P e + faster_count db div (cur :: rest) e :=
      fun e => faster_count_append db div P (cur :: rest) e
    have hrest0 : faster_count db div (cur :: rest) cur = 0 :=
      faster_count_zero db div _ _ (fun y hy _ => hcur y hy)
    have hIHeq : P ++ cur :: rest = (P ++ [cur]) ++ rest := by rw [List.append_assoc]; rfl
    by_cases hm : entry_match db div dq_iter_e.ITER_DQ_OK cur = true
    · have hmc : match_count db div (P ++ [cur]) = match_count db div P + 1 := by
        rw [match_count_append, match_count_single, if_pos hm]
      -- the case where `cur` starts a new group of equal times
      have hnew : (∀ x ∈ P, entry_match db div dq_iter_e.ITER_DQ_OK x = true →
            time_to_usec x.time < time_to_usec cur.time) →
          List.Forall₂
            (fun e e' => entry_match db div dq_iter_e.ITER_DQ_OK e = true →
              e'.place = 1 + (faster_count db div (P ++ cur :: rest) e : Int))
            (cur :: rest)
            ({ ({ cur with place := i } : entry_t) with
                points := (entry_points { cur with place := i } count : Int) } ::
              rate_div_place db div count rest (i + 1) (some cur) i) := by
        intro hlt
        have hfull : faster_count db div P cur = match_count db div P :=
          faster_count_full db div P cur hlt
        apply List.Forall₂.cons
        · intro _
          show i = _
          rw [happ, hrest0, hfull, hi]; simp
        · rw [hIHeq]
          apply ih (P ++ [cur]) (i + 1) (some cur) i hs'
          · rw [hmc, hi]; push_cast; ring
          · refine ⟨?_, ?_, ?_⟩
            · intro x hx hxm
              rcases List.mem_append.mp hx with hx | hx
              · exact le_of_lt (hlt x hx hxm)
              · rw [List.mem_singleton.mp hx]
            · intro y hy
              exact hcur y (List.mem_cons_of_mem _ hy)
            · rw [faster_count_append, hfull, faster_count_single,
                if_neg (by intro h; exact lt_irrefl _ h.2), hi]
              simp
      cases prior with
      | none =>
        simp only [rate_div_place, if_pos hm]
        apply hnew
        intro x hx hxm
        exact absurd hxm (match_count_zero db div P hp x hx)
      | some p =>
        obtain ⟨hp1, hp2, hp3⟩ := hp
        by_cases htc : time_compare cur p = 0
        · simp only [rate_div_place, if_pos hm, if_pos htc]
          have hu : time_to_usec cur.time = time_to_usec p.time :=
            (time_compare_eq_zero cur p).mp htc
          apply List.Forall₂.cons
          · intro _
            show pp = _
            rw [happ, hrest0, faster_count_congr db div P cur p hu, hp3]; simp
          · rw [hIHeq]
            apply ih (P ++ [cur]) (i + 1) (some p) pp hs'
            · rw [hmc, hi]; push_cast; ring
            · refine ⟨?_, ?_, ?_⟩
              · intro x hx hxm
                rcases List.mem_append.mp hx with hx | hx
                · exact hp1 x hx hxm
                · rw [List.mem_singleton.mp hx, hu]
              · intro y hy
                exact hp2 y (List.mem_cons_of_mem _ hy)
              · rw [faster_count_append, faster_count_single,
                  if_neg (by intro h; rw [hu] at h; exact lt_irrefl _ h.2), hp3]
                simp
        · simp only [rate_div_place, if_pos hm, if_neg htc]
          apply hnew
          intro x hx hxm
          have h1 := hp1 x hx hxm
          have h2 := hp2 cur (List.mem_cons_self _ _)
          have h3 : time_to_usec cur.time ≠ time_to_usec p.time :=
            fun h => htc ((time_compare_eq_zero cur p).mpr h)
          omega
    · simp only [rate_div_place, if_neg hm]
      have hmc : match_count db div (P ++ [cur]) = match_count db div P := by
        rw [match_count_append, match_count_single, if_neg hm]; rfl
      have hfc : ∀ e, faster_count db div (P ++ [cur]) e = faster_count db div P e := by
        intro e
        rw [faster_count_append, faster_count_single, if_neg (fun h => hm h.1)]; rfl
      apply List.Forall₂.cons
      · intro h; exact absurd h hm
      · rw [hIHeq]
        apply ih (P ++ [cur]) i prior pp hs'
        · rw [hmc]; exact hi
        · cases prior with
          | none => simp only [] at hp ⊢; rw [hmc]; exact hp
          | some p =>
            obtain ⟨hp1, hp2, hp3⟩ := hp
            refine ⟨?_, ?_, ?_⟩
            · intro x hx hxm
              rcases List.mem_append.mp hx with hx | hx
              · exact hp1 x hx hxm
              · rw [List.mem_singleton.mp hx] at hxm; exact absurd hxm hm
            · intro y hy
              exact hp2 y (List.mem_cons_of_mem _ hy)
            · rw [hfc]; exact hp3


/-! ## Frame of the loops of rate_times -/

theorem forall2_and {α β : Type} {R S : α → β → Prop} :
    ∀ {l : List α} {m : List β}, List.Forall₂ R l m → List.Forall₂ S l m →
      List.Forall₂ (fun a b => R a b ∧ S a b) l m
  | [], [], _, _ => List.Forall₂.nil
  | _ :: _, _ :: _, List.Forall₂.cons h1 t1, List.Forall₂.cons h2 t2 =>
    List.Forall₂.cons ⟨h1, h2⟩ (forall2_and t1 t2)

theorem forall2_comp {α β γ : Type} {R : α → β → Prop} {S : β → γ → Prop} {T : α → γ → Prop}
    (h : ∀ a b c, R a b → S b c → T a c) :
    ∀ {l : List α} {m : List β} {n : List γ}, List.Forall₂ R l m → List.Forall₂ S m n →
      List.Forall₂ T l n
  | [], [], [], _, _ => List.Forall₂.nil
  | _ :: _, _ :: _, _ :: _, List.Forall₂.cons h1 t1, List.Forall₂.cons h2 t2 =>
    List.Forall₂.cons (h _ _ _ h1 h2) (forall2_comp h t1 t2)

theorem forall2_map_self {α : Type} {R : α → α → Prop} (f : α → α) (h : ∀ a, R a (f a)) :
    ∀ l : List α, List.Forall₂ R l (l.map f)
  | [] => List.Forall₂.nil
  | a :: l => List.Forall₂.cons (h a) (forall2_map_self f h l)

theorem rate_div_place_frame (db : Nat → player_t) (div count : Nat) :
    ∀ (L : List entry_t) (i : Int) (prior : Option entry_t) (pp : Int),
      List.Forall₂
        (fun e e' =>
          (entry_match db div dq_iter_e.ITER_DQ_OK e = true →
            e' = { ({ e with place := e'.place } : entry_t) with
              points := (entry_points { e with place := e'.place } count : Int) }) ∧
          (¬ entry_match db div dq_iter_e.ITER_DQ_OK e = true → e' = e))
        L (rate_div_place db div count L i prior pp) := by
  intro L
  induction L with
  | nil => intro i prior pp; simp only [rate_div_place]; exact List.Forall₂.nil
  | cons cur rest ih =>
    intro i prior pp
    by_cases hm : entry_match db div dq_iter_e.ITER_DQ_OK cur = true
    · cases prior with
      | none =>
        simp only [rate_div_place, if_pos hm]
        exact List.Forall₂.cons ⟨fun _ => rfl, fun h => absurd hm h⟩ (ih _ _ _)
      | some p =>
        by_cases htc : time_compare cur p = 0
        · simp only [rate_div_place, if_pos hm, if_pos htc]
          exact List.Forall₂.cons ⟨fun _ => rfl, fun h => absurd hm h⟩ (ih _ _ _)
        · simp only [rate_div_place, if_pos hm, if_neg htc]
          exact List.Forall₂.cons ⟨fun _ => rfl, fun h => absurd hm h⟩ (ih _ _ _)
    · simp only [rate_div_place, if_neg hm]
      exact List.Forall₂.cons ⟨fun h => absurd h hm, fun _ => rfl⟩ (ih _ _ _)

theorem rate_div_mean_list (db : Nat → player_t) (div : Nat) :
    ∀ (L : List entry_t) (stat : stat_t),
      (rate_div_mean db div L stat).1 =
        L.map (fun e =>
          if entry_match db div dq_iter_e.ITER_DQ_OK e = true then
            { e with time := { e.time with time := (time_to_usec e.time : ℚ) / 1000 } }
          else e) := by
  intro L
  induction L with
  | nil => intro stat; simp only [rate_div_mean, List.map_nil]
  | cons cur rest ih =>
    intro stat
    by_cases hm : entry_match db div dq_iter_e.ITER_DQ_OK cur = true
    · simp only [rate_div_mean, if_pos hm, List.map_cons, ih]
    · simp only [rate_div_mean, if_neg hm, List.map_cons, ih]

theorem u32_add_u32 (x y : Int) : u32 (((u32 x : Nat) : Int) + y) = u32 (x + y) := by
  unfold u32; omega

theorem u32_small (n : Nat) (h : n < 4294967296) : u32 (n : Int) = n := by
  unfold u32; omega

theorem u32_lt (x : Int) : u32 x < 4294967296 := by
  unfold u32; omega

theorem rate_div_mean_count (db : Nat → player_t) (div : Nat) :
    ∀ (L : List entry_t) (stat : stat_t), stat.count < 4294967296 →
      (rate_div_mean db div L stat).2.count =
        u32 ((stat.count : Int) + (match_count db div L : Int)) := by
  intro L
  induction L with
  | nil =>
    intro stat h
    simp only [rate_div_mean, match_count_nil]
    rw [show ((stat.count : Int) + ((0 : Nat) : Int)) = (stat.count : Int) by simp, u32_small _ h]
  | cons cur rest ih =>
    intro stat h
    have hc : match_count db div (cur :: rest) =
        match_count db div [cur] + match_count db div rest :=
      match_count_append db div [cur] rest
    by_cases hm : entry_match db div dq_iter_e.ITER_DQ_OK cur = true
    · have h1 : match_count db div (cur :: rest) = 1 + match_count db div rest := by
        rw [hc, match_count_single, if_pos hm]
      simp only [rate_div_mean, if_pos hm]
      rw [ih _ (u32_lt _), h1]
      simp only []
      rw [u32_add_u32]; congr 1; push_cast; ring
    · have h1 : match_count db div (cur :: rest) = match_count db div rest := by
        rw [hc, match_count_single, if_neg hm, Nat.zero_add]
      simp only [rate_div_mean, if_neg hm]
      rw [ih _ h, h1]

theorem rate_div_mean_thr (db : Nat → player_t) (div : Nat) :
    ∀ (L : List entry_t) (stat : stat_t), (rate_div_mean db div L stat).2.thr = stat.thr := by
  intro L
  induction L with
  | nil => intro stat; simp only [rate_div_mean]
  | cons cur rest ih =>
    intro stat
    by_cases hm : entry_match db div dq_iter_e.ITER_DQ_OK cur = true
    · simp only [rate_div_mean, if_pos hm, ih]
      simp only [stat_t.thr]
    · simp only [rate_div_mean, if_neg hm, ih]

theorem rate_div_dev_thr (db : Nat → player_t) (div : Nat) :
    ∀ (L : List entry_t) (stat : stat_t),
      (rate_div_dev db div L stat).thr = stat.thr ∧
      (rate_div_dev db div L stat).count = stat.count := by
  intro L
  induction L with
  | nil => intro stat; simp only [rate_div_dev, and_self]
  | cons cur rest ih =>
    intro stat
    by_cases hm : entry_match db div dq_iter_e.ITER_DQ_OK cur = true
    · simp only [rate_div_dev, if_pos hm, ih]
      simp only [stat_t.thr, and_self]
    · simp only [rate_div_dev, if_neg hm, ih, and_self]


/-! ## Projections of rate_division -/

theorem rate_div_reset_thr (st : stat_t) : (rate_div_reset st).thr = st.thr := by
  rw [rate_div_reset, stat_t.thr, stat_t.thr]

theorem rate_div_reset_count (st : stat_t) : (rate_div_reset st).count = 0 := by
  rw [rate_div_reset]

theorem rate_div_close_mean_thr (st : stat_t) : (rate_div_close_mean st).thr = st.thr := by
  rw [rate_div_close_mean, stat_t.thr, stat_t.thr]

theorem rate_div_close_mean_count (st : stat_t) : (rate_div_close_mean st).count = st.count := by
  rw [rate_div_close_mean]

theorem rate_div_close_dev_thr (sqrt : ℚ → ℚ) (st : stat_t) :
    (rate_div_close_dev sqrt st).thr = st.thr := by
  rw [rate_div_close_dev, stat_t.thr, stat_t.thr]

theorem rate_div_close_dev_count (sqrt : ℚ → ℚ) (st : stat_t) :
    (rate_div_close_dev sqrt st).count = st.count := by
  rw [rate_div_close_dev]

theorem rate_division_fst (sqrt : ℚ → ℚ) (db : Nat → player_t) (L : List entry_t)
    (ds : Nat → stat_t) (os : stat_t) (div : Nat) :
    (rate_division sqrt db (L, ds, os) div).1 =
      if (rate_div_mean db div L (rate_div_reset (ds div))).2.count = 0 then
        (rate_div_mean db div L (rate_div_reset (ds div))).1
      else
        rate_div_place db div (rate_div_mean db div L (rate_div_reset (ds div))).2.count
          (rate_div_mean db div L (rate_div_reset (ds div))).1 1 none 0 := by
  rw [rate_division]
  by_cases hc : (rate_div_mean db div L (rate_div_reset (ds div))).2.count = 0
  · rw [if_pos hc, if_pos hc]
  · rw [if_neg hc, if_neg hc]
    have : (rate_div_close_dev sqrt (rate_div_dev db div
        (rate_div_mean db div L (rate_div_reset (ds div))).1
        (rate_div_close_mean (rate_div_mean db div L (rate_div_reset (ds div))).2))).count =
        (rate_div_mean db div L (rate_div_reset (ds div))).2.count := by
      rw [rate_div_close_dev_count, (rate_div_dev_thr db div _ _).2, rate_div_close_mean_count]
    show rate_div_place db div _ _ 1 none 0 = _
    rw [this]

theorem rate_division_thr (sqrt : ℚ → ℚ) (db : Nat → player_t) (L : List entry_t)
    (ds : Nat → stat_t) (os : stat_t) (div : Nat) (d : Nat) :
    ((rate_division sqrt db (L, ds, os) div).2.1 d).thr = (ds d).thr := by
  rw [rate_division]
  by_cases hc : (rate_div_mean db div L (rate_div_reset (ds div))).2.count = 0
  · rw [if_pos hc]
    show ((Function.update ds div _) d).thr = _
    apply thr_update
    rw [rate_div_mean_thr, rate_div_reset_thr]
  · rw [if_neg hc]
    show ((Function.update ds div _) d).thr = _
    apply thr_update
    rw [rate_div_close_dev_thr, (rate_div_dev_thr db div _ _).1, rate_div_close_mean_thr,
      rate_div_mean_thr, rate_div_reset_thr]


/-! ## List effect of rate_division -/

theorem same_key_time (a : entry_t) (q : ℚ) :
    same_key a { a with time := { a.time with time := q } } :=
  ⟨rfl, rfl, rfl, rfl, rfl, rfl⟩

theorem rate_division_list (sqrt : ℚ → ℚ) (db : Nat → player_t) (L : List entry_t)
    (ds : Nat → stat_t) (os : stat_t) (div : Nat) :
    List.Forall₂
      (fun e e' =>
        (entry_match db div dq_iter_e.ITER_DQ_OK e = true →
          e' = { e with
            time := { e.time with time := (time_to_usec e.time : ℚ) / 1000 }
            place := e'.place
            points := e'.points }) ∧
        (¬ entry_match db div dq_iter_e.ITER_DQ_OK e = true → e' = e))
      L (rate_division sqrt db (L, ds, os) div).1 := by
  have hmean : List.Forall₂
      (fun e e' =>
        (entry_match db div dq_iter_e.ITER_DQ_OK e = true →
          e' = { e with time := { e.time with time := (time_to_usec e.time : ℚ) / 1000 } }) ∧
        (¬ entry_match db div dq_iter_e.ITER_DQ_OK e = true → e' = e))
      L (L.map (fun e =>
          if entry_match db div dq_iter_e.ITER_DQ_OK e = true then
            { e with time := { e.time with time := (time_to_usec e.time : ℚ) / 1000 } }
          else e)) := by
    apply forall2_map_self
    intro a
    constructor
    · intro h; rw [if_pos h]
    · intro h; rw [if_neg h]
  rw [rate_division_fst]
  by_cases hc : (rate_div_mean db div L (rate_div_reset (ds div))).2.count = 0
  · rw [if_pos hc, rate_div_mean_list]
    refine List.Forall₂.imp ?_ hmean
    intro a b hab
    refine ⟨fun hm => ?_, hab.2⟩
    have := hab.1 hm
    rw [this]
  · rw [if_neg hc, rate_div_mean_list]
    refine forall2_comp ?_ hmean (rate_div_place_frame db div _ _ 1 none 0)
    intro a b c hab hbc
    by_cases hm : entry_match db div dq_iter_e.ITER_DQ_OK a = true
    · have hb := hab.1 hm
      have hbm : entry_match db div dq_iter_e.ITER_DQ_OK b = true := by
        have hk : same_key a b := by rw [hb]; exact same_key_time a _
        rw [same_key_match db div dq_iter_e.ITER_DQ_OK hk]
        exact hm
      have hc' := hbc.1 hbm
      refine ⟨fun _ => ?_, fun h => absurd hm h⟩
      rw [hc', hb]
    · have hb := hab.2 hm
      have hbm : ¬ entry_match db div dq_iter_e.ITER_DQ_OK b = true := by rw [hb]; exact hm
      refine ⟨fun h => absurd h hm, fun _ => ?_⟩
      rw [hbc.2 hbm, hb]


/-! ## Lists that agree on the entry keys -/

theorem forall2_mem_right {α β : Type} {R : α → β → Prop} :
    ∀ {l : List α} {m : List β}, List.Forall₂ R l m → ∀ y ∈ m, ∃ x ∈ l, R x y
  | _, _, List.Forall₂.nil, y, hy => by cases hy
  | a :: _, _ :: _, List.Forall₂.cons h t, y, hy => by
    rcases List.mem_cons.mp hy with rfl | hy
    · exact ⟨a, List.mem_cons_self _ _, h⟩
    · obtain ⟨x, hx, hr⟩ := forall2_mem_right t y hy
      exact ⟨x, List.mem_cons_of_mem _ hx, hr⟩

theorem forall2_mem_left {α β : Type} {R : α → β → Prop} {P : α → Prop} :
    ∀ {l : List α} {m : List β}, List.Forall₂ R l m → (∀ x ∈ l, P x) →
      List.Forall₂ (fun a b => R a b ∧ P a) l m
  | _, _, List.Forall₂.nil, _ => List.Forall₂.nil
  | a :: _, _ :: _, List.Forall₂.cons h t, hp =>
    List.Forall₂.cons ⟨h, hp a (List.mem_cons_self _ _)⟩
      (forall2_mem_left t (fun x hx => hp x (List.mem_cons_of_mem _ hx)))

theorem match_count_key (db : Nat → player_t) (div : Nat) {L M : List entry_t}
    (hk : List.Forall₂ same_key L M) : match_count db div M = match_count db div L := by
  induction hk with
  | nil => exact Eq.refl (match_count db div [])
  | @cons a b l m h _ ih =>
    have h1 := match_count_append db div [a] l
    have h2 := match_count_append db div [b] m
    simp only [List.singleton_append] at h1 h2
    rw [h1, h2, ih, match_count_single, match_count_single,
      same_key_match db div dq_iter_e.ITER_DQ_OK h]

theorem faster_count_key (db : Nat → player_t) (div : Nat) (e e' : entry_t)
    (he : time_to_usec e'.time = time_to_usec e.time) {L M : List entry_t}
    (hk : List.Forall₂ same_key L M) : faster_count db div M e' = faster_count db div L e := by
  induction hk with
  | nil => simp only [faster_count, List.filter_nil]
  | @cons a b l m h _ ih =>
    have h1 := faster_count_append db div [a] l e
    have h2 := faster_count_append db div [b] m e'
    simp only [List.singleton_append] at h1 h2
    rw [h1, h2, ih, faster_count_single, faster_count_single,
      same_key_match db div dq_iter_e.ITER_DQ_OK h, same_key_usec h, he]

theorem time_sorted_key {L M : List entry_t} (hk : List.Forall₂ same_key L M)
    (hs : time_sorted L) : time_sorted M := by
  induction hk with
  | nil => exact List.Pairwise.nil
  | @cons a b l m h t ih =>
    have hs' := List.pairwise_cons.mp hs
    apply List.Pairwise.cons
    · intro y hy
      obtain ⟨x, hx, hxy⟩ := forall2_mem_right t y hy
      rw [same_key_usec h, same_key_usec hxy]
      exact hs'.1 x hx
    · exact ih hs'.2

theorem entry_points_congr (a b : entry_t) (n : Nat) (h1 : a.dq = b.dq) (h2 : a.place = b.place) :
    entry_points a n = entry_points b n := by
  rw [entry_points, entry_points, h1, h2]

theorem match_count_le (db : Nat → player_t) (div : Nat) (L : List entry_t) :
    match_count db div L ≤ L.length := by
  rw [match_count]
  exact List.length_filter_le _ _

theorem match_count_pos (db : Nat → player_t) (div : Nat) (L : List entry_t) (x : entry_t)
    (hx : x ∈ L) (hm : entry_match db div dq_iter_e.ITER_DQ_OK x = true) :
    0 < match_count db div L := by
  by_contra h
  have h0 : match_count db div L = 0 := by omega
  exact match_count_zero db div L h0 x hx hm


/-! ## Components of time_rate -/

theorem time_rate_bracket_congr (a b : stat_t) (e : entry_t) (h : a.thr = b.thr) :
    time_rate_bracket a e = time_rate_bracket b e := by
  rw [stat_t.thr, stat_t.thr] at h
  simp only [Prod.mk.injEq] at h
  obtain ⟨hp, hg, hs, hb⟩ := h
  rw [time_rate_bracket, time_rate_bracket, hp, hg, hs, hb]

theorem time_rate_rating_congr (ds ds0 : Nat → stat_t) (e : entry_t)
    (h : ∀ d, (ds d).thr = (ds0 d).thr) : time_rate_rating ds e = time_rate_rating ds0 e := by
  rw [time_rate_rating, time_rate_rating, time_rate_normalized, time_rate_normalized,
    time_rate_bracket_congr _ _ e (h e.prov_div.toNat)]

theorem perf_inc_thr (st : stat_t) (k : Nat) : (perf_inc st k).thr = st.thr := by
  rw [perf_inc, stat_t.thr, stat_t.thr]

/-- The entry that `time_rate` leaves in `*e`. -/
theorem time_rate_fst (ev : event_t) (db : Nat → player_t) (ds : Nat → stat_t) (e : entry_t) :
    (time_rate ev db ds e).1 =
      { e with
        rating := time_rate_rating ds e
        hcp_delta :=
          if (player_get db e.player_id).rating > 0 then
            time_rate_rating ds e - (player_get db e.player_id).rating
          else 0 } := by
  rw [time_rate]
  by_cases h1 : (player_get db e.player_id).rating > 0
  · rw [if_pos h1, if_pos h1]
  · rw [if_neg h1, if_neg h1]
    by_cases h2 : ev.week = EVENT_QUALIFIER
    · rw [if_pos h2]
    · rw [if_neg h2]

theorem time_rate_snd_thr (ev : event_t) (db : Nat → player_t) (ds : Nat → stat_t)
    (e : entry_t) (d : Nat) : ((time_rate ev db ds e).2 d).thr = (ds d).thr := by
  rw [time_rate]
  by_cases h1 : (player_get db e.player_id).rating > 0
  · rw [if_pos h1]
    exact thr_update _ _ _ (perf_inc_thr _ _) d
  · rw [if_neg h1]
    by_cases h2 : ev.week = EVENT_QUALIFIER
    · rw [if_pos h2]
      exact thr_update _ _ _ (perf_inc_thr _ _) d
    · rw [if_neg h2]


/-! ## The relation rate_keep -/

theorem rate_keep_refl (e : entry_t) : rate_keep e e :=
  ⟨same_key_refl e, rfl, rfl, rfl, fun _ => rfl, Or.inl rfl⟩

theorem rate_keep_trans {a b c : entry_t} (h1 : rate_keep a b) (h2 : rate_keep b c) :
    rate_keep a c := by
  obtain ⟨k1, r1, c1, o1, q1, t1⟩ := h1
  obtain ⟨k2, r2, c2, o2, q2, t2⟩ := h2
  refine ⟨same_key_trans k1 k2, r2.trans r1, c2.trans c1, o2.trans o1, ?_, ?_⟩
  · intro hq
    have hb : b = a := q1 hq
    have : dq_ok b.dq = false := by rw [hb]; exact hq
    rw [q2 this, hb]
  · rcases t2 with t2 | t2
    · rcases t1 with t1 | t1
      · exact Or.inl (t2.trans t1)
      · exact Or.inr (t2.trans t1)
    · right
      rw [t2, same_key_usec k1]

/-- An entry whose `time` view, place and points are rewritten is related by `rate_keep`. -/
theorem rate_keep_set (e : entry_t) (hq : dq_ok e.dq = true) (q : ℚ)
    (hv : q = (time_to_usec e.time : ℚ) / 1000) (pl pt : Int) :
    rate_keep e { e with time := { e.time with time := q }, place := pl, points := pt } := by
  refine ⟨⟨rfl, rfl, rfl, rfl, rfl, rfl⟩, rfl, rfl, rfl, ?_, Or.inr hv⟩
  intro h
  rw [hq] at h
  cases h


/-! ## Places assigned by rate_division -/

theorem place_points_of_eq (b c : entry_t) (n : Nat)
    (h : c = { ({ b with place := c.place } : entry_t) with
      points := (entry_points { b with place := c.place } n : Int) }) :
    c.points = (entry_points c n : Int) := by
  have hd : c.dq = b.dq := (congrArg entry_t.dq h :)
  have hp : c.points = (entry_points { b with place := c.place } n : Int) :=
    (congrArg entry_t.points h :)
  rw [hp, entry_points_congr { b with place := c.place } c n hd.symm rfl]

theorem rate_div_count_eq (db : Nat → player_t) (div : Nat) (L : List entry_t) (st : stat_t)
    (hl : L.length < 4294967296) :
    (rate_div_mean db div L (rate_div_reset st)).2.count = match_count db div L := by
  rw [rate_div_mean_count db div L _ (by rw [rate_div_reset_count]; norm_num),
    rate_div_reset_count]
  have := match_count_le db div L
  rw [show (((0 : Nat) : Int) + (match_count db div L : Int)) = ((match_count db div L : Nat) : Int)
    by simp]
  exact u32_small _ (by omega)

theorem rate_division_place (sqrt : ℚ → ℚ) (db : Nat → player_t) (L : List entry_t)
    (ds : Nat → stat_t) (os : stat_t) (div : Nat)
    (hs : time_sorted L) (hl : L.length < 4294967296) :
    List.Forall₂ (fun e e' => placed db L [div] e e')
      L (rate_division sqrt db (L, ds, os) div).1 := by
  have hcount := rate_div_count_eq db div L (ds div) hl
  have hM : List.Forall₂ same_key L
      (L.map (fun e =>
          if entry_match db div dq_iter_e.ITER_DQ_OK e = true then
            { e with time := { e.time with time := (time_to_usec e.time : ℚ) / 1000 } }
          else e)) := by
    apply forall2_map_self
    intro a
    by_cases hm : entry_match db div dq_iter_e.ITER_DQ_OK a = true
    · rw [if_pos hm]; exact same_key_time a _
    · rw [if_neg hm]; exact same_key_refl a
  rw [rate_division_fst, hcount, rate_div_mean_list]
  by_cases hc : match_count db div L = 0
  · rw [if_pos hc]
    have hno := match_count_zero db div L hc
    refine List.Forall₂.imp ?_ (forall2_mem_left hM hno)
    intro a b hab d hd hm
    rw [List.mem_singleton.mp hd] at hm
    exact absurd hm hab.2
  · rw [if_neg hc]
    have hsM := time_sorted_key hM hs
    have hrank := rate_div_place_rank db div (match_count db div L) _ [] 1 none 0
      (by rw [List.nil_append]; exact hsM) (by rw [match_count_nil]; rfl) (match_count_nil db div)
    have hframe := rate_div_place_frame db div (match_count db div L)
      (L.map (fun e =>
          if entry_match db div dq_iter_e.ITER_DQ_OK e = true then
            { e with time := { e.time with time := (time_to_usec e.time : ℚ) / 1000 } }
          else e)) 1 none 0
    refine forall2_comp ?_ hM (forall2_and hrank hframe)
    intro a b c hab hbc d hd hm
    rw [List.mem_singleton.mp hd] at hm ⊢
    have hbm : entry_match db div dq_iter_e.ITER_DQ_OK b = true := by
      rw [same_key_match db div dq_iter_e.ITER_DQ_OK hab]; exact hm
    constructor
    · rw [hbc.1 hbm, List.nil_append, faster_count_key db div a b (same_key_usec hab) hM]
    · exact place_points_of_eq b c _ (hbc.2.1 hbm)


/-! ## The division loop of rate_times -/

theorem rate_division_keep (db : Nat → player_t) (div : Nat) (b c : entry_t)
    (h : (entry_match db div dq_iter_e.ITER_DQ_OK b = true →
          c = { b with
            time := { b.time with time := (time_to_usec b.time : ℚ) / 1000 }
            place := c.place
            points := c.points }) ∧
        (¬ entry_match db div dq_iter_e.ITER_DQ_OK b = true → c = b)) :
    rate_keep b c := by
  by_cases hm : entry_match db div dq_iter_e.ITER_DQ_OK b = true
  · have hq := ((entry_match_ok db div b).mp hm).2
    have hc := h.1 hm
    rw [hc]
    exact rate_keep_set b hq _ rfl _ _
  · rw [h.2 hm]
    exact rate_keep_refl b

theorem match_two_divisions (db : Nat → player_t) (d d2 : Nat) (a b : entry_t)
    (hk : same_key a b) (hd : d ≠ 0) (hd2 : d2 ≠ 0) (hne : d2 ≠ d)
    (hm2 : entry_match db d2 dq_iter_e.ITER_DQ_OK a = true) :
    ¬ entry_match db d dq_iter_e.ITER_DQ_OK b = true := by
  intro hm
  have h1 := ((entry_match_ok db d2 a).mp hm2).1
  have h2 := ((entry_match_ok db d b).mp hm).1
  rw [same_key_div db hk] at h2
  rcases h1 with h1 | h1
  · exact hd2 h1
  · rcases h2 with h2 | h2
    · exact hd h2
    · exact hne (h1.symm.trans h2)

theorem rate_fold (sqrt : ℚ → ℚ) (db : Nat → player_t) (L0 : List entry_t) :
    ∀ (dl done : List Nat) (x : List entry_t × (Nat → stat_t) × stat_t),
      dl.Nodup → (∀ d ∈ dl, d ≠ 0 ∧ d ∉ done) → (∀ d ∈ done, d ≠ 0) →
      List.Forall₂ (fun e e' => rate_keep e e' ∧
        (time_sorted L0 → L0.length < 4294967296 → placed db L0 done e e')) L0 x.1 →
      List.Forall₂ (fun e e' => rate_keep e e' ∧
        (time_sorted L0 → L0.length < 4294967296 → placed db L0 (done ++ dl) e e'))
        L0 (dl.foldl (rate_division sqrt db) x).1 ∧
      ∀ d, (((dl.foldl (rate_division sqrt db) x).2.1) d).thr = (x.2.1 d).thr := by
  intro dl
  induction dl with
  | nil =>
    intro done x _ _ _ hinv
    rw [List.append_nil]
    exact ⟨hinv, fun _ => rfl⟩
  | cons d dl ih =>
    intro done x hnd hdl hdone hinv
    obtain ⟨L, ds, os⟩ := x
    rw [List.nodup_cons] at hnd
    have hd0 : d ≠ 0 := (hdl d (List.mem_cons_self _ _)).1
    have hdn : d ∉ done := (hdl d (List.mem_cons_self _ _)).2
    have hkey : List.Forall₂ same_key L0 L := List.Forall₂.imp (fun _ _ h => h.1.1) hinv
    have hlist := rate_division_list sqrt db L ds os d
    have hstep : List.Forall₂ (fun e e' => rate_keep e e' ∧
        (time_sorted L0 → L0.length < 4294967296 → placed db L0 (done ++ [d]) e e'))
        L0 (rate_division sqrt db (L, ds, os) d).1 := by
      by_cases hsl : time_sorted L0 ∧ L0.length < 4294967296
      · have hpl := rate_division_place sqrt db L ds os d (time_sorted_key hkey hsl.1)
          (by rw [← hkey.length_eq]; exact hsl.2)
        refine forall2_comp ?_ hinv (forall2_and hlist hpl)
        intro a b c hab hbc
        have hbc1 := rate_division_keep db d b c hbc.1
        refine ⟨rate_keep_trans hab.1 hbc1, ?_⟩
        intro hs hl d2 hd2 hm
        rcases List.mem_append.mp hd2 with hd2 | hd2
        · have hne : d2 ≠ d := fun h => hdn (h ▸ hd2)
          have hnm := match_two_divisions db d d2 a b hab.1.1 hd0 (hdone d2 hd2) hne hm
          rw [hbc.1.2 hnm]
          exact hab.2 hs hl d2 hd2 hm
        · rw [List.mem_singleton.mp hd2] at hm ⊢
          have hbm : entry_match db d dq_iter_e.ITER_DQ_OK b = true := by
            rw [same_key_match db d dq_iter_e.ITER_DQ_OK hab.1.1]; exact hm
          have := hbc.2 d (List.mem_singleton.mpr rfl) hbm
          rw [faster_count_key db d a b (same_key_usec hab.1.1) hkey,
            match_count_key db d hkey] at this
          exact this
      · refine forall2_comp ?_ hinv hlist
        intro a b c hab hbc
        have hbc1 := rate_division_keep db d b c hbc
        exact ⟨rate_keep_trans hab.1 hbc1, fun hs hl => absurd ⟨hs, hl⟩ hsl⟩
    have hrec := ih (done ++ [d]) (rate_division sqrt db (L, ds, os) d) hnd.2
      (by
        intro d2 hd2
        refine ⟨(hdl d2 (List.mem_cons_of_mem _ hd2)).1, ?_⟩
        intro hmem
        rcases List.mem_append.mp hmem with h | h
        · exact (hdl d2 (List.mem_cons_of_mem _ hd2)).2 h
        · rw [List.mem_singleton.mp h] at hd2
          exact hnd.1 hd2)
      (by
        intro d2 hd2
        rcases List.mem_append.mp hd2 with h | h
        · exact hdone d2 h
        · rw [List.mem_singleton.mp h]; exact hd0)
      hstep
    rw [List.foldl_cons]
    rw [List.append_assoc] at hrec
    refine ⟨hrec.1, fun d' => ?_⟩
    rw [hrec.2 d', rate_division_thr]


/-! ## The overall loop of rate_times -/

theorem time_rate_fst_hcp (ev : event_t) (db : Nat → player_t) (ds : Nat → stat_t)
    (e : entry_t) :
    (time_rate ev db ds e).1 =
      { e with
        rating := time_rate_rating ds e
        hcp_delta := hcp_of db e (time_rate_rating ds e) } := by
  rw [time_rate_fst, hcp_of]

theorem rated_set (db : Nat → player_t) (ds : Nat → stat_t) (e : entry_t)
    (r h : ℚ) (op : Int) (hr : r = time_rate_rating ds e)
    (hh : h = hcp_of db e (time_rate_rating ds e)) (hq : dq_ok e.dq = true) :
    rated db ds e
      { ({ e with rating := r, hcp_delta := h } : entry_t) with overall_place := op } := by
  refine ⟨⟨rfl, rfl, rfl, rfl, rfl, rfl⟩, ?_, fun _ => ⟨hr, hh⟩, Or.inl rfl⟩
  intro hbad
  rw [hq] at hbad
  cases hbad

theorem rated_refl (db : Nat → player_t) (ds : Nat → stat_t) (e : entry_t)
    (hq : dq_ok e.dq = false) : rated db ds e e := by
  refine ⟨same_key_refl e, fun _ => rfl, ?_, Or.inl rfl⟩
  intro h
  rw [hq] at h
  cases h

theorem rate_overall_list (ev : event_t) (db : Nat → player_t) (ds0 : Nat → stat_t) :
    ∀ (L : List entry_t) (i : Int) (prior : Option entry_t) (pp : Int) (ds : Nat → stat_t),
      (∀ d, (ds d).thr = (ds0 d).thr) →
      List.Forall₂ (rated db ds0) L (rate_overall ev db L i prior pp ds).1 ∧
      ∀ d, ((rate_overall ev db L i prior pp ds).2 d).thr = (ds0 d).thr := by
  intro L
  induction L with
  | nil =>
    intro i prior pp ds hds
    simp only [rate_overall]
    exact ⟨List.Forall₂.nil, hds⟩
  | cons cur rest ih =>
    intro i prior pp ds hds
    have hds1 : ∀ d, ((time_rate ev db ds cur).2 d).thr = (ds0 d).thr := by
      intro d; rw [time_rate_snd_thr, hds]
    have hrt : time_rate_rating ds cur = time_rate_rating ds0 cur :=
      time_rate_rating_congr ds ds0 cur hds
    by_cases hm : entry_match db DIV_ALL dq_iter_e.ITER_DQ_OK cur = true
    · have hq : dq_ok cur.dq = true := by rw [← entry_match_all db cur]; exact hm
      have hhead : ∀ op : Int, rated db ds0 cur
          { (time_rate ev db ds cur).1 with overall_place := op } := by
        intro op
        rw [time_rate_fst_hcp, hrt]
        exact rated_set db ds0 cur _ _ op rfl rfl hq
      cases prior with
      | none =>
        simp only [rate_overall, if_pos hm]
        exact ⟨List.Forall₂.cons (hhead _) (ih _ _ _ _ hds1).1, (ih _ _ _ _ hds1).2⟩
      | some p =>
        by_cases htc : time_compare cur p = 0
        · simp only [rate_overall, if_pos hm, if_pos htc]
          exact ⟨List.Forall₂.cons (hhead _) (ih _ _ _ _ hds1).1, (ih _ _ _ _ hds1).2⟩
        · simp only [rate_overall, if_pos hm, if_neg htc]
          exact ⟨List.Forall₂.cons (hhead _) (ih _ _ _ _ hds1).1, (ih _ _ _ _ hds1).2⟩
    · have hq : dq_ok cur.dq = false := by
        rw [← entry_match_all db cur]
        cases h : entry_match db DIV_ALL dq_iter_e.ITER_DQ_OK cur
        · rfl
        · exact absurd h hm
      simp only [rate_overall, if_neg hm]
      exact ⟨List.Forall₂.cons (rated_refl db ds0 cur hq) (ih _ _ _ _ hds).1, (ih _ _ _ _ hds).2⟩


/-! ## List effect of rate_times -/

theorem rate_times_ov (sqrt : ℚ → ℚ) (s : state) :
    (rate_times sqrt s).ov =
      ((List.range' 1 DIV_COUNT).foldl (rate_division sqrt s.player_db)
        ((rate_overall s.g_event s.player_db s.ov 1 none 0 s.div_stat).1,
          (rate_overall s.g_event s.player_db s.ov 1 none 0 s.div_stat).2, s.ostat)).1 := by
  rw [rate_times]

theorem rate_times_div_stat (sqrt : ℚ → ℚ) (s : state) :
    (rate_times sqrt s).div_stat =
      ((List.range' 1 DIV_COUNT).foldl (rate_division sqrt s.player_db)
        ((rate_overall s.g_event s.player_db s.ov 1 none 0 s.div_stat).1,
          (rate_overall s.g_event s.player_db s.ov 1 none 0 s.div_stat).2, s.ostat)).2.1 := by
  rw [rate_times]

theorem rate_times_frame (sqrt : ℚ → ℚ) (s : state) :
    (rate_times sqrt s).g_event = s.g_event ∧
    (rate_times sqrt s).custom_trophy_adjust = s.custom_trophy_adjust ∧
    (rate_times sqrt s).player_db = s.player_db := by
  rw [rate_times]
  exact ⟨rfl, rfl, rfl⟩

theorem divisions_nodup : (List.range' 1 DIV_COUNT).Nodup := List.nodup_range' 1 DIV_COUNT

theorem divisions_mem (d : Nat) : d ∈ List.range' 1 DIV_COUNT ↔ 1 ≤ d ∧ d ≤ DIV_COUNT := by
  rw [List.mem_range'_1, DIV_COUNT]
  omega

theorem rate_times_list (sqrt : ℚ → ℚ) (s : state) :
    List.Forall₂ (fun e e' => rated s.player_db s.div_stat e e' ∧
      (time_sorted s.ov → s.ov.length < 4294967296 →
        placed s.player_db s.ov (List.range' 1 DIV_COUNT) e e'))
      s.ov (rate_times sqrt s).ov := by
  have h1 := (rate_overall_list s.g_event s.player_db s.div_stat s.ov 1 none 0 s.div_stat
    (fun _ => rfl)).1
  have hk1 : List.Forall₂ same_key s.ov
      (rate_overall s.g_event s.player_db s.ov 1 none 0 s.div_stat).1 :=
    List.Forall₂.imp (fun _ _ h => h.1) h1
  have hinit : List.Forall₂ (fun e e' => rate_keep e e' ∧
      (time_sorted (rate_overall s.g_event s.player_db s.ov 1 none 0 s.div_stat).1 →
        (rate_overall s.g_event s.player_db s.ov 1 none 0 s.div_stat).1.length < 4294967296 →
        placed s.player_db (rate_overall s.g_event s.player_db s.ov 1 none 0 s.div_stat).1 []
          e e'))
      (rate_overall s.g_event s.player_db s.ov 1 none 0 s.div_stat).1
      (rate_overall s.g_event s.player_db s.ov 1 none 0 s.div_stat).1 := by
    apply List.forall₂_same.mpr
    intro x _
    exact ⟨rate_keep_refl x, fun _ _ d hd => by cases hd⟩
  have h2 := (rate_fold sqrt s.player_db
    (rate_overall s.g_event s.player_db s.ov 1 none 0 s.div_stat).1
    (List.range' 1 DIV_COUNT) []
    ((rate_overall s.g_event s.player_db s.ov 1 none 0 s.div_stat).1,
      (rate_overall s.g_event s.player_db s.ov 1 none 0 s.div_stat).2, s.ostat)
    divisions_nodup
    (fun d hd => ⟨by have := (divisions_mem d).mp hd; omega, by intro h; cases h⟩)
    (fun d hd => by cases hd) hinit).1
  rw [List.nil_append] at h2
  rw [rate_times_ov]
  refine forall2_comp ?_ h1 h2
  intro a b c hab hbc
  obtain ⟨k1, q1, r1, t1⟩ := hab
  obtain ⟨⟨k2, r2, c2, o2, q2, t2⟩, hpl⟩ := hbc
  refine ⟨⟨same_key_trans k1 k2, ?_, ?_, ?_⟩, ?_⟩
  · intro hq
    have hb : b = a := q1 hq
    have : dq_ok b.dq = false := by rw [hb]; exact hq
    rw [q2 this, hb]
  · intro hq
    rw [r2, c2]
    exact r1 hq
  · rcases t2 with t2 | t2
    · rcases t1 with t1 | t1
      · exact Or.inl (t2.trans t1)
      · exact Or.inr (t2.trans t1)
    · right
      rw [t2, same_key_usec k1]
  · intro hs hl d hd hm
    have hbm : entry_match s.player_db d dq_iter_e.ITER_DQ_OK b = true := by
      rw [same_key_match s.player_db d dq_iter_e.ITER_DQ_OK k1]; exact hm
    have := hpl (time_sorted_key hk1 hs) (by rw [← hk1.length_eq]; exact hl) d hd hbm
    rw [faster_count_key s.player_db d a b (same_key_usec k1) hk1,
      match_count_key s.player_db d hk1] at this
    exact this

theorem rate_times_thr (sqrt : ℚ → ℚ) (s : state) (d : Nat) :
    ((rate_times sqrt s).div_stat d).thr = (s.div_stat d).thr := by
  have h1 := (rate_overall_list s.g_event s.player_db s.div_stat s.ov 1 none 0 s.div_stat
    (fun _ => rfl)).2
  rw [rate_times_div_stat]
  have h2 := (rate_fold sqrt s.player_db
    (rate_overall s.g_event s.player_db s.ov 1 none 0 s.div_stat).1
    (List.range' 1 DIV_COUNT) []
    ((rate_overall s.g_event s.player_db s.ov 1 none 0 s.div_stat).1,
      (rate_overall s.g_event s.player_db s.ov 1 none 0 s.div_stat).2, s.ostat)
    divisions_nodup
    (fun d hd => ⟨by have := (divisions_mem d).mp hd; omega, by intro h; cases h⟩)
    (fun d hd => by cases hd)
    (List.forall₂_same.mpr (fun x _ => ⟨rate_keep_refl x, fun _ _ d hd => by cases hd⟩))).2
  rw [h2 d]
  exact h1 d


/-! ## C5: disqualified entries -/

theorem dq_ok_false_of_ne (dq : dq_reason_e) (h1 : dq ≠ dq_reason_e.DQ_OK)
    (h2 : dq ≠ dq_reason_e.DQ_SUBMITTED) (h3 : dq ≠ dq_reason_e.DQ_VERIFIED) :
    dq_ok dq = false := by
  cases dq <;> first | rfl | exact absurd rfl h1 | exact absurd rfl h2 | exact absurd rfl h3

theorem rate_times_length (sqrt : ℚ → ℚ) (s : state) :
    (rate_times sqrt s).ov.length = s.ov.length :=
  (rate_times_list sqrt s).length_eq.symm

theorem rate_times_get (sqrt : ℚ → ℚ) (s : state) (i : Nat) (h : i < s.ov.length)
    (h' : i < (rate_times sqrt s).ov.length) :
    rated s.player_db s.div_stat (s.ov.get ⟨i, h⟩) ((rate_times sqrt s).ov.get ⟨i, h'⟩) ∧
      (time_sorted s.ov → s.ov.length < 4294967296 →
        placed s.player_db s.ov (List.range' 1 DIV_COUNT) (s.ov.get ⟨i, h⟩)
          ((rate_times sqrt s).ov.get ⟨i, h'⟩)) :=
  (List.forall₂_iff_get.mp (rate_times_list sqrt s)).2 i h h'

/-- C5: `entry_points` returns 0 for every entry whose status is not OK, SUBMITTED or
VERIFIED, whatever its place and the racer count; and `rate_times` keeps the length of the
entry list and leaves every such entry unchanged, so that a disqualified entry with
`place = 0` and `points = 0` before `rate_times` has `place = 0` and `points = 0` after. -/
theorem dq_entry_no_points (sqrt : ℚ → ℚ) (s : state) :
    (∀ (entry : entry_t) (racers : Nat),
      entry.dq ≠ dq_reason_e.DQ_OK → entry.dq ≠ dq_reason_e.DQ_SUBMITTED →
      entry.dq ≠ dq_reason_e.DQ_VERIFIED → entry_points entry racers = 0) ∧
    (rate_times sqrt s).ov.length = s.ov.length ∧
    (∀ (i : Nat) (h : i < s.ov.length) (h' : i < (rate_times sqrt s).ov.length),
      (s.ov.get ⟨i, h⟩).dq ≠ dq_reason_e.DQ_OK →
      (s.ov.get ⟨i, h⟩).dq ≠ dq_reason_e.DQ_SUBMITTED →
      (s.ov.get ⟨i, h⟩).dq ≠ dq_reason_e.DQ_VERIFIED →
      (rate_times sqrt s).ov.get ⟨i, h'⟩ = s.ov.get ⟨i, h⟩ ∧
      ((s.ov.get ⟨i, h⟩).place = 0 → (s.ov.get ⟨i, h⟩).points = 0 →
        ((rate_times sqrt s).ov.get ⟨i, h'⟩).place = 0 ∧
        ((rate_times sqrt s).ov.get ⟨i, h'⟩).points = 0)) := by
  refine ⟨?_, rate_times_length sqrt s, ?_⟩
  · intro entry racers h1 h2 h3
    exact entry_points_dq entry racers (dq_ok_false_of_ne _ h1 h2 h3)
  · intro i h h' h1 h2 h3
    have hq := dq_ok_false_of_ne _ h1 h2 h3
    have heq := (rate_times_get sqrt s i h h').1.2.1 hq
    refine ⟨heq, ?_⟩
    intro hp hpt
    rw [heq]
    exact ⟨hp, hpt⟩


/-! ## C4: places and points within a division -/

theorem entry_points_congr_ok (a b : entry_t) (n : Nat) (h1 : dq_ok a.dq = dq_ok b.dq)
    (h2 : a.place = b.place) : entry_points a n = entry_points b n := by
  rw [entry_points, entry_points, h1, h2]

theorem entry_match_div (db : Nat → player_t) (div : Nat) (hdiv : div ≠ 0) (x : entry_t) :
    entry_match db div dq_iter_e.ITER_DQ_OK x =
      (dq_ok x.dq && decide (entry_div db x = div)) := by
  cases hm : entry_match db div dq_iter_e.ITER_DQ_OK x
  · symm
    rw [Bool.and_eq_false_iff]
    by_contra hc
    push_neg at hc
    have h1 : dq_ok x.dq = true := by
      cases h : dq_ok x.dq
      · exact absurd h hc.1
      · rfl
    have h2 : entry_div db x = div := by
      by_contra h
      exact hc.2 (decide_eq_false h)
    have := (entry_match_ok db div x).mpr ⟨Or.inr h2, h1⟩
    rw [hm] at this
    cases this
  · have := (entry_match_ok db div x).mp hm
    symm
    rw [Bool.and_eq_true, decide_eq_true_eq]
    refine ⟨this.2, ?_⟩
    rcases this.1 with h | h
    · exact absurd h hdiv
    · exact h

theorem faster_count_filter (db : Nat → player_t) (div : Nat) (hdiv : div ≠ 0)
    (l : List entry_t) (e : entry_t) :
    faster_count db div l e =
      (l.filter (fun x => dq_ok x.dq && decide (entry_div db x = div) &&
        decide (time_to_usec x.time < time_to_usec e.time))).length := by
  rw [faster_count]
  congr 1
  apply List.filter_congr
  intro x _
  rw [entry_match_div db div hdiv x]

/-- C4: after `rate_times` on an entry list sorted by ascending time (with at most
`MAX_RACERS` entries), every non-disqualified entry of a division `div` in `1..DIV_COUNT`
keeps its status, division and time, and its place is one plus the number of
non-disqualified entries of the same division with a strictly smaller time; entries of the
division with equal times have the same place and the same points. -/
theorem rate_times_place (sqrt : ℚ → ℚ) (s : state) (hs : time_sorted s.ov)
    (hl : s.ov.length ≤ MAX_RACERS) (div : Nat) (h1 : 1 ≤ div) (h2 : div ≤ DIV_COUNT)
    (i : Nat) (hi : i < s.ov.length) (hi' : i < (rate_times sqrt s).ov.length)
    (hq : dq_ok (s.ov.get ⟨i, hi⟩).dq = true)
    (hd : entry_div s.player_db (s.ov.get ⟨i, hi⟩) = div) :
    ((rate_times sqrt s).ov.get ⟨i, hi'⟩).dq = (s.ov.get ⟨i, hi⟩).dq ∧
    entry_div s.player_db ((rate_times sqrt s).ov.get ⟨i, hi'⟩) = div ∧
    time_to_usec ((rate_times sqrt s).ov.get ⟨i, hi'⟩).time =
      time_to_usec (s.ov.get ⟨i, hi⟩).time ∧
    ((rate_times sqrt s).ov.get ⟨i, hi'⟩).place =
      1 + (((rate_times sqrt s).ov.filter (fun x =>
        dq_ok x.dq && decide (entry_div s.player_db x = div) &&
        decide (time_to_usec x.time <
          time_to_usec ((rate_times sqrt s).ov.get ⟨i, hi'⟩).time))).length : Int) ∧
    ∀ (j : Nat) (hj : j < (rate_times sqrt s).ov.length),
      dq_ok ((rate_times sqrt s).ov.get ⟨j, hj⟩).dq = true →
      entry_div s.player_db ((rate_times sqrt s).ov.get ⟨j, hj⟩) = div →
      time_to_usec ((rate_times sqrt s).ov.get ⟨j, hj⟩).time =
        time_to_usec ((rate_times sqrt s).ov.get ⟨i, hi'⟩).time →
      ((rate_times sqrt s).ov.get ⟨j, hj⟩).place =
        ((rate_times sqrt s).ov.get ⟨i, hi'⟩).place ∧
      ((rate_times sqrt s).ov.get ⟨j, hj⟩).points =
        ((rate_times sqrt s).ov.get ⟨i, hi'⟩).points := by
  have hdiv : div ≠ 0 := by omega
  have hlen : s.ov.length < 4294967296 := by
    have : MAX_RACERS = 2048 := rfl
    omega
  have hmem : div ∈ List.range' 1 DIV_COUNT := (divisions_mem div).mpr ⟨h1, h2⟩
  have hall := rate_times_list sqrt s
  have hkey : List.Forall₂ same_key s.ov (rate_times sqrt s).ov :=
    List.Forall₂.imp (fun _ _ h => h.1.1) hall
  -- facts about any index of the division
  have hidx : ∀ (k : Nat) (hk : k < s.ov.length) (hk' : k < (rate_times sqrt s).ov.length),
      dq_ok ((rate_times sqrt s).ov.get ⟨k, hk'⟩).dq = true →
      entry_div s.player_db ((rate_times sqrt s).ov.get ⟨k, hk'⟩) = div →
      ((rate_times sqrt s).ov.get ⟨k, hk'⟩).place =
        1 + (faster_count s.player_db div (rate_times sqrt s).ov
          ((rate_times sqrt s).ov.get ⟨k, hk'⟩) : Int) ∧
      ((rate_times sqrt s).ov.get ⟨k, hk'⟩).points =
        (entry_points ((rate_times sqrt s).ov.get ⟨k, hk'⟩)
          (match_count s.player_db div s.ov) : Int) := by
    intro k hk hk' hkq hkd
    have hg := rate_times_get sqrt s k hk hk'
    have hsk := hg.1.1
    have hm' : entry_match s.player_db div dq_iter_e.ITER_DQ_OK
        ((rate_times sqrt s).ov.get ⟨k, hk'⟩) = true :=
      (entry_match_ok s.player_db div _).mpr ⟨Or.inr hkd, hkq⟩
    have hm : entry_match s.player_db div dq_iter_e.ITER_DQ_OK (s.ov.get ⟨k, hk⟩) = true := by
      rw [← same_key_match s.player_db div dq_iter_e.ITER_DQ_OK hsk]; exact hm'
    have hp := hg.2 hs hlen div hmem hm
    rw [← faster_count_key s.player_db div _ _ (same_key_usec hsk) hkey] at hp
    exact hp
  have hg := rate_times_get sqrt s i hi hi'
  have hsk := hg.1.1
  have hq' : dq_ok ((rate_times sqrt s).ov.get ⟨i, hi'⟩).dq = true := by
    rw [hsk.2.1]; exact hq
  have hd' : entry_div s.player_db ((rate_times sqrt s).ov.get ⟨i, hi'⟩) = div := by
    rw [same_key_div s.player_db hsk]; exact hd
  have hmain := hidx i hi hi' hq' hd'
  refine ⟨hsk.2.1, hd', same_key_usec hsk, ?_, ?_⟩
  · rw [hmain.1, faster_count_filter s.player_db div hdiv]
  · intro j hj hjq hjd hjt
    have hj0 : j < s.ov.length := by rw [← rate_times_length sqrt s]; exact hj
    have hjm := hidx j hj0 hj hjq hjd
    constructor
    · rw [hjm.1, hmain.1, faster_count_congr s.player_db div _ _ _ hjt]
    · have hpe := entry_points_congr_ok ((rate_times sqrt s).ov.get ⟨j, hj⟩)
        ((rate_times sqrt s).ov.get ⟨i, hi'⟩) (match_count s.player_db div s.ov)
        (by rw [hjq, hq'])
        (by rw [hjm.1, hmain.1, faster_count_congr s.player_db div _ _ _ hjt])
      rw [hjm.2, hmain.2, hpe]


/-! ## C4: witness -/

theorem placing_state_ov : placing_state.ov = [entry_on_par, entry_silver] := rfl

theorem placing_state_db : placing_state.player_db = fun _ => zero_player := rfl

theorem placing_state_sorted : time_sorted placing_state.ov := by
  have h1 : time_to_usec entry_on_par.time = 58000 :=
    time_to_usec_entry_at 1 dq_reason_e.DQ_OK 0 58 0 (by norm_num)
  have h2 : time_to_usec entry_silver.time = 58500 :=
    time_to_usec_entry_at 1 dq_reason_e.DQ_OK 0 58 500 (by norm_num)
  rw [placing_state_ov, time_sorted]
  refine List.Pairwise.cons ?_ (List.Pairwise.cons ?_ List.Pairwise.nil)
  · intro y hy
    rw [List.mem_singleton.mp hy, h1, h2]
    norm_num
  · intro y hy
    cases hy

theorem u32_one : u32 1 = 1 := by
  unfold u32; decide

theorem placing_state_div : entry_div placing_state.player_db entry_on_par = 1 := by
  have hp : player_div placing_state.player_db entry_on_par.player_id = 0 := by
    rw [player_div, player_get, placing_state_db]
    by_cases h : entry_on_par.player_id ≥ MAX_PLAYERS
    · rw [if_pos h]; rfl
    · rw [if_neg h]; rfl
  have hd : entry_on_par.prov_div = 1 := rfl
  rw [entry_div, hp, hd]
  exact u32_one

/-- C4, witness: in `placing_state` the list is sorted, and the first entry (valid, of
division 1) gets the place one plus the number of faster entries of its division. -/
theorem rate_times_place_witness :
    time_sorted placing_state.ov ∧
    ∃ h : 0 < (rate_times sqrt_milli placing_state).ov.length,
      ((rate_times sqrt_milli placing_state).ov.get ⟨0, h⟩).place =
        1 + (((rate_times sqrt_milli placing_state).ov.filter (fun x =>
          dq_ok x.dq && decide (entry_div placing_state.player_db x = 1) &&
          decide (time_to_usec x.time <
            time_to_usec ((rate_times sqrt_milli placing_state).ov.get ⟨0, h⟩).time))).length
          : Int) :=
  ⟨placing_state_sorted,
    ⟨by rw [rate_times_length]; decide,
      (rate_times_place sqrt_milli placing_state placing_state_sorted (by decide) 1
        (by decide) (by decide) 0 (by decide) (by rw [rate_times_length]; decide) rfl
        placing_state_div).2.2.2.1⟩⟩


/-! ## Provisional divisions assigned by calculate_par -/

theorem bronze_update (ds : Nat → stat_t) (k : Nat) (v : stat_t) (h : v.thr = (ds k).thr)
    (d : Nat) : ((Function.update ds k v) d).bronze = (ds d).bronze := by
  have := thr_update ds k v h d
  rw [stat_t.thr, stat_t.thr] at this
  simp only [Prod.mk.injEq] at this
  exact this.2.2.2

theorem par_quality_mean_frame (db : Nat → player_t) (L : List entry_t) :
    ∀ (div q : Nat) (ds : Nat → stat_t),
      List.Forall₂
        (fun e e' => e' = { e with prov_div := e'.prov_div } ∧ (dq_ok e.dq = false → e' = e))
        L (par_quality_mean db L div q ds).1 := by
  induction L with
  | nil => intro div q ds; simp only [par_quality_mean]; exact List.Forall₂.nil
  | cons cur rest ih =>
    intro div q ds
    have hsame : List.Forall₂
        (fun e e' => e' = { e with prov_div := e'.prov_div } ∧ (dq_ok e.dq = false → e' = e))
        rest rest := List.forall₂_same.mpr (fun x _ => ⟨rfl, fun _ => rfl⟩)
    by_cases hm : entry_match db DIV_ALL dq_iter_e.ITER_DQ_OK cur = true
    · have hq : dq_ok cur.dq = true := by rw [← entry_match_all db cur]; exact hm
      have hhead : ∀ p : Int, ({ cur with prov_div := p } : entry_t) =
            { cur with prov_div := ({ cur with prov_div := p } : entry_t).prov_div } ∧
          (dq_ok cur.dq = false → ({ cur with prov_div := p } : entry_t) = cur) := by
        intro p
        refine ⟨rfl, fun h => ?_⟩
        rw [hq] at h
        cases h
      by_cases hb : time_to_usec cur.time ≥ time_to_usec (ds div).bronze
      · by_cases hd : div + 1 ≥ DIV_COUNT
        · simp only [par_quality_mean, if_pos hm, if_pos hb, if_pos hd]
          exact List.Forall₂.cons ⟨rfl, fun _ => rfl⟩ hsame
        · simp only [par_quality_mean, if_pos hm, if_pos hb, if_neg hd]
          exact List.Forall₂.cons (hhead _) (ih _ _ _)
      · simp only [par_quality_mean, if_pos hm, if_neg hb]
        exact List.Forall₂.cons (hhead _) (ih _ _ _)
    · simp only [par_quality_mean, if_neg hm]
      exact List.Forall₂.cons ⟨rfl, fun _ => rfl⟩ (ih _ _ _)

theorem par_quality_mean_fix (db db' : Nat → player_t) (L : List entry_t) :
    ∀ (M : List entry_t) (div q q' : Nat) (ds ds' : Nat → stat_t),
      (∀ d, (ds' d).bronze = (ds d).bronze) →
      List.Forall₂
        (fun a b => b.dq = a.dq ∧ time_to_usec b.time = time_to_usec a.time ∧
          b.prov_div = a.prov_div)
        (par_quality_mean db L div q ds).1 M →
      (par_quality_mean db' M div q' ds').1 = M := by
  induction L with
  | nil =>
    intro M div q q' ds ds' _ h
    simp only [par_quality_mean] at h
    cases h
    simp only [par_quality_mean]
  | cons cur rest ih =>
    intro M div q q' ds ds' hbr h
    have hmatch : ∀ m : entry_t, m.dq = cur.dq →
        entry_match db' DIV_ALL dq_iter_e.ITER_DQ_OK m =
          entry_match db DIV_ALL dq_iter_e.ITER_DQ_OK cur := by
      intro m hm
      rw [entry_match_all, entry_match_all, hm]
    by_cases hm : entry_match db DIV_ALL dq_iter_e.ITER_DQ_OK cur = true
    · by_cases hb : time_to_usec cur.time ≥ time_to_usec (ds div).bronze
      · by_cases hd : div + 1 ≥ DIV_COUNT
        · simp only [par_quality_mean, if_pos hm, if_pos hb, if_pos hd] at h
          cases h with
          | @cons _ m _ M' hmr _ =>
            have hm' : entry_match db' DIV_ALL dq_iter_e.ITER_DQ_OK m = true := by
              rw [hmatch m hmr.1]; exact hm
            have hb' : time_to_usec m.time ≥ time_to_usec (ds' div).bronze := by
              rw [hmr.2.1, hbr]; exact hb
            simp only [par_quality_mean, if_pos hm', if_pos hb', if_pos hd]
        · simp only [par_quality_mean, if_pos hm, if_pos hb, if_neg hd] at h
          cases h with
          | @cons _ m _ M' hmr htl =>
            have hm' : entry_match db' DIV_ALL dq_iter_e.ITER_DQ_OK m = true := by
              rw [hmatch m hmr.1]; exact hm
            have hb' : time_to_usec m.time ≥ time_to_usec (ds' div).bronze := by
              rw [hmr.2.1, hbr]; exact hb
            have hp : m.prov_div = ((div + 1 : Nat) : Int) := hmr.2.2
            simp only [par_quality_mean, if_pos hm', if_pos hb', if_neg hd]
            rw [ih M' (div + 1) 1 1 _ _ (fun d => ?_) htl, ← hp]
            · rw [bronze_update _ _ _ (par_add_mean_thr _ _),
                bronze_update _ _ _ (par_reset_mean_thr _),
                bronze_update _ _ _ (par_close_mean_thr _ _), hbr,
                bronze_update _ _ _ (par_add_mean_thr _ _),
                bronze_update _ _ _ (par_reset_mean_thr _),
                bronze_update _ _ _ (par_close_mean_thr _ _)]
      · simp only [par_quality_mean, if_pos hm, if_neg hb] at h
        cases h with
        | @cons _ m _ M' hmr htl =>
          have hm' : entry_match db' DIV_ALL dq_iter_e.ITER_DQ_OK m = true := by
            rw [hmatch m hmr.1]; exact hm
          have hb' : ¬ time_to_usec m.time ≥ time_to_usec (ds' div).bronze := by
            rw [hmr.2.1, hbr]; exact hb
          have hp : m.prov_div = (div : Int) := hmr.2.2
          simp only [par_quality_mean, if_pos hm', if_neg hb']
          rw [ih M' div (q + 1) (q' + 1) _ _ (fun d => ?_) htl, ← hp]
          · rw [bronze_update _ _ _ (par_add_mean_thr _ _), hbr,
              bronze_update _ _ _ (par_add_mean_thr _ _)]
    · simp only [par_quality_mean, if_neg hm] at h
      cases h with
      | @cons _ m _ M' hmr htl =>
        have hm' : ¬ entry_match db' DIV_ALL dq_iter_e.ITER_DQ_OK m = true := by
          rw [hmatch m hmr.1]; exact hm
        have hrec := ih M' div q q' ds ds' hbr htl
        simp only [par_quality_mean, if_neg hm']
        rw [hrec]


/-! ## Fields kept by calculate_par and rate_times -/

theorem calculate_par_ov (sqrt : ℚ → ℚ) (s : state) :
    (calculate_par sqrt s).ov =
      (par_quality_mean s.player_db s.ov 1 0
        (Function.update (calculate_par_thresholds s) 1
          (par_reset_mean (calculate_par_thresholds s 1)))).1 := by
  rw [calculate_par]

theorem calculate_par_frame (sqrt : ℚ → ℚ) (s : state) :
    (calculate_par sqrt s).g_event = s.g_event ∧
    (calculate_par sqrt s).custom_trophy_adjust = s.custom_trophy_adjust ∧
    (calculate_par sqrt s).player_db = s.player_db ∧
    (calculate_par sqrt s).ostat = s.ostat := by
  rw [calculate_par]
  exact ⟨rfl, rfl, rfl, rfl⟩

theorem calculate_par_div_congr (s s' : state) (d : Nat) (st st' : stat_t)
    (he : s'.g_event = s.g_event) (hc : s'.custom_trophy_adjust = s.custom_trophy_adjust)
    (hm : s'.ostat.q_mean = s.ostat.q_mean) (hq : s'.ostat.q_std_dev = s.ostat.q_std_dev) :
    (calculate_par_div s' d st').thr = (calculate_par_div s d st).thr := by
  have h1 : par_base_time s' = par_base_time s := by
    rw [par_base_time, par_base_time, he, hm, hq]
  have h2 : par_inc s' = par_inc s := by
    rw [par_inc, par_inc, he, hq]
  have h3 : parXlo s' d = parXlo s d := by
    rw [parXlo, parXlo, he]
  have h4 : parXhi s' d = parXhi s d := by
    rw [parXhi, parXhi, he]
  have h5 : par_of s' d = par_of s d := by
    rw [par_of, par_of, h1, h2, h3]
  have h6 : bronze_time s' d = bronze_time s d := by
    rw [bronze_time, bronze_time, h1, h2, h4]
  have h7 : par_span s' d = par_span s d := by
    rw [par_span, par_span, h5, h6]
  have h8 : gold_time s' d = gold_time s d := by
    rw [gold_time, gold_time, h5, h7, he, hc]
  have h9 : silver_time s' d = silver_time s d := by
    rw [silver_time, silver_time, h5, h7, he, hc]
  rw [calculate_par_div, calculate_par_div, stat_t.thr, stat_t.thr, h5, h6, h8, h9]

theorem stat_set_hcp_q (o : stat_t) (q : ℚ) :
    ({ o with hcp_delta := q } : stat_t).q_mean = o.q_mean ∧
    ({ o with hcp_delta := q } : stat_t).q_std_dev = o.q_std_dev :=
  ⟨rfl, rfl⟩

theorem rate_division_ostat (sqrt : ℚ → ℚ) (db : Nat → player_t)
    (x : List entry_t × (Nat → stat_t) × stat_t) (div : Nat) :
    (rate_division sqrt db x div).2.2.q_mean = x.2.2.q_mean ∧
    (rate_division sqrt db x div).2.2.q_std_dev = x.2.2.q_std_dev := by
  rw [rate_division]
  by_cases hc : (rate_div_mean db div x.1 (rate_div_reset (x.2.1 div))).2.count = 0
  · rw [if_pos hc]
    exact ⟨rfl, rfl⟩
  · rw [if_neg hc]
    exact stat_set_hcp_q _ _

theorem rate_fold_ostat (sqrt : ℚ → ℚ) (db : Nat → player_t) :
    ∀ (dl : List Nat) (x : List entry_t × (Nat → stat_t) × stat_t),
      (dl.foldl (rate_division sqrt db) x).2.2.q_mean = x.2.2.q_mean ∧
      (dl.foldl (rate_division sqrt db) x).2.2.q_std_dev = x.2.2.q_std_dev := by
  intro dl
  induction dl with
  | nil => intro x; exact ⟨rfl, rfl⟩
  | cons d dl ih =>
    intro x
    rw [List.foldl_cons, (ih _).1, (ih _).2]
    exact rate_division_ostat sqrt db x d

theorem rate_times_ostat_eq (sqrt : ℚ → ℚ) (s : state) :
    (rate_times sqrt s).ostat =
      { ((List.range' 1 DIV_COUNT).foldl (rate_division sqrt s.player_db)
          ((rate_overall s.g_event s.player_db s.ov 1 none 0 s.div_stat).1,
            (rate_overall s.g_event s.player_db s.ov 1 none 0 s.div_stat).2, s.ostat)).2.2 with
        hcp_delta :=
          ((List.range' 1 DIV_COUNT).foldl (rate_division sqrt s.player_db)
            ((rate_overall s.g_event s.player_db s.ov 1 none 0 s.div_stat).1,
              (rate_overall s.g_event s.player_db s.ov 1 none 0 s.div_stat).2,
              s.ostat)).2.2.hcp_delta /
          (((List.range' 1 DIV_COUNT).foldl (rate_division sqrt s.player_db)
            ((rate_overall s.g_event s.player_db s.ov 1 none 0 s.div_stat).1,
              (rate_overall s.g_event s.player_db s.ov 1 none 0 s.div_stat).2,
              s.ostat)).2.2.count : ℚ) } := by
  rw [rate_times]

theorem rate_times_ostat (sqrt : ℚ → ℚ) (s : state) :
    (rate_times sqrt s).ostat.q_mean = s.ostat.q_mean ∧
    (rate_times sqrt s).ostat.q_std_dev = s.ostat.q_std_dev := by
  have h := rate_fold_ostat sqrt s.player_db (List.range' 1 DIV_COUNT)
    ((rate_overall s.g_event s.player_db s.ov 1 none 0 s.div_stat).1,
      (rate_overall s.g_event s.player_db s.ov 1 none 0 s.div_stat).2, s.ostat)
  rw [rate_times_ostat_eq]
  exact ⟨(stat_set_hcp_q _ _).1.trans h.1, (stat_set_hcp_q _ _).2.trans h.2⟩

theorem time_rate_rating_entry (ds : Nat → stat_t) (a b : entry_t)
    (h1 : b.prov_div = a.prov_div) (h2 : time_to_usec b.time = time_to_usec a.time)
    (h3 : b.time.time = a.time.time) : time_rate_rating ds b = time_rate_rating ds a := by
  have hb : ∀ st, time_rate_bracket st b = time_rate_bracket st a := by
    intro st
    rw [time_rate_bracket, time_rate_bracket, h1, h2]
  rw [time_rate_rating, time_rate_rating, time_rate_normalized, time_rate_normalized, h1, hb, h3]

theorem hcp_of_entry (db : Nat → player_t) (a b : entry_t) (r : ℚ)
    (h : b.player_id = a.player_id) : hcp_of db b r = hcp_of db a r := by
  rw [hcp_of, hcp_of, h]

/-- The thresholds of every division after `calculate_par; rate_times`. -/
theorem par_rate_thr (sqrt : ℚ → ℚ) (s : state) (d : Nat) :
    ((rate_times sqrt (calculate_par sqrt s)).div_stat d).thr =
      if 1 ≤ d ∧ d ≤ DIV_COUNT then (calculate_par_div s d (s.div_stat d)).thr
      else (s.div_stat d).thr := by
  rw [rate_times_thr, calculate_par_thr, calculate_par_thresholds_eq]
  by_cases h : 1 ≤ d ∧ d ≤ DIV_COUNT
  · rw [if_pos h, if_pos h]
  · rw [if_neg h, if_neg h]


/-! ## A second run of calculate_par and rate_times -/

theorem forall2_chain {α β γ : Type} {R : α → β → Prop} {S : β → γ → Prop} {T : β → γ → Prop}
    (h : ∀ a b c, R a b → S b c → T b c) :
    ∀ {l : List α} {m : List β} {n : List γ}, List.Forall₂ R l m → List.Forall₂ S m n →
      List.Forall₂ T m n
  | [], [], [], _, _ => List.Forall₂.nil
  | _ :: _, _ :: _, _ :: _, List.Forall₂.cons h1 t1, List.Forall₂.cons h2 t2 =>
    List.Forall₂.cons (h _ _ _ h1 h2) (forall2_chain h t1 t2)

theorem par_rate_frame (sqrt : ℚ → ℚ) (s : state) :
    (rate_times sqrt (calculate_par sqrt s)).g_event = s.g_event ∧
    (rate_times sqrt (calculate_par sqrt s)).custom_trophy_adjust = s.custom_trophy_adjust ∧
    (rate_times sqrt (calculate_par sqrt s)).player_db = s.player_db ∧
    (rate_times sqrt (calculate_par sqrt s)).ostat.q_mean = s.ostat.q_mean ∧
    (rate_times sqrt (calculate_par sqrt s)).ostat.q_std_dev = s.ostat.q_std_dev := by
  obtain ⟨a1, a2, a3⟩ := rate_times_frame sqrt (calculate_par sqrt s)
  obtain ⟨b1, b2, b3, b4⟩ := calculate_par_frame sqrt s
  obtain ⟨c1, c2⟩ := rate_times_ostat sqrt (calculate_par sqrt s)
  exact ⟨a1.trans b1, a2.trans b2, a3.trans b3, c1.trans (by rw [b4]), c2.trans (by rw [b4])⟩

theorem par_rate_thresholds (sqrt : ℚ → ℚ) (s : state) (d : Nat) :
    (calculate_par_thresholds (rate_times sqrt (calculate_par sqrt s)) d).thr =
      (calculate_par_thresholds s d).thr := by
  obtain ⟨f1, f2, _, f4, f5⟩ := par_rate_frame sqrt s
  rw [calculate_par_thresholds_eq, calculate_par_thresholds_eq]
  by_cases h : 1 ≤ d ∧ d ≤ DIV_COUNT
  · rw [if_pos h, if_pos h]
    exact calculate_par_div_congr s _ d _ _ f1 f2 f4 f5
  · rw [if_neg h, if_neg h, par_rate_thr, if_neg h]

/-- The thresholds are the same after a second run of `calculate_par; rate_times`. -/
theorem par_rate_thr_idem (sqrt : ℚ → ℚ) (s : state) (d : Nat) :
    ((rate_times sqrt (calculate_par sqrt (rate_times sqrt (calculate_par sqrt s)))).div_stat
        d).thr =
      ((rate_times sqrt (calculate_par sqrt s)).div_stat d).thr := by
  rw [rate_times_thr, calculate_par_thr, par_rate_thresholds, rate_times_thr, calculate_par_thr]

/-- The entry list is not changed by a second `calculate_par`. -/
theorem par_rate_ov_fix (sqrt : ℚ → ℚ) (s : state) :
    (calculate_par sqrt (rate_times sqrt (calculate_par sqrt s))).ov =
      (rate_times sqrt (calculate_par sqrt s)).ov := by
  have hA := rate_times_list sqrt (calculate_par sqrt s)
  have hk : List.Forall₂
      (fun a b => b.dq = a.dq ∧ time_to_usec b.time = time_to_usec a.time ∧
        b.prov_div = a.prov_div)
      (calculate_par sqrt s).ov (rate_times sqrt (calculate_par sqrt s)).ov :=
    List.Forall₂.imp (fun _ _ h => ⟨h.1.1.2.1, same_key_usec h.1.1, h.1.1.2.2.1⟩) hA
  rw [calculate_par_ov sqrt s] at hk
  rw [calculate_par_ov sqrt (rate_times sqrt (calculate_par sqrt s))]
  refine par_quality_mean_fix _ _ s.ov _ 1 0 0 _ _ (fun d => ?_) hk
  have h1 := thr_update (calculate_par_thresholds (rate_times sqrt (calculate_par sqrt s))) 1 _
    (par_reset_mean_thr _) d
  have h2 := thr_update (calculate_par_thresholds s) 1 _ (par_reset_mean_thr _) d
  have h3 := par_rate_thresholds sqrt s d
  have h4 := h1.trans (h3.trans h2.symm)
  rw [stat_t.thr, stat_t.thr] at h4
  simp only [Prod.mk.injEq] at h4
  exact h4.2.2.2


/-! ## C8: idempotence of calculate_par and rate_times -/

theorem calculate_par_time_view (sqrt : ℚ → ℚ) (s : state)
    (hinv : ∀ e ∈ s.ov, dq_ok e.dq = true → e.time.time = (time_to_usec e.time : ℚ) / 1000) :
    ∀ e ∈ (calculate_par sqrt s).ov, dq_ok e.dq = true →
      e.time.time = (time_to_usec e.time : ℚ) / 1000 := by
  intro e he hq
  rw [calculate_par_ov] at he
  obtain ⟨x, hx, hxe⟩ := forall2_mem_right (par_quality_mean_frame s.player_db s.ov 1 0 _) e he
  have hd : e.dq = x.dq := (congrArg entry_t.dq hxe.1 :)
  have ht : e.time = x.time := (congrArg entry_t.time hxe.1 :)
  rw [ht]
  exact hinv x hx (by rw [← hd]; exact hq)

/-- C8: starting from a state in which every valid entry's `time` view equals its total
milliseconds / 1000 (what `collate_stats` establishes before it calls `calculate_par`), a
second run of `calculate_par; rate_times` yields the same par/gold/silver/bronze thresholds
for every division and the same `prov_div`, `rating` and `hcp_delta` for every entry as the
first run (the event, the curve tables, the custom adjustments, the quality statistics and
the player database are kept by both functions). -/
theorem par_rate_idempotent (sqrt : ℚ → ℚ) (s : state)
    (hinv : ∀ e ∈ s.ov, dq_ok e.dq = true → e.time.time = (time_to_usec e.time : ℚ) / 1000) :
    (∀ d,
      ((rate_times sqrt (calculate_par sqrt (rate_times sqrt (calculate_par sqrt s)))).div_stat
          d).thr =
        ((rate_times sqrt (calculate_par sqrt s)).div_stat d).thr) ∧
    List.Forall₂
      (fun e1 e2 => e2.prov_div = e1.prov_div ∧ e2.rating = e1.rating ∧
        e2.hcp_delta = e1.hcp_delta)
      (rate_times sqrt (calculate_par sqrt s)).ov
      (rate_times sqrt (calculate_par sqrt (rate_times sqrt (calculate_par sqrt s)))).ov := by
  refine ⟨par_rate_thr_idem sqrt s, ?_⟩
  have hA := forall2_mem_left (rate_times_list sqrt (calculate_par sqrt s))
    (calculate_par_time_view sqrt s hinv)
  have hB := rate_times_list sqrt (calculate_par sqrt (rate_times sqrt (calculate_par sqrt s)))
  rw [par_rate_ov_fix] at hB
  have hthr : ∀ d, ((calculate_par sqrt (rate_times sqrt (calculate_par sqrt s))).div_stat d).thr =
      ((calculate_par sqrt s).div_stat d).thr := by
    intro d
    rw [calculate_par_thr, par_rate_thresholds, calculate_par_thr]
  have hdb : (calculate_par sqrt (rate_times sqrt (calculate_par sqrt s))).player_db =
      (calculate_par sqrt s).player_db := by
    rw [(calculate_par_frame sqrt _).2.2.1, (rate_times_frame sqrt _).2.2]
  refine forall2_chain ?_ hA hB
  intro a b c hab hbc
  obtain ⟨⟨⟨ka, qa, ra, ta⟩, _⟩, hta⟩ := hab
  obtain ⟨⟨kb, qb, rb, _⟩, _⟩ := hbc
  refine ⟨kb.2.2.1, ?_⟩
  cases hq : dq_ok b.dq
  · have := qb hq
    rw [this]
    exact ⟨rfl, rfl⟩
  · have hqa : dq_ok a.dq = true := by rw [← ka.2.1]; exact hq
    have htime : b.time.time = a.time.time := by
      rcases ta with h | h
      · exact h
      · rw [h, hta hqa]
    have hr : time_rate_rating
        (calculate_par sqrt (rate_times sqrt (calculate_par sqrt s))).div_stat b =
        time_rate_rating (calculate_par sqrt s).div_stat a := by
      rw [time_rate_rating_congr _ _ b hthr]
      exact time_rate_rating_entry _ a b ka.2.2.1 (same_key_usec ka) htime
    obtain ⟨rb1, rb2⟩ := rb hq
    obtain ⟨ra1, ra2⟩ := ra hqa
    constructor
    · rw [rb1, ra1, hr]
    · rw [rb2, ra2, hr, hdb, hcp_of_entry _ a b _ ka.1]


/-! ## C8: witness -/

theorem placing_state_time_view :
    ∀ e ∈ placing_state.ov, dq_ok e.dq = true →
      e.time.time = (time_to_usec e.time : ℚ) / 1000 := by
  intro e he _
  rw [placing_state_ov] at he
  rcases List.mem_cons.mp he with h | h
  · have h1 : time_to_usec entry_on_par.time = 58000 :=
      time_to_usec_entry_at 1 dq_reason_e.DQ_OK 0 58 0 (by norm_num)
    have h2 : entry_on_par.time.time = 58 := by
      simp only [entry_on_par, entry_at]; norm_num
    rw [h, h1, h2]
    norm_num
  · have h' := List.mem_singleton.mp h
    have h1 : time_to_usec entry_silver.time = 58500 :=
      time_to_usec_entry_at 1 dq_reason_e.DQ_OK 0 58 500 (by norm_num)
    have h2 : entry_silver.time.time = 117 / 2 := by
      simp only [entry_silver, entry_at]; norm_num
    rw [h', h1, h2]
    norm_num

/-- C8, witness: `placing_state` satisfies the hypothesis of `par_rate_idempotent`, so a
second run of `calculate_par; rate_times` on it changes no threshold and no `prov_div`,
`rating` or `hcp_delta`. -/
theorem par_rate_idempotent_witness :
    (∀ e ∈ placing_state.ov, dq_ok e.dq = true →
      e.time.time = (time_to_usec e.time : ℚ) / 1000) ∧
    ((∀ d,
      ((rate_times sqrt_milli (calculate_par sqrt_milli
          (rate_times sqrt_milli (calculate_par sqrt_milli placing_state)))).div_stat d).thr =
        ((rate_times sqrt_milli (calculate_par sqrt_milli placing_state)).div_stat d).thr) ∧
    List.Forall₂
      (fun e1 e2 => e2.prov_div = e1.prov_div ∧ e2.rating = e1.rating ∧
        e2.hcp_delta = e1.hcp_delta)
      (rate_times sqrt_milli (calculate_par sqrt_milli placing_state)).ov
      (rate_times sqrt_milli (calculate_par sqrt_milli
        (rate_times sqrt_milli (calculate_par sqrt_milli placing_state)))).ov) :=
  ⟨placing_state_time_view,
    par_rate_idempotent sqrt_milli placing_state placing_state_time_view⟩


/-! ## Blocks of `player_update_rating` -/

theorem player_get_index (db : Nat → player_t) (id : Nat) :
    player_get db id = db (player_index id) := by
  unfold player_get player_index
  split_ifs <;> rfl

theorem player_is_rookie_update (db : Nat → player_t) (k : Nat) (q : player_t) (id : Nat)
    (hq : q.qualifier = (db k).qualifier) (ht : q.total_weight = (db k).total_weight)
    (hv : q.verified_count = (db k).verified_count) :
    player_is_rookie (Function.update db k q) id = player_is_rookie db id := by
  unfold player_is_rookie
  rw [player_get_index, player_get_index]
  by_cases h : player_index id = k
  · rw [h, Function.update_same]
    simp only [hq, ht, hv]
  · rw [Function.update_noteq h]

theorem fold_ratings_eq (db : Nat → player_t) (k : Nat) (p : player_t)
    (hq : p.qualifier = (db k).qualifier) (ht : p.total_weight = (db k).total_weight)
    (hv : p.verified_count = (db k).verified_count) :
    fold_ratings db k p =
      if fold_weight p > 0 then
        if player_is_rookie db p.id = false then
          { p with real_rating := real_agg p / fold_weight p, rating := agg p / fold_weight p }
        else
          { p with real_rating := real_agg p / fold_weight p,
                   rating := real_agg p / fold_weight p }
      else { p with rating := 0 } := by
  unfold fold_ratings
  by_cases h : fold_weight p > 0
  · rw [if_pos h, if_pos h]
    simp only []
    rw [player_is_rookie_update db k { p with real_rating := real_agg p / fold_weight p } p.id
      hq ht hv]
    by_cases hr : player_is_rookie db p.id = false
    · rw [if_pos hr, if_pos ⟨rfl, hr⟩]
    · rw [if_neg hr, if_neg (fun hh => hr hh.2)]
  · rw [if_neg h, if_neg h]


theorem rating_floor_real_pos (p : player_t) (h : 0 < p.real_rating) :
    (rating_floor p).real_rating = p.real_rating := by
  unfold rating_floor
  rw [if_neg (not_le.mpr h)]
  split_ifs <;> rfl

theorem rating_floor_rating_pos (p : player_t) (h : 0 < p.rating) :
    (rating_floor p).rating = p.rating := by
  unfold rating_floor
  split_ifs with h1 h2
  · rfl
  · exact absurd h2 (not_le.mpr h)
  · rfl

theorem rating_floor_real_nonpos (p : player_t) (h : p.real_rating ≤ 0) :
    (rating_floor p).real_rating = p.rating ∧ (rating_floor p).rating = p.rating := by
  unfold rating_floor
  rw [if_pos h]
  exact ⟨rfl, rfl⟩

theorem rating_floor_rating_nonpos (p : player_t) (h : 0 < p.real_rating) (h2 : p.rating ≤ 0) :
    (rating_floor p).real_rating = p.real_rating ∧
      (rating_floor p).rating = p.real_rating := by
  unfold rating_floor
  rw [if_neg (not_le.mpr h), if_pos h2]
  exact ⟨rfl, rfl⟩

/-- The fields `rating_floor` does not write. -/
theorem rating_floor_frame (p : player_t) :
    (rating_floor p).id = p.id ∧ (rating_floor p).valid = p.valid ∧
    (rating_floor p).total_weight = p.total_weight ∧ (rating_floor p).div = p.div ∧
    (rating_floor p).sub_div = p.sub_div ∧ (rating_floor p).event_count = p.event_count ∧
    (rating_floor p).dq_count = p.dq_count ∧
    (rating_floor p).verified_count = p.verified_count ∧
    (rating_floor p).history_count = p.history_count ∧
    (rating_floor p).qualifier = p.qualifier ∧ (rating_floor p).history = p.history ∧
    (rating_floor p).latest = p.latest := by
  unfold rating_floor
  split_ifs <;> exact ⟨rfl, rfl, rfl, rfl, rfl, rfl, rfl, rfl, rfl, rfl, rfl, rfl⟩

/-- What `fold_counts` stores. -/
theorem fold_counts_fields (p : player_t) :
    (fold_counts p).total_weight = p.total_weight + p.latest.weight ∧
    (fold_counts p).verified_count =
      (if p.latest.dq = dq_reason_e.DQ_VERIFIED then
        d2u ((p.verified_count : ℚ) + p.latest.weight) else p.verified_count) ∧
    (fold_counts p).real_rating = p.real_rating ∧ (fold_counts p).rating = p.rating := by
  unfold fold_counts
  split_ifs <;> exact ⟨rfl, rfl, rfl, rfl⟩

/-- The fields `fold_counts` does not write. -/
theorem fold_counts_frame (p : player_t) :
    (fold_counts p).id = p.id ∧ (fold_counts p).valid = p.valid ∧
    (fold_counts p).div = p.div ∧
    (fold_counts p).sub_div = p.sub_div ∧ (fold_counts p).event_count = p.event_count ∧
    (fold_counts p).dq_count = p.dq_count ∧
    (fold_counts p).history_count = p.history_count ∧
    (fold_counts p).qualifier = p.qualifier ∧ (fold_counts p).history = p.history ∧
    (fold_counts p).latest = p.latest := by
  unfold fold_counts
  split_ifs <;> exact ⟨rfl, rfl, rfl, rfl, rfl, rfl, rfl, rfl, rfl, rfl⟩

/-- The fields `fold_ratings` does not write. -/
theorem fold_ratings_frame (db : Nat → player_t) (k : Nat) (p : player_t) :
    (fold_ratings db k p).id = p.id ∧ (fold_ratings db k p).valid = p.valid ∧
    (fold_ratings db k p).total_weight = p.total_weight ∧
    (fold_ratings db k p).div = p.div ∧
    (fold_ratings db k p).sub_div = p.sub_div ∧
    (fold_ratings db k p).event_count = p.event_count ∧
    (fold_ratings db k p).dq_count = p.dq_count ∧
    (fold_ratings db k p).verified_count = p.verified_count ∧
    (fold_ratings db k p).history_count = p.history_count ∧
    (fold_ratings db k p).qualifier = p.qualifier ∧
    (fold_ratings db k p).history = p.history ∧
    (fold_ratings db k p).latest = p.latest := by
  unfold fold_ratings
  simp only []
  split_ifs <;> exact ⟨rfl, rfl, rfl, rfl, rfl, rfl, rfl, rfl, rfl, rfl, rfl, rfl⟩

theorem rating_floor_values (p : player_t) :
    (rating_floor p).real_rating = (if p.real_rating ≤ 0 then p.rating else p.real_rating) ∧
    (rating_floor p).rating =
      (if p.real_rating ≤ 0 then p.rating
        else if p.rating ≤ 0 then p.real_rating else p.rating) := by
  unfold rating_floor
  split_ifs <;> exact ⟨rfl, rfl⟩

/-- The ratings `fold_ratings` stores, with the rookie test read in the database before
the call. -/
theorem fold_ratings_values (db : Nat → player_t) (k : Nat) (p : player_t)
    (hq : p.qualifier = (db k).qualifier) (ht : p.total_weight = (db k).total_weight)
    (hv : p.verified_count = (db k).verified_count) :
    (fold_ratings db k p).real_rating =
      (if fold_weight p > 0 then real_agg p / fold_weight p else p.real_rating) ∧
    (fold_ratings db k p).rating =
      (if fold_weight p > 0 then
        (if player_is_rookie db p.id = false then agg p / fold_weight p
          else real_agg p / fold_weight p)
        else 0) := by
  rw [fold_ratings_eq db k p hq ht hv]
  split_ifs <;> exact ⟨rfl, rfl⟩

theorem player_update_rating_other (db : Nat → player_t) (k i : Nat) (h : i ≠ k) :
    player_update_rating db k i = db i := by
  unfold player_update_rating
  split_ifs
  · simp only []
    rw [Function.update_noteq h]
  · rfl

theorem player_update_rating_invalid (db : Nat → player_t) (k : Nat) (h : (db k).valid = 0) :
    player_update_rating db k = db := by
  unfold player_update_rating
  rw [if_neg (not_not.mpr h)]

/-- The locals of the fold read `total_weight`, the two ratings and the latest result
only. -/
theorem fold_locals_congr (p q : player_t) (h1 : q.total_weight = p.total_weight)
    (h2 : q.latest = p.latest) (h3 : q.real_rating = p.real_rating)
    (h4 : q.rating = p.rating) :
    use_weight q = use_weight p ∧ fold_weight q = fold_weight p ∧
      real_agg q = real_agg p ∧ agg q = agg p := by
  have hu : use_weight q = use_weight p := by
    unfold use_weight
    rw [h1, h2]
  refine ⟨hu, ?_, ?_, ?_⟩
  · unfold fold_weight
    rw [hu, h2]
  · unfold real_agg
    rw [hu, h2, h3]
  · unfold agg
    rw [hu, h2, h4]

/-- Unfolding of `player_update_rating` for a valid player whose latest result is not a
disqualification. -/
theorem player_update_rating_ok (db : Nat → player_t) (k : Nat) (hv : (db k).valid ≠ 0)
    (hd : dq_ok (db k).latest.dq = true) (n : Nat)
    (hn : n = u32 (((db k).event_count : Int) + 1)) :
    player_update_rating db k k =
      rating_floor (fold_counts (fold_ratings
        (Function.update db k { db k with event_count := n }) k
        { db k with event_count := n })) := by
  subst hn
  unfold player_update_rating
  rw [if_pos hv]
  simp only []
  rw [if_pos hd, Function.update_same]

/-- Unfolding of `player_update_rating` for a valid player whose latest result is a
disqualification. -/
theorem player_update_rating_dq (db : Nat → player_t) (k : Nat) (hv : (db k).valid ≠ 0)
    (hd : dq_ok (db k).latest.dq = false) :
    player_update_rating db k k =
      rating_floor { db k with
        event_count := u32 (((db k).event_count : Int) + 1)
        dq_count := u32 (((db k).dq_count : Int) + 1) } := by
  unfold player_update_rating
  rw [if_pos hv]
  simp only []
  rw [if_neg (by rw [hd]; decide), Function.update_same]

/-- The ratings after `player_update_rating`, for a valid player whose latest result is
not a disqualification: `q` is the folded real rating and `a` the folded displayed
rating. -/
theorem player_update_rating_values (db : Nat → player_t) (k : Nat) (hv : (db k).valid ≠ 0)
    (hd : dq_ok (db k).latest.dq = true) (q a : ℚ)
    (hq : q = (if fold_weight (db k) > 0 then real_agg (db k) / fold_weight (db k)
      else (db k).real_rating))
    (ha : a = (if fold_weight (db k) > 0 then
        (if player_is_rookie db (db k).id = false then agg (db k) / fold_weight (db k)
          else real_agg (db k) / fold_weight (db k))
        else 0)) :
    (player_update_rating db k k).real_rating = (if q ≤ 0 then a else q) ∧
    (player_update_rating db k k).rating =
      (if q ≤ 0 then a else if a ≤ 0 then q else a) := by
  rw [player_update_rating_ok db k hv hd _ rfl]
  generalize hn : u32 (((db k).event_count : Int) + 1) = n
  have hc := fold_locals_congr (db k) { db k with event_count := n } rfl rfl rfl rfl
  have hf := fold_ratings_values (Function.update db k { db k with event_count := n }) k
    { db k with event_count := n } (by rw [Function.update_same])
    (by rw [Function.update_same]) (by rw [Function.update_same])
  rw [hc.2.1, hc.2.2.1, hc.2.2.2,
    player_is_rookie_update db k { db k with event_count := n } _ rfl rfl rfl] at hf
  have hfl := rating_floor_values (fold_counts (fold_ratings
    (Function.update db k { db k with event_count := n }) k { db k with event_count := n }))
  have hcf := fold_counts_fields (fold_ratings
    (Function.update db k { db k with event_count := n }) k { db k with event_count := n })
  rw [hcf.2.2.1, hcf.2.2.2, hf.1, hf.2] at hfl
  rw [hq, ha]
  exact hfl

/-! ## C11: the real rating after a fold -/

theorem use_weight_spec (p : player_t)
    (hw5 : p.latest.weight < RATING_WEIGHT_CAP) :
    use_weight p = spec_capped_weight p := by
  unfold use_weight spec_capped_weight
  simp only []
  by_cases h : p.total_weight < (RATING_WEIGHT_CAP : ℚ)
  · rw [if_pos h, if_neg (not_le.mpr h)]
  · rw [if_neg h, if_pos (not_lt.mp h), if_neg (not_le.mpr (sub_pos.mpr hw5))]

theorem use_weight_nonneg (p : player_t) (htw : 0 ≤ p.total_weight) : 0 ≤ use_weight p := by
  unfold use_weight
  simp only []
  have h5 : (0 : ℚ) ≤ (RATING_WEIGHT_CAP : ℚ) := Nat.cast_nonneg _
  split_ifs with h1 h2
  · exact h5
  · exact le_of_lt (not_le.mp h2)
  · exact htw

theorem fold_weight_pos (p : player_t) (htw : 0 ≤ p.total_weight) (hw0 : 0 < p.latest.weight) :
    0 < fold_weight p := by
  unfold fold_weight
  have := use_weight_nonneg p htw
  linarith

theorem real_fold_pos (p : player_t) (htw : 0 ≤ p.total_weight) (hw0 : 0 < p.latest.weight)
    (hrr : 0 ≤ p.real_rating) (her : 0 < p.latest.rating) :
    0 < real_agg p / fold_weight p := by
  apply div_pos _ (fold_weight_pos p htw hw0)
  unfold real_agg
  have h1 := mul_nonneg hrr (use_weight_nonneg p htw)
  have h2 := mul_pos her hw0
  linarith

/-- C11 (amended): for a valid player with positive `real_rating` and accumulated weight
`total_weight >= 0`, whose latest result is not a disqualification and has a positive
event rating and a weight `w` with `0 < w < RATING_WEIGHT_CAP`, `player_update_rating`
sets `real_rating` to `(real_rating * u + eventRating * w) / (u + w)`, where `u` is
`total_weight` below the cap and `RATING_WEIGHT_CAP - w` from the cap on. -/
theorem player_update_rating_real (db : Nat → player_t) (k : Nat)
    (hv : (db k).valid ≠ 0) (hrr : 0 < (db k).real_rating)
    (hd : dq_ok (db k).latest.dq = true) (her : 0 < (db k).latest.rating)
    (hw0 : 0 < (db k).latest.weight) (hw5 : (db k).latest.weight < RATING_WEIGHT_CAP)
    (htw : 0 ≤ (db k).total_weight) :
    (player_update_rating db k k).real_rating =
      ((db k).real_rating * spec_capped_weight (db k) +
          (db k).latest.rating * (db k).latest.weight) /
        (spec_capped_weight (db k) + (db k).latest.weight) := by
  have hfw := fold_weight_pos (db k) htw hw0
  have hq := real_fold_pos (db k) htw hw0 (le_of_lt hrr) her
  rw [(player_update_rating_values db k hv hd _ _ rfl rfl).1, if_pos hfw,
    if_neg (not_le.mpr hq)]
  unfold real_agg fold_weight
  rw [use_weight_spec (db k) hw5]

theorem negative_weight_fold : fold_weight player_negative_weight = -1 := by
  unfold fold_weight use_weight player_negative_weight
  norm_num [RATING_WEIGHT_CAP, zero_player, zero_result]

/-- C11, counterexample: a valid player with `real_rating = 1` and `total_weight = -2`
whose latest result is valid with rating 2 and weight 1 keeps `real_rating = 1`, while
the formula of the claim gives `(1 * (-2) + 2 * 1) / (-2 + 1) = 0`. -/
theorem player_update_rating_real_negative_weight :
    player_negative_weight.valid ≠ 0 ∧ 0 < player_negative_weight.real_rating ∧
    dq_ok player_negative_weight.latest.dq = true ∧
    0 < player_negative_weight.latest.rating ∧
    0 < player_negative_weight.latest.weight ∧
    player_negative_weight.latest.weight < RATING_WEIGHT_CAP ∧
    (player_update_rating (fun _ => player_negative_weight) 1 1).real_rating = 1 ∧
    (player_negative_weight.real_rating * spec_capped_weight player_negative_weight +
        player_negative_weight.latest.rating * player_negative_weight.latest.weight) /
      (spec_capped_weight player_negative_weight + player_negative_weight.latest.weight)
      = 0 := by
  refine ⟨by decide, ?_, by decide, ?_, ?_, ?_, ?_, ?_⟩
  · norm_num [player_negative_weight]
  · norm_num [player_negative_weight, zero_result]
  · norm_num [player_negative_weight, zero_result]
  · norm_num [player_negative_weight, zero_result, RATING_WEIGHT_CAP]
  · rw [(player_update_rating_values (fun _ => player_negative_weight) 1 (by decide)
      (by decide) _ _ rfl rfl).1]
    simp only [negative_weight_fold]
    norm_num [player_negative_weight]
  · unfold spec_capped_weight
    norm_num [player_negative_weight, zero_result, RATING_WEIGHT_CAP]

theorem seasoned_spec_weight : spec_capped_weight player_seasoned = 1 := by
  unfold spec_capped_weight
  norm_num [player_seasoned, RATING_WEIGHT_CAP]

/-- C11, witness: a valid player with `real_rating = 2` and `total_weight = 1` whose
latest result is valid with rating 1 and weight 1 gets `real_rating = 3/2`. -/
theorem player_update_rating_real_witness :
    (player_update_rating (fun _ => player_seasoned) 1 1).real_rating = 3 / 2 := by
  rw [player_update_rating_real (fun _ => player_seasoned) 1 (by decide)
    (by norm_num [player_seasoned]) (by decide) (by norm_num [player_seasoned, zero_result])
    (by norm_num [player_seasoned, zero_result])
    (by norm_num [player_seasoned, zero_result, RATING_WEIGHT_CAP])
    (by norm_num [player_seasoned])]
  simp only [seasoned_spec_weight]
  norm_num [player_seasoned, zero_result]

/-! ## The displayed rating after a fold, in exact arithmetic -/

theorem agg_eq_min (p : player_t) :
    agg p = p.rating * use_weight p + min p.latest.rating p.rating * p.latest.weight := by
  unfold agg
  simp only []
  by_cases h : p.latest.rating < p.rating
  · rw [if_pos h, min_eq_left (le_of_lt h)]
  · rw [if_neg h, min_eq_right (not_lt.mp h)]

theorem agg_fold_pos (p : player_t) (htw : 0 ≤ p.total_weight) (hw0 : 0 < p.latest.weight)
    (hr : 0 < p.rating) (her : 0 < p.latest.rating) :
    0 < agg p / fold_weight p := by
  apply div_pos _ (fold_weight_pos p htw hw0)
  rw [agg_eq_min]
  have h1 := mul_nonneg (le_of_lt hr) (use_weight_nonneg p htw)
  have h2 := mul_pos (lt_min her hr) hw0
  linarith

theorem agg_fold_le (p : player_t) (htw : 0 ≤ p.total_weight) (hw0 : 0 < p.latest.weight) :
    agg p / fold_weight p ≤ p.rating := by
  rw [div_le_iff₀ (fold_weight_pos p htw hw0), agg_eq_min]
  unfold fold_weight
  have h2 := mul_le_mul_of_nonneg_right (min_le_right p.latest.rating p.rating)
    (le_of_lt hw0)
  linarith

theorem qualified_negative_fold : fold_weight player_qualified_negative = -1 := by
  unfold fold_weight use_weight player_qualified_negative
  norm_num [RATING_WEIGHT_CAP, zero_player, zero_result]

theorem qualified_negative_use : use_weight player_qualified_negative = -2 := by
  unfold use_weight player_qualified_negative
  norm_num [RATING_WEIGHT_CAP, zero_player, zero_result]

theorem qualified_not_rookie (p : player_t) (h : p.qualifier.status = STATUS_FINAL) :
    player_is_rookie (fun _ => p) p.id = false := by
  unfold player_is_rookie
  rw [player_get_index]
  simp only []
  rw [if_pos (Or.inl h)]

theorem seasoned_use : use_weight player_seasoned = 1 := by
  unfold use_weight player_seasoned
  norm_num [RATING_WEIGHT_CAP, zero_player, zero_result]

/-! ## C13: the denominator of the fold -/

theorem fold_weight_capped (p : player_t)
    (hw1 : p.latest.weight ≤ 1) :
    (p.total_weight < RATING_WEIGHT_CAP → fold_weight p = p.total_weight + p.latest.weight) ∧
    ((RATING_WEIGHT_CAP : ℚ) ≤ p.total_weight → fold_weight p = RATING_WEIGHT_CAP) := by
  have h5 : p.latest.weight < (RATING_WEIGHT_CAP : ℚ) := by
    have : ((RATING_WEIGHT_CAP : Nat) : ℚ) = 5 := by norm_num [RATING_WEIGHT_CAP]
    rw [this]; linarith
  unfold fold_weight
  rw [use_weight_spec p h5]
  unfold spec_capped_weight
  constructor
  · intro h
    rw [if_pos h]
  · intro h
    rw [if_neg (not_lt.mpr h)]
    ring

/-- C13 (amended): for a valid player with `total_weight >= 0` whose latest result is not
a disqualification and has a weight `0 < w <= 1`, the denominator of the fold of
`player_update_rating` is positive, equals `total_weight + w` below the cap and
`RATING_WEIGHT_CAP` from the cap on, so it is less than `RATING_WEIGHT_CAP + w`; it is the
value the positive real aggregate is divided by. -/
theorem fold_weight_bound (db : Nat → player_t) (k : Nat)
    (hv : (db k).valid ≠ 0) (htw : 0 ≤ (db k).total_weight)
    (hd : dq_ok (db k).latest.dq = true)
    (hw0 : 0 < (db k).latest.weight) (hw1 : (db k).latest.weight ≤ 1) :
    0 < fold_weight (db k) ∧
    ((db k).total_weight < RATING_WEIGHT_CAP →
      fold_weight (db k) = (db k).total_weight + (db k).latest.weight) ∧
    ((RATING_WEIGHT_CAP : ℚ) ≤ (db k).total_weight →
      fold_weight (db k) = RATING_WEIGHT_CAP) ∧
    fold_weight (db k) < (RATING_WEIGHT_CAP : ℚ) + (db k).latest.weight ∧
    (0 < real_agg (db k) →
      (player_update_rating db k k).real_rating = real_agg (db k) / fold_weight (db k)) := by
  have hfw := fold_weight_pos (db k) htw hw0
  have hc := fold_weight_capped (db k) hw1
  refine ⟨hfw, hc.1, hc.2, ?_, ?_⟩
  · by_cases h : (db k).total_weight < (RATING_WEIGHT_CAP : ℚ)
    · rw [hc.1 h]
      linarith
    · rw [hc.2 (not_lt.mp h)]
      linarith
  · intro hra
    rw [(player_update_rating_values db k hv hd _ _ rfl rfl).1, if_pos hfw,
      if_neg (not_le.mpr (div_pos hra hfw))]

theorem near_cap_fold : fold_weight player_near_cap = 11 / 2 := by
  unfold fold_weight use_weight player_near_cap
  norm_num [RATING_WEIGHT_CAP, zero_player, zero_result]

theorem near_cap_real_agg : real_agg player_near_cap = 33 / 2 := by
  unfold real_agg use_weight player_near_cap
  norm_num [RATING_WEIGHT_CAP, zero_player, zero_result]

/-- C13, counterexample: for a valid player with `total_weight = 4.5` whose latest result
is valid with weight 1, the denominator of the fold is 5.5, greater than
`RATING_WEIGHT_CAP`; `real_rating` becomes `16.5 / 5.5 = 3`. -/
theorem fold_weight_over_cap :
    player_near_cap.valid ≠ 0 ∧ 0 ≤ player_near_cap.total_weight ∧
    dq_ok player_near_cap.latest.dq = true ∧
    0 < player_near_cap.latest.weight ∧ player_near_cap.latest.weight ≤ 1 ∧
    (RATING_WEIGHT_CAP : ℚ) < fold_weight player_near_cap ∧
    (player_update_rating (fun _ => player_near_cap) 1 1).real_rating = 3 := by
  refine ⟨by decide, ?_, by decide, ?_, ?_, ?_, ?_⟩
  · norm_num [player_near_cap]
  · norm_num [player_near_cap, zero_result]
  · norm_num [player_near_cap, zero_result]
  · rw [near_cap_fold]
    norm_num [RATING_WEIGHT_CAP]
  · rw [(player_update_rating_values (fun _ => player_near_cap) 1 (by decide)
      (by decide) _ _ rfl rfl).1]
    simp only [near_cap_fold, near_cap_real_agg]
    norm_num

/-- C13, witness: for a valid player with `total_weight = 1` whose latest result is valid
with weight 1, the denominator of the fold is less than `RATING_WEIGHT_CAP + 1`. -/
theorem fold_weight_bound_witness :
    fold_weight player_seasoned < (RATING_WEIGHT_CAP : ℚ) + player_seasoned.latest.weight :=
  (fold_weight_bound (fun _ => player_seasoned) 1 (by decide)
    (by norm_num [player_seasoned]) (by decide)
    (by norm_num [player_seasoned, zero_result])
    (by norm_num [player_seasoned, zero_result])).2.2.2.1

/-! ## The verified count, in exact arithmetic -/

theorem dq_ok_verified : dq_ok dq_reason_e.DQ_VERIFIED = true := by decide

/-- The verified count after `player_update_rating` of a valid player. -/
theorem verified_count_after (db : Nat → player_t) (k : Nat)
    (hv : (db k).valid ≠ 0) :
    (player_update_rating db k k).verified_count =
      (if (db k).latest.dq = dq_reason_e.DQ_VERIFIED then
        d2u (((db k).verified_count : ℚ) + (db k).latest.weight)
      else (db k).verified_count) := by
  by_cases hd : dq_ok (db k).latest.dq = true
  · rw [player_update_rating_ok db k hv hd _ rfl]
    generalize u32 (((db k).event_count : Int) + 1) = n
    rw [(rating_floor_frame _).2.2.2.2.2.2.2.1, (fold_counts_fields _).2.1,
      (fold_ratings_frame _ _ _).2.2.2.2.2.2.2.2.2.2.2, (fold_ratings_frame _ _ _).2.2.2.2.2.2.2.1]
  · have hd2 : dq_ok (db k).latest.dq = false := by
      cases h : dq_ok (db k).latest.dq
      · rfl
      · exact absurd h hd
    rw [player_update_rating_dq db k hv hd2, (rating_floor_frame _).2.2.2.2.2.2.2.1]
    have hne : (db k).latest.dq ≠ dq_reason_e.DQ_VERIFIED := by
      intro h
      rw [h] at hd
      exact hd dq_ok_verified
    rw [if_neg hne]

theorem d2u_nat_add (n : Nat) (w : ℚ) (hw : 0 ≤ w) (h : (n : ℚ) + w < 4294967296) :
    d2u ((n : ℚ) + w) = n + ⌊w⌋₊ := by
  unfold d2u
  have h0 : (0 : ℚ) ≤ (n : ℚ) + w := add_nonneg (Nat.cast_nonneg n) hw
  rw [d2i_eq, if_pos h0, Int.floor_nat_add]
  have hf : ⌊w⌋ = ((⌊w⌋₊ : Nat) : Int) := (Int.natCast_floor_eq_floor hw).symm
  rw [hf, ← Nat.cast_add]
  apply u32_small
  have h1 : ((⌊w⌋₊ : Nat) : ℚ) ≤ w := Nat.floor_le hw
  have h2 : ((n + ⌊w⌋₊ : Nat) : ℚ) < 4294967296 := by
    push_cast
    linarith
  exact_mod_cast h2

/-! ## The loop body of `db_update` -/

/-- The fields `player_update_rating` does not write. -/
theorem player_update_rating_frame (db : Nat → player_t) (k : Nat) :
    (player_update_rating db k k).id = (db k).id ∧
    (player_update_rating db k k).valid = (db k).valid ∧
    (player_update_rating db k k).div = (db k).div ∧
    (player_update_rating db k k).sub_div = (db k).sub_div ∧
    (player_update_rating db k k).history_count = (db k).history_count ∧
    (player_update_rating db k k).qualifier = (db k).qualifier ∧
    (player_update_rating db k k).history = (db k).history ∧
    (player_update_rating db k k).latest = (db k).latest := by
  by_cases hv : (db k).valid ≠ 0
  · by_cases hd : dq_ok (db k).latest.dq = true
    · rw [player_update_rating_ok db k hv hd _ rfl]
      generalize u32 (((db k).event_count : Int) + 1) = n
      generalize hdb : Function.update db k { db k with event_count := n } = db1
      have h1 := rating_floor_frame (fold_counts (fold_ratings db1 k
        { db k with event_count := n }))
      have h2 := fold_counts_frame (fold_ratings db1 k { db k with event_count := n })
      have h3 := fold_ratings_frame db1 k { db k with event_count := n }
      refine ⟨?_, ?_, ?_, ?_, ?_, ?_, ?_, ?_⟩
      · rw [h1.1, h2.1, h3.1]
      · rw [h1.2.1, h2.2.1, h3.2.1]
      · rw [h1.2.2.2.1, h2.2.2.1, h3.2.2.2.1]
      · rw [h1.2.2.2.2.1, h2.2.2.2.1, h3.2.2.2.2.1]
      · rw [h1.2.2.2.2.2.2.2.2.1, h2.2.2.2.2.2.2.1, h3.2.2.2.2.2.2.2.2.1]
      · rw [h1.2.2.2.2.2.2.2.2.2.1, h2.2.2.2.2.2.2.2.1, h3.2.2.2.2.2.2.2.2.2.1]
      · rw [h1.2.2.2.2.2.2.2.2.2.2.1, h2.2.2.2.2.2.2.2.2.1, h3.2.2.2.2.2.2.2.2.2.2.1]
      · rw [h1.2.2.2.2.2.2.2.2.2.2.2, h2.2.2.2.2.2.2.2.2.2, h3.2.2.2.2.2.2.2.2.2.2.2]
    · have hd2 : dq_ok (db k).latest.dq = false := by
        cases h : dq_ok (db k).latest.dq
        · rfl
        · exact absurd h hd
      rw [player_update_rating_dq db k hv hd2]
      have h1 := rating_floor_frame { db k with
        event_count := u32 (((db k).event_count : Int) + 1)
        dq_count := u32 (((db k).dq_count : Int) + 1) }
      exact ⟨h1.1, h1.2.1, h1.2.2.2.1, h1.2.2.2.2.1, h1.2.2.2.2.2.2.2.2.1,
        h1.2.2.2.2.2.2.2.2.2.1, h1.2.2.2.2.2.2.2.2.2.2.1, h1.2.2.2.2.2.2.2.2.2.2.2⟩
  · rw [player_update_rating_invalid db k (not_not.mp hv)]
    exact ⟨rfl, rfl, rfl, rfl, rfl, rfl, rfl, rfl⟩

/-- The accumulated weight after `player_update_rating` of a valid player whose latest
result is not a disqualification. -/
theorem player_update_rating_total_weight (db : Nat → player_t) (k : Nat)
    (hv : (db k).valid ≠ 0) (hd : dq_ok (db k).latest.dq = true) :
    (player_update_rating db k k).total_weight = (db k).total_weight + (db k).latest.weight := by
  rw [player_update_rating_ok db k hv hd _ rfl]
  generalize u32 (((db k).event_count : Int) + 1) = n
  rw [(rating_floor_frame _).2.2.1, (fold_counts_fields _).1,
    (fold_ratings_frame _ _ _).2.2.2.2.2.2.2.2.2.2.2, (fold_ratings_frame _ _ _).2.2.1]

/-- The search loop of `db_update` when no slot holds the race of `latest`: the array is
unchanged, nothing is marked done, and `oldest_history` is a lower bound of the start value
and of the stored races that is one of them. -/
theorem history_store_none (latest : race_result_t) (l : List race_result_t)
    (h : ∀ x ∈ l, x.race_id ≠ latest.race_id) (o : Nat) (f : Bool) :
    (history_store latest l o f).1 = l ∧ (history_store latest l o f).2.2.1 = f ∧
    (history_store latest l o f).2.2.2 = false ∧
    (history_store latest l o f).2.1 ≤ o ∧
    (∀ x ∈ l, (history_store latest l o f).2.1 ≤ x.race_id) ∧
    ((history_store latest l o f).2.1 = o ∨
      ∃ x ∈ l, (history_store latest l o f).2.1 = x.race_id) := by
  induction l generalizing o with
  | nil =>
    simp only [history_store, List.not_mem_nil, false_implies, implies_true, le_refl,
      true_and, exists_false, and_false, or_false, and_self, false_and]
  | cons a t ih =>
    have ha : a.race_id ≠ latest.race_id := h a (List.mem_cons_self _ _)
    have ht : ∀ x ∈ t, x.race_id ≠ latest.race_id :=
      fun x hx => h x (List.mem_cons_of_mem _ hx)
    simp only [history_store, if_neg ha]
    obtain ⟨i1, i2, i3, i4, i5, i6⟩ := ih ht (if o > a.race_id then a.race_id else o)
    have hle : (if o > a.race_id then a.race_id else o) ≤ o ∧
        (if o > a.race_id then a.race_id else o) ≤ a.race_id := by
      split_ifs with hc
      · exact ⟨le_of_lt hc, le_refl _⟩
      · exact ⟨le_refl _, not_lt.mp hc⟩
    refine ⟨by rw [i1], i2, i3, le_trans i4 hle.1, ?_, ?_⟩
    · intro x hx
      rcases List.mem_cons.mp hx with rfl | hx
      · exact le_trans i4 hle.2
      · exact i5 x hx
    · rcases i6 with h6 | ⟨x, hx, h6⟩
      · by_cases hc : o > a.race_id
        · right
          exact ⟨a, List.mem_cons_self _ _, by rw [h6, if_pos hc]⟩
        · left
          rw [h6, if_neg hc]
      · right
        exact ⟨x, List.mem_cons_of_mem _ hx, h6⟩

/-- The swap loop of `db_update`: `tmp` goes to slot 0 and every slot moves one place
down; the last slot is lost from the array. -/
theorem history_rotate_eq (tmp : race_result_t) (l : List race_result_t) :
    (history_rotate tmp l).2 = (tmp :: l).dropLast := by
  induction l generalizing tmp with
  | nil => rfl
  | cons a t ih =>
    simp only [history_rotate, race_result_swap]
    rw [ih a]
    rfl

theorem results_only_refl (p : player_t) : results_only p p :=
  ⟨⟨rfl, rfl, rfl, rfl, rfl, rfl⟩, rfl, rfl, rfl, rfl, rfl⟩

theorem results_only_trans {p q r : player_t} (h1 : results_only p q)
    (h2 : results_only q r) : results_only p r := by
  unfold results_only ratings_kept at *
  refine ⟨⟨?_, ?_, ?_, ?_, ?_, ?_⟩, ?_, ?_, ?_, ?_, ?_⟩
  · rw [h2.1.1, h1.1.1]
  · rw [h2.1.2.1, h1.1.2.1]
  · rw [h2.1.2.2.1, h1.1.2.2.1]
  · rw [h2.1.2.2.2.1, h1.1.2.2.2.1]
  · rw [h2.1.2.2.2.2.1, h1.1.2.2.2.2.1]
  · rw [h2.1.2.2.2.2.2, h1.1.2.2.2.2.2]
  · rw [h2.2.1, h1.2.1]
  · rw [h2.2.2.1, h1.2.2.1]
  · rw [h2.2.2.2.1, h1.2.2.2.1]
  · rw [h2.2.2.2.2.1, h1.2.2.2.2.1]
  · rw [h2.2.2.2.2.2, h1.2.2.2.2.2]

theorem race_result_set_only (p : player_t) (week status : Nat) (dq : dq_reason_e)
    (weight rating : ℚ) :
    results_only p (race_result_set p week status dq weight rating) ∧
    (race_result_set p week status dq weight rating).history = p.history ∧
    (race_result_set p week status dq weight rating).qualifier = p.qualifier :=
  ⟨⟨⟨rfl, rfl, rfl, rfl, rfl, rfl⟩, rfl, rfl, rfl, rfl, rfl⟩, rfl, rfl⟩

theorem race_result_set_latest (p : player_t) (week status : Nat) (dq : dq_reason_e)
    (weight rating : ℚ) :
    (race_result_set p week status dq weight rating).latest.race_id = week ∧
    (race_result_set p week status dq weight rating).latest.status = status ∧
    (race_result_set p week status dq weight rating).latest.dq = dq ∧
    (race_result_set p week status dq weight rating).latest.rating = rating ∧
    (race_result_set p week status dq weight rating).latest.weight =
      weight * weight_adjust p.rating rating :=
  ⟨rfl, rfl, rfl, rfl, rfl⟩

theorem db_update_qualifier_only (p : player_t) (f : Bool) :
    results_only p (db_update_qualifier p f).1 ∧
    (db_update_qualifier p f).1.history = p.history ∧
    (db_update_qualifier p f).1.latest = p.latest ∧
    (f = false → (db_update_qualifier p f).2 = false) := by
  unfold db_update_qualifier
  split_ifs
  · exact ⟨results_only_refl p, rfl, rfl, fun _ => rfl⟩
  · exact ⟨⟨⟨rfl, rfl, rfl, rfl, rfl, rfl⟩, rfl, rfl, rfl, rfl, rfl⟩, rfl, rfl, fun h => h⟩

theorem history_store_fold_false (latest : race_result_t) (l : List race_result_t) (o : Nat) :
    (history_store latest l o false).2.2.1 = false := by
  induction l generalizing o with
  | nil => rfl
  | cons a t ih =>
    simp only [history_store]
    by_cases h : a.race_id = latest.race_id
    · rw [if_pos h]
      split_ifs <;> rfl
    · rw [if_neg h]
      exact ih _

theorem db_update_history_only (p : player_t) (f : Bool) :
    results_only p (db_update_history p f).1 ∧
    (db_update_history p f).1.qualifier = p.qualifier ∧
    (db_update_history p f).1.latest = p.latest ∧
    (f = false → (db_update_history p f).2 = false) := by
  unfold db_update_history
  simp only []
  split_ifs
  · exact ⟨⟨⟨rfl, rfl, rfl, rfl, rfl, rfl⟩, rfl, rfl, rfl, rfl, rfl⟩, rfl, rfl, fun _ => rfl⟩
  · refine ⟨⟨⟨rfl, rfl, rfl, rfl, rfl, rfl⟩, rfl, rfl, rfl, rfl, rfl⟩, rfl, rfl, ?_⟩
    intro h
    rw [h]
    exact history_store_fold_false _ _ _
  · refine ⟨⟨⟨rfl, rfl, rfl, rfl, rfl, rfl⟩, rfl, rfl, rfl, rfl, rfl⟩, rfl, rfl, ?_⟩
    intro h
    rw [h]
    exact history_store_fold_false _ _ _

theorem db_update_entry_other (ev : event_t) (db : Nat → player_t) (cur : entry_t) (i : Nat)
    (h : i ≠ player_index cur.player_id) : db_update_entry ev db cur i = db i := by
  unfold db_update_entry
  simp only []
  split_ifs <;>
    first
    | rfl
    | rw [player_update_rating_other _ _ _ h, Function.update_noteq h]
    | rw [Function.update_noteq h]

theorem db_update_entry_invalid (ev : event_t) (db : Nat → player_t) (cur : entry_t)
    (h : (db (player_index cur.player_id)).valid = 0) : db_update_entry ev db cur = db := by
  unfold db_update_entry
  simp only []
  rw [if_neg (not_not.mpr h)]

/-- The record staged by the loop body of `db_update` before the rating is folded, and
the local `fold_rating`. -/
theorem db_update_entry_valid (ev : event_t) (db : Nat → player_t) (cur : entry_t)
    (k : Nat) (hk : k = player_index cur.player_id) (hv : (db k).valid ≠ 0)
    (r : player_t × Bool)
    (hr : r = (if ev.week = EVENT_QUALIFIER then
        db_update_qualifier
          (race_result_set (db k) (u32 ev.week) ev.status cur.dq ev.weight cur.rating)
          (decide (ev.status = STATUS_FINAL))
      else
        db_update_history
          (race_result_set (db k) (u32 ev.week) ev.status cur.dq ev.weight cur.rating)
          (decide (ev.status = STATUS_FINAL)))) :
    db_update_entry ev db cur k =
      (if r.2 = true then player_update_rating (Function.update db k r.1) k k else r.1) := by
  subst hk
  subst hr
  unfold db_update_entry
  simp only []
  rw [if_pos hv]
  split_ifs <;> first | rfl | rw [Function.update_same]

/-! ## C16: events that are not final -/

theorem db_update_entry_provisional (ev : event_t) (db : Nat → player_t) (cur : entry_t)
    (h : ev.status ≠ STATUS_FINAL) (i : Nat) :
    results_only (db i) (db_update_entry ev db cur i) := by
  by_cases hi : i = player_index cur.player_id
  · by_cases hv : (db i).valid ≠ 0
    · rw [db_update_entry_valid ev db cur i hi hv _ rfl]
      have hf : decide (ev.status = STATUS_FINAL) = false := decide_eq_false h
      rw [hf]
      have hs := (race_result_set_only (db i) (u32 ev.week) ev.status cur.dq ev.weight
        cur.rating).1
      by_cases hw : ev.week = EVENT_QUALIFIER
      · rw [if_pos hw]
        have hq := db_update_qualifier_only
          (race_result_set (db i) (u32 ev.week) ev.status cur.dq ev.weight cur.rating) false
        rw [if_neg (by rw [hq.2.2.2 rfl]; decide)]
        exact results_only_trans hs hq.1
      · rw [if_neg hw]
        have hq := db_update_history_only
          (race_result_set (db i) (u32 ev.week) ev.status cur.dq ev.weight cur.rating) false
        rw [if_neg (by rw [hq.2.2.2 rfl]; decide)]
        exact results_only_trans hs hq.1
    · rw [hi] at hv
      rw [db_update_entry_invalid ev db cur (not_not.mp hv)]
      exact results_only_refl _
  · rw [db_update_entry_other ev db cur i hi]
    exact results_only_refl _

theorem db_update_entries_provisional (ev : event_t) (h : ev.status ≠ STATUS_FINAL)
    (l : List entry_t) (db : Nat → player_t) (i : Nat) :
    results_only (db i) (db_update_entries ev db l i) := by
  induction l generalizing db with
  | nil => exact results_only_refl _
  | cons cur rest ih =>
    simp only [db_update_entries]
    split_ifs
    · exact results_only_trans (db_update_entry_provisional ev db cur h i) (ih _)
    · exact ih db

/-- C16: if the event status is not `STATUS_FINAL`, `db_update` leaves `rating`,
`real_rating`, `total_weight`, `event_count`, `dq_count` and `verified_count` of every
player record unchanged. -/
theorem db_update_provisional (s : state) (h : s.g_event.status ≠ STATUS_FINAL) (i : Nat) :
    ((db_update s).player_db i).rating = (s.player_db i).rating ∧
    ((db_update s).player_db i).real_rating = (s.player_db i).real_rating ∧
    ((db_update s).player_db i).total_weight = (s.player_db i).total_weight ∧
    ((db_update s).player_db i).event_count = (s.player_db i).event_count ∧
    ((db_update s).player_db i).dq_count = (s.player_db i).dq_count ∧
    ((db_update s).player_db i).verified_count = (s.player_db i).verified_count :=
  (db_update_entries_provisional s.g_event h s.ov s.player_db i).1

/-- C16, witness: for a provisional event with one entry of player 1, `db_update` leaves
the ratings, the accumulated weight and the counters of player 1 unchanged. -/
theorem db_update_provisional_witness :
    ((db_update provisional_state).player_db 1).rating = (provisional_state.player_db 1).rating ∧
    ((db_update provisional_state).player_db 1).real_rating =
      (provisional_state.player_db 1).real_rating ∧
    ((db_update provisional_state).player_db 1).total_weight =
      (provisional_state.player_db 1).total_weight ∧
    ((db_update provisional_state).player_db 1).event_count =
      (provisional_state.player_db 1).event_count ∧
    ((db_update provisional_state).player_db 1).dq_count =
      (provisional_state.player_db 1).dq_count ∧
    ((db_update provisional_state).player_db 1).verified_count =
      (provisional_state.player_db 1).verified_count :=
  db_update_provisional provisional_state (by decide) 1

/-! ## C17: results older than the whole history -/

/-- The history branch of `db_update` when every stored race is newer than the race of
`latest`, which is below the start value of `oldest_history`: nothing is stored and
`fold_rating` is cleared. -/
theorem db_update_history_reject (p : player_t) (f : Bool)
    (hall : ∀ x ∈ p.history, p.latest.race_id < x.race_id)
    (hid : p.latest.race_id < 999999) :
    (db_update_history p f).2 = false ∧ (db_update_history p f).1.history = p.history := by
  have hne : ∀ x ∈ p.history, x.race_id ≠ p.latest.race_id :=
    fun x hx => Nat.ne_of_gt (hall x hx)
  obtain ⟨s1, _, s3, _, _, s6⟩ := history_store_none p.latest p.history hne 999999 f
  have hgt : (history_store p.latest p.history 999999 f).2.1 > p.latest.race_id := by
    rcases s6 with h | ⟨x, hx, h⟩
    · rw [h]
      exact hid
    · rw [h]
      exact hall x hx
  unfold db_update_history
  simp only []
  rw [if_pos s3, if_pos hgt]
  exact ⟨rfl, s1⟩

/-- The history branch of `db_update` when no slot holds the race of `latest` and that
race is not older than every stored one (or not below the start value of
`oldest_history`): `latest` is rotated into the array and `fold_rating` is kept. -/
theorem db_update_history_rotate (p : player_t) (f : Bool)
    (hne : ∀ x ∈ p.history, x.race_id ≠ p.latest.race_id)
    (hold : 999999 ≤ p.latest.race_id ∨ ∃ x ∈ p.history, x.race_id ≤ p.latest.race_id) :
    (db_update_history p f).2 = f ∧
      (db_update_history p f).1.history = (p.latest :: p.history).dropLast := by
  obtain ⟨s1, s2, s3, s4, s5, _⟩ := history_store_none p.latest p.history hne 999999 f
  have hle : ¬ (history_store p.latest p.history 999999 f).2.1 > p.latest.race_id := by
    rcases hold with h | ⟨x, hx, h⟩
    · exact not_lt.mpr (le_trans s4 h)
    · exact not_lt.mpr (le_trans (s5 x hx) h)
  unfold db_update_history
  simp only []
  rw [if_pos s3, if_neg hle]
  refine ⟨s2, ?_⟩
  simp only []
  rw [s1, history_rotate_eq]

/-- The history of the player of an entry after the loop body of `db_update`, for an
event that is not the qualifier. -/
theorem db_update_entry_history (ev : event_t) (db : Nat → player_t) (cur : entry_t)
    (k : Nat) (hk : k = player_index cur.player_id) (hv : (db k).valid ≠ 0)
    (hw : ev.week ≠ EVENT_QUALIFIER) :
    (db_update_entry ev db cur k).history =
      (db_update_history
        (race_result_set (db k) (u32 ev.week) ev.status cur.dq ev.weight cur.rating)
        (decide (ev.status = STATUS_FINAL))).1.history := by
  rw [db_update_entry_valid ev db cur k hk hv _ rfl, if_neg hw]
  split_ifs
  · rw [(player_update_rating_frame _ k).2.2.2.2.2.2.1, Function.update_same]
  · rfl

/-- The loop body of `db_update` for a player whose stored races are all newer than the
event, which is not the qualifier: the record changes at most in `latest`. -/
theorem db_update_entry_reject (ev : event_t) (db : Nat → player_t) (cur : entry_t) (i : Nat)
    (hw : ev.week ≠ EVENT_QUALIFIER) (hid : u32 ev.week < 999999)
    (hall : ∀ x ∈ (db i).history, u32 ev.week < x.race_id) :
    results_only (db i) (db_update_entry ev db cur i) ∧
      (db_update_entry ev db cur i).history = (db i).history := by
  by_cases hi : i = player_index cur.player_id
  · by_cases hv : (db i).valid ≠ 0
    · have hs := race_result_set_only (db i) (u32 ev.week) ev.status cur.dq ev.weight
        cur.rating
      have hl := race_result_set_latest (db i) (u32 ev.week) ev.status cur.dq ev.weight
        cur.rating
      have hr := db_update_history_reject
        (race_result_set (db i) (u32 ev.week) ev.status cur.dq ev.weight cur.rating)
        (decide (ev.status = STATUS_FINAL))
        (by rw [hl.1, hs.2.1]; exact hall) (by rw [hl.1]; exact hid)
      have ho := db_update_history_only
        (race_result_set (db i) (u32 ev.week) ev.status cur.dq ev.weight cur.rating)
        (decide (ev.status = STATUS_FINAL))
      constructor
      · rw [db_update_entry_valid ev db cur i hi hv _ rfl, if_neg hw,
          if_neg (by rw [hr.1]; decide)]
        exact results_only_trans hs.1 ho.1
      · rw [db_update_entry_history ev db cur i hi hv hw, hr.2, hs.2.1]
    · rw [hi] at hv
      rw [db_update_entry_invalid ev db cur (not_not.mp hv)]
      exact ⟨results_only_refl _, rfl⟩
  · rw [db_update_entry_other ev db cur i hi]
    exact ⟨results_only_refl _, rfl⟩

theorem db_update_entries_reject (ev : event_t) (hw : ev.week ≠ EVENT_QUALIFIER)
    (hid : u32 ev.week < 999999) (i : Nat) (l : List entry_t) (db : Nat → player_t)
    (hall : ∀ x ∈ (db i).history, u32 ev.week < x.race_id) :
    results_only (db i) (db_update_entries ev db l i) ∧
      (db_update_entries ev db l i).history = (db i).history := by
  induction l generalizing db with
  | nil => exact ⟨results_only_refl _, rfl⟩
  | cons cur rest ih =>
    simp only [db_update_entries]
    split_ifs
    · have h1 := db_update_entry_reject ev db cur i hw hid hall
      have h2 := ih (db_update_entry ev db cur) (by rw [h1.2]; exact hall)
      exact ⟨results_only_trans h1.1 h2.1, by rw [h2.2, h1.2]⟩
    · exact ih db hall

/-- C17 (amended): for an event that is not the qualifier and whose id is below 999999,
if every history slot of a player holds an event id greater than the id of the event (so
no slot is empty and none holds the event), `db_update` leaves all history slots of the
player unchanged and does not fold the result into `rating`, `real_rating` or
`total_weight`. -/
theorem db_update_rejects_old (s : state) (i : Nat)
    (hw : s.g_event.week ≠ EVENT_QUALIFIER) (hid : u32 s.g_event.week < 999999)
    (hall : ∀ x ∈ (s.player_db i).history, u32 s.g_event.week < x.race_id) :
    ((db_update s).player_db i).history = (s.player_db i).history ∧
    ((db_update s).player_db i).rating = (s.player_db i).rating ∧
    ((db_update s).player_db i).real_rating = (s.player_db i).real_rating ∧
    ((db_update s).player_db i).total_weight = (s.player_db i).total_weight := by
  have h := db_update_entries_reject s.g_event hw hid i s.ov s.player_db hall
  exact ⟨h.2, h.1.1.1, h.1.1.2.1, h.1.1.2.2.1⟩

/-! ## The loop of `db_update` and the rotation of the history -/

theorem entry_match_any (db : Nat → player_t) (e : entry_t) :
    entry_match db DIV_ALL dq_iter_e.ITER_DQ_ALL e = true := by
  unfold entry_match entry_dq_match
  rw [if_pos ⟨Or.inl rfl, rfl⟩]

/-- The loop of `db_update` is the fold of its body over all entries. -/
theorem db_update_entries_eq (ev : event_t) (l : List entry_t) (db : Nat → player_t) :
    db_update_entries ev db l = l.foldl (db_update_entry ev) db := by
  induction l generalizing db with
  | nil => rfl
  | cons cur rest ih =>
    simp only [db_update_entries, List.foldl_cons]
    rw [if_pos (entry_match_any db cur)]
    exact ih _

theorem db_update_entries_append (ev : event_t) (l1 l2 : List entry_t) (db : Nat → player_t) :
    db_update_entries ev db (l1 ++ l2) =
      db_update_entries ev (db_update_entries ev db l1) l2 := by
  rw [db_update_entries_eq, db_update_entries_eq, db_update_entries_eq, List.foldl_append]

theorem db_update_entries_other (ev : event_t) (i : Nat) (l : List entry_t)
    (db : Nat → player_t) (h : ∀ e ∈ l, player_index e.player_id ≠ i) :
    db_update_entries ev db l i = db i := by
  induction l generalizing db with
  | nil => rfl
  | cons cur rest ih =>
    simp only [db_update_entries]
    rw [if_pos (entry_match_any db cur),
      ih _ (fun e he => h e (List.mem_cons_of_mem _ he)),
      db_update_entry_other ev db cur i (fun hh => h cur (List.mem_cons_self _ _) hh.symm)]

/-- The loop body of `db_update` for a valid player of whom no history slot holds the
event and some slot holds an event that is not newer (or the event id is at least
999999), the event not being the qualifier: the new result goes to slot 0, the other
results move one slot down and the result of the last slot is lost. -/
theorem db_update_entry_rotate (ev : event_t) (db : Nat → player_t) (cur : entry_t)
    (k : Nat) (hk : k = player_index cur.player_id) (hv : (db k).valid ≠ 0)
    (hw : ev.week ≠ EVENT_QUALIFIER)
    (hne : ∀ x ∈ (db k).history, x.race_id ≠ u32 ev.week)
    (hold : 999999 ≤ u32 ev.week ∨ ∃ x ∈ (db k).history, x.race_id ≤ u32 ev.week) :
    (db_update_entry ev db cur k).history =
      ((race_result_set (db k) (u32 ev.week) ev.status cur.dq ev.weight cur.rating).latest ::
        (db k).history).dropLast := by
  have hs := race_result_set_only (db k) (u32 ev.week) ev.status cur.dq ev.weight cur.rating
  have hl := race_result_set_latest (db k) (u32 ev.week) ev.status cur.dq ev.weight
    cur.rating
  have hr := db_update_history_rotate
    (race_result_set (db k) (u32 ev.week) ev.status cur.dq ev.weight cur.rating)
    (decide (ev.status = STATUS_FINAL))
    (by rw [hl.1, hs.2.1]; exact hne) (by rw [hl.1, hs.2.1]; exact hold)
  rw [db_update_entry_history ev db cur k hk hv hw, hr.2, hs.2.1]

/-- The history of a player with exactly one entry in the list, after the loop of
`db_update`, under the conditions of `db_update_entry_rotate`. -/
theorem db_update_entries_rotate (ev : event_t) (db : Nat → player_t)
    (l1 l2 : List entry_t) (cur : entry_t) (k : Nat) (hk : k = player_index cur.player_id)
    (h1 : ∀ e ∈ l1, player_index e.player_id ≠ k)
    (h2 : ∀ e ∈ l2, player_index e.player_id ≠ k)
    (hv : (db k).valid ≠ 0) (hw : ev.week ≠ EVENT_QUALIFIER)
    (hne : ∀ x ∈ (db k).history, x.race_id ≠ u32 ev.week)
    (hold : 999999 ≤ u32 ev.week ∨ ∃ x ∈ (db k).history, x.race_id ≤ u32 ev.week) :
    (db_update_entries ev db (l1 ++ cur :: l2) k).history =
      ((race_result_set (db k) (u32 ev.week) ev.status cur.dq ev.weight cur.rating).latest ::
        (db k).history).dropLast := by
  have e1 : db_update_entries ev db l1 k = db k := db_update_entries_other ev k l1 db h1
  rw [db_update_entries_append]
  simp only [db_update_entries]
  rw [if_pos (entry_match_any _ cur), db_update_entries_other ev k l2 _ h2,
    db_update_entry_rotate ev _ cur k hk (by rw [e1]; exact hv) hw (by rw [e1]; exact hne)
      (by rw [e1]; exact hold), e1]

/-- In an array whose races are in non-increasing slot order the last slot holds the
oldest race. -/
theorem last_is_oldest (l : List race_result_t)
    (hs : l.Pairwise (fun a b => b.race_id ≤ a.race_id)) (last : race_result_t)
    (hl : l.getLast? = some last) : ∀ x ∈ l, last.race_id ≤ x.race_id := by
  intro x hx
  have hne : l ≠ [] := List.ne_nil_of_mem hx
  have hlast : l.getLast hne = last := by
    rw [List.getLast?_eq_getLast l hne] at hl
    exact Option.some.inj hl
  have hsplit : l = l.dropLast ++ [last] := by
    rw [← hlast]
    exact (List.dropLast_append_getLast hne).symm
  rw [hsplit] at hx hs
  rcases List.mem_append.mp hx with hx | hx
  · exact (List.pairwise_append.mp hs).2.2 x hx last (List.mem_singleton_self _)
  · rw [List.mem_singleton.mp hx]

theorem history_ascending_races :
    history_ascending.map (fun x => x.race_id) = List.range' 1 RACE_HISTORY := by
  unfold history_ascending
  rw [List.map_map]
  exact List.map_id _

theorem history_descending_races :
    history_descending.map (fun x => x.race_id) = (List.range' 1 RACE_HISTORY).reverse := by
  unfold history_descending
  rw [List.map_map]
  exact List.map_id _

theorem mem_races {l : List race_result_t} {x : race_result_t} (h : x ∈ l) :
    x.race_id ∈ l.map (fun x => x.race_id) :=
  List.mem_map_of_mem _ h

theorem history_ascending_mem (x : race_result_t) (h : x ∈ history_ascending) :
    1 ≤ x.race_id ∧ x.race_id ≤ 20 := by
  have := mem_races h
  rw [history_ascending_races, List.mem_range'_1] at this
  simp only [RACE_HISTORY] at this
  omega

theorem history_descending_mem (x : race_result_t) (h : x ∈ history_descending) :
    1 ≤ x.race_id ∧ x.race_id ≤ 20 := by
  have := mem_races h
  rw [history_descending_races, List.mem_reverse, List.mem_range'_1] at this
  simp only [RACE_HISTORY] at this
  omega

theorem history_far_mem (x : race_result_t) (h : x ∈ history_far) : x.race_id = 2000000 := by
  unfold history_far at h
  rw [List.eq_of_mem_replicate h]

theorem update_state_fields (week : Int) (status : Nat) (h : List race_result_t) :
    (update_state week status h).g_event.week = week ∧
    (update_state week status h).g_event.status = status ∧
    (update_state week status h).g_event.weight = 1 ∧
    (update_state week status h).ov = [entry_rated] ∧
    (update_state week status h).player_db = (fun _ => player_with_history h) :=
  ⟨rfl, rfl, rfl, rfl, rfl⟩

theorem u32_literals : u32 0 = 0 ∧ u32 5 = 5 ∧ u32 21 = 21 ∧ u32 1500000 = 1500000 := by
  unfold u32
  decide

/-! ## C17: counterexample and witness; C18: the evicted slot -/

theorem db_update_qualifier_open (p : player_t) (f : Bool)
    (h : p.qualifier.status ≠ STATUS_FINAL) : (db_update_qualifier p f).2 = f := by
  unfold db_update_qualifier
  rw [if_neg h]

/-- The accumulated weight of a valid player after the loop body of `db_update` for a
final qualifier event, when no final qualifier result is stored and the entry is not a
disqualification: the result is folded. -/
theorem db_update_entry_qualifier_fold (ev : event_t) (db : Nat → player_t) (cur : entry_t)
    (k : Nat) (hk : k = player_index cur.player_id) (hv : (db k).valid ≠ 0)
    (hw : ev.week = EVENT_QUALIFIER) (hst : ev.status = STATUS_FINAL)
    (hq : (db k).qualifier.status ≠ STATUS_FINAL) (hd : dq_ok cur.dq = true) :
    (db_update_entry ev db cur k).total_weight =
      (db k).total_weight + ev.weight * weight_adjust (db k).rating cur.rating := by
  have hs := race_result_set_only (db k) (u32 ev.week) ev.status cur.dq ev.weight cur.rating
  have hl := race_result_set_latest (db k) (u32 ev.week) ev.status cur.dq ev.weight
    cur.rating
  have ho := db_update_qualifier_only
    (race_result_set (db k) (u32 ev.week) ev.status cur.dq ev.weight cur.rating)
    (decide (ev.status = STATUS_FINAL))
  have h2 := db_update_qualifier_open
    (race_result_set (db k) (u32 ev.week) ev.status cur.dq ev.weight cur.rating)
    (decide (ev.status = STATUS_FINAL)) (by rw [hs.2.2]; exact hq)
  rw [db_update_entry_valid ev db cur k hk hv _ rfl, if_pos hw, if_pos (by rw [h2, hst]; rfl)]
  generalize hr : db_update_qualifier
    (race_result_set (db k) (u32 ev.week) ev.status cur.dq ev.weight cur.rating)
    (decide (ev.status = STATUS_FINAL)) = r at ho h2
  have hv2 : (Function.update db k r.1 k).valid ≠ 0 := by
    rw [Function.update_same, ho.1.2.2.1, hs.1.2.2.1]
    exact hv
  have hd2 : dq_ok (Function.update db k r.1 k).latest.dq = true := by
    rw [Function.update_same, ho.2.2.1, hl.2.2.1]
    exact hd
  rw [player_update_rating_total_weight _ k hv2 hd2, Function.update_same, ho.1.1.2.2.1,
    ho.2.2.1, hl.2.2.2.2, hs.1.1.2.2.1]

theorem update_state_step (week : Int) (status : Nat) (h : List race_result_t) :
    (db_update (update_state week status h)).player_db 1 =
      db_update_entry (update_state week status h).g_event (fun _ => player_with_history h)
        entry_rated 1 := by
  unfold db_update
  simp only [(update_state_fields week status h).2.2.2.1,
    (update_state_fields week status h).2.2.2.2, db_update_entries]
  rw [if_pos (entry_match_any _ _)]

theorem adjust_one_two : weight_adjust 1 2 = 1 := by
  unfold weight_adjust
  norm_num

/-- C17, counterexample: (a) for a final qualifier event (id 0) and a valid player
without final qualifier whose 20 history slots hold the events 1 .. 20, all newer than
the event, `db_update` folds the result: `total_weight` goes from 1 to 2; (b) for the
event 1500000 and a player whose 20 history slots hold the event 2000000, `db_update`
stores the result in slot 0. -/
theorem db_update_old_not_rejected :
    (history_ascending.length = RACE_HISTORY ∧
      (∀ x ∈ ((update_state 0 STATUS_FINAL history_ascending).player_db 1).history,
        u32 (update_state 0 STATUS_FINAL history_ascending).g_event.week < x.race_id) ∧
      ((update_state 0 STATUS_FINAL history_ascending).player_db 1).total_weight = 1 ∧
      ((db_update (update_state 0 STATUS_FINAL history_ascending)).player_db 1).total_weight
        = 2) ∧
    (history_far.length = RACE_HISTORY ∧
      (∀ x ∈ ((update_state 1500000 STATUS_PROVISIONAL history_far).player_db 1).history,
        u32 (update_state 1500000 STATUS_PROVISIONAL history_far).g_event.week < x.race_id) ∧
      (((db_update (update_state 1500000 STATUS_PROVISIONAL history_far)).player_db 1).history.map
        (fun x => x.race_id)) = 1500000 :: List.replicate 19 2000000) := by
  refine ⟨⟨rfl, ?_, rfl, ?_⟩, rfl, ?_, ?_⟩
  · intro x hx
    have := history_ascending_mem x hx
    rw [(update_state_fields _ _ _).1, u32_literals.1]
    omega
  · rw [update_state_step,
      db_update_entry_qualifier_fold _ _ entry_rated 1 rfl (by decide) rfl rfl (by decide)
        (by decide),
      (update_state_fields _ _ _).2.2.1]
    have h1 : (player_with_history history_ascending).total_weight = 1 := rfl
    have h2 : (player_with_history history_ascending).rating = 1 := rfl
    have h3 : entry_rated.rating = 2 := rfl
    rw [h1, h2, h3, adjust_one_two]
    norm_num
  · intro x hx
    have := history_far_mem x hx
    rw [(update_state_fields _ _ _).1, u32_literals.2.2.2, this]
    norm_num
  · rw [update_state_step,
      db_update_entry_rotate _ _ entry_rated 1 rfl (by decide) (by decide)
        (by
          intro x hx
          have := history_far_mem x hx
          rw [(update_state_fields _ _ _).1, u32_literals.2.2.2, this]
          norm_num)
        (Or.inl (by rw [(update_state_fields _ _ _).1, u32_literals.2.2.2]; norm_num))]
    rw [(update_state_fields _ _ _).1, u32_literals.2.2.2]
    rfl

/-- C17, witness: for the final event 5 and a valid player whose 20 history slots hold
the event 2000000, `db_update` leaves the history, both ratings and the accumulated weight
of the player unchanged. -/
theorem db_update_rejects_old_witness :
    ((db_update (update_state 5 STATUS_FINAL history_far)).player_db 1).history =
      history_far ∧
    ((db_update (update_state 5 STATUS_FINAL history_far)).player_db 1).rating = 1 ∧
    ((db_update (update_state 5 STATUS_FINAL history_far)).player_db 1).real_rating = 1 ∧
    ((db_update (update_state 5 STATUS_FINAL history_far)).player_db 1).total_weight = 1 :=
  db_update_rejects_old (update_state 5 STATUS_FINAL history_far) 1 (by decide)
    (by rw [(update_state_fields _ _ _).1, u32_literals.2.1]; norm_num)
    (by
      intro x hx
      have := history_far_mem x hx
      rw [(update_state_fields _ _ _).1, u32_literals.2.1, this]
      norm_num)

/-- C18 (amended): for an event that is not the qualifier and a valid player with exactly
one entry, whose 20 history slots are such that none holds the event's id and some slot
holds an id that is not greater than the event's id, `db_update` stores the new result in
slot 0, keeps the results of the slots 0 .. 18 (moved one slot down) and evicts the result
of the last slot; the last slot holds the oldest id when the stored ids are in
non-increasing slot order. -/
theorem db_update_evicts_last (s : state) (l1 l2 : List entry_t) (cur : entry_t)
    (hov : s.ov = l1 ++ cur :: l2)
    (h1 : ∀ e ∈ l1, player_index e.player_id ≠ player_index cur.player_id)
    (h2 : ∀ e ∈ l2, player_index e.player_id ≠ player_index cur.player_id)
    (hv : (s.player_db (player_index cur.player_id)).valid ≠ 0)
    (hw : s.g_event.week ≠ EVENT_QUALIFIER)
    (hlen : (s.player_db (player_index cur.player_id)).history.length = RACE_HISTORY)
    (hne : ∀ x ∈ (s.player_db (player_index cur.player_id)).history,
      x.race_id ≠ u32 s.g_event.week)
    (hold : ∃ x ∈ (s.player_db (player_index cur.player_id)).history,
      x.race_id ≤ u32 s.g_event.week) :
    ((db_update s).player_db (player_index cur.player_id)).history =
      (race_result_set (s.player_db (player_index cur.player_id)) (u32 s.g_event.week)
          s.g_event.status cur.dq s.g_event.weight cur.rating).latest ::
        (s.player_db (player_index cur.player_id)).history.dropLast ∧
    ((db_update s).player_db (player_index cur.player_id)).history.length = RACE_HISTORY ∧
    (∀ last, (s.player_db (player_index cur.player_id)).history.getLast? = some last →
      (s.player_db (player_index cur.player_id)).history =
          (s.player_db (player_index cur.player_id)).history.dropLast ++ [last] ∧
        ((s.player_db (player_index cur.player_id)).history.Pairwise
            (fun a b => b.race_id ≤ a.race_id) →
          ∀ x ∈ (s.player_db (player_index cur.player_id)).history,
            last.race_id ≤ x.race_id)) := by
  have hnil : (s.player_db (player_index cur.player_id)).history ≠ [] := by
    intro h
    rw [h] at hlen
    exact absurd hlen (by decide)
  have hh : ((db_update s).player_db (player_index cur.player_id)).history =
      (race_result_set (s.player_db (player_index cur.player_id)) (u32 s.g_event.week)
          s.g_event.status cur.dq s.g_event.weight cur.rating).latest ::
        (s.player_db (player_index cur.player_id)).history.dropLast := by
    unfold db_update
    simp only []
    rw [hov, db_update_entries_rotate s.g_event s.player_db l1 l2 cur _ rfl h1 h2 hv hw hne
      (Or.inr hold), List.dropLast_cons_of_ne_nil hnil]
  refine ⟨hh, ?_, ?_⟩
  · rw [hh, List.length_cons, List.length_dropLast, hlen]
    rfl
  · intro last hl
    constructor
    · rw [List.getLast?_eq_getLast _ hnil] at hl
      rw [← Option.some.inj hl]
      exact (List.dropLast_append_getLast hnil).symm
    · intro hs
      exact last_is_oldest _ hs last hl

theorem dropLast_ascending :
    (history_ascending.dropLast).map (fun x => x.race_id) = List.range' 1 19 := by
  rw [List.map_dropLast, history_ascending_races]
  rfl

/-- C18, counterexample: for the event 21 and a valid player whose history slots
0 .. 19 hold the events 1 .. 20, `db_update` leaves the events 21, 1, 2, .., 19 in the
slots: the evicted result is that of event 20, and the oldest event 1 is kept. -/
theorem db_update_keeps_oldest :
    ((update_state 21 STATUS_PROVISIONAL history_ascending).player_db 1).history.length =
      RACE_HISTORY ∧
    (∀ x ∈ ((update_state 21 STATUS_PROVISIONAL history_ascending).player_db 1).history,
      x.race_id ≠ u32 (update_state 21 STATUS_PROVISIONAL history_ascending).g_event.week ∧
      1 ≤ x.race_id) ∧
    (∃ x ∈ ((update_state 21 STATUS_PROVISIONAL history_ascending).player_db 1).history,
      x.race_id = 1 ∧
      x.race_id ≤ u32 (update_state 21 STATUS_PROVISIONAL history_ascending).g_event.week) ∧
    ((db_update (update_state 21 STATUS_PROVISIONAL history_ascending)).player_db 1).history.map
        (fun x => x.race_id) = 21 :: List.range' 1 19 := by
  have hw : u32 (update_state 21 STATUS_PROVISIONAL history_ascending).g_event.week = 21 := by
    rw [(update_state_fields _ _ _).1, u32_literals.2.2.1]
  have hne : ∀ x ∈ ((update_state 21 STATUS_PROVISIONAL history_ascending).player_db 1).history,
      x.race_id ≠ u32 (update_state 21 STATUS_PROVISIONAL history_ascending).g_event.week ∧
      1 ≤ x.race_id := by
    intro x hx
    have := history_ascending_mem x hx
    rw [hw]
    omega
  have hex : ∃ x ∈ ((update_state 21 STATUS_PROVISIONAL history_ascending).player_db 1).history,
      x.race_id = 1 ∧
      x.race_id ≤ u32 (update_state 21 STATUS_PROVISIONAL history_ascending).g_event.week := by
    refine ⟨{ zero_result with race_id := 1, status := STATUS_FINAL }, ?_, rfl, ?_⟩
    · exact List.mem_map_of_mem _ (by decide)
    · rw [hw]
      decide
  refine ⟨rfl, hne, hex, ?_⟩
  rw [update_state_step,
    db_update_entry_rotate _ (fun _ => player_with_history history_ascending) entry_rated 1
      rfl (by decide) (by decide) (fun x hx => (hne x hx).1)
      (Or.inr (by
        obtain ⟨x, hx, _, h⟩ := hex
        exact ⟨x, hx, h⟩))]
  rw [List.dropLast_cons_of_ne_nil (by decide), List.map_cons]
  have h1 : (player_with_history history_ascending).history = history_ascending := rfl
  rw [h1, dropLast_ascending, (race_result_set_latest _ _ _ _ _ _).1, hw]

theorem history_descending_oldest :
    ∃ x ∈ history_descending, x.race_id ≤ 21 :=
  ⟨{ zero_result with race_id := 1, status := STATUS_FINAL },
    List.mem_map_of_mem _ (by decide), by decide⟩

/-- C18, witness: for the event 21 and a valid player whose history slots 0 .. 19 hold the
events 20 .. 1, `db_update` stores the new result in slot 0 in front of the results of the
events 20 .. 2. -/
theorem db_update_evicts_last_witness :
    ((db_update (update_state 21 STATUS_PROVISIONAL history_descending)).player_db
        (player_index entry_rated.player_id)).history =
      (race_result_set (player_with_history history_descending) 21 STATUS_PROVISIONAL
          dq_reason_e.DQ_OK 1 2).latest :: history_descending.dropLast := by
  have hw : u32 (update_state 21 STATUS_PROVISIONAL history_descending).g_event.week = 21 := by
    rw [(update_state_fields _ _ _).1, u32_literals.2.2.1]
  have h := (db_update_evicts_last (update_state 21 STATUS_PROVISIONAL history_descending)
    [] [] entry_rated rfl (fun e he => absurd he (List.not_mem_nil e))
    (fun e he => absurd he (List.not_mem_nil e)) (by decide) (by decide) rfl
    (by
      intro x hx
      have := history_descending_mem x hx
      rw [hw]
      omega)
    (by
      rw [hw]
      exact history_descending_oldest)).1
  rw [hw] at h
  exact h

/-! ## C19, C20: the promotion report -/

theorem u32_le (n : Int) (h : 0 ≤ n) : ((u32 n : Nat) : Int) ≤ n := by
  unfold u32
  omega

/-- The delta computed in `unsigned` is not greater than the exact one, and equal to it
when `3 * div + sub_div + 1` fits in 32 bits. -/
theorem promotion_delta_le (p : player_t) :
    promotion_delta p ≤ spec_delta p ∧
    (3 * p.div + p.sub_div + 1 < 4294967296 → promotion_delta p = spec_delta p) := by
  unfold promotion_delta spec_delta
  constructor
  · have h := u32_le ((p.div : Int) * 3 + (p.sub_div : Int) + 1) (by positivity)
    have h2 : (((u32 ((p.div : Int) * 3 + (p.sub_div : Int) + 1) : Nat) : Int) : ℚ) ≤
        (((p.div : Int) * 3 + (p.sub_div : Int) + 1 : Int) : ℚ) := by exact_mod_cast h
    push_cast at h2
    linarith
  · intro hlt
    have h : u32 ((p.div : Int) * 3 + (p.sub_div : Int) + 1) = p.div * 3 + p.sub_div + 1 := by
      have := u32_small (p.div * 3 + p.sub_div + 1) (by omega)
      push_cast at this
      exact this
    rw [h]
    push_cast
    ring

/-- The body of the promotion loop: a line is printed only for a player with enough
verified results and a delta above 1, and the record changes only if a line is printed and
the database is updated. -/
theorem promotion_step_spec (u : Bool) (p : player_t) :
    ((promotion_step u p).2 = true →
      MIN_PROMOTION_EVENT_COUNT ≤ p.verified_count ∧ 1 < promotion_delta p ∧
        (p.div > 1 ∨ p.sub_div > 0) ∧ p.rating ≠ 0) ∧
    ((promotion_step u p).2 = false → (promotion_step u p).1 = p) ∧
    (u = false → (promotion_step u p).1 = p) := by
  unfold promotion_step
  simp only []
  split_ifs with h1 h2 h3
  · exact ⟨fun h => absurd h (by decide), fun _ => rfl, fun _ => rfl⟩
  · exact ⟨fun _ => ⟨not_lt.mp h1, h2.2.2, h2.1, h2.2.1⟩, fun h => absurd h (by decide),
      fun h => absurd h3 (by rw [h]; decide)⟩
  · exact ⟨fun _ => ⟨not_lt.mp h1, h2.2.2, h2.1, h2.2.1⟩, fun h => absurd h (by decide),
      fun _ => rfl⟩
  · exact ⟨fun h => absurd h (by decide), fun _ => rfl, fun _ => rfl⟩

/-- The promotion loop: every printed player has enough verified results and an exact
delta above 1; a record of the database differs afterwards only if the record before the
loop has them and the database is updated. -/
theorem promotion_loop_spec (u : Bool) (l : List Nat) (db0 db : Nat → player_t)
    (hinv : ∀ i, db i ≠ db0 i →
      MIN_PROMOTION_EVENT_COUNT ≤ (db0 i).verified_count ∧ 1 < spec_delta (db0 i) ∧ u = true) :
    (∀ q ∈ (promotion_loop u db l).2,
      MIN_PROMOTION_EVENT_COUNT ≤ q.verified_count ∧ 1 < spec_delta q) ∧
    (∀ i, (promotion_loop u db l).1 i ≠ db0 i →
      MIN_PROMOTION_EVENT_COUNT ≤ (db0 i).verified_count ∧ 1 < spec_delta (db0 i) ∧
        u = true) := by
  induction l generalizing db with
  | nil =>
    simp only [promotion_loop]
    exact ⟨fun q hq => absurd hq (List.not_mem_nil q), hinv⟩
  | cons idx rest ih =>
    simp only [promotion_loop]
    by_cases hv : (player_get db idx).valid = TRUE
    · rw [if_pos hv]
      simp only []
      have hs := promotion_step_spec u (player_get db idx)
      have hinv2 : ∀ i, Function.update db (player_index idx)
          (promotion_step u (player_get db idx)).1 i ≠ db0 i →
          MIN_PROMOTION_EVENT_COUNT ≤ (db0 i).verified_count ∧ 1 < spec_delta (db0 i) ∧
            u = true := by
        intro i hi
        by_cases hik : i = player_index idx
        · subst hik
          rw [Function.update_same] at hi
          by_cases hd : db (player_index idx) = db0 (player_index idx)
          · have hp : (promotion_step u (player_get db idx)).2 = true := by
              cases hb : (promotion_step u (player_get db idx)).2
              · exact absurd ((hs.2.1 hb).trans ((player_get_index db idx).trans hd)) hi
              · rfl
            have hu : u = true := by
              cases hb : u
              · exact absurd ((hs.2.2 hb).trans ((player_get_index db idx).trans hd)) hi
              · rfl
            have h1 := hs.1 hp
            rw [player_get_index, hd] at h1
            exact ⟨h1.1, lt_of_lt_of_le h1.2.1 (promotion_delta_le _).1, hu⟩
          · exact hinv _ hd
        · rw [Function.update_noteq hik] at hi
          exact hinv i hi
      have h := ih _ hinv2
      refine ⟨?_, h.2⟩
      intro q hq
      by_cases hp : (promotion_step u (player_get db idx)).2 = true
      · rw [if_pos hp] at hq
        rcases List.mem_cons.mp hq with rfl | hq
        · have h1 := hs.1 hp
          exact ⟨h1.1, lt_of_lt_of_le h1.2.1 (promotion_delta_le _).1⟩
        · exact h.1 q hq
      · rw [if_neg hp] at hq
        exact h.1 q hq
    · rw [if_neg hv]
      exact ih db hinv

theorem promotion_step_edge (u : Bool) (p : player_t) (h : spec_delta p = 1) :
    (promotion_step u p).2 = false ∧ (promotion_step u p).1 = p := by
  have hs := promotion_step_spec u p
  have hf : (promotion_step u p).2 = false := by
    cases hb : (promotion_step u p).2
    · rfl
    · have := lt_of_lt_of_le (hs.1 hb).2.1 (promotion_delta_le p).1
      rw [h] at this
      exact absurd this (lt_irrefl _)
  exact ⟨hf, hs.2.1 hf⟩

/-- C19: in the promotion pass of `dump_promotion_report` (a) every player a promotion line
is printed for has `verified_count >= MIN_PROMOTION_EVENT_COUNT` and a delta
`(3 * div + sub_div + 1) - 3 * rating` strictly greater than 1; (b) a record whose `div` or
`sub_div` differs after the pass had both properties before it, and the event is final;
(c) for a player with delta exactly 1 no line is printed and the record is unchanged. -/
theorem promotion_only_if (max_player_id : Nat) (s : state) :
    (∀ q ∈ (dump_promotion_report max_player_id s).2.1,
      MIN_PROMOTION_EVENT_COUNT ≤ q.verified_count ∧ 1 < spec_delta q) ∧
    (∀ i : Nat,
      ((promotion_loop (decide (s.g_event.status = STATUS_FINAL)) s.player_db
            (player_iter max_player_id)).1 i).div ≠ (s.player_db i).div ∨
        ((promotion_loop (decide (s.g_event.status = STATUS_FINAL)) s.player_db
            (player_iter max_player_id)).1 i).sub_div ≠ (s.player_db i).sub_div →
      MIN_PROMOTION_EVENT_COUNT ≤ (s.player_db i).verified_count ∧
        1 < spec_delta (s.player_db i) ∧ s.g_event.status = STATUS_FINAL) ∧
    (∀ (update_db : Bool) (player : player_t), spec_delta player = 1 →
      (promotion_step update_db player).2 = false ∧
        (promotion_step update_db player).1 = player) := by
  have h := promotion_loop_spec (decide (s.g_event.status = STATUS_FINAL))
    (player_iter max_player_id) s.player_db s.player_db (fun i hi => absurd rfl hi)
  refine ⟨h.1, ?_, fun u p hp => promotion_step_edge u p hp⟩
  intro i hi
  have hne : (promotion_loop (decide (s.g_event.status = STATUS_FINAL)) s.player_db
      (player_iter max_player_id)).1 i ≠ s.player_db i := by
    intro heq
    rw [heq] at hi
    rcases hi with hi | hi
    · exact hi rfl
    · exact hi rfl
  have h2 := h.2 i hne
  exact ⟨h2.1, h2.2.1, of_decide_eq_true h2.2.2⟩

theorem edge_delta : spec_delta player_on_edge = 1 := by
  unfold spec_delta
  norm_num [player_on_edge, zero_player]

/-- C19, example: for a player of division 2, sub-division 0 and rating 2, with 4 verified
results, the delta is exactly 1; no promotion line is printed and the record is unchanged,
also for a final event. -/
theorem promotion_only_if_witness :
    spec_delta player_on_edge = 1 ∧
    MIN_PROMOTION_EVENT_COUNT ≤ player_on_edge.verified_count ∧
    (promotion_step true player_on_edge).2 = false ∧
    (promotion_step true player_on_edge).1 = player_on_edge :=
  ⟨edge_delta, by decide, (promotion_only_if 0 edge_state).2.2 true player_on_edge edge_delta⟩

theorem promotion_loop_report (l : List Nat) (db : Nat → player_t) :
    (promotion_loop false db l).1 = db := by
  induction l generalizing db with
  | nil => rfl
  | cons idx rest ih =>
    simp only [promotion_loop]
    by_cases hv : (player_get db idx).valid = TRUE
    · rw [if_pos hv]
      simp only []
      rw [(promotion_step_spec false (player_get db idx)).2.2 rfl, player_get_index,
        Function.update_eq_self]
      exact ih db
    · rw [if_neg hv]
      exact ih db

theorem placement_step_report (db : Nat → player_t) (p : player_t) :
    (placement_step false db p).1 = p := by
  unfold placement_step
  simp only []
  split_ifs <;> first | rfl | contradiction

theorem placement_loop_report (l : List Nat) (db : Nat → player_t) :
    (placement_loop false db l).1 = db := by
  induction l generalizing db with
  | nil => rfl
  | cons idx rest ih =>
    simp only [placement_loop]
    by_cases hv : (player_get db idx).valid = TRUE
    · rw [if_pos hv]
      simp only []
      rw [placement_step_report, player_get_index, Function.update_eq_self]
      exact ih db
    · rw [if_neg hv]
      exact ih db

/-- For an event that is not final `dump_promotion_report` leaves the player database
unchanged. -/
theorem dump_promotion_report_db (max_player_id : Nat) (s : state)
    (h : s.g_event.status ≠ STATUS_FINAL) :
    (dump_promotion_report max_player_id s).1.player_db = s.player_db := by
  unfold dump_promotion_report
  simp only []
  rw [decide_eq_false h, promotion_loop_report, placement_loop_report]

/-- C20: if the event status is not `STATUS_FINAL`, `dump_promotion_report` leaves `div`
and `sub_div` of every player record unchanged. -/
theorem dump_promotion_report_provisional (max_player_id : Nat) (s : state)
    (h : s.g_event.status ≠ STATUS_FINAL) (i : Nat) :
    ((dump_promotion_report max_player_id s).1.player_db i).div = (s.player_db i).div ∧
    ((dump_promotion_report max_player_id s).1.player_db i).sub_div =
      (s.player_db i).sub_div := by
  rw [dump_promotion_report_db max_player_id s h]
  exact ⟨rfl, rfl⟩

/-- C20, witness: for a provisional event and three players, `dump_promotion_report`
leaves `div` and `sub_div` of player 1 unchanged. -/
theorem dump_promotion_report_provisional_witness :
    ((dump_promotion_report 3 provisional_state).1.player_db 1).div =
      (provisional_state.player_db 1).div ∧
    ((dump_promotion_report 3 provisional_state).1.player_db 1).sub_div =
      (provisional_state.player_db 1).sub_div :=
  dump_promotion_report_provisional 3 provisional_state (by decide) 1

/-! ## C27: time_add and time_subtract -/

/-- For a total in `0 .. 2^31 - 1`, `time_from_usec` stores the normalised time of that
total. -/
theorem time_from_usec_normal (u : Int) (h0 : 0 ≤ u) (h1 : u < 2147483648) :
    (time_from_usec u).sec < 60 ∧ (time_from_usec u).msec < 1000 ∧
    (((time_from_usec u).min * 60 * 1000 + (time_from_usec u).sec * 1000 +
      (time_from_usec u).msec : Nat) : Int) = u := by
  unfold time_from_usec
  simp only []
  have hq : Int.tdiv u (60 * 1000) = u / 60000 := by
    rw [Int.tdiv_eq_ediv h0 (by norm_num)]
    norm_num
  rw [hq]
  have hm : ((u32 (u / 60000) : Nat) : Int) = u / 60000 := by
    rw [u32_cast]
    omega
  have hr : i32 (u - ((u32 (u / 60000) : Nat) : Int) * 60 * 1000) = u % 60000 := by
    rw [hm]
    unfold i32
    omega
  rw [hr]
  have hs : Int.tdiv (u % 60000) 1000 = u % 60000 / 1000 := by
    rw [Int.tdiv_eq_ediv (by omega) (by norm_num)]
  rw [hs]
  have hsc : ((u32 (u % 60000 / 1000) : Nat) : Int) = u % 60000 / 1000 := by
    rw [u32_cast]
    omega
  have hms : ((u32 (u % 60000 - ((u32 (u % 60000 / 1000) : Nat) : Int) * 1000) : Nat) : Int) =
      u % 60000 % 1000 := by
    rw [hsc, u32_cast]
    omega
  refine ⟨?_, ?_, ?_⟩
  · have : ((u32 (u % 60000 / 1000) : Nat) : Int) < 60 := by rw [hsc]; omega
    exact_mod_cast this
  · have : ((u32 (u % 60000 - ((u32 (u % 60000 / 1000) : Nat) : Int) * 1000) : Nat) : Int)
        < 1000 := by rw [hms]; omega
    exact_mod_cast this
  · push_cast
    rw [hsc] at hms
    rw [hm, hsc, hms]
    omega


/-- C27: when the `int` sum of the totals of `a` and `b` is in `0 .. 2^31 - 1`,
`time_add` stores the normalised time of that sum (`sec < 60`, `msec < 1000`, minutes,
seconds and milliseconds adding up to the sum, `time` the sum in seconds) and
`time_to_usec` of the result is the sum; `time_subtract` does the same for the difference
whenever the total of `a` is not smaller than that of `b` (and the difference is below
`2^31`). -/
theorem time_add_normalised (a b : ttime_t) :
    (0 ≤ time_to_usec a + time_to_usec b → time_to_usec a + time_to_usec b < 2147483648 →
      time_to_usec (time_add a b) = time_to_usec a + time_to_usec b ∧
      (time_add a b).sec < 60 ∧ (time_add a b).msec < 1000 ∧
      (((time_add a b).min * 60 * 1000 + (time_add a b).sec * 1000 +
        (time_add a b).msec : Nat) : Int) = time_to_usec a + time_to_usec b ∧
      (time_add a b).time = ((time_to_usec a + time_to_usec b : Int) : ℚ) / 1000) ∧
    (time_to_usec b ≤ time_to_usec a → time_to_usec a - time_to_usec b < 2147483648 →
      time_to_usec (time_subtract a b) = time_to_usec a - time_to_usec b ∧
      (time_subtract a b).sec < 60 ∧ (time_subtract a b).msec < 1000 ∧
      (((time_subtract a b).min * 60 * 1000 + (time_subtract a b).sec * 1000 +
        (time_subtract a b).msec : Nat) : Int) = time_to_usec a - time_to_usec b ∧
      (time_subtract a b).time = ((time_to_usec a - time_to_usec b : Int) : ℚ) / 1000) := by
  constructor
  · intro h0 h1
    have hi : i32 (time_to_usec a + time_to_usec b) = time_to_usec a + time_to_usec b :=
      i32_of_range _ (by omega) h1
    unfold time_add
    rw [hi]
    have hn := time_from_usec_normal _ h0 h1
    refine ⟨?_, hn.1, hn.2.1, hn.2.2, rfl⟩
    rw [time_to_from_usec, hi]
  · intro h0 h1
    have hi : i32 (time_to_usec a - time_to_usec b) = time_to_usec a - time_to_usec b :=
      i32_of_range _ (by omega) h1
    unfold time_subtract
    rw [hi]
    have hn := time_from_usec_normal _ (by omega) h1
    refine ⟨?_, hn.1, hn.2.1, hn.2.2, rfl⟩
    rw [time_to_from_usec, hi]

theorem time_to_usec_lit (m s ms : Nat) (t : ttime_t) (h1 : t.min = m) (h2 : t.sec = s)
    (h3 : t.msec = ms) (h : m * 60 * 1000 + s * 1000 + ms < 2147483648) :
    time_to_usec t = ((m * 60 * 1000 + s * 1000 + ms : Nat) : Int) := by
  unfold time_to_usec
  rw [h1, h2, h3]
  exact i32_of_range _ (by omega) (by exact_mod_cast h)

/-- C27, witness: 0:59.600 plus 0:00.700 is stored as 1:00.300, and 1:00.300 minus
0:00.700 as 0:59.600. -/
theorem time_add_normalised_witness :
    time_to_usec (time_add { min := 0, sec := 59, msec := 600, time := 0 }
      { min := 0, sec := 0, msec := 700, time := 0 }) = 60300 ∧
    time_to_usec (time_subtract { min := 1, sec := 0, msec := 300, time := 0 }
      { min := 0, sec := 0, msec := 700, time := 0 }) = 59600 := by
  have ha := time_to_usec_lit 0 59 600 { min := 0, sec := 59, msec := 600, time := 0 }
    rfl rfl rfl (by norm_num)
  have hb := time_to_usec_lit 0 0 700 { min := 0, sec := 0, msec := 700, time := 0 }
    rfl rfl rfl (by norm_num)
  have hc := time_to_usec_lit 1 0 300 { min := 1, sec := 0, msec := 300, time := 0 }
    rfl rfl rfl (by norm_num)
  constructor
  · rw [((time_add_normalised { min := 0, sec := 59, msec := 600, time := 0 }
      { min := 0, sec := 0, msec := 700, time := 0 }).1 (by rw [ha, hb]; norm_num)
      (by rw [ha, hb]; norm_num)).1, ha, hb]
    norm_num
  · rw [((time_add_normalised { min := 1, sec := 0, msec := 300, time := 0 }
      { min := 0, sec := 0, msec := 700, time := 0 }).2 (by rw [hc, hb]; norm_num)
      (by rw [hc, hb]; norm_num)).1, hc, hb]
    norm_num

/-! ## C30: the ceiling of player_create -/

/-- When `player_create` returns no player, and what it does otherwise. -/
theorem player_create_spec (name psn : Option String) (st : parse_state) :
    ((MAX_PLAYERS : Int) ≤ st.max_player_id →
      player_create name psn st = (none, st)) ∧
    (st.max_player_id < (MAX_PLAYERS : Int) →
      (player_create name psn st).1 = some (st.max_player_id + 1).toNat ∧
      (player_create name psn st).2.max_player_id = st.max_player_id + 1 ∧
      ((player_create name psn st).2.player_db (st.max_player_id + 1).toNat).id =
        u32 (st.max_player_id + 1)) := by
  unfold player_create
  constructor
  · intro h
    rw [if_pos h]
  · intro h
    rw [if_neg (not_le.mpr h)]
    refine ⟨rfl, rfl, ?_⟩
    simp only [Function.update_same]
    split_ifs <;> rfl

/-- C30, the code at the ceiling: with the records 0 .. MAX_PLAYERS - 1 in the database
(`max_player_id = MAX_PLAYERS - 1`), `player_create` does not fail: it returns the record
`player_db[MAX_PLAYERS]`, one past the end of the array, with the id `MAX_PLAYERS`. -/
theorem player_create_past_ceiling :
    full_parse_state.max_player_id = (MAX_PLAYERS : Int) - 1 ∧
    (player_create none (some "racer") full_parse_state).1 = some MAX_PLAYERS ∧
    ((player_create none (some "racer") full_parse_state).2.player_db MAX_PLAYERS).id =
      MAX_PLAYERS ∧
    (player_create none (some "racer") full_parse_state).2.max_player_id = MAX_PLAYERS := by
  have h := (player_create_spec none (some "racer") full_parse_state).2 (by decide)
  have hm : full_parse_state.max_player_id + 1 = 2048 := by decide
  rw [hm] at h
  refine ⟨by decide, h.1, ?_, h.2.1⟩
  rw [show MAX_PLAYERS = (2048 : Int).toNat from rfl, h.2.2]
  unfold u32
  decide

/-! ## C28: the gold shift list -/

theorem line_effect_refl (slot : Nat) (st : parse_state) : line_effect slot st st :=
  ⟨fun _ _ => rfl, Or.inl rfl⟩

theorem line_effect_step (slot : Nat) (st st1 st2 : parse_state)
    (h : line_effect slot st1 st2)
    (h1 : ∀ i : Nat, i ≠ slot → st1.entry_db i = st.entry_db i)
    (h2 : st1.g_entry_cnt = st.g_entry_cnt) :
    line_effect slot st st2 := by
  refine ⟨fun i hi => (h.1 i hi).trans (h1 i hi), ?_⟩
  rw [← h2]
  exact h.2

theorem register_entry_effect (slot : Nat) (player : Option Nat) (got_entry : Bool)
    (st : parse_state) : line_effect slot st (register_entry slot player got_entry st) := by
  unfold register_entry
  cases player with
  | none => exact line_effect_refl slot st
  | some k =>
    simp only []
    by_cases hg : got_entry = true
    · rw [if_pos hg]
      exact ⟨fun i hi => Function.update_noteq hi _ _, Or.inr rfl⟩
    · rw [if_neg hg]
      exact line_effect_refl slot st

theorem player_create_entries (name psn : Option String) (st : parse_state) :
    (player_create name psn st).2.entry_db = st.entry_db ∧
    (player_create name psn st).2.g_entry_cnt = st.g_entry_cnt := by
  unfold player_create
  split_ifs <;> exact ⟨rfl, rfl⟩

/-- The loop of `event_process_line` writes no entry but `entry_db[slot]`, and registers
at most one entry. -/
theorem process_tokens_effect (slot : Nat) (l : List token) :
    ∀ (player : Option Nat) (got_entry : Bool) (st : parse_state),
      line_effect slot st (process_tokens slot l player got_entry st) := by
  induction l with
  | nil =>
    intro player got_entry st
    simp only [process_tokens]
    exact register_entry_effect slot player got_entry st
  | cons t rest ih =>
    intro player got_entry st
    cases t with
    | comment =>
      simp only [process_tokens]
      exact register_entry_effect slot player got_entry st
    | no_label =>
      simp only [process_tokens]
      exact register_entry_effect slot player got_entry st
    | other =>
      simp only [process_tokens]
      exact ih _ _ _
    | country =>
      simp only [process_tokens]
      exact ih _ _ _
    | psn buf =>
      simp only [process_tokens]
      split
      · exact line_effect_step slot st _ _ (ih _ _ _) (fun _ _ => rfl) rfl
      · split_ifs
        · have hc := player_create_entries none (some buf) st
          split
          · exact line_effect_step slot st _ _ (ih _ _ _) (fun i _ => by rw [hc.1]) hc.2
          · exact ⟨fun i _ => by rw [hc.1], Or.inl hc.2⟩
        · exact line_effect_refl slot st
    | user buf =>
      simp only [process_tokens]
      split
      · exact line_effect_step slot st _ _ (ih _ _ _) (fun _ _ => rfl) rfl
      · split_ifs
        · have hc := player_create_entries (some buf) none st
          split
          · exact line_effect_step slot st _ _ (ih _ _ _) (fun i _ => by rw [hc.1]) hc.2
          · exact ⟨fun i _ => by rw [hc.1], Or.inl hc.2⟩
        · exact line_effect_refl slot st
    | time min sec msec =>
      simp only [process_tokens]
      exact line_effect_step slot st _ _ (ih _ _ _) (fun i hi => Function.update_noteq hi _ _) rfl
    | split min sec msec =>
      simp only [process_tokens]
      exact line_effect_step slot st _ _ (ih _ _ _) (fun _ _ => rfl) rfl
    | status c =>
      simp only [process_tokens]
      exact line_effect_step slot st _ _ (ih _ _ _) (fun i hi => Function.update_noteq hi _ _) rfl
    | week n =>
      simp only [process_tokens]
      exact line_effect_step slot st _ _ (ih _ _ _) (fun _ _ => rfl) rfl
    | season n =>
      simp only [process_tokens]
      exact line_effect_step slot st _ _ (ih _ _ _) (fun _ _ => rfl) rfl
    | season_race n =>
      simp only [process_tokens]
      exact line_effect_step slot st _ _ (ih _ _ _) (fun _ _ => rfl) rfl
    | event_status c =>
      simp only [process_tokens]
      split_ifs
      · exact line_effect_step slot st _ _ (ih _ _ _) (fun _ _ => rfl) rfl
      · exact line_effect_step slot st _ _ (ih _ _ _) (fun _ _ => rfl) rfl
      · exact ih _ _ _
    | text =>
      simp only [process_tokens]
      exact line_effect_refl slot st
    | image s =>
      simp only [process_tokens]
      split
      · exact ⟨fun _ _ => rfl, Or.inl rfl⟩
      · exact ih _ _ _
    | report =>
      simp only [process_tokens]
      exact line_effect_step slot st _ _ (ih _ _ _) (fun _ _ => rfl) rfl
    | db_fix =>
      simp only [process_tokens]
      exact line_effect_step slot st _ _ (ih _ _ _) (fun _ _ => rfl) rfl
    | shape c fields =>
      simp only [process_tokens]
      split_ifs
      · exact line_effect_step slot st _ _ (ih _ _ _) (fun _ _ => rfl) rfl
      · exact ⟨fun _ _ => rfl, Or.inl rfl⟩
      · exact ih _ _ _
    | gold_shift fields =>
      simp only [process_tokens]
      exact ⟨fun _ _ => rfl, Or.inl rfl⟩
    | squeeze x =>
      simp only [process_tokens]
      exact line_effect_step slot st _ _ (ih _ _ _) (fun _ _ => rfl) rfl
    | scoot x =>
      simp only [process_tokens]
      exact line_effect_step slot st _ _ (ih _ _ _) (fun _ _ => rfl) rfl
    | weight x =>
      simp only [process_tokens]
      exact line_effect_step slot st _ _ (ih _ _ _) (fun _ _ => rfl) rfl

theorem register_entry_some (slot k : Nat) (st : parse_state) :
    (register_entry slot (some k) true st).g_entry_cnt = u32 ((st.g_entry_cnt : Int) + 1) ∧
    ((register_entry slot (some k) true st).entry_db slot).player_id = (st.player_db k).id ∧
    (register_entry slot (some k) true st).player_db = st.player_db ∧
    (register_entry slot (some k) true st).player_psn = st.player_psn ∧
    (register_entry slot (some k) true st).max_player_id = st.max_player_id ∧
    (register_entry slot (some k) true st).g_event = st.g_event := by
  unfold register_entry
  refine ⟨rfl, ?_, rfl, rfl, rfl, rfl⟩
  simp only [if_true]
  rw [Function.update_same]
  split_ifs <;> rfl

/-- A line that gives the tag of a registered player and a time registers the entry
`entry_db[slot]` under the id of that player, whatever the entries already registered. -/
theorem known_line_registers (buf : String) (min sec msec : Nat) (slot : Nat)
    (st : parse_state) (k : Nat) (hk : player_lookup_by_psn st buf = some k) :
    (event_process_line [token.psn buf, token.time min sec msec] slot st).g_entry_cnt =
      u32 ((st.g_entry_cnt : Int) + 1) ∧
    ((event_process_line [token.psn buf, token.time min sec msec] slot st).entry_db
      slot).player_id = (st.player_db k).id ∧
    (event_process_line [token.psn buf, token.time min sec msec] slot st).player_db =
      st.player_db ∧
    (event_process_line [token.psn buf, token.time min sec msec] slot st).player_psn =
      Function.update st.player_psn k buf ∧
    (event_process_line [token.psn buf, token.time min sec msec] slot st).max_player_id =
      st.max_player_id ∧
    (event_process_line [token.psn buf, token.time min sec msec] slot st).g_event =
      st.g_event := by
  unfold event_process_line
  simp only [process_tokens, hk]
  exact register_entry_some slot k _

theorem known_lookup : player_lookup_by_psn known_parse_state "GTP_A" = some 1 := by
  decide

theorem u32_two : u32 ((1 : Nat) + 1 : Int) = 2 ∧ u32 ((0 : Nat) + 1 : Int) = 1 := by
  unfold u32
  decide

/-- After `scan_event` has processed two submission lines of the registered tag `GTP_A`,
two entries are registered and both have the `player_id` 1. -/
theorem scan_event_repeats_player :
    (scan_event repeated_lines known_parse_state).g_entry_cnt = 2 ∧
    ((scan_event repeated_lines known_parse_state).entry_db 0).player_id = 1 ∧
    ((scan_event repeated_lines known_parse_state).entry_db 1).player_id = 1 := by
  have h1 := known_line_registers "GTP_A" 1 0 0 0 known_parse_state 1 known_lookup
  have c0 : known_parse_state.g_entry_cnt = 0 := rfl
  have hid : (known_parse_state.player_db 1).id = 1 := rfl
  rw [c0, u32_two.2, hid] at h1
  generalize hst : event_process_line [token.psn "GTP_A", token.time 1 0 0] 0
    known_parse_state = st1 at h1
  have hl : player_lookup_by_psn st1 "GTP_A" = some 1 := by
    unfold player_lookup_by_psn
    rw [h1.2.2.2.2.1, h1.2.2.2.1]
    decide
  have h2 := known_line_registers "GTP_A" 1 1 0 1 st1 1 hl
  have e2 := process_tokens_effect 1 [token.psn "GTP_A", token.time 1 1 0] none false st1
  rw [h1.1, u32_two.1, h1.2.2.1, hid] at h2
  have hs : scan_event repeated_lines known_parse_state =
      event_process_line [token.psn "GTP_A", token.time 1 1 0] 1 st1 := by
    unfold repeated_lines
    simp only [scan_event]
    rw [if_pos (by decide), c0, hst, h1.1, if_pos (by decide)]
  rw [hs]
  refine ⟨h2.1, ?_, h2.2.1⟩
  have := e2.1 0 (by decide)
  unfold event_process_line
  rw [this, h1.2.1]

/-! ## Handicap ranking -/

theorem collate_count_none (db : Nat → player_t) (l : List entry_t) (o : stat_t)
    (h : ∀ e ∈ l, dq_ok e.dq = false) : collate_count db l o = (l, o) := by
  induction l with
  | nil => rfl
  | cons cur rest ih =>
    have hc : ¬ entry_match db DIV_ALL dq_iter_e.ITER_DQ_OK cur = true := by
      rw [entry_match_all, h cur (List.mem_cons_self _ _)]
      exact Bool.false_ne_true
    rw [collate_count, if_neg hc, ih (fun e he => h e (List.mem_cons_of_mem _ he))]

/-- C21: when no entry of the overall list is valid (the list may be empty, and
`g_entry_cnt` may be 0), `collate_stats` returns early: the rating list, the entries, the
division records, the event (squeeze and scoot included) and the player database are
what they were, and of `ostat` at most the count is written (set to 0); with
`g_entry_cnt = 0` nothing at all is written. -/
theorem collate_stats_no_valid_entry (sqrt : ℚ → ℚ) (g_entry_cnt : Nat)
    (rat_head : List entry_t) (s : state)
    (h : g_entry_cnt = 0 ∨ ∀ e ∈ s.ov, dq_ok e.dq = false) :
    (collate_stats sqrt g_entry_cnt rat_head s).2 = rat_head ∧
    (collate_stats sqrt g_entry_cnt rat_head s).1.ov = s.ov ∧
    (collate_stats sqrt g_entry_cnt rat_head s).1.div_stat = s.div_stat ∧
    (collate_stats sqrt g_entry_cnt rat_head s).1.g_event = s.g_event ∧
    (collate_stats sqrt g_entry_cnt rat_head s).1.player_db = s.player_db ∧
    (collate_stats sqrt g_entry_cnt rat_head s).1.custom_trophy_adjust =
      s.custom_trophy_adjust ∧
    ((collate_stats sqrt g_entry_cnt rat_head s).1.ostat = s.ostat ∨
      (collate_stats sqrt g_entry_cnt rat_head s).1.ostat = { s.ostat with count := 0 }) ∧
    (g_entry_cnt = 0 → collate_stats sqrt g_entry_cnt rat_head s = (s, rat_head)) := by
  by_cases h0 : g_entry_cnt = 0
  · have e : collate_stats sqrt g_entry_cnt rat_head s = (s, rat_head) := by
      rw [collate_stats, if_pos h0]
    rw [e]
    exact ⟨rfl, rfl, rfl, rfl, rfl, rfl, Or.inl rfl, fun _ => rfl⟩
  · have hv : ∀ e ∈ s.ov, dq_ok e.dq = false := h.resolve_left h0
    have hc := collate_count_none s.player_db s.ov { s.ostat with count := 0 } hv
    have e : collate_stats sqrt g_entry_cnt rat_head s =
        ({ s with ov := s.ov, ostat := { s.ostat with count := 0 } }, rat_head) := by
      rw [collate_stats, if_neg h0]
      simp only [hc]
      rw [if_pos trivial]
    rw [e]
    exact ⟨rfl, rfl, rfl, rfl, rfl, rfl, Or.inr rfl, fun h1 => absurd h1 h0⟩

/-- C21, instance: with one entry, disqualified, `collate_stats` leaves the division
records and the event as they were. -/
theorem collate_stats_no_valid_entry_witness :
    (∀ e ∈ (example_state [entry_at 1 dq_reason_e.DQ_CONTACT 1 0 0] 0).ov, dq_ok e.dq = false) ∧
    (collate_stats sqrt_milli 1 [] (example_state [entry_at 1 dq_reason_e.DQ_CONTACT 1 0 0] 0)).2 =
      [] ∧
    (collate_stats sqrt_milli 1 []
      (example_state [entry_at 1 dq_reason_e.DQ_CONTACT 1 0 0] 0)).1.div_stat =
      (example_state [entry_at 1 dq_reason_e.DQ_CONTACT 1 0 0] 0).div_stat :=
  have h : ∀ e ∈ (example_state [entry_at 1 dq_reason_e.DQ_CONTACT 1 0 0] 0).ov,
      dq_ok e.dq = false := by
    intro e he
    rw [List.mem_singleton.1 he]
    rfl
  ⟨h,
    (collate_stats_no_valid_entry sqrt_milli 1 []
      (example_state [entry_at 1 dq_reason_e.DQ_CONTACT 1 0 0] 0) (Or.inr h)).1,
    (collate_stats_no_valid_entry sqrt_milli 1 []
      (example_state [entry_at 1 dq_reason_e.DQ_CONTACT 1 0 0] 0) (Or.inr h)).2.2.1⟩

theorem auto_cycle_frame (sqrt : ℚ → ℚ) (s : state) (i : Nat) :
    (auto_cycle sqrt s i).g_event.auto_scoot = s.g_event.auto_scoot ∧
    (auto_cycle sqrt s i).g_event.auto_squeeze = s.g_event.auto_squeeze ∧
    (s.g_event.auto_squeeze ≠ (TRUE : Int) →
      (auto_cycle sqrt s i).g_event.squeeze = s.g_event.squeeze) ∧
    (s.g_event.auto_scoot ≠ (TRUE : Int) →
      (auto_cycle sqrt s i).g_event.scoot = s.g_event.scoot) := by
  have key : ∀ s1 : state, s1.g_event.auto_scoot = s.g_event.auto_scoot →
      s1.g_event.auto_squeeze = s.g_event.auto_squeeze →
      (s.g_event.auto_squeeze ≠ (TRUE : Int) → s1.g_event.squeeze = s.g_event.squeeze) →
      (s.g_event.auto_scoot ≠ (TRUE : Int) → s1.g_event.scoot = s.g_event.scoot) →
      ((if s1.g_event.auto_squeeze = (TRUE : Int) then
          rate_times sqrt (calculate_par sqrt
            { s1 with g_event := { s1.g_event with squeeze := calculate_auto_squeeze s1 } })
        else s1).g_event.auto_scoot = s.g_event.auto_scoot ∧
       (if s1.g_event.auto_squeeze = (TRUE : Int) then
          rate_times sqrt (calculate_par sqrt
            { s1 with g_event := { s1.g_event with squeeze := calculate_auto_squeeze s1 } })
        else s1).g_event.auto_squeeze = s.g_event.auto_squeeze ∧
       (s.g_event.auto_squeeze ≠ (TRUE : Int) →
         (if s1.g_event.auto_squeeze = (TRUE : Int) then
          rate_times sqrt (calculate_par sqrt
            { s1 with g_event := { s1.g_event with squeeze := calculate_auto_squeeze s1 } })
        else s1).g_event.squeeze = s.g_event.squeeze) ∧
       (s.g_event.auto_scoot ≠ (TRUE : Int) →
         (if s1.g_event.auto_squeeze = (TRUE : Int) then
          rate_times sqrt (calculate_par sqrt
            { s1 with g_event := { s1.g_event with squeeze := calculate_auto_squeeze s1 } })
        else s1).g_event.scoot = s.g_event.scoot)) := by
    intro s1 a1 a2 a3 a4
    by_cases hq : s1.g_event.auto_squeeze = (TRUE : Int)
    · rw [if_pos hq, (par_rate_frame sqrt _).1]
      refine ⟨a1, a2, ?_, a4⟩
      intro hn
      exact absurd (a2 ▸ hq) hn
    · rw [if_neg hq]
      exact ⟨a1, a2, a3, a4⟩
  rw [auto_cycle]
  by_cases hs : s.g_event.auto_scoot = (TRUE : Int) ∧ i < AUTO_CYCLE_CNT - 2
  · simp only [if_pos hs]
    refine key _ ?_ ?_ ?_ ?_
    · rw [(par_rate_frame sqrt _).1]
    · rw [(par_rate_frame sqrt _).1]
    · intro _
      rw [(par_rate_frame sqrt _).1]
    · intro hn
      exact absurd hs.1 hn
  · simp only [if_neg hs]
    exact key s rfl rfl (fun _ => rfl) (fun _ => rfl)

theorem auto_cycles_frame (sqrt : ℚ → ℚ) (l : List Nat) (s : state) :
    (l.foldl (auto_cycle sqrt) s).g_event.auto_scoot = s.g_event.auto_scoot ∧
    (l.foldl (auto_cycle sqrt) s).g_event.auto_squeeze = s.g_event.auto_squeeze ∧
    (s.g_event.auto_squeeze ≠ (TRUE : Int) →
      (l.foldl (auto_cycle sqrt) s).g_event.squeeze = s.g_event.squeeze) ∧
    (s.g_event.auto_scoot ≠ (TRUE : Int) →
      (l.foldl (auto_cycle sqrt) s).g_event.scoot = s.g_event.scoot) := by
  induction l generalizing s with
  | nil => exact ⟨rfl, rfl, fun _ => rfl, fun _ => rfl⟩
  | cons i rest ih =>
    rw [List.foldl_cons]
    obtain ⟨b1, b2, b3, b4⟩ := auto_cycle_frame sqrt s i
    obtain ⟨c1, c2, c3, c4⟩ := ih (auto_cycle sqrt s i)
    refine ⟨c1.trans b1, c2.trans b2, ?_, ?_⟩
    · intro hn
      rw [c3 (by rw [b2]; exact hn), b3 hn]
    · intro hn
      rw [c4 (by rw [b1]; exact hn), b4 hn]

theorem collate_tune_frame (sqrt : ℚ → ℚ) (s : state) :
    (s.g_event.auto_squeeze ≠ (TRUE : Int) →
      (collate_tune sqrt s).g_event.squeeze = s.g_event.squeeze) ∧
    (s.g_event.auto_scoot ≠ (TRUE : Int) →
      (collate_tune sqrt s).g_event.scoot = s.g_event.scoot) := by
  rw [collate_tune]
  by_cases h : s.g_event.auto_scoot = (TRUE : Int) ∨ s.g_event.auto_squeeze = (TRUE : Int)
  · rw [if_pos h]
    exact (auto_cycles_frame sqrt _ s).2.2
  · rw [if_neg h]
    exact ⟨fun _ => rfl, fun _ => rfl⟩

theorem collate_stats_event (sqrt : ℚ → ℚ) (g_entry_cnt : Nat) (rat_head : List entry_t)
    (s : state) :
    (s.g_event.auto_squeeze ≠ (TRUE : Int) →
      (collate_stats sqrt g_entry_cnt rat_head s).1.g_event.squeeze = s.g_event.squeeze) ∧
    (s.g_event.auto_scoot ≠ (TRUE : Int) →
      (collate_stats sqrt g_entry_cnt rat_head s).1.g_event.scoot = s.g_event.scoot) := by
  rw [collate_stats]
  by_cases h0 : g_entry_cnt = 0
  · rw [if_pos h0]
    exact ⟨fun _ => rfl, fun _ => rfl⟩
  · rw [if_neg h0]
    simp only []
    by_cases h1 : (collate_count s.player_db s.ov { s.ostat with count := 0 }).2.count = 0
    · rw [if_pos h1]
      exact ⟨fun _ => rfl, fun _ => rfl⟩
    · rw [if_neg h1]
      have f := (par_rate_frame sqrt
        { s with
          ov := (collate_count s.player_db s.ov { s.ostat with count := 0 }).1
          ostat := collate_overall sqrt s.player_db
            (collate_count s.player_db s.ov { s.ostat with count := 0 }).1
            (collate_count s.player_db s.ov { s.ostat with count := 0 }).2 }).1
      have t := collate_tune_frame sqrt (rate_times sqrt (calculate_par sqrt
        { s with
          ov := (collate_count s.player_db s.ov { s.ostat with count := 0 }).1
          ostat := collate_overall sqrt s.player_db
            (collate_count s.player_db s.ov { s.ostat with count := 0 }).1
            (collate_count s.player_db s.ov { s.ostat with count := 0 }).2 }))
      rw [f] at t
      exact t

/-- C22: for every entry list, entry count and rating list, when `auto_squeeze` is FALSE
on entry `collate_stats` ends with the squeeze it was entered with, and when `auto_scoot`
is FALSE it ends with the scoot it was entered with. -/
theorem collate_stats_manual_override (sqrt : ℚ → ℚ) (g_entry_cnt : Nat)
    (rat_head : List entry_t) (s : state) :
    (s.g_event.auto_squeeze = (FALSE : Int) →
      (collate_stats sqrt g_entry_cnt rat_head s).1.g_event.squeeze = s.g_event.squeeze) ∧
    (s.g_event.auto_scoot = (FALSE : Int) →
      (collate_stats sqrt g_entry_cnt rat_head s).1.g_event.scoot = s.g_event.scoot) := by
  have h := collate_stats_event sqrt g_entry_cnt rat_head s
  refine ⟨fun hf => h.1 ?_, fun hf => h.2 ?_⟩
  · rw [hf]
    decide
  · rw [hf]
    decide

/-- C22, instance: with automatic scoot on and automatic squeeze off, one valid entry,
`collate_stats` ends with the squeeze 1.2 it was entered with. -/
theorem collate_stats_manual_override_witness :
    scoot_tuned_state.g_event.auto_scoot = (TRUE : Int) ∧
    scoot_tuned_state.g_event.auto_squeeze = (FALSE : Int) ∧
    (collate_stats sqrt_milli 1 [] scoot_tuned_state).1.g_event.squeeze = 6 / 5 :=
  ⟨rfl, rfl, (collate_stats_manual_override sqrt_milli 1 [] scoot_tuned_state).1 rfl⟩

/-! ## Provisional divisions -/

theorem walk_assigned_fields (B : Nat → Int) (div : Nat) (a b : entry_t)
    (h : walk_assigned B div a b) : b.dq = a.dq ∧ b.time = a.time := by
  have h1 := h.1
  constructor
  · rw [h1]
  · rw [h1]

theorem walk_assigned_mono (B : Nat → Int) (div : Nat) (e e' : entry_t)
    (h : walk_assigned B (div + 1) e e') : walk_assigned B div e e' := by
  refine ⟨h.1, h.2.1, fun hq => ?_⟩
  obtain ⟨a, b, _, d⟩ := h.2.2 hq
  refine ⟨?_, b, ?_, d⟩
  · push_cast at a
    omega
  · intro he
    push_cast at a
    omega

theorem walk_assigned_self (B : Nat → Int) (div : Nat) (e : entry_t)
    (h : dq_ok e.dq = false) : walk_assigned B div e e := by
  refine ⟨rfl, fun _ => rfl, fun hq => ?_⟩
  rw [h] at hq
  cases hq

theorem walk_first_head (B : Nat → Int) (d0 : Nat) (c : entry_t) (l l' : List entry_t)
    (hc : dq_ok c.dq = true → c.prov_div = (d0 : Int))
    (h : List.Forall₂ (walk_assigned B d0) l l') :
    ∀ b ∈ l', walk_first_only B c b := by
  intro b hb hq1 hq2 he
  obtain ⟨a, _, hab⟩ := forall2_mem_right h b hb
  obtain ⟨f1, f2⟩ := walk_assigned_fields B d0 a b hab
  rw [f1] at hq2
  have hp : b.prov_div = (d0 : Int) := by rw [← he, hc hq1]
  rw [f2, hp, Int.toNat_ofNat]
  exact (hab.2.2 hq2).2.2.1 hp

theorem par_quality_mean_walk (db : Nat → player_t) (B : Nat → Int) (L : List entry_t) :
    ∀ (div q : Nat) (ds : Nat → stat_t),
      (∀ d, time_to_usec (ds d).bronze = B d) → time_sorted L →
      (1 < div → ∀ e ∈ L, dq_ok e.dq = true → B (div - 1) ≤ time_to_usec e.time) →
      div < DIV_COUNT →
      ∃ l1 l2 l1', L = l1 ++ l2 ∧ (par_quality_mean db L div q ds).1 = l1' ++ l2 ∧
        List.Forall₂ (walk_assigned B div) l1 l1' ∧ l1'.Pairwise (walk_first_only B) ∧
        (∀ e, l2.head? = some e →
          dq_ok e.dq = true ∧ B (DIV_COUNT - 1) ≤ time_to_usec e.time) := by
  induction L with
  | nil =>
    intro div q ds _ _ _ _
    refine ⟨[], [], [], rfl, ?_, List.Forall₂.nil, List.Pairwise.nil, ?_⟩
    · simp only [par_quality_mean]
      rfl
    · intro e he
      cases he
  | cons cur rest ih =>
    intro div q ds hB hs hlo hdiv
    have hs2 : time_sorted rest := (List.pairwise_cons.1 hs).2
    have hlo2 : 1 < div → ∀ e ∈ rest, dq_ok e.dq = true → B (div - 1) ≤ time_to_usec e.time :=
      fun h1 e he => hlo h1 e (List.mem_cons_of_mem _ he)
    by_cases hm : entry_match db DIV_ALL dq_iter_e.ITER_DQ_OK cur = true
    · have hq : dq_ok cur.dq = true := by rw [← entry_match_all db cur]; exact hm
      by_cases hb : time_to_usec cur.time ≥ time_to_usec (ds div).bronze
      · by_cases hd : div + 1 ≥ DIV_COUNT
        · refine ⟨[], cur :: rest, [], rfl, ?_, List.Forall₂.nil, List.Pairwise.nil, ?_⟩
          · simp only [par_quality_mean, if_pos hm, if_pos hb, if_pos hd]
            rfl
          · intro e he
            simp only [List.head?_cons, Option.some.injEq] at he
            rw [← he]
            refine ⟨hq, ?_⟩
            have : DIV_COUNT - 1 = div := by omega
            rw [this, ← hB div]
            exact hb
        · have hB3 : ∀ d, time_to_usec
              ((Function.update
                (Function.update
                  (Function.update ds div (par_close_mean (ds div) q)) (div + 1)
                  (par_reset_mean
                    ((Function.update ds div (par_close_mean (ds div) q)) (div + 1))))
                (div + 1)
                (par_add_mean
                  ((Function.update
                    (Function.update ds div (par_close_mean (ds div) q)) (div + 1)
                    (par_reset_mean
                      ((Function.update ds div (par_close_mean (ds div) q)) (div + 1))))
                    (div + 1)) cur)) d).bronze = B d := by
            intro d
            rw [bronze_update _ _ _ (par_add_mean_thr _ _),
              bronze_update _ _ _ (par_reset_mean_thr _),
              bronze_update _ _ _ (par_close_mean_thr _ _), hB]
          have hlo3 : 1 < div + 1 → ∀ e ∈ rest, dq_ok e.dq = true →
              B (div + 1 - 1) ≤ time_to_usec e.time := by
            intro _ e he _
            rw [Nat.add_sub_cancel, ← hB div]
            exact le_trans hb ((List.pairwise_cons.1 hs).1 e he)
          obtain ⟨l1, l2, l1', e1, e2, f, p, hh⟩ :=
            ih (div + 1) 1 _ hB3 hs2 hlo3 (by omega)
          refine ⟨cur :: l1, l2, { cur with prov_div := ((div + 1 : Nat) : Int) } :: l1', ?_,
            ?_, ?_, ?_, hh⟩
          · rw [e1]
            rfl
          · simp only [par_quality_mean, if_pos hm, if_pos hb, if_neg hd]
            rw [e2]
            rfl
          · refine List.Forall₂.cons ⟨rfl, fun h => ?_, fun _ => ⟨?_, ?_, ?_, ?_⟩⟩
              (f.imp (fun a b h => walk_assigned_mono B div a b h))
            · rw [hq] at h
              cases h
            · show (div : Int) ≤ ((div + 1 : Nat) : Int)
              push_cast
              omega
            · show ((div + 1 : Nat) : Int) < (DIV_COUNT : Int)
              exact_mod_cast (by omega : div + 1 < DIV_COUNT)
            · intro he
              have he2 : ((div + 1 : Nat) : Int) = (div : Int) := he
              push_cast at he2
              omega
            · intro _
              show B (((div + 1 : Nat) : Int).toNat - 1) ≤ time_to_usec cur.time
              rw [Int.toNat_ofNat, Nat.add_sub_cancel, ← hB div]
              exact hb
          · exact List.pairwise_cons.2
              ⟨walk_first_head B (div + 1) _ l1 l1' (fun _ => rfl) f, p⟩
      · have hB3 : ∀ d, time_to_usec
            ((Function.update ds div (par_add_mean (ds div) cur)) d).bronze = B d := by
          intro d
          rw [bronze_update _ _ _ (par_add_mean_thr _ _), hB]
        obtain ⟨l1, l2, l1', e1, e2, f, p, hh⟩ := ih div (q + 1) _ hB3 hs2 hlo2 hdiv
        refine ⟨cur :: l1, l2, { cur with prov_div := (div : Int) } :: l1', ?_, ?_, ?_, ?_, hh⟩
        · rw [e1]
          rfl
        · simp only [par_quality_mean, if_pos hm, if_neg hb]
          rw [e2]
          rfl
        · refine List.Forall₂.cons ⟨rfl, fun h => ?_, fun _ => ⟨?_, ?_, ?_, ?_⟩⟩ f
          · rw [hq] at h
            cases h
          · exact le_refl _
          · show (div : Int) < (DIV_COUNT : Int)
            exact_mod_cast hdiv
          · intro _
            rw [← hB div]
            exact lt_of_not_ge hb
          · intro h1
            have h2 : (1 : Int) < (div : Int) := h1
            show B ((div : Int).toNat - 1) ≤ time_to_usec cur.time
            rw [Int.toNat_ofNat]
            exact hlo (by exact_mod_cast h2) cur (List.mem_cons_self _ _) hq
        · exact List.pairwise_cons.2 ⟨walk_first_head B div _ l1 l1' (fun _ => rfl) f, p⟩
    · have hq : dq_ok cur.dq = false := by
        rw [← entry_match_all db cur]
        exact Bool.eq_false_iff.2 hm
      obtain ⟨l1, l2, l1', e1, e2, f, p, hh⟩ := ih div q ds hB hs2 hlo2 hdiv
      refine ⟨cur :: l1, l2, cur :: l1', ?_, ?_, ?_, ?_, hh⟩
      · rw [e1]
        rfl
      · simp only [par_quality_mean, if_neg hm]
        rw [e2]
        rfl
      · exact List.Forall₂.cons (walk_assigned_self B div cur hq) f
      · refine List.pairwise_cons.2 ⟨?_, p⟩
        intro b _ h1
        rw [hq] at h1
        cases h1

theorem calculate_par_bronze (sqrt : ℚ → ℚ) (s : state) (d : Nat) :
    ((calculate_par sqrt s).div_stat d).bronze = (calculate_par_thresholds s d).bronze := by
  have h := calculate_par_thr sqrt s d
  rw [stat_t.thr, stat_t.thr] at h
  simp only [Prod.mk.injEq] at h
  exact h.2.2.2

theorem ex_bronze_flat (ov : List entry_t) (d : Nat) (hd1 : 1 ≤ d) (hd2 : d ≤ DIV_COUNT) :
    time_to_usec ((calculate_par sqrt_milli (example_state ov 0)).div_stat d).bronze =
      59999 := by
  rw [(calculate_par_stat sqrt_milli (example_state ov 0) d hd1 hd2).2.2.2, time_to_from_usec]
  unfold bronze_time
  rw [ex_base, ex_inc]
  rw [d2i_eval 59999 1 (by norm_num) _ (by norm_num)]
  unfold i32
  decide

/-- C26 (amended): with the overall list in time order, `calculate_par` reaches a front
part `l1` of the list and leaves the rest `l2` as it was; `l2` is empty unless it starts
at a valid entry with a time at or above the bronze threshold of division
`DIV_COUNT - 1`. Every valid entry of the front part gets a provisional division `d` in
`1 .. DIV_COUNT - 1` with `time >= bronze[d-1]` whenever `d > 1` and `time < bronze[1]`
when `d = 1`; and `time < bronze[d]` holds for every valid entry that has the division of
an earlier valid entry, that is, for all but the first entry of a division. -/
theorem calculate_par_prov_div (sqrt : ℚ → ℚ) (s : state) (hs : time_sorted s.ov) :
    ∃ l1 l2 l1', s.ov = l1 ++ l2 ∧ (calculate_par sqrt s).ov = l1' ++ l2 ∧
      List.Forall₂
        (walk_assigned (fun d => time_to_usec ((calculate_par sqrt s).div_stat d).bronze) 1)
        l1 l1' ∧
      l1'.Pairwise
        (walk_first_only (fun d => time_to_usec ((calculate_par sqrt s).div_stat d).bronze)) ∧
      (∀ e, l2.head? = some e → dq_ok e.dq = true ∧
        time_to_usec ((calculate_par sqrt s).div_stat (DIV_COUNT - 1)).bronze ≤
          time_to_usec e.time) := by
  rw [calculate_par_ov]
  refine par_quality_mean_walk s.player_db _ s.ov 1 0 _ ?_ hs ?_ (by decide)
  · intro d
    show _ = time_to_usec ((calculate_par sqrt s).div_stat d).bronze
    rw [bronze_update _ _ _ (par_reset_mean_thr _), calculate_par_bronze]
  · intro h
    exact absurd h (lt_irrefl 1)

theorem par_mean_advance_bronze (ds : Nat → stat_t) (div q : Nat) (cur : entry_t) (d : Nat) :
    (par_mean_advance ds div q cur d).bronze = (ds d).bronze := by
  unfold par_mean_advance
  rw [bronze_update _ _ _ (par_add_mean_thr _ _),
    bronze_update _ _ _ (par_reset_mean_thr _),
    bronze_update _ _ _ (par_close_mean_thr _ _)]

theorem par_mean_advance_at (ds : Nat → stat_t) (div q : Nat) (cur : entry_t) :
    par_mean_advance ds div q cur (div + 1) =
      par_add_mean (par_reset_mean (ds (div + 1))) cur ∧
    par_mean_advance ds div q cur div = par_close_mean (ds div) q ∧
    (∀ d, d ≠ div → d ≠ div + 1 → par_mean_advance ds div q cur d = ds d) := by
  unfold par_mean_advance
  refine ⟨?_, ?_, ?_⟩
  · rw [Function.update_same, Function.update_same,
      Function.update_noteq (Nat.succ_ne_self div)]
  · rw [Function.update_noteq (Nat.succ_ne_self div).symm,
      Function.update_noteq (Nat.succ_ne_self div).symm, Function.update_same]
  · intro d h1 h2
    rw [Function.update_noteq h2, Function.update_noteq h2, Function.update_noteq h1]

theorem par_quality_mean_nil (db : Nat → player_t) (div q : Nat) (ds : Nat → stat_t) :
    par_quality_mean db [] div q ds =
      ([], Function.update ds div (par_close_mean (ds div) q)) := by
  simp only [par_quality_mean]

theorem par_quality_mean_next (db : Nat → player_t) (cur : entry_t) (rest : List entry_t)
    (div q : Nat) (ds : Nat → stat_t) (hq : dq_ok cur.dq = true)
    (hb : time_to_usec cur.time ≥ time_to_usec (ds div).bronze) (hd : ¬ div + 1 ≥ DIV_COUNT) :
    par_quality_mean db (cur :: rest) div q ds =
      ({ cur with prov_div := ((div + 1 : Nat) : Int) } ::
          (par_quality_mean db rest (div + 1) 1 (par_mean_advance ds div q cur)).1,
        (par_quality_mean db rest (div + 1) 1 (par_mean_advance ds div q cur)).2) := by
  have hm : entry_match db DIV_ALL dq_iter_e.ITER_DQ_OK cur = true := by
    rw [entry_match_all]
    exact hq
  simp only [par_quality_mean, if_pos hm, if_pos hb, if_neg hd, par_mean_advance]

theorem par_quality_mean_stay (db : Nat → player_t) (cur : entry_t) (rest : List entry_t)
    (div q : Nat) (ds : Nat → stat_t) (hq : dq_ok cur.dq = true)
    (hb : ¬ time_to_usec cur.time ≥ time_to_usec (ds div).bronze) :
    par_quality_mean db (cur :: rest) div q ds =
      ({ cur with prov_div := (div : Int) } ::
          (par_quality_mean db rest div (q + 1)
            (Function.update ds div (par_add_mean (ds div) cur))).1,
        (par_quality_mean db rest div (q + 1)
            (Function.update ds div (par_add_mean (ds div) cur))).2) := by
  have hm : entry_match db DIV_ALL dq_iter_e.ITER_DQ_OK cur = true := by
    rw [entry_match_all]
    exact hq
  simp only [par_quality_mean, if_pos hm, if_neg hb]

/-- C26, counterexample: with the single valid entry of 1:00.000 (overall quality mean
1:00.000, quality deviation 0), `calculate_par` gives the entry the provisional division
2, whose bronze threshold 59.999 is below the time of the entry. -/
theorem calculate_par_past_bronze :
    (calculate_par sqrt_milli (example_state single_entry 0)).ov =
      [{ entry_at 1 dq_reason_e.DQ_OK 1 0 0 with prov_div := 2 }] ∧
    time_to_usec (entry_at 1 dq_reason_e.DQ_OK 1 0 0).time = 60000 ∧
    time_to_usec ((calculate_par sqrt_milli (example_state single_entry 0)).div_stat 2).bronze =
      59999 := by
  have ht : time_to_usec (entry_at 1 dq_reason_e.DQ_OK 1 0 0).time = 60000 :=
    time_to_usec_entry_at 1 dq_reason_e.DQ_OK 1 0 0 (by norm_num)
  refine ⟨?_, ht, ex_bronze_flat single_entry 2 (by decide) (by decide)⟩
  rw [calculate_par_ov]
  have hb : time_to_usec (entry_at 1 dq_reason_e.DQ_OK 1 0 0).time ≥
      time_to_usec ((Function.update (calculate_par_thresholds (example_state single_entry 0)) 1
        (par_reset_mean (calculate_par_thresholds (example_state single_entry 0) 1))) 1).bronze := by
    rw [bronze_update _ _ _ (par_reset_mean_thr _), ← calculate_par_bronze sqrt_milli,
      ex_bronze_flat single_entry 1 (by decide) (by decide), ht]
    decide
  have h := par_quality_mean_next (example_state single_entry 0).player_db
    (entry_at 1 dq_reason_e.DQ_OK 1 0 0) [] 1 0 _ rfl hb (by decide)
  rw [par_quality_mean_nil] at h
  exact congrArg Prod.fst h

/-- C26, instance: the list of the single valid entry of 1:00.000 is in time order, and
`calculate_par` (quality deviation 1) reaches it as stated. -/
theorem calculate_par_prov_div_witness :
    time_sorted (example_state single_entry 1).ov ∧
    ∃ l1 l2 l1', (example_state single_entry 1).ov = l1 ++ l2 ∧
      (calculate_par sqrt_milli (example_state single_entry 1)).ov = l1' ++ l2 ∧
      List.Forall₂
        (walk_assigned (fun d => time_to_usec
          ((calculate_par sqrt_milli (example_state single_entry 1)).div_stat d).bronze) 1)
        l1 l1' ∧
      l1'.Pairwise
        (walk_first_only (fun d => time_to_usec
          ((calculate_par sqrt_milli (example_state single_entry 1)).div_stat d).bronze)) ∧
      (∀ e, l2.head? = some e → dq_ok e.dq = true ∧
        time_to_usec ((calculate_par sqrt_milli
          (example_state single_entry 1)).div_stat (DIV_COUNT - 1)).bronze ≤
          time_to_usec e.time) :=
  ⟨List.pairwise_singleton _ _,
    calculate_par_prov_div sqrt_milli (example_state single_entry 1)
      (List.pairwise_singleton _ _)⟩

/-! ## Quality statistics of a small division -/

theorem par_close_dev_q_mean (sqrt : ℚ → ℚ) (st : stat_t) (q : Nat) :
    (par_close_dev sqrt st q).q_mean = st.q_mean := by
  unfold par_close_dev
  split_ifs <;> rfl

theorem par_reset_dev_q_mean (st : stat_t) : (par_reset_dev st).q_mean = st.q_mean := rfl

theorem par_add_dev_q_mean (st : stat_t) (c : entry_t) :
    (par_add_dev st c).q_mean = st.q_mean := rfl

theorem q_mean_update (ds : Nat → stat_t) (k : Nat) (v : stat_t)
    (h : v.q_mean = (ds k).q_mean) (d : Nat) :
    ((Function.update ds k v) d).q_mean = (ds d).q_mean := by
  by_cases hd : d = k
  · subst hd
    rw [Function.update_same, h]
  · rw [Function.update_noteq hd]

theorem par_quality_dev_q_mean (sqrt : ℚ → ℚ) (db : Nat → player_t) (L : List entry_t) :
    ∀ (div q : Nat) (ds : Nat → stat_t) (d : Nat),
      ((par_quality_dev sqrt db L div q ds) d).q_mean = (ds d).q_mean := by
  induction L with
  | nil =>
    intro div q ds d
    simp only [par_quality_dev]
    exact q_mean_update ds div _ (par_close_dev_q_mean _ _ _) d
  | cons cur rest ih =>
    intro div q ds d
    simp only [par_quality_dev]
    split_ifs with h1 h2 h3
    · exact q_mean_update ds div _ (par_close_dev_q_mean _ _ _) d
    · rw [ih]
      rw [q_mean_update _ _ _ (par_add_dev_q_mean _ _),
        q_mean_update _ _ _ (par_reset_dev_q_mean _),
        q_mean_update _ _ _ (par_close_dev_q_mean _ _ _)]
    · rw [ih, q_mean_update _ _ _ (par_add_dev_q_mean _ _)]
    · rw [ih]

theorem calculate_par_q_mean (sqrt : ℚ → ℚ) (s : state) (d : Nat) :
    ((calculate_par sqrt s).div_stat d).q_mean =
      ((par_quality_mean s.player_db s.ov 1 0
        (Function.update (calculate_par_thresholds s) 1
          (par_reset_mean (calculate_par_thresholds s 1)))).2 d).q_mean := by
  unfold calculate_par
  simp only []
  rw [par_quality_dev_q_mean, q_mean_update _ _ _ (par_reset_dev_q_mean _)]

theorem mean_of_one (st : stat_t) (e : entry_t) (h : 0 ≤ time_to_usec e.time) :
    (par_close_mean (par_add_mean (par_reset_mean st) e) 1).q_mean =
      time_from_usec (time_to_usec e.time) := by
  have hr := i32_range (time_to_usec e.time)
  have hr2 : time_to_usec e.time = i32 (time_to_usec e.time) := by
    unfold time_to_usec
    unfold i32
    omega
  unfold par_close_mean par_add_mean par_reset_mean
  simp only [ne_eq, one_ne_zero, not_false_eq_true, if_true, Nat.div_one]
  congr 1
  generalize time_to_usec e.time = t at *
  have h1 : u32 (((0 : Nat) : Int) + t) = t.toNat := by
    unfold u32
    omega
  rw [h1]
  have h2 : u32 ((t.toNat : Int) + (((1 / 2 : Nat) : Nat) : Int)) = t.toNat := by
    unfold u32
    omega
  rw [h2]
  unfold i32
  omega

theorem calculate_par_single (sqrt : ℚ → ℚ) (s : state) (e : entry_t) (hov : s.ov = [e])
    (hq : dq_ok e.dq = true) (h0 : 0 ≤ time_to_usec e.time)
    (hb : time_to_usec e.time < time_to_usec ((calculate_par sqrt s).div_stat 1).bronze) :
    (calculate_par sqrt s).ov = [{ e with prov_div := 1 }] ∧
    ((calculate_par sqrt s).div_stat 1).q_mean = time_from_usec (time_to_usec e.time) := by
  have hb2 : ¬ time_to_usec e.time ≥
      time_to_usec ((Function.update (calculate_par_thresholds s) 1
        (par_reset_mean (calculate_par_thresholds s 1))) 1).bronze := by
    rw [bronze_update _ _ _ (par_reset_mean_thr _), ← calculate_par_bronze sqrt]
    exact not_le.2 hb
  have h := par_quality_mean_stay s.player_db e [] 1 0 _ hq hb2
  rw [par_quality_mean_nil] at h
  constructor
  · rw [calculate_par_ov, hov, h]
    rfl
  · rw [calculate_par_q_mean, hov, h]
    simp only [Function.update_same]
    exact mean_of_one _ e h0

theorem auto_scoot_loop_eq (s : state) (div : Nat) (L : List entry_t) :
    ∀ (i : Nat) (accum : ℚ),
      auto_scoot_loop s div L i accum =
        (i + ((L.filter (entry_match s.player_db div dq_iter_e.ITER_DQ_OK)).take
            (s.ostat.count / AUTO_SCOOT_FRACTION - i)).length,
          accum + (((L.filter (entry_match s.player_db div dq_iter_e.ITER_DQ_OK)).take
            (s.ostat.count / AUTO_SCOOT_FRACTION - i)).map (fun cur =>
              ((player_get s.player_db cur.player_id).rating - cur.rating) *
                s.g_event.par_multiple 2 * s.ostat.q_std_dev * (3 / 4))).sum) := by
  induction L with
  | nil =>
    intro i accum
    simp only [auto_scoot_loop, List.filter_nil, List.take_nil, List.length_nil, List.map_nil,
      List.sum_nil, add_zero]
  | cons cur rest ih =>
    intro i accum
    by_cases hm : entry_match s.player_db div dq_iter_e.ITER_DQ_OK cur = true
    · rw [List.filter_cons, if_pos hm]
      by_cases hi : i < s.ostat.count / AUTO_SCOOT_FRACTION
      · have hn : s.ostat.count / AUTO_SCOOT_FRACTION - i =
            (s.ostat.count / AUTO_SCOOT_FRACTION - (i + 1)) + 1 := by omega
        simp only [auto_scoot_loop, if_pos hm, if_pos hi]
        rw [ih, hn, List.take_succ_cons, List.length_cons, List.map_cons, List.sum_cons]
        refine Prod.ext ?_ ?_
        · show _ = _
          omega
        · show _ = _
          ring
      · have hn : s.ostat.count / AUTO_SCOOT_FRACTION - i = 0 := by omega
        simp only [auto_scoot_loop, if_pos hm, if_neg hi]
        rw [hn, List.take_zero, List.length_nil, List.map_nil, List.sum_nil, add_zero, add_zero]
    · rw [List.filter_cons, if_neg hm]
      simp only [auto_scoot_loop, if_neg hm]
      exact ih i accum

theorem calculate_auto_scoot_eq (s : state) :
    calculate_auto_scoot s = s.g_event.scoot - scoot_sample_mean s
      (s.ov.filter (entry_match s.player_db (if (s.div_stat 1).count < 3 then DIV_ALL else 1)
        dq_iter_e.ITER_DQ_OK)) := by
  unfold calculate_auto_scoot scoot_sample_mean
  simp only []
  rw [auto_scoot_loop_eq]
  simp only [Nat.sub_zero, zero_add]

theorem ex_bronze_one (ov : List entry_t) :
    time_to_usec ((calculate_par sqrt_milli (example_state ov 1)).div_stat 1).bronze =
      59199 := by
  rw [(calculate_par_stat sqrt_milli (example_state ov 1) 1 (by decide) (by decide)).2.2.2,
    time_to_from_usec, ex_bronze]
  rw [d2i_eval 59199 1 (by norm_num) _ (by norm_num)]
  unfold i32
  decide

theorem quick_entry_time : time_to_usec (entry_at 1 dq_reason_e.DQ_OK 0 58 500).time = 58500 :=
  time_to_usec_entry_at 1 dq_reason_e.DQ_OK 0 58 500 (by norm_num)

theorem quick_entry_below :
    time_to_usec (entry_at 1 dq_reason_e.DQ_OK 0 58 500).time <
      time_to_usec ((calculate_par sqrt_milli
        (example_state single_quick_entry 1)).div_stat 1).bronze := by
  rw [ex_bronze_one, quick_entry_time]
  decide

/-- C24, counterexample: with the single valid entry of 0:58.500 (quality deviation 1),
division 1 holds one entry after `calculate_par`, and its quality mean, 0 before, is
the time of that entry. -/
theorem calculate_par_mean_of_one :
    (calculate_par sqrt_milli (example_state single_quick_entry 1)).ov =
      [{ entry_at 1 dq_reason_e.DQ_OK 0 58 500 with prov_div := 1 }] ∧
    time_to_usec ((example_state single_quick_entry 1).div_stat 1).q_mean = 0 ∧
    time_to_usec ((calculate_par sqrt_milli
      (example_state single_quick_entry 1)).div_stat 1).q_mean = 58500 := by
  have h := calculate_par_single sqrt_milli (example_state single_quick_entry 1)
    (entry_at 1 dq_reason_e.DQ_OK 0 58 500) rfl rfl
    (by rw [quick_entry_time]; decide) quick_entry_below
  refine ⟨h.1, ?_, ?_⟩
  · show time_to_usec zero_time = 0
    unfold time_to_usec zero_time i32
    decide
  · rw [h.2, quick_entry_time, time_to_from_usec]
    unfold i32
    decide

/-! ## Quality deviation of a division -/

theorem par_quality_dev_nil (sqrt : ℚ → ℚ) (db : Nat → player_t) (div q : Nat)
    (ds : Nat → stat_t) :
    par_quality_dev sqrt db [] div q ds =
      Function.update ds div (par_close_dev sqrt (ds div) q) := by
  simp only [par_quality_dev]

theorem par_quality_dev_stay (sqrt : ℚ → ℚ) (db : Nat → player_t) (cur : entry_t)
    (rest : List entry_t) (div q : Nat) (ds : Nat → stat_t) (hq : dq_ok cur.dq = true)
    (hp : ¬ cur.prov_div = ((div + 2 : Nat) : Int)) :
    par_quality_dev sqrt db (cur :: rest) div q ds =
      par_quality_dev sqrt db rest div (q + 1)
        (Function.update ds div (par_add_dev (ds div) cur)) := by
  have hm : entry_match db DIV_ALL dq_iter_e.ITER_DQ_OK cur = true := by
    rw [entry_match_all]
    exact hq
  simp only [par_quality_dev, if_pos hm, if_neg hp]

theorem par_quality_dev_next (sqrt : ℚ → ℚ) (db : Nat → player_t) (cur : entry_t)
    (rest : List entry_t) (div q : Nat) (ds : Nat → stat_t) (hq : dq_ok cur.dq = true)
    (hp : cur.prov_div = ((div + 2 : Nat) : Int)) (hd : ¬ div + 1 ≥ DIV_COUNT) :
    par_quality_dev sqrt db (cur :: rest) div q ds =
      par_quality_dev sqrt db rest (div + 1) 1 (par_dev_advance sqrt ds div q cur) := by
  have hm : entry_match db DIV_ALL dq_iter_e.ITER_DQ_OK cur = true := by
    rw [entry_match_all]
    exact hq
  simp only [par_quality_dev, if_pos hm, if_pos hp, if_neg hd, par_dev_advance]

theorem par_dev_advance_next (sqrt : ℚ → ℚ) (ds : Nat → stat_t) (div q : Nat) (cur : entry_t) :
    par_dev_advance sqrt ds div q cur (div + 1) =
      par_add_dev (par_reset_dev (ds (div + 1))) cur := by
  unfold par_dev_advance
  rw [Function.update_same, Function.update_same,
    Function.update_noteq (Nat.succ_ne_self div)]

/-- The quality deviation loop of `calculate_par` on two valid entries of provisional
divisions 2 and 3: the deviation stored for division 2 is taken from the entry of
division 3. -/
theorem par_quality_dev_shifted (sqrt : ℚ → ℚ) (db : Nat → player_t) (a b : entry_t)
    (ds : Nat → stat_t) (ha : dq_ok a.dq = true) (hb : dq_ok b.dq = true)
    (pa : a.prov_div = 2) (pb : b.prov_div = 3) :
    (par_quality_dev sqrt db [a, b] 1 0
      (Function.update ds 1 (par_reset_dev (ds 1))) 2).q_std_dev =
      sqrt ((0 + ((ds 2).q_mean.time - b.time.time) * ((ds 2).q_mean.time - b.time.time)) /
        ((1 : Nat) : ℚ)) := by
  have h1 : ¬ a.prov_div = ((1 + 2 : Nat) : Int) := by
    rw [pa]
    decide
  have h2 : b.prov_div = ((1 + 2 : Nat) : Int) := by
    rw [pb]
    rfl
  rw [par_quality_dev_stay sqrt db a [b] 1 0 _ ha h1,
    par_quality_dev_next sqrt db b [] 1 (0 + 1) _ hb h2 (by decide),
    par_quality_dev_nil, Function.update_same, par_dev_advance_next,
    Function.update_noteq (by decide), Function.update_noteq (by decide)]
  unfold par_close_dev
  rw [if_pos (by decide)]
  rfl

theorem sqrt_milli_four : sqrt_milli 4 = 2 := by
  unfold sqrt_milli
  rw [d2i_eval 4000000 1 (by norm_num) _ (by norm_num)]
  have h : (Int.tdiv 4000000 ((1 : Nat) : Int)).toNat = 2000 * 2000 := by decide
  rw [h, Nat.sqrt_eq]
  norm_num

theorem spread_quality_mean :
    ∃ DS : Nat → stat_t,
      par_quality_mean (example_state spread_entries 0).player_db spread_entries 1 0
        (Function.update (calculate_par_thresholds (example_state spread_entries 0)) 1
          (par_reset_mean (calculate_par_thresholds (example_state spread_entries 0) 1))) =
        ([{ entry_at 1 dq_reason_e.DQ_OK 1 0 0 with prov_div := 2 },
          { entry_at 2 dq_reason_e.DQ_OK 1 2 0 with prov_div := 3 }], DS) ∧
      (DS 2).q_mean = time_from_usec 60000 := by
  have t1 : time_to_usec (entry_at 1 dq_reason_e.DQ_OK 1 0 0).time = 60000 :=
    time_to_usec_entry_at 1 dq_reason_e.DQ_OK 1 0 0 (by norm_num)
  have t2 : time_to_usec (entry_at 2 dq_reason_e.DQ_OK 1 2 0).time = 62000 :=
    time_to_usec_entry_at 2 dq_reason_e.DQ_OK 1 2 0 (by norm_num)
  have hbz : ∀ d, 1 ≤ d → d ≤ DIV_COUNT → time_to_usec
      ((Function.update (calculate_par_thresholds (example_state spread_entries 0)) 1
        (par_reset_mean (calculate_par_thresholds (example_state spread_entries 0) 1)))
          d).bronze = 59999 := by
    intro d h1 h2
    rw [bronze_update _ _ _ (par_reset_mean_thr _), ← calculate_par_bronze sqrt_milli,
      ex_bronze_flat spread_entries d h1 h2]
  have hA := par_quality_mean_next (example_state spread_entries 0).player_db
    (entry_at 1 dq_reason_e.DQ_OK 1 0 0) [entry_at 2 dq_reason_e.DQ_OK 1 2 0] 1 0 _ rfl
    (by rw [hbz 1 (by decide) (by decide), t1]; decide) (by decide)
  have hB := par_quality_mean_next (example_state spread_entries 0).player_db
    (entry_at 2 dq_reason_e.DQ_OK 1 2 0) [] (1 + 1) 1
    (par_mean_advance
      (Function.update (calculate_par_thresholds (example_state spread_entries 0)) 1
        (par_reset_mean (calculate_par_thresholds (example_state spread_entries 0) 1)))
      1 0 (entry_at 1 dq_reason_e.DQ_OK 1 0 0)) rfl
    (by rw [par_mean_advance_bronze, hbz (1 + 1) (by decide) (by decide), t2]; decide)
    (by decide)
  rw [par_quality_mean_nil] at hB
  dsimp only at hB
  rw [hB] at hA
  dsimp only at hA
  refine ⟨_, hA, ?_⟩
  rw [Function.update_noteq (by decide)]
  rw [(par_mean_advance_at _ (1 + 1) 1 (entry_at 2 dq_reason_e.DQ_OK 1 2 0)).2.1,
    (par_mean_advance_at _ 1 0 (entry_at 1 dq_reason_e.DQ_OK 1 0 0)).1,
    mean_of_one _ _ (by rw [t1]; decide), t1]

/-- C23, failing input: two valid entries of 1:00.000 and 1:02.000 (overall quality mean
1:00.000, quality deviation 0, every bronze threshold 59.999). `calculate_par` gives them
the provisional divisions 2 and 3 and the quality mean 1:00.000 to division 2, whose only
entry is the first one, but stores the quality deviation 2 for division 2: the distance
of the entry of division 3 from that mean, where the deviation of the times of division 2
about their mean is 0. -/
theorem calculate_par_deviation_of_next :
    (calculate_par sqrt_milli (example_state spread_entries 0)).ov =
      [{ entry_at 1 dq_reason_e.DQ_OK 1 0 0 with prov_div := 2 },
        { entry_at 2 dq_reason_e.DQ_OK 1 2 0 with prov_div := 3 }] ∧
    ((calculate_par sqrt_milli (example_state spread_entries 0)).div_stat 2).q_mean =
      time_from_usec 60000 ∧
    ((calculate_par sqrt_milli (example_state spread_entries 0)).div_stat 2).q_std_dev = 2 := by
  obtain ⟨DS, h, hm⟩ := spread_quality_mean
  have hov : (example_state spread_entries 0).ov = spread_entries := rfl
  refine ⟨?_, ?_, ?_⟩
  · rw [calculate_par_ov, hov, h]
  · rw [calculate_par_q_mean, hov, h, hm]
  · have e : ((calculate_par sqrt_milli (example_state spread_entries 0)).div_stat 2) =
        par_quality_dev sqrt_milli (example_state spread_entries 0).player_db
          [{ entry_at 1 dq_reason_e.DQ_OK 1 0 0 with prov_div := 2 },
            { entry_at 2 dq_reason_e.DQ_OK 1 2 0 with prov_div := 3 }] 1 0
          (Function.update DS 1 (par_reset_dev (DS 1))) 2 := by
      rw [calculate_par]
      simp only [hov, h]
    rw [e, par_quality_dev_shifted sqrt_milli (example_state spread_entries 0).player_db
      { entry_at 1 dq_reason_e.DQ_OK 1 0 0 with prov_div := 2 }
      { entry_at 2 dq_reason_e.DQ_OK 1 2 0 with prov_div := 3 } DS rfl rfl rfl rfl, hm,
      time_from_usec_time]
    have t : ({ entry_at 2 dq_reason_e.DQ_OK 1 2 0 with prov_div := 3 } : entry_t).time.time =
        62 := by
      show (((1 * 60 * 1000 + 2 * 1000 + 0 : Nat) : ℚ)) / 1000 = 62
      norm_num
    rw [t]
    have v : (0 + (((60000 : Int) : ℚ) / 1000 - 62) * (((60000 : Int) : ℚ) / 1000 - 62)) /
        ((1 : Nat) : ℚ) = 4 := by norm_num
    rw [v, sqrt_milli_four]

/-! ## C35: the displayed rating stays at or below the real rating -/

theorem rating_floor_order (p : player_t)
    (h : p.rating ≤ p.real_rating ∨ p.real_rating ≤ 0 ∨ p.rating ≤ 0) :
    (rating_floor p).rating ≤ (rating_floor p).real_rating := by
  rw [(rating_floor_values p).1, (rating_floor_values p).2]
  by_cases h1 : p.real_rating ≤ 0
  · rw [if_pos h1, if_pos h1]
  · rw [if_neg h1, if_neg h1]
    by_cases h2 : p.rating ≤ 0
    · rw [if_pos h2]
    · rw [if_neg h2]
      rcases h with h | h | h
      · exact h
      · exact absurd h h1
      · exact absurd h h2

theorem agg_le_real_agg (p : player_t) (hr : p.rating ≤ p.real_rating)
    (htw : 0 ≤ p.total_weight) (hw : 0 ≤ p.latest.weight) : agg p ≤ real_agg p := by
  rw [agg_eq_min]
  unfold real_agg
  have h1 := mul_le_mul_of_nonneg_right hr (use_weight_nonneg p htw)
  have h2 := mul_le_mul_of_nonneg_right (min_le_left p.latest.rating p.rating) hw
  linarith

theorem fold_ratings_order (db : Nat → player_t) (k : Nat) (p : player_t)
    (hq : p.qualifier = (db k).qualifier) (ht : p.total_weight = (db k).total_weight)
    (hv : p.verified_count = (db k).verified_count)
    (hr : p.rating ≤ p.real_rating) (htw : 0 ≤ p.total_weight) (hw : 0 ≤ p.latest.weight) :
    (fold_ratings db k p).rating ≤ (fold_ratings db k p).real_rating ∨
      (fold_ratings db k p).rating ≤ 0 := by
  obtain ⟨e1, e2⟩ := fold_ratings_values db k p hq ht hv
  rw [e1, e2]
  by_cases hf : fold_weight p > 0
  · rw [if_pos hf, if_pos hf]
    left
    by_cases hk : player_is_rookie db p.id = false
    · rw [if_pos hk]
      exact div_le_div_of_nonneg_right (agg_le_real_agg p hr htw hw) (le_of_lt hf)
    · rw [if_neg hk]
  · rw [if_neg hf, if_neg hf]
    exact Or.inr (le_refl 0)

/-- C35: for a valid player with `rating <= real_rating`, `total_weight >= 0` and a latest
result of weight `>= 0`, `player_update_rating` leaves `rating <= real_rating`, for a
latest result that is a disqualification or not, and for a rookie or not. -/
theorem player_update_rating_order (db : Nat → player_t) (k : Nat)
    (hv : (db k).valid ≠ 0) (hr : (db k).rating ≤ (db k).real_rating)
    (htw : 0 ≤ (db k).total_weight) (hw : 0 ≤ (db k).latest.weight) :
    (player_update_rating db k k).rating ≤ (player_update_rating db k k).real_rating := by
  by_cases hd : dq_ok (db k).latest.dq = true
  · rw [player_update_rating_ok db k hv hd _ rfl]
    apply rating_floor_order
    rw [(fold_counts_fields _).2.2.1, (fold_counts_fields _).2.2.2]
    have h := fold_ratings_order
      (Function.update db k { db k with event_count := u32 (((db k).event_count : Int) + 1) }) k
      { db k with event_count := u32 (((db k).event_count : Int) + 1) }
      (by rw [Function.update_same]) (by rw [Function.update_same])
      (by rw [Function.update_same]) hr htw hw
    rcases h with h | h
    · exact Or.inl h
    · exact Or.inr (Or.inr h)
  · have hd2 : dq_ok (db k).latest.dq = false := by
      cases h : dq_ok (db k).latest.dq
      · rfl
      · exact absurd h hd
    rw [player_update_rating_dq db k hv hd2]
    exact rating_floor_order _ (Or.inl hr)

/-- C35, instance: the player `player_seasoned` (both ratings 2, weight 1, latest result
of rating 1 and weight 1) keeps `rating <= real_rating`. -/
theorem player_update_rating_order_witness :
    (player_update_rating (fun _ => player_seasoned) 1 1).rating ≤
      (player_update_rating (fun _ => player_seasoned) 1 1).real_rating :=
  player_update_rating_order (fun _ => player_seasoned) 1 (by decide)
    (le_refl _) (by show (0 : ℚ) ≤ 1; norm_num) (by show (0 : ℚ) ≤ 1; norm_num)

/-! ## C37: the division a promotion stores -/

theorem promotion_step_applied (p : player_t) (h : (promotion_step true p).2 = true) :
    (promotion_step true p).1 =
      { p with
        div := u32 (d2i p.rating)
        sub_div := u32 (d2i (3 * (p.rating - ((d2i p.rating : Int) : ℚ)))) } := by
  have hs := (promotion_step_spec true p).1 h
  unfold promotion_step
  rw [if_neg (not_lt.mpr hs.1), if_pos ⟨hs.2.2.1, hs.2.2.2, hs.2.1⟩]
  simp only [if_true]

theorem player_index_small (i : Nat) (h : i < MAX_PLAYERS) : player_index i = i := by
  unfold player_index
  rw [if_neg (not_le.mpr h)]

theorem promotion_loop_skip (u : Bool) (l : List Nat) (db : Nat → player_t) (i : Nat)
    (hl : ∀ x ∈ l, x < MAX_PLAYERS) (hi : i ∉ l) : (promotion_loop u db l).1 i = db i := by
  induction l generalizing db with
  | nil => rfl
  | cons idx rest ih =>
    have hne : i ≠ idx := fun h => hi (h ▸ List.mem_cons_self _ _)
    have hr : ∀ x ∈ rest, x < MAX_PLAYERS := fun x hx => hl x (List.mem_cons_of_mem _ hx)
    have hir : i ∉ rest := fun h => hi (List.mem_cons_of_mem _ h)
    simp only [promotion_loop]
    by_cases hv : (player_get db idx).valid = TRUE
    · rw [if_pos hv]
      simp only []
      rw [ih _ hr hir, player_index_small idx (hl idx (List.mem_cons_self _ _)),
        Function.update_noteq hne]
    · rw [if_neg hv]
      exact ih db hr hir

theorem promotion_loop_at (u : Bool) (l : List Nat) (db : Nat → player_t) (i : Nat)
    (hl : ∀ x ∈ l, x < MAX_PLAYERS) (hn : l.Nodup) (hi : i ∈ l) (hv : (db i).valid = TRUE) :
    (promotion_loop u db l).1 i = (promotion_step u (db i)).1 := by
  induction l generalizing db with
  | nil => cases hi
  | cons idx rest ih =>
    have hr : ∀ x ∈ rest, x < MAX_PLAYERS := fun x hx => hl x (List.mem_cons_of_mem _ hx)
    have hidx : player_index idx = idx := player_index_small idx (hl idx (List.mem_cons_self _ _))
    rw [List.nodup_cons] at hn
    simp only [promotion_loop]
    by_cases he : i = idx
    · subst he
      have hv2 : (player_get db i).valid = TRUE := by
        rw [player_get_index, hidx]
        exact hv
      rw [if_pos hv2]
      simp only []
      rw [promotion_loop_skip u rest _ i hr hn.1, hidx, Function.update_same, player_get_index,
        hidx]
    · have hir : i ∈ rest := by
        rcases List.mem_cons.1 hi with h | h
        · exact absurd h he
        · exact h
      by_cases hv2 : (player_get db idx).valid = TRUE
      · rw [if_pos hv2]
        simp only []
        rw [ih _ hr hn.2 hir (by rw [hidx, Function.update_noteq he]; exact hv), hidx,
          Function.update_noteq he]
      · rw [if_neg hv2]
        exact ih db hr hn.2 hir hv

theorem player_iter_mem (n i : Nat) : i ∈ player_iter n ↔ 1 ≤ i ∧ i ≤ n := by
  unfold player_iter
  rw [List.mem_range'_1]
  omega

theorem promotion_pass_at (n : Nat) (db : Nat → player_t) (i : Nat) (hn : n < MAX_PLAYERS)
    (h1 : 1 ≤ i) (h2 : i ≤ n) (hv : (db i).valid = TRUE)
    (hp : (promotion_step true (db i)).2 = true) :
    (promotion_loop true db (player_iter n)).1 i =
      { db i with
        div := u32 (d2i (db i).rating)
        sub_div := u32 (d2i (3 * ((db i).rating - ((d2i (db i).rating : Int) : ℚ)))) } := by
  rw [promotion_loop_at true (player_iter n) db i
    (fun x hx => lt_of_le_of_lt ((player_iter_mem n x).1 hx).2 hn)
    (List.nodup_range' 1 n) ((player_iter_mem n i).2 ⟨h1, h2⟩) hv]
  exact promotion_step_applied (db i) hp

theorem promoted_rating_bound (p : player_t) (h : (promotion_step true p).2 = true) :
    3 * p.rating < ((u32 ((p.div : Int) * 3 + (p.sub_div : Int) + 1) : Nat) : ℚ) - 1 ∧
    p.rating < 1431655765 := by
  have hs := ((promotion_step_spec true p).1 h).2.1
  unfold promotion_delta at hs
  have hu := u32_lt ((p.div : Int) * 3 + (p.sub_div : Int) + 1)
  have hq : ((u32 ((p.div : Int) * 3 + (p.sub_div : Int) + 1) : Nat) : ℚ) ≤ 4294967295 := by
    have : u32 ((p.div : Int) * 3 + (p.sub_div : Int) + 1) ≤ 4294967295 := by omega
    exact_mod_cast this
  constructor <;> linarith

theorem tier_floor (r : ℚ) (hr : 0 ≤ r) (hb : r < 1431655765) :
    d2i r = ⌊r⌋ ∧ 0 ≤ ⌊r⌋ ∧ ⌊r⌋ < 1431655765 ∧
    d2i (3 * (r - ((d2i r : Int) : ℚ))) = ⌊3 * r⌋ - 3 * ⌊r⌋ ∧
    0 ≤ ⌊3 * r⌋ - 3 * ⌊r⌋ ∧ ⌊3 * r⌋ - 3 * ⌊r⌋ ≤ 2 := by
  have h1 : d2i r = ⌊r⌋ := by rw [d2i_eq, if_pos hr]
  have h2 : 0 ≤ ⌊r⌋ := Int.floor_nonneg.mpr hr
  have h3 : ⌊r⌋ < 1431655765 := by
    have : (⌊r⌋ : ℚ) ≤ r := Int.floor_le r
    have h4 : (⌊r⌋ : ℚ) < ((1431655765 : Int) : ℚ) := by
      push_cast
      linarith
    exact_mod_cast h4
  have hf0 : 0 ≤ r - (⌊r⌋ : ℚ) := by linarith [Int.floor_le r]
  have hf1 : r - (⌊r⌋ : ℚ) < 1 := by linarith [Int.lt_floor_add_one r]
  have h5 : ⌊3 * (r - (⌊r⌋ : ℚ))⌋ = ⌊3 * r⌋ - 3 * ⌊r⌋ := by
    have : 3 * (r - (⌊r⌋ : ℚ)) = 3 * r - ((3 * ⌊r⌋ : Int) : ℚ) := by
      push_cast
      ring
    rw [this, Int.floor_sub_int]
  have h6 : 0 ≤ ⌊3 * (r - (⌊r⌋ : ℚ))⌋ := Int.floor_nonneg.mpr (by linarith)
  have h7 : ⌊3 * (r - (⌊r⌋ : ℚ))⌋ < 3 := by
    rw [Int.floor_lt]
    push_cast
    linarith
  refine ⟨h1, h2, h3, ?_, ?_, ?_⟩
  · rw [h1, d2i_eq, if_pos (by linarith), h5]
  · rw [← h5]
    exact h6
  · rw [← h5]
    omega

theorem placement_step_fix (u : Bool) (db : Nat → player_t) (q : player_t)
    (hd : q.div = u32 (d2i q.rating))
    (hs : q.sub_div = u32 (d2i (3 * (q.rating - ((d2i q.rating : Int) : ℚ))))) :
    (placement_step u db q).1 = q := by
  unfold placement_step
  simp only []
  split_ifs
  · rw [← hd, ← hs]
  · rfl
  · rfl

theorem placement_loop_fix (u : Bool) (l : List Nat) (db : Nat → player_t) (i : Nat)
    (hd : (db i).div = u32 (d2i (db i).rating))
    (hs : (db i).sub_div =
      u32 (d2i (3 * ((db i).rating - ((d2i (db i).rating : Int) : ℚ))))) :
    (placement_loop u db l).1 i = db i := by
  induction l generalizing db with
  | nil => rfl
  | cons idx rest ih =>
    simp only [placement_loop]
    by_cases hv : (player_get db idx).valid = TRUE
    · rw [if_pos hv]
      simp only []
      by_cases he : i = player_index idx
      · have hg : player_get db idx = db i := by rw [player_get_index, he]
        have hst : (placement_step u db (player_get db idx)).1 = db i := by
          rw [hg]
          exact placement_step_fix u db (db i) hd hs
        rw [hst, ← he, Function.update_eq_self]
        exact ih db hd hs
      · have hk : (Function.update db (player_index idx)
            (placement_step u db (player_get db idx)).1) i = db i := Function.update_noteq he _ _
        rw [ih _ (by rw [hk]; exact hd) (by rw [hk]; exact hs), hk]
    · rw [if_neg hv]
      exact ih db hd hs

theorem dump_promotion_report_at (n : Nat) (s : state) (hfin : s.g_event.status = STATUS_FINAL)
    (hn : n < MAX_PLAYERS) (i : Nat) (h1 : 1 ≤ i) (h2 : i ≤ n)
    (hv : (s.player_db i).valid = TRUE)
    (hp : (promotion_step true (s.player_db i)).2 = true) :
    (dump_promotion_report n s).1.player_db i =
      { s.player_db i with
        div := u32 (d2i (s.player_db i).rating)
        sub_div := u32 (d2i (3 * ((s.player_db i).rating -
          ((d2i (s.player_db i).rating : Int) : ℚ)))) } := by
  have hu : decide (s.g_event.status = STATUS_FINAL) = true := decide_eq_true hfin
  have ha := promotion_pass_at n s.player_db i hn h1 h2 hv hp
  unfold dump_promotion_report
  simp only [hu]
  rw [placement_loop_fix true (player_iter n) _ i (by rw [ha]) (by rw [ha]), ha]

theorem promotion_step_printed (u : Bool) (p : player_t)
    (h1 : MIN_PROMOTION_EVENT_COUNT ≤ p.verified_count)
    (h2 : (p.div > 1 ∨ p.sub_div > 0) ∧ p.rating ≠ 0 ∧ promotion_delta p > 1) :
    (promotion_step u p).2 = true := by
  unfold promotion_step
  rw [if_neg (not_lt.mpr h1), if_pos h2]
  simp only []
  split_ifs <;> rfl

theorem player_rising_promoted : (promotion_step true player_rising).2 = true := by
  apply promotion_step_printed true player_rising (by decide)
  refine ⟨Or.inl (by decide), ?_, ?_⟩
  · show (7 / 3 : ℚ) ≠ 0
    norm_num
  · have h : u32 ((player_rising.div : Int) * 3 + (player_rising.sub_div : Int) + 1) = 12 := by
      unfold u32
      decide
    unfold promotion_delta
    rw [h]
    show ((12 : Nat) : ℚ) - 7 / 3 * 3 > 1
    norm_num

theorem player_below_one_promoted : (promotion_step true player_below_one).2 = true := by
  apply promotion_step_printed true player_below_one (by decide)
  refine ⟨Or.inr (by decide), ?_, ?_⟩
  · show (1 / 2 : ℚ) ≠ 0
    norm_num
  · have h : u32 ((player_below_one.div : Int) * 3 + (player_below_one.sub_div : Int) + 1) =
        5 := by
      unfold u32
      decide
    unfold promotion_delta
    rw [h]
    show ((5 : Nat) : ℚ) - 1 / 2 * 3 > 1
    norm_num

/-- C37 (amended): when the promotion pass of `dump_promotion_report` on a final event
promotes a valid player `i` (in `1 .. max_player_id`, `max_player_id < MAX_PLAYERS`), the
record afterwards has `div = (int)rating`: a division of 1 or more when the rating is 1 or
more, and division 0 when the rating is above 0 and below 1. -/
theorem promotion_division (max_player_id : Nat) (s : state)
    (hfin : s.g_event.status = STATUS_FINAL) (hn : max_player_id < MAX_PLAYERS)
    (i : Nat) (h1 : 1 ≤ i) (h2 : i ≤ max_player_id)
    (hv : (s.player_db i).valid = TRUE)
    (hp : (promotion_step true (s.player_db i)).2 = true) :
    ((dump_promotion_report max_player_id s).1.player_db i).div =
      u32 (d2i (s.player_db i).rating) ∧
    (1 ≤ (s.player_db i).rating →
      1 ≤ ((dump_promotion_report max_player_id s).1.player_db i).div) ∧
    (0 < (s.player_db i).rating → (s.player_db i).rating < 1 →
      ((dump_promotion_report max_player_id s).1.player_db i).div = 0) := by
  rw [dump_promotion_report_at max_player_id s hfin hn i h1 h2 hv hp]
  obtain ⟨_, b2⟩ := promoted_rating_bound (s.player_db i) hp
  refine ⟨rfl, ?_, ?_⟩
  · intro hr
    obtain ⟨t1, t2, t3, _⟩ := tier_floor (s.player_db i).rating (by linarith) b2
    have hf : 1 ≤ ⌊(s.player_db i).rating⌋ := Int.le_floor.mpr (by exact_mod_cast hr)
    show 1 ≤ u32 (d2i (s.player_db i).rating)
    have hc := u32_cast (d2i (s.player_db i).rating)
    omega
  · intro h0 hlt
    obtain ⟨t1, t2, _⟩ := tier_floor (s.player_db i).rating (le_of_lt h0) b2
    have hf : ⌊(s.player_db i).rating⌋ < 1 := Int.floor_lt.mpr (by exact_mod_cast hlt)
    show u32 (d2i (s.player_db i).rating) = 0
    have hc := u32_cast (d2i (s.player_db i).rating)
    omega

/-- C37, counterexample: in a final event the valid player 1 of division 1, sub-division
1, with 4 verified results and rating 0.5 is promoted, and has division 0 afterwards. -/
theorem promotion_to_division_zero :
    ((final_state player_below_one).player_db 1).valid = TRUE ∧
    (promotion_step true ((final_state player_below_one).player_db 1)).2 = true ∧
    ((dump_promotion_report 3 (final_state player_below_one)).1.player_db 1).div = 0 := by
  refine ⟨rfl, player_below_one_promoted, ?_⟩
  rw [dump_promotion_report_at 3 (final_state player_below_one) rfl (by decide) 1 (by decide)
    (by decide) rfl player_below_one_promoted]
  show u32 (d2i (1 / 2 : ℚ)) = 0
  rw [d2i_eval 1 2 (by norm_num) _ (by norm_num)]
  unfold u32
  decide

/-- C37, instance: the promoted player 1 of rating 7/3 has a division of 1 or more
afterwards. -/
theorem promotion_division_witness :
    1 ≤ ((final_state player_rising).player_db 1).rating ∧
    1 ≤ ((dump_promotion_report 3 (final_state player_rising)).1.player_db 1).div :=
  have hr : 1 ≤ ((final_state player_rising).player_db 1).rating := by
    show (1 : ℚ) ≤ 7 / 3
    norm_num
  ⟨hr, (promotion_division 3 (final_state player_rising) rfl (by decide) 1 (by decide)
    (by decide) rfl player_rising_promoted).2.1 hr⟩

/-! ## C40: a scoot that is not tuned -/

theorem scoot_sample_mean_zero (s : state) (l : List entry_t)
    (h : ∀ e ∈ l, e.rating = (player_get s.player_db e.player_id).rating) :
    scoot_sample_mean s l = 0 := by
  have hs : ((l.take (s.ostat.count / AUTO_SCOOT_FRACTION)).map (fun cur =>
      ((player_get s.player_db cur.player_id).rating - cur.rating) * s.g_event.par_multiple 2 *
        s.ostat.q_std_dev * (3 / 4))).sum = 0 := by
    apply List.sum_eq_zero
    intro x hx
    obtain ⟨e, he, rfl⟩ := List.mem_map.1 hx
    rw [h e (List.mem_of_mem_take he), sub_self, zero_mul, zero_mul, zero_mul]
  unfold scoot_sample_mean
  simp only [hs]
  split_ifs
  · exact zero_div _
  · rfl

theorem calculate_auto_scoot_level (s : state)
    (h : ∀ e ∈ s.ov, dq_ok e.dq = true →
      e.rating = (player_get s.player_db e.player_id).rating) :
    calculate_auto_scoot s = s.g_event.scoot := by
  rw [calculate_auto_scoot_eq, scoot_sample_mean_zero, sub_zero]
  intro e he
  obtain ⟨h1, h2⟩ := List.mem_filter.1 he
  exact h e h1 ((entry_match_ok s.player_db _ e).mp h2).2

/-- C40 (amended): if every non-disqualified entry belongs to a player with a rating
above 0 and has the handicap delta `time_rate` stores, and that delta is 0, then
`calculate_auto_scoot` returns the scoot unchanged, for every entry count and every
quality deviation; in general it returns the scoot unchanged whenever every
non-disqualified entry has the rating of its player. -/
theorem calculate_auto_scoot_unchanged (s : state) :
    ((∀ e ∈ s.ov, dq_ok e.dq = true →
        0 < (player_get s.player_db e.player_id).rating ∧
        e.hcp_delta = hcp_of s.player_db e e.rating ∧ e.hcp_delta = 0) →
      calculate_auto_scoot s = s.g_event.scoot) ∧
    ((∀ e ∈ s.ov, dq_ok e.dq = true →
        e.rating = (player_get s.player_db e.player_id).rating) →
      calculate_auto_scoot s = s.g_event.scoot) := by
  refine ⟨fun h => calculate_auto_scoot_level s ?_, calculate_auto_scoot_level s⟩
  intro e he hq
  obtain ⟨h1, h2, h3⟩ := h e he hq
  rw [h3, hcp_of, if_pos h1] at h2
  linarith

theorem unrated_entry_fields (i : Nat) :
    dq_ok (unrated_entry i).dq = true ∧ (unrated_entry i).rating = 2 ∧
    (unrated_entry i).hcp_delta = 0 :=
  ⟨rfl, rfl, rfl⟩

theorem unrated_state_ov :
    unrated_state.ov = [unrated_entry 1, unrated_entry 2, unrated_entry 3, unrated_entry 4,
      unrated_entry 5] := rfl

theorem unrated_state_all (P : entry_t → Prop) (h : ∀ i, P (unrated_entry i)) :
    ∀ e ∈ unrated_state.ov, P e := by
  intro e he
  rw [unrated_state_ov] at he
  simp only [List.mem_cons, List.mem_singleton, List.not_mem_nil, or_false] at he
  rcases he with rfl | rfl | rfl | rfl | rfl <;> exact h _

/-- C40, counterexample: the five valid entries of `unrated_state` belong to players with
rating 0 and have the handicap delta 0 that `time_rate` stores for them, and
`calculate_auto_scoot` returns 1.5 where the scoot is 0. -/
theorem calculate_auto_scoot_unrated :
    (∀ e ∈ unrated_state.ov, dq_ok e.dq = true ∧
      e.hcp_delta = hcp_of unrated_state.player_db e e.rating ∧ e.hcp_delta = 0) ∧
    unrated_state.g_event.scoot = 0 ∧
    calculate_auto_scoot unrated_state = 3 / 2 := by
  have hp : ∀ i, (player_get unrated_state.player_db i).rating = 0 := by
    intro i
    rw [player_get_index]
    rfl
  refine ⟨?_, rfl, ?_⟩
  · apply unrated_state_all
    intro i
    refine ⟨rfl, ?_, rfl⟩
    rw [hcp_of, hp, if_neg (lt_irrefl 0)]
    rfl
  · have hf : unrated_state.ov.filter (entry_match unrated_state.player_db
        (if (unrated_state.div_stat 1).count < 3 then DIV_ALL else 1) dq_iter_e.ITER_DQ_OK) =
        unrated_state.ov := by
      rw [List.filter_eq_self]
      apply unrated_state_all
      intro i
      rw [if_pos (by decide), entry_match_all]
      rfl
    have hc : unrated_state.ostat.count / AUTO_SCOOT_FRACTION = 1 := by decide
    have hm : unrated_state.g_event.par_multiple 2 = 1 := by
      show standard_par_multiple 2 = 1
      unfold standard_par_multiple
      rfl
    have hq : unrated_state.ostat.q_std_dev = 1 := rfl
    have hs : unrated_state.g_event.scoot = 0 := rfl
    rw [calculate_auto_scoot_eq, hf, scoot_sample_mean, hc, hm, hq, hs, unrated_state_ov]
    simp only [List.take_succ_cons, List.take_zero, List.map_cons, List.map_nil, List.sum_cons,
      List.sum_nil, List.length_cons, List.length_nil]
    rw [hp, (unrated_entry_fields 1).2.1]
    norm_num

/-- C40, instance: in `rated_state` every player has the rating 2 of its entry (handicap
delta 0), and `calculate_auto_scoot` returns the scoot. -/
theorem calculate_auto_scoot_unchanged_witness :
    calculate_auto_scoot rated_state = rated_state.g_event.scoot :=
  (calculate_auto_scoot_unchanged rated_state).1 (by
    apply unrated_state_all
    intro i _
    have hp : (player_get rated_state.player_db (unrated_entry i).player_id).rating = 2 := by
      rw [player_get_index]
      rfl
    refine ⟨?_, ?_, rfl⟩
    · rw [hp]
      norm_num
    · rw [hcp_of, hp, if_pos (by norm_num), (unrated_entry_fields i).2.1,
        (unrated_entry_fields i).2.2]
      norm_num)

/-! ## C33: insertion into the time order -/

theorem time_compare_neg (a b : entry_t) (ha : 0 ≤ time_to_usec a.time)
    (hb : 0 ≤ time_to_usec b.time) :
    time_compare a b < 0 ↔ time_to_usec a.time < time_to_usec b.time := by
  have h1 : time_to_usec a.time < 2147483648 := by
    unfold time_to_usec
    exact (i32_range _).2
  have h2 : time_to_usec b.time < 2147483648 := by
    unfold time_to_usec
    exact (i32_range _).2
  unfold time_compare
  rw [i32_of_range _ (by omega) (by omega)]
  omega

theorem time_insert_split (entry_db : Nat → entry_t) (entry : Nat)
    (he : 0 ≤ time_to_usec (entry_db entry).time) (l : List Nat)
    (hl : ∀ i ∈ l, 0 ≤ time_to_usec (entry_db i).time) :
    ∃ l1 l2, l = l1 ++ l2 ∧ time_insert entry_db l entry = l1 ++ entry :: l2 ∧
      (∀ i ∈ l1, time_to_usec (entry_db i).time < time_to_usec (entry_db entry).time) ∧
      (∀ i, l2.head? = some i →
        time_to_usec (entry_db entry).time ≤ time_to_usec (entry_db i).time) := by
  induction l with
  | nil =>
    refine ⟨[], [], rfl, rfl, fun i hi => absurd hi (List.not_mem_nil i), fun i hi => ?_⟩
    cases hi
  | cons cur rest ih =>
    have hc := time_compare_neg (entry_db cur) (entry_db entry)
      (hl cur (List.mem_cons_self _ _)) he
    rw [time_insert]
    by_cases h : time_compare (entry_db cur) (entry_db entry) < 0
    · rw [if_pos h]
      obtain ⟨l1, l2, e1, e2, e3, e4⟩ := ih (fun i hi => hl i (List.mem_cons_of_mem _ hi))
      refine ⟨cur :: l1, l2, ?_, ?_, ?_, e4⟩
      · rw [e1]
        rfl
      · rw [e2]
        rfl
      · intro i hi
        rcases List.mem_cons.1 hi with hi | hi
        · rw [hi]
          exact hc.1 h
        · exact e3 i hi
    · rw [if_neg h]
      refine ⟨[], cur :: rest, rfl, rfl, fun i hi => absurd hi (List.not_mem_nil i), ?_⟩
      intro i hi
      simp only [List.head?_cons, Option.some.injEq] at hi
      rw [← hi]
      exact not_lt.1 (fun hlt => h (hc.2 hlt))

/-- C33: for every list of entries in non-decreasing order of total time and every new
entry (all total times not negative as `int`), `time_insert` returns a list in
non-decreasing order of total time that is the old list with the new entry put in: the
old entries keep their order, those in front of the new entry are strictly faster, and the
entry behind it is not faster. -/
theorem time_insert_sorted (entry_db : Nat → entry_t) (l : List Nat) (entry : Nat)
    (hs : l.Pairwise (fun i j =>
      time_to_usec (entry_db i).time ≤ time_to_usec (entry_db j).time))
    (he : 0 ≤ time_to_usec (entry_db entry).time)
    (hl : ∀ i ∈ l, 0 ≤ time_to_usec (entry_db i).time) :
    (time_insert entry_db l entry).Pairwise (fun i j =>
      time_to_usec (entry_db i).time ≤ time_to_usec (entry_db j).time) ∧
    ∃ l1 l2, l = l1 ++ l2 ∧ time_insert entry_db l entry = l1 ++ entry :: l2 ∧
      (∀ i ∈ l1, time_to_usec (entry_db i).time < time_to_usec (entry_db entry).time) ∧
      (∀ i ∈ l2, time_to_usec (entry_db entry).time ≤ time_to_usec (entry_db i).time) := by
  obtain ⟨l1, l2, e1, e2, e3, e4⟩ := time_insert_split entry_db entry he l hl
  rw [e1] at hs
  rw [List.pairwise_append] at hs
  have h5 : ∀ i ∈ l2, time_to_usec (entry_db entry).time ≤ time_to_usec (entry_db i).time := by
    intro i hi
    cases l2 with
    | nil => cases hi
    | cons a t =>
      have ha := e4 a rfl
      rcases List.mem_cons.1 hi with hi | hi
      · rw [hi]
        exact ha
      · exact le_trans ha ((List.pairwise_cons.1 hs.2.1).1 i hi)
  refine ⟨?_, l1, l2, e1, e2, e3, h5⟩
  rw [e2, List.pairwise_append]
  refine ⟨hs.1, List.pairwise_cons.2 ⟨h5, hs.2.1⟩, ?_⟩
  intro a ha b hb
  rcases List.mem_cons.1 hb with hb | hb
  · rw [hb]
    exact le_of_lt (e3 a ha)
  · exact hs.2.2 a ha b hb

theorem staggered_time (i : Nat) (h : i < 1000) :
    time_to_usec (staggered_db i).time = 60000 + (i : Int) := by
  unfold staggered_db
  rw [time_to_usec_entry_at 1 dq_reason_e.DQ_OK 1 0 i (by omega)]
  push_cast
  ring

/-- C33, instance: the entry of slot 1 is put between the entries of the slots 0 and 2. -/
theorem time_insert_sorted_witness :
    (time_insert staggered_db [0, 2] 1).Pairwise (fun i j =>
      time_to_usec (staggered_db i).time ≤ time_to_usec (staggered_db j).time) :=
  (time_insert_sorted staggered_db [0, 2] 1
    (by
      refine List.pairwise_cons.2 ⟨?_, List.pairwise_singleton _ _⟩
      intro j hj
      rw [List.mem_singleton.1 hj, staggered_time 0 (by decide), staggered_time 2 (by decide)]
      decide)
    (by rw [staggered_time 1 (by decide)]; decide)
    (by
      intro i hi
      simp only [List.mem_cons, List.mem_singleton, List.not_mem_nil, or_false] at hi
      rcases hi with rfl | rfl
      · rw [staggered_time 0 (by decide)]
        decide
      · rw [staggered_time 2 (by decide)]
        decide)).1

/-! ## C38: a faster time never earns fewer points -/

theorem points_table_antitone :
    ∀ i : Fin 21, ∀ p q : Fin 11, 1 ≤ p.val → p.val ≤ q.val →
      (g_points_table.getD i.val []).getD q.val 0 ≤
        (g_points_table.getD i.val []).getD p.val 0 := by
  decide

theorem entry_points_antitone (a b : entry_t) (n : Nat) (hn : n < 2147483648)
    (ha : dq_ok a.dq = true) (hb : dq_ok b.dq = true) (h1 : 1 ≤ a.place)
    (h2 : a.place ≤ b.place) : entry_points b n ≤ entry_points a n := by
  by_cases hb10 : b.place ≤ 10
  · rw [entry_points_eq a n ha hn (by omega) (by omega),
      entry_points_eq b n hb hn (by omega) hb10]
    have hm : min n MAX_RACER_POINTS < 21 := by
      have : MAX_RACER_POINTS = 20 := rfl
      omega
    have hp : a.place.toNat < 11 := by omega
    have hq : b.place.toNat < 11 := by omega
    exact points_table_antitone ⟨min n MAX_RACER_POINTS, hm⟩ ⟨a.place.toNat, hp⟩
      ⟨b.place.toNat, hq⟩ (by show 1 ≤ a.place.toNat; omega)
      (by show a.place.toNat ≤ b.place.toNat; omega)
  · rw [entry_points_high_place b n (by omega)]
    exact Nat.zero_le _

theorem faster_count_mono (db : Nat → player_t) (div : Nat) (l : List entry_t) (e e' : entry_t)
    (h : time_to_usec e.time ≤ time_to_usec e'.time) :
    faster_count db div l e ≤ faster_count db div l e' := by
  unfold faster_count
  apply List.Sublist.length_le
  apply List.monotone_filter_right
  intro x hx
  simp only [Bool.and_eq_true, decide_eq_true_eq] at hx ⊢
  exact ⟨hx.1, lt_of_lt_of_le hx.2 h⟩

theorem rate_times_standing (sqrt : ℚ → ℚ) (s : state) (hs : time_sorted s.ov)
    (hlen : s.ov.length < 4294967296) (div : Nat) (h1 : 1 ≤ div) (h2 : div ≤ DIV_COUNT)
    (k : Nat) (hk : k < (rate_times sqrt s).ov.length)
    (hkq : dq_ok ((rate_times sqrt s).ov.get ⟨k, hk⟩).dq = true)
    (hkd : entry_div s.player_db ((rate_times sqrt s).ov.get ⟨k, hk⟩) = div) :
    ((rate_times sqrt s).ov.get ⟨k, hk⟩).place =
      1 + (faster_count s.player_db div (rate_times sqrt s).ov
        ((rate_times sqrt s).ov.get ⟨k, hk⟩) : Int) ∧
    ((rate_times sqrt s).ov.get ⟨k, hk⟩).points =
      (entry_points ((rate_times sqrt s).ov.get ⟨k, hk⟩)
        (match_count s.player_db div s.ov) : Int) := by
  have hk0 : k < s.ov.length := by
    rw [← rate_times_length sqrt s]
    exact hk
  have hmem : div ∈ List.range' 1 DIV_COUNT := (divisions_mem div).mpr ⟨h1, h2⟩
  have hkey : List.Forall₂ same_key s.ov (rate_times sqrt s).ov :=
    List.Forall₂.imp (fun _ _ h => h.1.1) (rate_times_list sqrt s)
  have hg := rate_times_get sqrt s k hk0 hk
  have hsk := hg.1.1
  have hm' : entry_match s.player_db div dq_iter_e.ITER_DQ_OK
      ((rate_times sqrt s).ov.get ⟨k, hk⟩) = true :=
    (entry_match_ok s.player_db div _).mpr ⟨Or.inr hkd, hkq⟩
  have hm : entry_match s.player_db div dq_iter_e.ITER_DQ_OK (s.ov.get ⟨k, hk0⟩) = true := by
    rw [← same_key_match s.player_db div dq_iter_e.ITER_DQ_OK hsk]
    exact hm'
  have hp := hg.2 hs hlen div hmem hm
  rw [← faster_count_key s.player_db div _ _ (same_key_usec hsk) hkey] at hp
  exact hp

/-- C38: after `rate_times` on an entry list sorted by ascending time (with at most
`MAX_RACERS` entries), of two non-disqualified entries of the same division `div` in
`1..DIV_COUNT` the one with the strictly smaller time has at least as many points as the
other. -/
theorem faster_entry_points (sqrt : ℚ → ℚ) (s : state) (hs : time_sorted s.ov)
    (hl : s.ov.length ≤ MAX_RACERS) (div : Nat) (h1 : 1 ≤ div) (h2 : div ≤ DIV_COUNT)
    (i j : Nat) (hi : i < (rate_times sqrt s).ov.length)
    (hj : j < (rate_times sqrt s).ov.length)
    (hiq : dq_ok ((rate_times sqrt s).ov.get ⟨i, hi⟩).dq = true)
    (hjq : dq_ok ((rate_times sqrt s).ov.get ⟨j, hj⟩).dq = true)
    (hid : entry_div s.player_db ((rate_times sqrt s).ov.get ⟨i, hi⟩) = div)
    (hjd : entry_div s.player_db ((rate_times sqrt s).ov.get ⟨j, hj⟩) = div)
    (ht : time_to_usec ((rate_times sqrt s).ov.get ⟨i, hi⟩).time <
      time_to_usec ((rate_times sqrt s).ov.get ⟨j, hj⟩).time) :
    ((rate_times sqrt s).ov.get ⟨j, hj⟩).points ≤
      ((rate_times sqrt s).ov.get ⟨i, hi⟩).points := by
  have hm : MAX_RACERS = 2048 := rfl
  have hlen : s.ov.length < 4294967296 := by omega
  obtain ⟨a1, a2⟩ := rate_times_standing sqrt s hs hlen div h1 h2 i hi hiq hid
  obtain ⟨b1, b2⟩ := rate_times_standing sqrt s hs hlen div h1 h2 j hj hjq hjd
  have hf := faster_count_mono s.player_db div (rate_times sqrt s).ov _ _ (le_of_lt ht)
  have hc := match_count_le s.player_db div s.ov
  rw [a2, b2]
  exact_mod_cast entry_points_antitone _ _ (match_count s.player_db div s.ov) (by omega)
    hiq hjq (by rw [a1]; omega) (by rw [a1, b1]; omega)

theorem placing_state_length : (rate_times sqrt_milli placing_state).ov.length = 2 := by
  rw [rate_times_length]
  rfl

theorem placing_state_after (k : Nat) (hk : k < placing_state.ov.length)
    (hk' : k < (rate_times sqrt_milli placing_state).ov.length) :
    dq_ok ((rate_times sqrt_milli placing_state).ov.get ⟨k, hk'⟩).dq =
      dq_ok (placing_state.ov.get ⟨k, hk⟩).dq ∧
    entry_div placing_state.player_db ((rate_times sqrt_milli placing_state).ov.get ⟨k, hk'⟩) =
      entry_div placing_state.player_db (placing_state.ov.get ⟨k, hk⟩) ∧
    time_to_usec ((rate_times sqrt_milli placing_state).ov.get ⟨k, hk'⟩).time =
      time_to_usec (placing_state.ov.get ⟨k, hk⟩).time := by
  have hsk := (rate_times_get sqrt_milli placing_state k hk hk').1.1
  exact ⟨by rw [hsk.2.1], same_key_div placing_state.player_db hsk, same_key_usec hsk⟩

theorem placing_state_second_div : entry_div placing_state.player_db entry_silver = 1 := by
  have hp : player_div placing_state.player_db entry_silver.player_id = 0 := by
    rw [player_div, player_get_index, placing_state_db]
    rfl
  have hd : entry_silver.prov_div = 1 := rfl
  rw [entry_div, hp, hd]
  exact u32_one

/-- C38, instance: in `placing_state` the entry of 0:58.000 has at least as many points as
the entry of 0:58.500 of the same division. -/
theorem faster_entry_points_witness :
    ∃ (hi : 0 < (rate_times sqrt_milli placing_state).ov.length)
      (hj : 1 < (rate_times sqrt_milli placing_state).ov.length),
      time_to_usec ((rate_times sqrt_milli placing_state).ov.get ⟨0, hi⟩).time <
        time_to_usec ((rate_times sqrt_milli placing_state).ov.get ⟨1, hj⟩).time ∧
      ((rate_times sqrt_milli placing_state).ov.get ⟨1, hj⟩).points ≤
        ((rate_times sqrt_milli placing_state).ov.get ⟨0, hi⟩).points := by
  have hi : 0 < (rate_times sqrt_milli placing_state).ov.length := by
    rw [placing_state_length]
    decide
  have hj : 1 < (rate_times sqrt_milli placing_state).ov.length := by
    rw [placing_state_length]
    decide
  obtain ⟨a1, a2, a3⟩ := placing_state_after 0 (by decide) hi
  obtain ⟨b1, b2, b3⟩ := placing_state_after 1 (by decide) hj
  have t0 : time_to_usec entry_on_par.time = 58000 :=
    time_to_usec_entry_at 1 dq_reason_e.DQ_OK 0 58 0 (by norm_num)
  have t1 : time_to_usec entry_silver.time = 58500 :=
    time_to_usec_entry_at 1 dq_reason_e.DQ_OK 0 58 500 (by norm_num)
  have ht : time_to_usec ((rate_times sqrt_milli placing_state).ov.get ⟨0, hi⟩).time <
      time_to_usec ((rate_times sqrt_milli placing_state).ov.get ⟨1, hj⟩).time := by
    rw [a3, b3]
    show time_to_usec entry_on_par.time < time_to_usec entry_silver.time
    rw [t0, t1]
    decide
  exact ⟨hi, hj, ht,
    faster_entry_points sqrt_milli placing_state placing_state_sorted (by decide) 1
      (by decide) (by decide) 0 1 hi hj (by rw [a1]; rfl) (by rw [b1]; rfl)
      (by rw [a2]; exact placing_state_div) (by rw [b2]; exact placing_state_second_div) ht⟩

/-! ## C34: the label `SEASON_RACE` -/

/-- C34, the code at the failing input: `label_get` returns `LABEL_SEASON` for the keyword
`SEASON_RACE` followed by `:` (in upper and in lower case), because `SEASON`, which comes
first in `g_label`, is a prefix of it; every other keyword of `g_label` from
`LABEL_COMMENT` to `LABEL_HISTORY`, followed by `:`, gets its own label id, in upper and in
lower case. -/
theorem label_get_season_race :
    label_get "SEASON_RACE:".toList = LABEL_SEASON ∧
    label_get "season_race:".toList = LABEL_SEASON ∧
    LABEL_SEASON ≠ LABEL_SEASON_RACE ∧
    (∀ l : Fin 42, 1 ≤ l.val → l.val ≠ LABEL_SEASON_RACE →
      label_get ((g_label.getD l.val "").toList ++ [':']) = l.val ∧
      label_get (((g_label.getD l.val "").toList.map Char.toLower) ++ [':']) = l.val) := by
  refine ⟨by decide, by decide, by decide, ?_⟩
  intro l
  revert l
  decide

/-! ## C31: split times that do not add up to the total -/

theorem register_entry_splits (slot k : Nat) (st : parse_state)
    (h : 0 < time_to_usec ((st.entry_split slot).getD 0 (time_from_usec 0))) :
    ((register_entry slot (some k) true st).entry_db slot).time =
      add_splits (st.entry_split slot) ∧
    ((register_entry slot (some k) true st).entry_db slot).dq = (st.entry_db slot).dq := by
  have h0 : ¬ time_to_usec (time_from_usec 0) > 0 := by
    rw [time_to_from_usec]
    unfold i32
    decide
  unfold register_entry
  simp only [if_true]
  rw [Function.update_same, if_neg h0, if_pos h]
  exact ⟨rfl, rfl⟩

/-- C31, the code at the failing input: for the line of the registered tag `GTP_A` with
the total time 1:00.000 and the split times 0:30.000 and 0:31.000 (sum 1:01.000),
`event_process_line` registers the entry with the sum of the split times as its time, not
the submitted total, and with the status `DQ_OK`, not `DQ_TIME_ERROR`. -/
theorem split_sum_replaces_total :
    (event_process_line split_line 0 known_parse_state).g_entry_cnt = 1 ∧
    ((event_process_line split_line 0 known_parse_state).entry_db 0).player_id = 1 ∧
    time_to_usec ((event_process_line split_line 0 known_parse_state).entry_db 0).time =
      61000 ∧
    time_to_usec (parse_time 1 0 0 zero_time) = 60000 ∧
    ((event_process_line split_line 0 known_parse_state).entry_db 0).dq =
      dq_reason_e.DQ_OK := by
  refine ⟨?_, ?_, ?_, ?_, ?_⟩
  · decide!
  · decide!
  · decide!
  · decide!
  · decide!

/-! ## C39: the quality subset of `collate_stats` -/

theorem sum_nonneg_int (L : List Int) (h : ∀ t ∈ L, 0 ≤ t) : 0 ≤ L.sum := by
  induction L with
  | nil => exact le_refl 0
  | cons a t ih =>
    rw [List.sum_cons]
    have h1 := h a (List.mem_cons_self _ _)
    have h2 := ih (fun x hx => h x (List.mem_cons_of_mem _ hx))
    omega

theorem sum_filter_le (L : List Int) (p : Int → Bool) (h : ∀ t ∈ L, 0 ≤ t) :
    (L.filter p).sum ≤ L.sum ∧ (L.filter p).length ≤ L.length := by
  induction L with
  | nil => exact ⟨le_refl _, le_refl _⟩
  | cons a t ih =>
    have h1 := h a (List.mem_cons_self _ _)
    have h2 := ih (fun x hx => h x (List.mem_cons_of_mem _ hx))
    rw [List.filter_cons]
    by_cases hp : p a = true
    · rw [if_pos hp, List.sum_cons, List.sum_cons, List.length_cons, List.length_cons]
      omega
    · rw [if_neg hp, List.sum_cons, List.length_cons]
      omega

theorem sum_le_bound (L : List Int) (m : Int) (h : ∀ t ∈ L, t ≤ m) :
    L.sum ≤ m * (L.length : Int) := by
  induction L with
  | nil => simp
  | cons a t ih =>
    have h1 := h a (List.mem_cons_self _ _)
    have h2 := ih (fun x hx => h x (List.mem_cons_of_mem _ hx))
    rw [List.sum_cons, List.length_cons]
    push_cast
    linarith

theorem bound_le_sum (L : List Int) (m : Int) (h : ∀ t ∈ L, m ≤ t) :
    m * (L.length : Int) ≤ L.sum := by
  induction L with
  | nil => simp
  | cons a t ih =>
    have h1 := h a (List.mem_cons_self _ _)
    have h2 := ih (fun x hx => h x (List.mem_cons_of_mem _ hx))
    rw [List.sum_cons, List.length_cons]
    push_cast
    linarith

theorem valid_times_cons (e : entry_t) (l : List entry_t) :
    valid_times (e :: l) =
      if dq_ok e.dq = true then time_to_usec e.time :: valid_times l else valid_times l := by
  unfold valid_times
  rw [List.filter_cons]
  by_cases h : dq_ok e.dq = true
  · rw [if_pos h, if_pos h, List.map_cons]
  · rw [if_neg h, if_neg h]

theorem valid_times_mem (l : List entry_t) (t : Int) :
    t ∈ valid_times l ↔ ∃ e ∈ l, dq_ok e.dq = true ∧ time_to_usec e.time = t := by
  unfold valid_times
  simp only [List.mem_map, List.mem_filter]
  constructor
  · rintro ⟨e, ⟨h1, h2⟩, h3⟩
    exact ⟨e, h1, h2, h3⟩
  · rintro ⟨e, h1, h2, h3⟩
    exact ⟨e, ⟨h1, h2⟩, h3⟩

theorem time_view_usec (e : entry_t) (q : ℚ) :
    time_to_usec ({ e with time := { e.time with time := q } } : entry_t).time =
      time_to_usec e.time ∧
    ({ e with time := { e.time with time := q } } : entry_t).dq = e.dq :=
  ⟨rfl, rfl⟩

theorem collate_count_spec (db : Nat → player_t) (l : List entry_t) :
    ∀ o : stat_t, (∀ t ∈ valid_times l, 0 ≤ t) →
      (o.count : Int) + ((valid_times l).length : Int) < 4294967296 →
      (o.mean.msec : Int) + (valid_times l).sum < 4294967296 →
      ((collate_count db l o).2.count : Int) = (o.count : Int) + ((valid_times l).length : Int) ∧
      ((collate_count db l o).2.mean.msec : Int) = (o.mean.msec : Int) + (valid_times l).sum ∧
      (collate_count db l o).2.q_mean = o.q_mean ∧
      valid_times (collate_count db l o).1 = valid_times l := by
  induction l with
  | nil =>
    intro o _ _ _
    simp only [collate_count, valid_times, List.filter_nil, List.map_nil, List.length_nil,
      List.sum_nil, Nat.cast_zero, add_zero, and_self]
  | cons cur rest ih =>
    intro o hpos hc hm
    rw [valid_times_cons] at hpos hc hm ⊢
    by_cases hq : dq_ok cur.dq = true
    · have hmt : entry_match db DIV_ALL dq_iter_e.ITER_DQ_OK cur = true := by
        rw [entry_match_all]
        exact hq
      rw [if_pos hq] at hpos hc hm ⊢
      rw [List.length_cons] at hc ⊢
      rw [List.sum_cons] at hm ⊢
      push_cast at hc ⊢
      have ht := hpos _ (List.mem_cons_self _ _)
      have hr : ∀ t ∈ valid_times rest, 0 ≤ t := fun t h => hpos t (List.mem_cons_of_mem _ h)
      have hs := sum_nonneg_int _ hr
      have c1 := u32_cast ((o.count : Int) + 1)
      have c2 := u32_cast ((o.mean.msec : Int) + time_to_usec cur.time)
      obtain ⟨i1, i2, i3, i4⟩ := ih
        { o with
          count := u32 ((o.count : Int) + 1)
          mean := { o.mean with msec := u32 ((o.mean.msec : Int) + time_to_usec cur.time) } }
        hr (by show ((u32 ((o.count : Int) + 1) : Nat) : Int) + _ < _; omega)
        (by
          show ((u32 ((o.mean.msec : Int) + time_to_usec cur.time) : Nat) : Int) + _ < _
          omega)
      simp only [collate_count, if_pos hmt]
      refine ⟨?_, ?_, ?_, ?_⟩
      · rw [i1]
        show ((u32 ((o.count : Int) + 1) : Nat) : Int) + _ = _
        omega
      · rw [i2]
        show ((u32 ((o.mean.msec : Int) + time_to_usec cur.time) : Nat) : Int) + _ = _
        omega
      · rw [i3]
      · rw [valid_times_cons, (time_view_usec cur _).2, if_pos hq, (time_view_usec cur _).1, i4]
    · have hmt : ¬ entry_match db DIV_ALL dq_iter_e.ITER_DQ_OK cur = true := by
        rw [entry_match_all]
        exact hq
      rw [if_neg hq] at hpos hc hm ⊢
      obtain ⟨i1, i2, i3, i4⟩ := ih o hpos hc hm
      simp only [collate_count, if_neg hmt]
      refine ⟨i1, i2, i3, ?_⟩
      rw [valid_times_cons, if_neg hq, i4]

theorem quality_times_cons (m : Int) (e : entry_t) (l : List entry_t) :
    quality_times m (e :: l) =
      if dq_ok e.dq = true ∧ time_to_usec e.time ≤ m then
        time_to_usec e.time :: quality_times m l
      else quality_times m l := by
  unfold quality_times
  rw [valid_times_cons]
  by_cases h : dq_ok e.dq = true
  · rw [if_pos h, List.filter_cons]
    by_cases h2 : time_to_usec e.time ≤ m
    · rw [if_pos (decide_eq_true h2), if_pos ⟨h, h2⟩]
    · rw [if_neg (by rw [decide_eq_true_eq]; exact h2), if_neg (fun hh => h2 hh.2)]
  · rw [if_neg h, if_neg (fun hh => h hh.1)]

theorem collate_dev_spec (db : Nat → player_t) (l : List entry_t) :
    ∀ x : Int × stat_t, (∀ t ∈ valid_times l, 0 ≤ t) → 0 ≤ x.1 →
      x.1 + ((valid_times l).length : Int) < 2147483648 →
      (x.2.q_mean.msec : Int) + (valid_times l).sum < 4294967296 →
      (collate_dev db l x).1 =
        x.1 + ((quality_times (time_to_usec x.2.mean) l).length : Int) ∧
      ((collate_dev db l x).2.q_mean.msec : Int) =
        (x.2.q_mean.msec : Int) + (quality_times (time_to_usec x.2.mean) l).sum ∧
      (collate_dev db l x).2.mean = x.2.mean ∧
      (collate_dev db l x).2.count = x.2.count := by
  induction l with
  | nil =>
    intro x _ _ _ _
    simp only [collate_dev, quality_times, valid_times, List.filter_nil, List.map_nil,
      List.length_nil, List.sum_nil, Nat.cast_zero, add_zero, and_self]
  | cons cur rest ih =>
    intro x hpos h0 hc hm
    rw [valid_times_cons] at hpos hc hm
    rw [quality_times_cons]
    by_cases hq : dq_ok cur.dq = true
    · have hmt : entry_match db DIV_ALL dq_iter_e.ITER_DQ_OK cur = true := by
        rw [entry_match_all]
        exact hq
      rw [if_pos hq] at hpos hc hm
      rw [List.length_cons] at hc
      rw [List.sum_cons] at hm
      push_cast at hc
      have ht := hpos _ (List.mem_cons_self _ _)
      have hr : ∀ t ∈ valid_times rest, 0 ≤ t := fun t h => hpos t (List.mem_cons_of_mem _ h)
      have hs := sum_nonneg_int _ hr
      by_cases hle : time_to_usec cur.time ≤ time_to_usec x.2.mean
      · have c1 : i32 (x.1 + 1) = x.1 + 1 := i32_of_range _ (by omega) (by omega)
        have c2 := u32_cast ((x.2.q_mean.msec : Int) + time_to_usec cur.time)
        obtain ⟨i1, i2, i3, i4⟩ := ih
          (i32 (x.1 + 1),
            { x.2 with
              std_dev := x.2.std_dev +
                (x.2.mean.time - cur.time.time) * (x.2.mean.time - cur.time.time)
              q_mean := { x.2.q_mean with
                msec := u32 ((x.2.q_mean.msec : Int) + time_to_usec cur.time) } })
          hr (by show 0 ≤ i32 (x.1 + 1); omega)
          (by show i32 (x.1 + 1) + _ < _; omega)
          (by
            show ((u32 ((x.2.q_mean.msec : Int) + time_to_usec cur.time) : Nat) : Int) + _ < _
            omega)
        dsimp only at i1 i2 i3 i4
        rw [if_pos ⟨hq, hle⟩, List.length_cons, List.sum_cons]
        push_cast
        simp only [collate_dev, if_pos hmt]
        rw [if_pos hle]
        refine ⟨?_, ?_, i3, i4⟩
        · rw [i1, c1]
          ring
        · rw [i2]
          omega
      · obtain ⟨i1, i2, i3, i4⟩ := ih
          (x.1,
            { x.2 with
              std_dev := x.2.std_dev +
                (x.2.mean.time - cur.time.time) * (x.2.mean.time - cur.time.time) })
          hr h0 (by show x.1 + _ < _; omega) (by show (x.2.q_mean.msec : Int) + _ < _; omega)
        dsimp only at i1 i2 i3 i4
        rw [if_neg (fun hh => hle hh.2)]
        simp only [collate_dev, if_pos hmt]
        rw [if_neg hle]
        exact ⟨i1, i2, i3, i4⟩
    · have hmt : ¬ entry_match db DIV_ALL dq_iter_e.ITER_DQ_OK cur = true := by
        rw [entry_match_all]
        exact hq
      rw [if_neg hq] at hpos hc hm
      rw [if_neg (fun hh => hq hh.1)]
      simp only [collate_dev, if_neg hmt]
      exact ih x hpos h0 hc hm

theorem collate_q_dev_frame (db : Nat → player_t) (l : List entry_t) :
    ∀ o : stat_t, (collate_q_dev db l o).mean = o.mean ∧
      (collate_q_dev db l o).q_mean = o.q_mean := by
  induction l with
  | nil =>
    intro o
    exact ⟨rfl, rfl⟩
  | cons cur rest ih =>
    intro o
    simp only [collate_q_dev]
    split_ifs
    · exact ih _
    · exact ih _
    · exact ih _

theorem stat_set_mean (o : stat_t) (t : ttime_t) :
    ({ o with mean := t } : stat_t).mean = t ∧ ({ o with mean := t } : stat_t).q_mean = o.q_mean ∧
    ({ o with mean := t } : stat_t).count = o.count :=
  ⟨rfl, rfl, rfl⟩

theorem stat_set_dev_q_mean (o : stat_t) (d : ℚ) (t : ttime_t) :
    ({ o with std_dev := d, q_mean := t } : stat_t).mean = o.mean ∧
    ({ o with std_dev := d, q_mean := t } : stat_t).q_mean = t ∧
    ({ o with std_dev := d, q_mean := t } : stat_t).count = o.count :=
  ⟨rfl, rfl, rfl⟩

theorem stat_set_q_dev (o : stat_t) (d : ℚ) :
    ({ o with q_std_dev := d } : stat_t).mean = o.mean ∧
    ({ o with q_std_dev := d } : stat_t).q_mean = o.q_mean :=
  ⟨rfl, rfl⟩

theorem collate_close_mean_eq (o : stat_t) :
    collate_close_mean o = { o with mean := time_from_usec (i32
      (((u32 ((o.mean.msec : Int) + ((o.count / 2 : Nat) : Int)) / o.count : Nat)) : Int)) } :=
  rfl

theorem collate_close_dev_eq (sqrt : ℚ → ℚ) (q : Int) (o : stat_t) :
    collate_close_dev sqrt q o = { o with
      std_dev := sqrt (o.std_dev / (o.count : ℚ))
      q_mean := time_from_usec (i32
      (((if q > 0 then u32 ((((u32 ((o.q_mean.msec : Int) + Int.tdiv q 2) : Nat) : Int)) /
        (u32 q : Int)) else 0 : Nat)) : Int)) } :=
  rfl

theorem collate_close_q_dev_eq (sqrt : ℚ → ℚ) (q : Int) (o : stat_t) :
    collate_close_q_dev sqrt q o = { o with
      q_std_dev := sqrt (if q ≠ 0 then o.q_std_dev / (q : ℚ) else 0) } :=
  rfl

theorem collate_close_mean_value (o : stat_t) (n : Nat) (T : Int) (hn : o.count = n)
    (hT : (o.mean.msec : Int) = T)
    (hb : T + ((n / 2 : Nat) : Int) < 2147483648) :
    time_to_usec (collate_close_mean o).mean = (T + ((n / 2 : Nat) : Int)) / (n : Int) := by
  rw [collate_close_mean_eq, (stat_set_mean _ _).1, time_to_from_usec, hn, hT]
  have hu : ((u32 (T + ((n / 2 : Nat) : Int)) : Nat) : Int) = T + ((n / 2 : Nat) : Int) := by
    rw [u32_cast]
    omega
  have hd : (((u32 (T + ((n / 2 : Nat) : Int)) / n : Nat)) : Int) =
      (T + ((n / 2 : Nat) : Int)) / (n : Int) := by
    rw [Int.natCast_div, hu]
  rw [hd]
  have h1 : 0 ≤ (T + ((n / 2 : Nat) : Int)) / (n : Int) :=
    Int.ediv_nonneg (by omega) (Int.ofNat_nonneg n)
  have h2 : (T + ((n / 2 : Nat) : Int)) / (n : Int) ≤ T + ((n / 2 : Nat) : Int) :=
    Int.ediv_le_self _ (by omega)
  rw [i32_of_range ((T + ((n / 2 : Nat) : Int)) / (n : Int)) (by omega) (by omega),
    i32_of_range ((T + ((n / 2 : Nat) : Int)) / (n : Int)) (by omega) (by omega)]

theorem collate_close_mean_rest (o : stat_t) :
    (collate_close_mean o).q_mean = o.q_mean ∧ (collate_close_mean o).count = o.count := by
  rw [collate_close_mean_eq]
  exact (stat_set_mean _ _).2

theorem collate_close_dev_rest (sqrt : ℚ → ℚ) (q : Int) (o : stat_t) :
    (collate_close_dev sqrt q o).mean = o.mean ∧
    (collate_close_dev sqrt q o).count = o.count := by
  rw [collate_close_dev_eq]
  exact ⟨(stat_set_dev_q_mean _ _ _).1, (stat_set_dev_q_mean _ _ _).2.2⟩

theorem collate_close_dev_value (sqrt : ℚ → ℚ) (q : Int) (o : stat_t) (S : Int)
    (hS : (o.q_mean.msec : Int) = S) (hq : 0 < q)
    (hb : S + q < 2147483648) :
    time_to_usec (collate_close_dev sqrt q o).q_mean = (S + q / 2) / q := by
  rw [collate_close_dev_eq, (stat_set_dev_q_mean _ _ _).2.1, time_to_from_usec, if_pos hq, hS]
  have ht : Int.tdiv q 2 = q / 2 := Int.tdiv_eq_ediv (le_of_lt hq) (by decide)
  rw [ht]
  have hu : ((u32 (S + q / 2) : Nat) : Int) = S + q / 2 := by
    rw [u32_cast]
    omega
  have hq2 : ((u32 q : Nat) : Int) = q := by
    rw [u32_cast]
    omega
  rw [hu, hq2]
  have h1 : 0 ≤ (S + q / 2) / q := Int.ediv_nonneg (by omega) (le_of_lt hq)
  have h2 : (S + q / 2) / q ≤ S + q / 2 := Int.ediv_le_self _ (by omega)
  have hv : ((u32 ((S + q / 2) / q) : Nat) : Int) = (S + q / 2) / q := by
    rw [u32_cast]
    omega
  rw [hv, i32_of_range ((S + q / 2) / q) (by omega) (by omega),
    i32_of_range ((S + q / 2) / q) (by omega) (by omega)]

theorem collate_close_q_dev_rest (sqrt : ℚ → ℚ) (q : Int) (o : stat_t) :
    (collate_close_q_dev sqrt q o).mean = o.mean ∧
    (collate_close_q_dev sqrt q o).q_mean = o.q_mean := by
  rw [collate_close_q_dev_eq]
  exact stat_set_q_dev _ _

theorem stat_set_hcp_mean (o : stat_t) (q : ℚ) :
    ({ o with hcp_delta := q } : stat_t).mean = o.mean :=
  rfl

theorem rate_division_mean (sqrt : ℚ → ℚ) (db : Nat → player_t)
    (x : List entry_t × (Nat → stat_t) × stat_t) (div : Nat) :
    (rate_division sqrt db x div).2.2.mean = x.2.2.mean := by
  rw [rate_division]
  by_cases hc : (rate_div_mean db div x.1 (rate_div_reset (x.2.1 div))).2.count = 0
  · rw [if_pos hc]
  · rw [if_neg hc]

theorem rate_fold_mean (sqrt : ℚ → ℚ) (db : Nat → player_t) :
    ∀ (dl : List Nat) (x : List entry_t × (Nat → stat_t) × stat_t),
      (dl.foldl (rate_division sqrt db) x).2.2.mean = x.2.2.mean := by
  intro dl
  induction dl with
  | nil =>
    intro x
    rfl
  | cons d dl ih =>
    intro x
    rw [List.foldl_cons, ih]
    exact rate_division_mean sqrt db x d

theorem rate_times_mean (sqrt : ℚ → ℚ) (s : state) :
    (rate_times sqrt s).ostat.mean = s.ostat.mean := by
  have h := rate_fold_mean sqrt s.player_db (List.range' 1 DIV_COUNT)
    ((rate_overall s.g_event s.player_db s.ov 1 none 0 s.div_stat).1,
      (rate_overall s.g_event s.player_db s.ov 1 none 0 s.div_stat).2, s.ostat)
  rw [rate_times_ostat_eq]
  exact (stat_set_hcp_mean _ _).trans h

theorem par_rate_means (sqrt : ℚ → ℚ) (s : state) :
    (rate_times sqrt (calculate_par sqrt s)).ostat.mean = s.ostat.mean ∧
    (rate_times sqrt (calculate_par sqrt s)).ostat.q_mean = s.ostat.q_mean := by
  constructor
  · rw [rate_times_mean, (calculate_par_frame sqrt s).2.2.2]
  · exact (par_rate_frame sqrt s).2.2.2.1

theorem auto_cycle_means (sqrt : ℚ → ℚ) (s : state) (i : Nat) :
    (auto_cycle sqrt s i).ostat.mean = s.ostat.mean ∧
    (auto_cycle sqrt s i).ostat.q_mean = s.ostat.q_mean := by
  have key : ∀ s1 : state, s1.ostat.mean = s.ostat.mean → s1.ostat.q_mean = s.ostat.q_mean →
      (if s1.g_event.auto_squeeze = (TRUE : Int) then
          rate_times sqrt (calculate_par sqrt
            { s1 with g_event := { s1.g_event with squeeze := calculate_auto_squeeze s1 } })
        else s1).ostat.mean = s.ostat.mean ∧
      (if s1.g_event.auto_squeeze = (TRUE : Int) then
          rate_times sqrt (calculate_par sqrt
            { s1 with g_event := { s1.g_event with squeeze := calculate_auto_squeeze s1 } })
        else s1).ostat.q_mean = s.ostat.q_mean := by
    intro s1 a1 a2
    by_cases hq : s1.g_event.auto_squeeze = (TRUE : Int)
    · rw [if_pos hq, (par_rate_means sqrt _).1, (par_rate_means sqrt _).2]
      exact ⟨a1, a2⟩
    · rw [if_neg hq]
      exact ⟨a1, a2⟩
  rw [auto_cycle]
  by_cases hs : s.g_event.auto_scoot = (TRUE : Int) ∧ i < AUTO_CYCLE_CNT - 2
  · simp only [if_pos hs]
    exact key _ (par_rate_means sqrt _).1 (par_rate_means sqrt _).2
  · simp only [if_neg hs]
    exact key s rfl rfl

theorem auto_cycles_means (sqrt : ℚ → ℚ) (l : List Nat) (s : state) :
    (l.foldl (auto_cycle sqrt) s).ostat.mean = s.ostat.mean ∧
    (l.foldl (auto_cycle sqrt) s).ostat.q_mean = s.ostat.q_mean := by
  induction l generalizing s with
  | nil => exact ⟨rfl, rfl⟩
  | cons i rest ih =>
    rw [List.foldl_cons, (ih _).1, (ih _).2]
    exact auto_cycle_means sqrt s i

theorem collate_tune_means (sqrt : ℚ → ℚ) (s : state) :
    (collate_tune sqrt s).ostat.mean = s.ostat.mean ∧
    (collate_tune sqrt s).ostat.q_mean = s.ostat.q_mean := by
  rw [collate_tune]
  by_cases h : s.g_event.auto_scoot = (TRUE : Int) ∨ s.g_event.auto_squeeze = (TRUE : Int)
  · rw [if_pos h]
    exact auto_cycles_means sqrt _ s
  · rw [if_neg h]
    exact ⟨rfl, rfl⟩

theorem collate_stats_means (sqrt : ℚ → ℚ) (g_entry_cnt : Nat) (rat_head : List entry_t)
    (s : state) (h0 : g_entry_cnt ≠ 0)
    (h1 : (collate_count s.player_db s.ov { s.ostat with count := 0 }).2.count ≠ 0) :
    (collate_stats sqrt g_entry_cnt rat_head s).1.ostat.mean =
      (collate_overall sqrt s.player_db
        (collate_count s.player_db s.ov { s.ostat with count := 0 }).1
        (collate_count s.player_db s.ov { s.ostat with count := 0 }).2).mean ∧
    (collate_stats sqrt g_entry_cnt rat_head s).1.ostat.q_mean =
      (collate_overall sqrt s.player_db
        (collate_count s.player_db s.ov { s.ostat with count := 0 }).1
        (collate_count s.player_db s.ov { s.ostat with count := 0 }).2).q_mean := by
  rw [collate_stats, if_neg h0]
  simp only []
  rw [if_neg h1]
  have f := par_rate_means sqrt
    { s with
      ov := (collate_count s.player_db s.ov { s.ostat with count := 0 }).1
      ostat := collate_overall sqrt s.player_db
        (collate_count s.player_db s.ov { s.ostat with count := 0 }).1
        (collate_count s.player_db s.ov { s.ostat with count := 0 }).2 }
  have t := collate_tune_means sqrt (rate_times sqrt (calculate_par sqrt
    { s with
      ov := (collate_count s.player_db s.ov { s.ostat with count := 0 }).1
      ostat := collate_overall sqrt s.player_db
        (collate_count s.player_db s.ov { s.ostat with count := 0 }).1
        (collate_count s.player_db s.ov { s.ostat with count := 0 }).2 }))
  exact ⟨t.1.trans f.1, t.2.trans f.2⟩

theorem quality_filter_ne_nil (V : List Int) (hne : V ≠ []) :
    V.filter (fun t => decide (t ≤ (V.sum + ((V.length / 2 : Nat) : Int)) / (V.length : Int)))
      ≠ [] := by
  intro hq
  have hn : 0 < V.length := List.length_pos.mpr hne
  have hall : ∀ t ∈ V,
      (V.sum + ((V.length / 2 : Nat) : Int)) / (V.length : Int) + 1 ≤ t := by
    intro t ht
    by_contra hc
    have hm : t ∈ V.filter
        (fun t => decide (t ≤ (V.sum + ((V.length / 2 : Nat) : Int)) / (V.length : Int))) := by
      rw [List.mem_filter]
      exact ⟨ht, decide_eq_true (by omega)⟩
    rw [hq] at hm
    exact List.not_mem_nil _ hm
  have hs := bound_le_sum V _ hall
  have hn2 : (0 : Int) < (V.length : Int) := by exact_mod_cast hn
  have hlt := Int.lt_ediv_add_one_mul_self (V.sum + ((V.length / 2 : Nat) : Int)) hn2
  have hh : ((V.length / 2 : Nat) : Int) ≥ 0 := Int.ofNat_nonneg _
  omega

theorem quality_mean_le (Q : List Int) (M : Int) (hne : Q ≠ []) (h : ∀ t ∈ Q, t ≤ M) :
    (Q.sum + (Q.length : Int) / 2) / (Q.length : Int) ≤ M := by
  have hn : 0 < Q.length := List.length_pos.mpr hne
  have hn2 : (0 : Int) < (Q.length : Int) := by exact_mod_cast hn
  have hs := sum_le_bound Q M h
  have hlt : (Q.sum + (Q.length : Int) / 2) / (Q.length : Int) < M + 1 := by
    apply Int.ediv_lt_of_lt_mul hn2
    have e : (M + 1) * (Q.length : Int) = M * (Q.length : Int) + (Q.length : Int) := by ring
    rw [e]
    omega
  omega

theorem quality_times_congr (m : Int) (a b : List entry_t) (h : valid_times a = valid_times b) :
    quality_times m a = quality_times m b := by
  unfold quality_times
  rw [h]

theorem quality_times_le (m : Int) (l : List entry_t) : ∀ t ∈ quality_times m l, t ≤ m := by
  intro t ht
  unfold quality_times at ht
  rw [List.mem_filter] at ht
  exact of_decide_eq_true ht.2

theorem stat_set_count (o : stat_t) (c : Nat) :
    ({ o with count := c } : stat_t).count = c ∧
    ({ o with count := c } : stat_t).mean = o.mean ∧
    ({ o with count := c } : stat_t).q_mean = o.q_mean :=
  ⟨rfl, rfl, rfl⟩

theorem collate_overall_eq (sqrt : ℚ → ℚ) (db : Nat → player_t) (ov : List entry_t)
    (o : stat_t) :
    collate_overall sqrt db ov o =
      collate_close_q_dev sqrt (collate_dev db ov (0, collate_close_mean o)).1
        (collate_q_dev db ov (collate_close_dev sqrt
          (collate_dev db ov (0, collate_close_mean o)).1
          (collate_dev db ov (0, collate_close_mean o)).2)) :=
  rfl

/-- Overall mean and quality mean of `collate_overall`, from count and sum of the first
loop. -/
theorem collate_overall_spec (sqrt : ℚ → ℚ) (db : Nat → player_t) (ov : List entry_t)
    (o : stat_t) (hpos : ∀ t ∈ valid_times ov, 0 ≤ t) (hne : valid_times ov ≠ [])
    (hn : o.count = (valid_times ov).length)
    (hT : (o.mean.msec : Int) = (valid_times ov).sum)
    (hq : o.q_mean.msec = 0)
    (hb : (valid_times ov).sum + ((valid_times ov).length : Int) < 2147483648) :
    time_to_usec (collate_overall sqrt db ov o).mean =
      ((valid_times ov).sum + (((valid_times ov).length / 2 : Nat) : Int)) /
        ((valid_times ov).length : Int) ∧
    time_to_usec (collate_overall sqrt db ov o).q_mean =
      ((quality_times (time_to_usec (collate_overall sqrt db ov o).mean) ov).sum +
        ((quality_times (time_to_usec (collate_overall sqrt db ov o).mean) ov).length : Int) / 2) /
        ((quality_times (time_to_usec (collate_overall sqrt db ov o).mean) ov).length : Int) ∧
    quality_times (time_to_usec (collate_overall sqrt db ov o).mean) ov ≠ [] := by
  have hlen : 0 < (valid_times ov).length := List.length_pos.mpr hne
  have hsum := sum_nonneg_int _ hpos
  have hM := collate_close_mean_value o _ _ hn hT (by omega)
  have hR := collate_close_mean_rest o
  have hqz : ((collate_close_mean o).q_mean.msec : Int) = 0 := by
    rw [hR.1, hq]
    rfl
  have hD := collate_dev_spec db ov (0, collate_close_mean o) hpos (le_refl 0)
    (by dsimp only; omega) (by dsimp only; omega)
  dsimp only at hD
  obtain ⟨d1, d2, d3, d4⟩ := hD
  have hmean : (collate_overall sqrt db ov o).mean = (collate_close_mean o).mean := by
    rw [collate_overall_eq, (collate_close_q_dev_rest _ _ _).1, (collate_q_dev_frame _ _ _).1,
      (collate_close_dev_rest _ _ _).1, d3]
  rw [hmean, hM]
  rw [hM] at d1 d2
  have hQ : quality_times (((valid_times ov).sum + (((valid_times ov).length / 2 : Nat) : Int)) /
      ((valid_times ov).length : Int)) ov ≠ [] := by
    unfold quality_times
    exact quality_filter_ne_nil _ hne
  have hQl : 0 < (quality_times (((valid_times ov).sum +
      (((valid_times ov).length / 2 : Nat) : Int)) /
      ((valid_times ov).length : Int)) ov).length := List.length_pos.mpr hQ
  have hQs := sum_filter_le (valid_times ov) (fun t => decide (t ≤ ((valid_times ov).sum +
      (((valid_times ov).length / 2 : Nat) : Int)) / ((valid_times ov).length : Int))) hpos
  have hQn := sum_nonneg_int (quality_times (((valid_times ov).sum +
      (((valid_times ov).length / 2 : Nat) : Int)) /
      ((valid_times ov).length : Int)) ov) (by
        intro t ht
        unfold quality_times at ht
        exact hpos t (List.mem_filter.mp ht).1)
  refine ⟨rfl, ?_, hQ⟩
  rw [collate_overall_eq, (collate_close_q_dev_rest _ _ _).2, (collate_q_dev_frame _ _ _).2]
  have hv := collate_close_dev_value sqrt (collate_dev db ov (0, collate_close_mean o)).1
    (collate_dev db ov (0, collate_close_mean o)).2 _ d2
    (by rw [d1]; omega)
    (by
      rw [d1]
      unfold quality_times
      omega)
  rw [hv, d1, hqz, zero_add, zero_add]

/-- C39: when `collate_stats` runs on a list with at least one entry that is not
disqualified, with the sums `ostat.mean.msec` and `ostat.q_mean.msec` at the zero `init_db`
leaves them at, times that are not negative and the sum of the valid times plus their
number below 2^31 (no integer overflow), then the overall mean it stores is the rounded
quotient of sum and count of the valid times, the valid times not above that mean are not
empty, the quality mean it stores is their rounded quotient, and the quality mean is not
above the overall mean. -/
theorem collate_stats_quality (sqrt : ℚ → ℚ) (g_entry_cnt : Nat) (rat_head : List entry_t)
    (s : state) (h0 : g_entry_cnt ≠ 0) (hne : valid_times s.ov ≠ [])
    (hz : s.ostat.mean.msec = 0 ∧ s.ostat.q_mean.msec = 0)
    (hpos : ∀ t ∈ valid_times s.ov, 0 ≤ t)
    (hb : (valid_times s.ov).sum + ((valid_times s.ov).length : Int) < 2147483648) :
    time_to_usec (collate_stats sqrt g_entry_cnt rat_head s).1.ostat.mean =
      ((valid_times s.ov).sum + (((valid_times s.ov).length / 2 : Nat) : Int)) /
        ((valid_times s.ov).length : Int) ∧
    quality_times (time_to_usec (collate_stats sqrt g_entry_cnt rat_head s).1.ostat.mean) s.ov
      ≠ [] ∧
    time_to_usec (collate_stats sqrt g_entry_cnt rat_head s).1.ostat.q_mean =
      ((quality_times
          (time_to_usec (collate_stats sqrt g_entry_cnt rat_head s).1.ostat.mean) s.ov).sum +
        ((quality_times
          (time_to_usec (collate_stats sqrt g_entry_cnt rat_head s).1.ostat.mean)
            s.ov).length : Int) / 2) /
        ((quality_times
          (time_to_usec (collate_stats sqrt g_entry_cnt rat_head s).1.ostat.mean)
            s.ov).length : Int) ∧
    time_to_usec (collate_stats sqrt g_entry_cnt rat_head s).1.ostat.q_mean ≤
      time_to_usec (collate_stats sqrt g_entry_cnt rat_head s).1.ostat.mean := by
  have hlen : 0 < (valid_times s.ov).length := List.length_pos.mpr hne
  have hsum := sum_nonneg_int _ hpos
  have c := stat_set_count s.ostat 0
  have hC := collate_count_spec s.player_db s.ov { s.ostat with count := 0 } hpos
    (by rw [c.1]; omega) (by rw [c.2.1, hz.1]; omega)
  rw [c.1, c.2.1, c.2.2, hz.1] at hC
  obtain ⟨k1, k2, k3, k4⟩ := hC
  have k1n : (collate_count s.player_db s.ov { s.ostat with count := 0 }).2.count =
      (valid_times s.ov).length := by
    have : ((collate_count s.player_db s.ov { s.ostat with count := 0 }).2.count : Int) =
      ((valid_times s.ov).length : Int) := by
      rw [k1]
      simp
    exact_mod_cast this
  have h1 : (collate_count s.player_db s.ov { s.ostat with count := 0 }).2.count ≠ 0 := by
    omega
  have hm := collate_stats_means sqrt g_entry_cnt rat_head s h0 h1
  have hO := collate_overall_spec sqrt s.player_db
    (collate_count s.player_db s.ov { s.ostat with count := 0 }).1
    (collate_count s.player_db s.ov { s.ostat with count := 0 }).2
    (by rw [k4]; exact hpos) (by rw [k4]; exact hne) (by rw [k4]; exact k1n)
    (by rw [k4, k2]; simp) (by rw [k3]; exact hz.2) (by rw [k4]; exact hb)
  rw [← hm.1, ← hm.2, k4, quality_times_congr _ _ _ k4] at hO
  refine ⟨hO.1, hO.2.2, hO.2.1, ?_⟩
  rw [hO.2.1]
  exact quality_mean_le _ _ hO.2.2 (quality_times_le _ _)

/-- The valid times of `mixed_entries`, in milliseconds. -/
theorem mixed_entries_times : valid_times mixed_entries = [60000, 62000] := by
  decide!

/-- C39, instance: for the entries 1:00.000, 1:02.000 and a disqualified 0:50.000 the overall
mean is 1:01.000 and the quality mean is not above it. -/
theorem collate_stats_quality_witness :
    time_to_usec (collate_stats sqrt_milli 3 [] (example_state mixed_entries 0)).1.ostat.mean =
      61000 ∧
    time_to_usec (collate_stats sqrt_milli 3 [] (example_state mixed_entries 0)).1.ostat.q_mean ≤
      time_to_usec (collate_stats sqrt_milli 3 [] (example_state mixed_entries 0)).1.ostat.mean :=
  have hv : valid_times (example_state mixed_entries 0).ov = [60000, 62000] :=
    mixed_entries_times
  have h := collate_stats_quality sqrt_milli 3 [] (example_state mixed_entries 0)
    (by decide) (by rw [hv]; decide) ⟨rfl, rfl⟩ (by rw [hv]; decide) (by rw [hv]; decide)
  ⟨h.1.trans (by rw [hv]; decide), h.2.2.2⟩

/-! ## C32: a second run of `db_update` -/

theorem history_store_found (latest : race_result_t) (x : race_result_t)
    (post : List race_result_t) (hx : x.race_id = latest.race_id) :
    ∀ (pre : List race_result_t) (o : Nat) (f : Bool),
      (∀ y ∈ pre, y.race_id ≠ latest.race_id) →
      (history_store latest (pre ++ x :: post) o f).1 = pre ++ latest :: post ∧
      (history_store latest (pre ++ x :: post) o f).2.2.1 =
        (if x.status = STATUS_FINAL then false else f) ∧
      (history_store latest (pre ++ x :: post) o f).2.2.2 = true := by
  intro pre
  induction pre with
  | nil =>
    intro o f _
    simp only [List.nil_append, history_store, if_pos hx, and_self]
  | cons a t ih =>
    intro o f h
    have ha : a.race_id ≠ latest.race_id := h a (List.mem_cons_self _ _)
    have i := ih (if o > a.race_id then a.race_id else o) f
      (fun y hy => h y (List.mem_cons_of_mem _ hy))
    simp only [List.cons_append, history_store, if_neg ha]
    exact ⟨congrArg (List.cons a) i.1, i.2.1, i.2.2⟩

theorem first_match_split (id : Nat) (h : List race_result_t) :
    (∀ x ∈ h, x.race_id ≠ id) ∨
    ∃ pre x post, h = pre ++ x :: post ∧ (∀ y ∈ pre, y.race_id ≠ id) ∧ x.race_id = id := by
  induction h with
  | nil =>
    left
    intro x hx
    exact absurd hx (List.not_mem_nil _)
  | cons a t ih =>
    by_cases ha : a.race_id = id
    · right
      exact ⟨[], a, t, rfl, fun y hy => absurd hy (List.not_mem_nil _), ha⟩
    · rcases ih with hn | ⟨pre, x, post, e, hp, hx⟩
      · left
        intro x hx
        rcases List.mem_cons.mp hx with rfl | hx
        · exact ha
        · exact hn x hx
      · right
        refine ⟨a :: pre, x, post, by rw [e]; rfl, ?_, hx⟩
        intro y hy
        rcases List.mem_cons.mp hy with rfl | hy
        · exact ha
        · exact hp y hy

theorem player_set_history (p : player_t) (h : List race_result_t) :
    ({ p with history := h } : player_t).history = h :=
  rfl

/-- The history branch of `db_update` when a slot holds the race of `latest`: the first
such slot is overwritten, and `fold_rating` is cleared if that slot held a final result. -/
theorem db_update_history_found (p : player_t) (f : Bool) (pre : List race_result_t)
    (x : race_result_t) (post : List race_result_t) (e : p.history = pre ++ x :: post)
    (hp : ∀ y ∈ pre, y.race_id ≠ p.latest.race_id) (hx : x.race_id = p.latest.race_id) :
    (db_update_history p f).2 = (if x.status = STATUS_FINAL then false else f) ∧
    (db_update_history p f).1.history = pre ++ p.latest :: post := by
  have s := history_store_found p.latest x post hx pre 999999 f hp
  rw [← e] at s
  have hd : ¬ (history_store p.latest p.history 999999 f).2.2.2 = false := by
    rw [s.2.2]
    decide
  unfold db_update_history
  simp only []
  rw [if_neg hd]
  exact ⟨s.2.1, s.1⟩

theorem db_update_history_settled (p : player_t) (f : Bool)
    (hl : p.latest.status = STATUS_FINAL)
    (hs : settled_history p.latest.race_id p.history) :
    (db_update_history p f).2 = false ∧
    settled_history p.latest.race_id (db_update_history p f).1.history := by
  rcases hs with ⟨pre, x, post, e, hp, hx, hst⟩ | ⟨hid, hall⟩
  · have h := db_update_history_found p f pre x post e hp hx
    rw [if_pos hst] at h
    refine ⟨h.1, Or.inl ⟨pre, p.latest, post, h.2, hp, rfl, hl⟩⟩
  · have h := db_update_history_reject p f hall hid
    refine ⟨h.1, Or.inr ⟨hid, ?_⟩⟩
    rw [h.2]
    exact hall

theorem db_update_history_settles (p : player_t) (f : Bool)
    (hl : p.latest.status = STATUS_FINAL) (hne : p.history ≠ []) :
    settled_history p.latest.race_id (db_update_history p f).1.history := by
  rcases first_match_split p.latest.race_id p.history with hn | ⟨pre, x, post, e, hp, hx⟩
  · by_cases hold : 999999 ≤ p.latest.race_id ∨ ∃ x ∈ p.history, x.race_id ≤ p.latest.race_id
    · have h := db_update_history_rotate p f hn hold
      obtain ⟨a, t, e⟩ := List.exists_cons_of_ne_nil hne
      refine Or.inl ⟨[], p.latest, (a :: t).dropLast, ?_,
        fun y hy => absurd hy (List.not_mem_nil _), rfl, hl⟩
      rw [h.2, e]
      rfl
    · have hid : p.latest.race_id < 999999 := by
        by_contra hc
        exact hold (Or.inl (not_lt.mp hc))
      have hall : ∀ x ∈ p.history, p.latest.race_id < x.race_id := by
        intro x hx
        by_contra hc
        exact hold (Or.inr ⟨x, hx, not_lt.mp hc⟩)
      have h := db_update_history_reject p f hall hid
      refine Or.inr ⟨hid, ?_⟩
      rw [h.2]
      exact hall
  · have h := db_update_history_found p f pre x post e hp hx
    exact Or.inl ⟨pre, p.latest, post, h.2, hp, rfl, hl⟩

theorem db_update_history_length (p : player_t) (f : Bool) :
    (db_update_history p f).1.history.length = p.history.length := by
  rcases first_match_split p.latest.race_id p.history with hn | ⟨pre, x, post, e, hp, hx⟩
  · by_cases hold : 999999 ≤ p.latest.race_id ∨ ∃ x ∈ p.history, x.race_id ≤ p.latest.race_id
    · rw [(db_update_history_rotate p f hn hold).2, List.length_dropLast, List.length_cons]
      rfl
    · have hid : p.latest.race_id < 999999 := by
        by_contra hc
        exact hold (Or.inl (not_lt.mp hc))
      have hall : ∀ x ∈ p.history, p.latest.race_id < x.race_id := by
        intro x hx
        by_contra hc
        exact hold (Or.inr ⟨x, hx, not_lt.mp hc⟩)
      rw [(db_update_history_reject p f hall hid).2]
  · rw [(db_update_history_found p f pre x post e hp hx).2, e, List.length_append,
      List.length_append, List.length_cons, List.length_cons]

theorem settled_qualifier (ev : event_t) (p : player_t) (hw : ev.week = EVENT_QUALIFIER) :
    settled ev p ↔ p.qualifier.status = STATUS_FINAL := by
  unfold settled
  rw [if_pos hw]

theorem settled_other (ev : event_t) (p : player_t) (hw : ev.week ≠ EVENT_QUALIFIER) :
    settled ev p ↔ settled_history (u32 ev.week) p.history := by
  unfold settled
  rw [if_neg hw]

/-- The fields of the player of an entry after the loop body of `db_update` that come
from the staged record `r.1`; the whole record is `r.1` when the rating is not folded. -/
theorem db_update_entry_staged (ev : event_t) (db : Nat → player_t) (cur : entry_t)
    (k : Nat) (hk : k = player_index cur.player_id) (hv : (db k).valid ≠ 0)
    (r : player_t × Bool)
    (hr : r = (if ev.week = EVENT_QUALIFIER then
        db_update_qualifier
          (race_result_set (db k) (u32 ev.week) ev.status cur.dq ev.weight cur.rating)
          (decide (ev.status = STATUS_FINAL))
      else
        db_update_history
          (race_result_set (db k) (u32 ev.week) ev.status cur.dq ev.weight cur.rating)
          (decide (ev.status = STATUS_FINAL)))) :
    (db_update_entry ev db cur k).valid = r.1.valid ∧
    (db_update_entry ev db cur k).history = r.1.history ∧
    (db_update_entry ev db cur k).qualifier = r.1.qualifier ∧
    (r.2 = false → db_update_entry ev db cur k = r.1) := by
  rw [db_update_entry_valid ev db cur k hk hv r hr]
  by_cases h2 : r.2 = true
  · rw [if_pos h2]
    have f := player_update_rating_frame (Function.update db k r.1) k
    rw [Function.update_same] at f
    refine ⟨f.2.1, f.2.2.2.2.2.2.1, f.2.2.2.2.2.1, ?_⟩
    intro hf
    rw [hf] at h2
    cases h2
  · rw [if_neg h2]
    exact ⟨rfl, rfl, rfl, fun _ => rfl⟩

/-- The loop body of `db_update` keeps `valid` and the length of `history` of every
record. -/
theorem db_update_entry_shape (ev : event_t) (db : Nat → player_t) (cur : entry_t) (i : Nat) :
    (db_update_entry ev db cur i).valid = (db i).valid ∧
    (db_update_entry ev db cur i).history.length = (db i).history.length := by
  by_cases hi : i = player_index cur.player_id
  · by_cases hv : (db i).valid ≠ 0
    · have hs := race_result_set_only (db i) (u32 ev.week) ev.status cur.dq ev.weight
        cur.rating
      by_cases hw : ev.week = EVENT_QUALIFIER
      · have st := db_update_entry_staged ev db cur i hi hv _ rfl
        rw [if_pos hw] at st
        have hq := db_update_qualifier_only
          (race_result_set (db i) (u32 ev.week) ev.status cur.dq ev.weight cur.rating)
          (decide (ev.status = STATUS_FINAL))
        constructor
        · rw [st.1, hq.1.2.2.1, hs.1.2.2.1]
        · rw [st.2.1, hq.2.1, hs.2.1]
      · have st := db_update_entry_staged ev db cur i hi hv _ rfl
        rw [if_neg hw] at st
        have hq := db_update_history_only
          (race_result_set (db i) (u32 ev.week) ev.status cur.dq ev.weight cur.rating)
          (decide (ev.status = STATUS_FINAL))
        constructor
        · rw [st.1, hq.1.2.2.1, hs.1.2.2.1]
        · rw [st.2.1, db_update_history_length, hs.2.1]
    · rw [hi] at hv
      rw [db_update_entry_invalid ev db cur (not_not.mp hv)]
      exact ⟨rfl, rfl⟩
  · rw [db_update_entry_other ev db cur i hi]
    exact ⟨rfl, rfl⟩

/-- The loop body of `db_update` for a final event on a record that accounts for the
event: the ratings and counters are kept and the record still accounts for the event. -/
theorem db_update_entry_settled (ev : event_t) (db : Nat → player_t) (cur : entry_t)
    (hfin : ev.status = STATUS_FINAL) (i : Nat) (hs : settled ev (db i)) :
    results_only (db i) (db_update_entry ev db cur i) ∧
      settled ev (db_update_entry ev db cur i) := by
  by_cases hi : i = player_index cur.player_id
  · by_cases hv : (db i).valid ≠ 0
    · have ho := race_result_set_only (db i) (u32 ev.week) ev.status cur.dq ev.weight
        cur.rating
      have hl := race_result_set_latest (db i) (u32 ev.week) ev.status cur.dq ev.weight
        cur.rating
      by_cases hw : ev.week = EVENT_QUALIFIER
      · have st := db_update_entry_staged ev db cur i hi hv _ rfl
        rw [if_pos hw] at st
        rw [settled_qualifier ev _ hw] at hs ⊢
        have hq : db_update_qualifier
            (race_result_set (db i) (u32 ev.week) ev.status cur.dq ev.weight cur.rating)
            (decide (ev.status = STATUS_FINAL)) =
            (race_result_set (db i) (u32 ev.week) ev.status cur.dq ev.weight cur.rating,
              false) := by
          unfold db_update_qualifier
          rw [if_pos (by rw [ho.2.2]; exact hs)]
        rw [hq] at st
        rw [st.2.2.2 rfl]
        exact ⟨ho.1, by rw [ho.2.2]; exact hs⟩
      · have st := db_update_entry_staged ev db cur i hi hv _ rfl
        rw [if_neg hw] at st
        rw [settled_other ev _ hw] at hs ⊢
        have hh := db_update_history_settled
          (race_result_set (db i) (u32 ev.week) ev.status cur.dq ev.weight cur.rating)
          (decide (ev.status = STATUS_FINAL)) (by rw [hl.2.1]; exact hfin)
          (by rw [hl.1, ho.2.1]; exact hs)
        rw [hl.1] at hh
        have hq := db_update_history_only
          (race_result_set (db i) (u32 ev.week) ev.status cur.dq ev.weight cur.rating)
          (decide (ev.status = STATUS_FINAL))
        constructor
        · rw [st.2.2.2 hh.1]
          exact results_only_trans ho.1 hq.1
        · rw [st.2.1]
          exact hh.2
    · rw [hi] at hv
      rw [db_update_entry_invalid ev db cur (not_not.mp hv)]
      exact ⟨results_only_refl _, hs⟩
  · rw [db_update_entry_other ev db cur i hi]
    exact ⟨results_only_refl _, hs⟩

/-- The loop body of `db_update` for a final event leaves the valid player of the entry
with a record that accounts for the event, if the history array has a slot. -/
theorem db_update_entry_settles (ev : event_t) (db : Nat → player_t) (cur : entry_t)
    (hfin : ev.status = STATUS_FINAL) (k : Nat) (hk : k = player_index cur.player_id)
    (hv : (db k).valid ≠ 0) (hne : (db k).history ≠ []) :
    settled ev (db_update_entry ev db cur k) := by
  have ho := race_result_set_only (db k) (u32 ev.week) ev.status cur.dq ev.weight
    cur.rating
  have hl := race_result_set_latest (db k) (u32 ev.week) ev.status cur.dq ev.weight
    cur.rating
  by_cases hw : ev.week = EVENT_QUALIFIER
  · have st := db_update_entry_staged ev db cur k hk hv _ rfl
    rw [if_pos hw] at st
    rw [settled_qualifier ev _ hw, st.2.2.1]
    unfold db_update_qualifier
    by_cases hq : (race_result_set (db k) (u32 ev.week) ev.status cur.dq ev.weight
        cur.rating).qualifier.status = STATUS_FINAL
    · rw [if_pos hq]
      exact hq
    · rw [if_neg hq]
      exact hl.2.1.trans hfin
  · have st := db_update_entry_staged ev db cur k hk hv _ rfl
    rw [if_neg hw] at st
    rw [settled_other ev _ hw, st.2.1]
    have hh := db_update_history_settles
      (race_result_set (db k) (u32 ev.week) ev.status cur.dq ev.weight cur.rating)
      (decide (ev.status = STATUS_FINAL)) (by rw [hl.2.1]; exact hfin)
      (by rw [ho.2.1]; exact hne)
    rw [hl.1] at hh
    exact hh

theorem db_update_entries_shape (ev : event_t) (l : List entry_t) :
    ∀ (db : Nat → player_t) (i : Nat),
      (db_update_entries ev db l i).valid = (db i).valid ∧
      (db_update_entries ev db l i).history.length = (db i).history.length := by
  induction l with
  | nil =>
    intro db i
    exact ⟨rfl, rfl⟩
  | cons cur rest ih =>
    intro db i
    simp only [db_update_entries]
    rw [if_pos (entry_match_any db cur), (ih _ i).1, (ih _ i).2]
    exact db_update_entry_shape ev db cur i

theorem db_update_entries_settled (ev : event_t) (hfin : ev.status = STATUS_FINAL)
    (l : List entry_t) :
    ∀ (db : Nat → player_t) (i : Nat), settled ev (db i) →
      settled ev (db_update_entries ev db l i) := by
  induction l with
  | nil =>
    intro db i h
    exact h
  | cons cur rest ih =>
    intro db i h
    simp only [db_update_entries]
    rw [if_pos (entry_match_any db cur)]
    exact ih _ i (db_update_entry_settled ev db cur hfin i h).2

/-- After the loop of `db_update` for a final event, the record of every valid player
with an entry accounts for the event. -/
theorem db_update_entries_settles (ev : event_t) (hfin : ev.status = STATUS_FINAL)
    (l : List entry_t) :
    ∀ (db : Nat → player_t), (∀ i, (db i).history ≠ []) →
      ∀ cur ∈ l, (db (player_index cur.player_id)).valid ≠ 0 →
        settled ev (db_update_entries ev db l (player_index cur.player_id)) := by
  induction l with
  | nil =>
    intro db _ cur hc
    exact absurd hc (List.not_mem_nil _)
  | cons a rest ih =>
    intro db hne cur hc hv
    simp only [db_update_entries]
    rw [if_pos (entry_match_any db a)]
    have hne2 : ∀ i, (db_update_entry ev db a i).history ≠ [] := by
      intro i h0
      have hlen := (db_update_entry_shape ev db a i).2
      rw [h0] at hlen
      exact hne i (List.length_eq_zero.mp hlen.symm)
    rcases List.mem_cons.mp hc with rfl | hr
    · exact db_update_entries_settled ev hfin rest _ _
        (db_update_entry_settles ev db cur hfin _ rfl hv (hne _))
    · exact ih _ hne2 cur hr (by rw [(db_update_entry_shape ev db a _).1]; exact hv)

/-- The loop of `db_update` for a final event, when the record of every valid player with
an entry accounts for the event: the ratings and counters of every record are kept. -/
theorem db_update_entries_again (ev : event_t) (hfin : ev.status = STATUS_FINAL)
    (l : List entry_t) :
    ∀ (db : Nat → player_t),
      (∀ cur ∈ l, (db (player_index cur.player_id)).valid ≠ 0 →
        settled ev (db (player_index cur.player_id))) →
      ∀ i, results_only (db i) (db_update_entries ev db l i) := by
  induction l with
  | nil =>
    intro db _ i
    exact results_only_refl _
  | cons a rest ih =>
    intro db h i
    simp only [db_update_entries]
    rw [if_pos (entry_match_any db a)]
    have step : ∀ j, results_only (db j) (db_update_entry ev db a j) := by
      intro j
      by_cases hj : j = player_index a.player_id
      · by_cases hv : (db j).valid ≠ 0
        · have hs := h a (List.mem_cons_self _ _) (by rw [← hj]; exact hv)
          rw [← hj] at hs
          exact (db_update_entry_settled ev db a hfin j hs).1
        · rw [hj] at hv
          rw [db_update_entry_invalid ev db a (not_not.mp hv)]
          exact results_only_refl _
      · rw [db_update_entry_other ev db a j hj]
        exact results_only_refl _
    refine results_only_trans (step i) (ih _ ?_ i)
    intro cur hc hv
    rw [(db_update_entry_shape ev db a _).1] at hv
    exact (db_update_entry_settled ev db a hfin _
      (h cur (List.mem_cons_of_mem _ hc) hv)).2

theorem db_update_fields (s : state) :
    (db_update s).g_event = s.g_event ∧ (db_update s).ov = s.ov ∧
    (db_update s).player_db = db_update_entries s.g_event s.player_db s.ov :=
  ⟨rfl, rfl, rfl⟩

/-- C32: when every player record has the `RACE_HISTORY` history slots of the C array,
running `db_update` a second time, for the same event and entries, leaves `rating`,
`real_rating`, `total_weight`, `event_count`, `dq_count` and `verified_count` of every
player record at their values after the first run; this holds for every event week (the
qualifying event and the history events) and every event status, `STATUS_FINAL` included. -/
theorem db_update_twice (s : state)
    (hh : ∀ i, (s.player_db i).history.length = RACE_HISTORY) (i : Nat) :
    ((db_update (db_update s)).player_db i).rating = ((db_update s).player_db i).rating ∧
    ((db_update (db_update s)).player_db i).real_rating =
      ((db_update s).player_db i).real_rating ∧
    ((db_update (db_update s)).player_db i).total_weight =
      ((db_update s).player_db i).total_weight ∧
    ((db_update (db_update s)).player_db i).event_count =
      ((db_update s).player_db i).event_count ∧
    ((db_update (db_update s)).player_db i).dq_count =
      ((db_update s).player_db i).dq_count ∧
    ((db_update (db_update s)).player_db i).verified_count =
      ((db_update s).player_db i).verified_count := by
  have f1 := db_update_fields s
  have f2 := db_update_fields (db_update s)
  rw [f1.1, f1.2.1] at f2
  rw [f2.2.2]
  by_cases hfin : s.g_event.status = STATUS_FINAL
  · have hne : ∀ j, (s.player_db j).history ≠ [] := by
      intro j h0
      have := hh j
      rw [h0] at this
      cases this
    refine (db_update_entries_again s.g_event hfin s.ov (db_update s).player_db ?_ i).1
    intro cur hc hv
    rw [f1.2.2] at hv ⊢
    rw [(db_update_entries_shape s.g_event s.ov s.player_db _).1] at hv
    exact db_update_entries_settles s.g_event hfin s.ov s.player_db hne cur hc hv
  · exact (db_update_entries_provisional s.g_event hfin s.ov (db_update s).player_db i).1

theorem history_ascending_slots :
    (player_with_history history_ascending).history.length = RACE_HISTORY := by
  decide

/-- C32, instance: for the final event 21, newer than the twenty stored events, the entry of
player 1 is folded by the first run and not by the second. -/
theorem db_update_twice_witness :
    ((db_update (db_update (update_state 21 STATUS_FINAL history_ascending))).player_db 1).rating =
      ((db_update (update_state 21 STATUS_FINAL history_ascending)).player_db 1).rating ∧
    ((db_update (db_update
      (update_state 21 STATUS_FINAL history_ascending))).player_db 1).total_weight =
      ((db_update (update_state 21 STATUS_FINAL history_ascending)).player_db 1).total_weight :=
  ⟨(db_update_twice (update_state 21 STATUS_FINAL history_ascending)
      (fun _ => history_ascending_slots) 1).1,
    (db_update_twice (update_state 21 STATUS_FINAL history_ascending)
      (fun _ => history_ascending_slots) 1).2.2.1⟩

/-! ## Rounding to the nearest integer -/

theorem round_even_cases (y : ℚ) : round_even y = ⌊y⌋ ∨ round_even y = ⌊y⌋ + 1 := by
  unfold round_even
  split_ifs
  · exact Or.inl rfl
  · exact Or.inr rfl
  · exact Or.inl rfl
  · exact Or.inr rfl

theorem round_even_int (n : Int) : round_even (n : ℚ) = n := by
  unfold round_even
  rw [Int.floor_intCast, sub_self, if_pos (by norm_num)]

theorem round_even_near (y : ℚ) : |(round_even y : ℚ) - y| ≤ 1 / 2 := by
  have h1 : (⌊y⌋ : ℚ) ≤ y := Int.floor_le y
  have h2 : y < (⌊y⌋ : ℚ) + 1 := Int.lt_floor_add_one y
  unfold round_even
  rw [abs_le]
  split_ifs with a b c
  · constructor <;> linarith
  · push_cast
    constructor <;> linarith
  · constructor <;> linarith
  · push_cast
    constructor <;> linarith

theorem round_even_mono {y z : ℚ} (h : y ≤ z) : round_even y ≤ round_even z := by
  have hf : ⌊y⌋ ≤ ⌊z⌋ := Int.floor_le_floor h
  rcases lt_or_eq_of_le hf with hlt | heq
  · rcases round_even_cases y with a | a <;> rcases round_even_cases z with b | b <;> omega
  · unfold round_even
    rw [heq]
    have hfr : y - (⌊z⌋ : ℚ) ≤ z - (⌊z⌋ : ℚ) := by linarith
    split_ifs <;> first | omega | (exfalso; linarith)

theorem round_even_ge {y : ℚ} {n : Int} (h : (n : ℚ) ≤ y) : n ≤ round_even y := by
  have := round_even_mono h
  rwa [round_even_int] at this

theorem round_even_le {y : ℚ} {n : Int} (h : y ≤ (n : ℚ)) : round_even y ≤ n := by
  have := round_even_mono h
  rwa [round_even_int] at this

theorem round_even_unique (y : ℚ) (n : Int) (h : |y - (n : ℚ)| < 1 / 2) :
    round_even y = n := by
  rw [abs_lt] at h
  have hn := round_even_near y
  rw [abs_le] at hn
  have h1 : ((round_even y : Int) : ℚ) - (n : ℚ) < 1 := by linarith
  have h2 : -1 < ((round_even y : Int) : ℚ) - (n : ℚ) := by linarith
  have h3 : round_even y - n < 1 := by exact_mod_cast h1
  have h4 : -1 < round_even y - n := by exact_mod_cast h2
  omega

/-! ## The binary exponent and the unit in the last place -/

theorem log2_spec (x : ℚ) (hx : 0 < x) :
    (2 : ℚ) ^ Int.log 2 x ≤ x ∧ x < (2 : ℚ) ^ (Int.log 2 x + 1) := by
  have h1 := Int.zpow_log_le_self (b := 2) (by norm_num) hx
  have h2 := Int.lt_zpow_succ_log_self (b := 2) (by norm_num) x
  rw [Nat.cast_ofNat] at h1 h2
  exact ⟨h1, h2⟩

theorem log2_unique (x : ℚ) (e : Int) (h1 : (2 : ℚ) ^ e ≤ x) (h2 : x < (2 : ℚ) ^ (e + 1)) :
    Int.log 2 x = e := by
  have hx : 0 < x := lt_of_lt_of_le (zpow_pos (by norm_num) e) h1
  have a := (Int.zpow_le_iff_le_log (b := 2) (by norm_num) (x := e) hx).mp
    (by rw [Nat.cast_ofNat]; exact h1)
  have b := (Int.lt_zpow_iff_log_lt (b := 2) (by norm_num) (x := e + 1) hx).mp
    (by rw [Nat.cast_ofNat]; exact h2)
  omega

theorem log2_lt (x : ℚ) (n : Int) (hx : 0 < x) (h : x < (2 : ℚ) ^ n) : Int.log 2 x < n :=
  (Int.lt_zpow_iff_log_lt (b := 2) (by norm_num) (x := n) hx).mp
    (by rw [Nat.cast_ofNat]; exact h)

theorem log2_ge (x : ℚ) (n : Int) (hx : 0 < x) (h : (2 : ℚ) ^ n ≤ x) : n ≤ Int.log 2 x :=
  (Int.zpow_le_iff_le_log (b := 2) (by norm_num) (x := n) hx).mp
    (by rw [Nat.cast_ofNat]; exact h)

theorem two_zpow_pos (k : Int) : (0 : ℚ) < 2 ^ k := zpow_pos (by norm_num) k

theorem two_zpow_add (a b : Int) : (2 : ℚ) ^ (a + b) = 2 ^ a * 2 ^ b :=
  zpow_add₀ (by norm_num) a b

theorem two_zpow_le {a b : Int} (h : a ≤ b) : (2 : ℚ) ^ a ≤ 2 ^ b :=
  zpow_le_zpow_right₀ (by norm_num) h

theorem ulp_exp_pos (x : ℚ) (hx : 0 < x) :
    ulp_exp x = max (Int.log 2 x - 52) (-1074) := by
  unfold ulp_exp
  rw [abs_of_pos hx]

theorem ulp_exp_ge (x : ℚ) : -1074 ≤ ulp_exp x := le_max_right _ _

theorem ulp_exp_mono (x y : ℚ) (hx : 0 < x) (h : x ≤ y) : ulp_exp x ≤ ulp_exp y := by
  rw [ulp_exp_pos x hx, ulp_exp_pos y (lt_of_lt_of_le hx h)]
  have := Int.log_mono_right (b := 2) hx h
  exact max_le_max (by omega) (le_refl _)

/-- The scaled magnitude is below `2^53`. -/
theorem scaled_lt (x : ℚ) (hx : 0 < x) : x / 2 ^ ulp_exp x < 2 ^ (53 : Int) := by
  have hl := (log2_spec x hx).2
  have hu : Int.log 2 x - 52 ≤ ulp_exp x := by
    rw [ulp_exp_pos x hx]
    exact le_max_left _ _
  rw [div_lt_iff₀ (two_zpow_pos _), ← two_zpow_add]
  exact lt_of_lt_of_le hl (two_zpow_le (by omega))

/-- In the normal range the scaled magnitude is at least `2^52`. -/
theorem scaled_ge (x : ℚ) (hx : 0 < x) (hn : ulp_exp x = Int.log 2 x - 52) :
    (2 : ℚ) ^ (52 : Int) ≤ x / 2 ^ ulp_exp x := by
  have hl := (log2_spec x hx).1
  rw [le_div_iff₀ (two_zpow_pos _), ← two_zpow_add, hn]
  have : (52 : Int) + (Int.log 2 x - 52) = Int.log 2 x := by ring
  rw [this]
  exact hl

theorem two_pow_cast (n : Nat) : (((2 ^ n : Nat) : Int) : ℚ) = (2 : ℚ) ^ (n : Int) := by
  push_cast
  rw [zpow_natCast]

/-! ## Rounding of a number that is not negative -/

theorem flp_zero : flp 0 = 0 := by
  unfold flp
  rw [zero_div]
  have : round_even 0 = 0 := round_even_int 0
  rw [this]
  norm_num

theorem flp_nonneg (x : ℚ) (hx : 0 ≤ x) : 0 ≤ flp x := by
  unfold flp
  have h0 : (0 : ℚ) ≤ x / 2 ^ ulp_exp x := div_nonneg hx (le_of_lt (two_zpow_pos _))
  have h1 : (0 : Int) ≤ round_even (x / 2 ^ ulp_exp x) :=
    round_even_ge (by exact_mod_cast h0)
  exact mul_nonneg (by exact_mod_cast h1) (le_of_lt (two_zpow_pos _))

theorem flp_le_top (x : ℚ) (hx : 0 < x) : flp x ≤ 2 ^ (53 + ulp_exp x) := by
  unfold flp
  have h1 : round_even (x / 2 ^ ulp_exp x) ≤ ((2 ^ 53 : Nat) : Int) := by
    apply round_even_le
    rw [two_pow_cast]
    exact le_of_lt (scaled_lt x hx)
  have h2 : ((round_even (x / 2 ^ ulp_exp x) : Int) : ℚ) ≤ (2 : ℚ) ^ (53 : Int) := by
    have : ((round_even (x / 2 ^ ulp_exp x) : Int) : ℚ) ≤ (((2 ^ 53 : Nat) : Int) : ℚ) := by
      exact_mod_cast h1
    rwa [two_pow_cast] at this
  rw [two_zpow_add]
  exact mul_le_mul_of_nonneg_right h2 (le_of_lt (two_zpow_pos _))

theorem flp_ge_bottom (x : ℚ) (hx : 0 < x) (hn : ulp_exp x = Int.log 2 x - 52) :
    (2 : ℚ) ^ (52 + ulp_exp x) ≤ flp x := by
  unfold flp
  have h1 : ((2 ^ 52 : Nat) : Int) ≤ round_even (x / 2 ^ ulp_exp x) := by
    apply round_even_ge
    rw [two_pow_cast]
    exact scaled_ge x hx hn
  have h2 : (2 : ℚ) ^ (52 : Int) ≤ ((round_even (x / 2 ^ ulp_exp x) : Int) : ℚ) := by
    have : (((2 ^ 52 : Nat) : Int) : ℚ) ≤ ((round_even (x / 2 ^ ulp_exp x) : Int) : ℚ) := by
      exact_mod_cast h1
    rwa [two_pow_cast] at this
  rw [two_zpow_add]
  exact mul_le_mul_of_nonneg_right h2 (le_of_lt (two_zpow_pos _))

theorem flp_mono (x y : ℚ) (hx : 0 ≤ x) (h : x ≤ y) : flp x ≤ flp y := by
  rcases eq_or_lt_of_le hx with h0 | hpos
  · rw [← h0, flp_zero]
    exact flp_nonneg y (le_trans hx h)
  · have hy : 0 < y := lt_of_lt_of_le hpos h
    have hu := ulp_exp_mono x y hpos h
    rcases eq_or_lt_of_le hu with he | hlt
    · unfold flp
      rw [he]
      have hq := two_zpow_pos (ulp_exp y)
      have h1 : x / 2 ^ ulp_exp y ≤ y / 2 ^ ulp_exp y :=
        div_le_div_of_nonneg_right h (le_of_lt hq)
      have h2 := round_even_mono h1
      exact mul_le_mul_of_nonneg_right (by exact_mod_cast h2) (le_of_lt hq)
    · have hn : ulp_exp y = Int.log 2 y - 52 := by
        have hg := ulp_exp_ge x
        rw [ulp_exp_pos y hy] at hlt ⊢
        rw [max_eq_left]
        by_contra hc
        rw [max_eq_right (by omega)] at hlt
        omega
      have a := flp_le_top x hpos
      have b := flp_ge_bottom y hy hn
      exact le_trans a (le_trans (two_zpow_le (by omega)) b)

/-- A multiple `m * 2^k` of a power of two with `0 <= m <= 2^53` and `k >= -1074` is a
binary64 value. -/
theorem flp_rep_lt (m : Int) (k : Int) (hm0 : 0 ≤ m) (hm : m < 2 ^ 53) (hk : -1074 ≤ k) :
    flp ((m : ℚ) * 2 ^ k) = (m : ℚ) * 2 ^ k := by
  rcases eq_or_lt_of_le hm0 with h0 | hpos
  · rw [← h0]
    norm_num
    exact flp_zero
  · have hx : (0 : ℚ) < (m : ℚ) * 2 ^ k :=
      mul_pos (by exact_mod_cast hpos) (two_zpow_pos k)
    have hlt : (m : ℚ) * 2 ^ k < 2 ^ (53 + k) := by
      rw [two_zpow_add]
      apply mul_lt_mul_of_pos_right _ (two_zpow_pos k)
      have : (m : ℚ) < ((2 ^ 53 : Int) : ℚ) := by exact_mod_cast hm
      calc (m : ℚ) < ((2 ^ 53 : Int) : ℚ) := this
        _ = (2 : ℚ) ^ (53 : Int) := by norm_num
    have hlog := log2_lt _ _ hx hlt
    have hu : ulp_exp ((m : ℚ) * 2 ^ k) ≤ k := by
      rw [ulp_exp_pos _ hx]
      exact max_le (by omega) hk
    unfold flp
    generalize ulp_exp ((m : ℚ) * 2 ^ k) = u at hu
    obtain ⟨j, hj⟩ : ∃ j : Nat, k = u + (j : Int) := ⟨(k - u).toNat, by omega⟩
    have hs : (m : ℚ) * 2 ^ k / 2 ^ u = ((m * 2 ^ j : Int) : ℚ) := by
      rw [hj, two_zpow_add, zpow_natCast]
      push_cast
      field_simp
      ring
    rw [hs, round_even_int, hj, two_zpow_add, zpow_natCast]
    push_cast
    ring

theorem flp_rep (m : Int) (k : Int) (hm0 : 0 ≤ m) (hm : m ≤ 2 ^ 53) (hk : -1074 ≤ k) :
    flp ((m : ℚ) * 2 ^ k) = (m : ℚ) * 2 ^ k := by
  rcases eq_or_lt_of_le hm with he | hlt
  · have e : (m : ℚ) * 2 ^ k = ((2 ^ 52 : Int) : ℚ) * 2 ^ (k + 1) := by
      rw [he, two_zpow_add]
      norm_num
      ring
    rw [e]
    exact flp_rep_lt (2 ^ 52) (k + 1) (by norm_num) (by norm_num) (by omega)
  · exact flp_rep_lt m k hm0 hlt hk

theorem flp_idem (x : ℚ) (hx : 0 ≤ x) : flp (flp x) = flp x := by
  rcases eq_or_lt_of_le hx with h0 | hpos
  · rw [← h0, flp_zero, flp_zero]
  · have h1 : round_even (x / 2 ^ ulp_exp x) ≤ ((2 ^ 53 : Nat) : Int) := by
      apply round_even_le
      rw [two_pow_cast]
      exact le_of_lt (scaled_lt x hpos)
    have h0 : (0 : Int) ≤ round_even (x / 2 ^ ulp_exp x) :=
      round_even_ge (by
        have : (0 : ℚ) ≤ x / 2 ^ ulp_exp x := div_nonneg hx (le_of_lt (two_zpow_pos _))
        exact_mod_cast this)
    have e : flp x = ((round_even (x / 2 ^ ulp_exp x) : Int) : ℚ) * 2 ^ ulp_exp x := rfl
    rw [e]
    exact flp_rep _ _ h0 (by exact_mod_cast h1) (ulp_exp_ge x)

/-- The rounding error is at most half a unit in the last place. -/
theorem flp_err_ulp (x : ℚ) : |flp x - x| ≤ 2 ^ ulp_exp x / 2 := by
  have hq := two_zpow_pos (ulp_exp x)
  have hn := round_even_near (x / 2 ^ ulp_exp x)
  unfold flp
  have e : ((round_even (x / 2 ^ ulp_exp x) : Int) : ℚ) * 2 ^ ulp_exp x - x =
      (((round_even (x / 2 ^ ulp_exp x) : Int) : ℚ) - x / 2 ^ ulp_exp x) * 2 ^ ulp_exp x := by
    field_simp
  rw [e, abs_mul, abs_of_pos hq]
  calc |((round_even (x / 2 ^ ulp_exp x) : Int) : ℚ) - x / 2 ^ ulp_exp x| * 2 ^ ulp_exp x
      ≤ 1 / 2 * 2 ^ ulp_exp x := mul_le_mul_of_nonneg_right hn (le_of_lt hq)
    _ = 2 ^ ulp_exp x / 2 := by ring

/-- In the normal range the relative rounding error is at most `2^-53`. -/
theorem flp_err_rel (x : ℚ) (hx : (2 : ℚ) ^ (-1022 : Int) ≤ x) : |flp x - x| ≤ x / 2 ^ (53 : Int) := by
  have hpos : 0 < x := lt_of_lt_of_le (two_zpow_pos _) hx
  have hl := log2_ge x (-1022) hpos hx
  have hu : ulp_exp x = Int.log 2 x - 52 := by
    rw [ulp_exp_pos x hpos]
    exact max_eq_left (by omega)
  have h1 := flp_err_ulp x
  have h2 := (log2_spec x hpos).1
  have h3 : (2 : ℚ) ^ ulp_exp x / 2 ≤ x / 2 ^ (53 : Int) := by
    rw [hu, div_le_div_iff₀ (by norm_num) (two_zpow_pos _)]
    have : (2 : ℚ) ^ (Int.log 2 x - 52) * 2 ^ (53 : Int) = 2 ^ Int.log 2 x * 2 := by
      rw [← two_zpow_add]
      have : Int.log 2 x - 52 + 53 = Int.log 2 x + 1 := by ring
      rw [this, two_zpow_add]
      norm_num
    rw [this]
    linarith
  exact le_trans h1 h3

/-- Evaluation of `flp` in the normal range: with `2^e <= x < 2^(e+1)` and `n` the
integer within one half of `x / 2^(e-52)`. -/
theorem flp_eval (x : ℚ) (e : Int) (n : Int) (q : ℚ) (hq : q = 2 ^ (e - 52))
    (he : -1022 ≤ e) (h1 : (2 : ℚ) ^ e ≤ x) (h2 : x < (2 : ℚ) ^ (e + 1))
    (hn : |x / q - (n : ℚ)| < 1 / 2) : flp x = (n : ℚ) * q := by
  have hpos : 0 < x := lt_of_lt_of_le (two_zpow_pos _) h1
  have hl := log2_unique x e h1 h2
  have hu : ulp_exp x = e - 52 := by
    rw [ulp_exp_pos x hpos, hl]
    exact max_eq_left (by omega)
  unfold flp
  rw [hu, ← hq, round_even_unique _ n hn]

/-! ## Rounding to binary64 -/

theorem fl_nonneg_eq (x : ℚ) (hx : 0 ≤ x) : fl x = flp x := by
  unfold fl
  rw [if_neg (not_lt.mpr hx)]

theorem fl_neg_eq (x : ℚ) (hx : x < 0) : fl x = -flp (-x) := by
  unfold fl
  rw [if_pos hx]

theorem fl_zero : fl 0 = 0 := by
  rw [fl_nonneg_eq 0 (le_refl 0), flp_zero]

theorem fl_neg (x : ℚ) : fl (-x) = -fl x := by
  rcases lt_trichotomy x 0 with h | h | h
  · rw [fl_neg_eq x h, fl_nonneg_eq (-x) (by linarith), neg_neg]
  · rw [h, neg_zero, fl_zero, neg_zero]
  · rw [fl_neg_eq (-x) (by linarith), neg_neg, fl_nonneg_eq x (le_of_lt h)]

theorem fl_nonneg (x : ℚ) (hx : 0 ≤ x) : 0 ≤ fl x := by
  rw [fl_nonneg_eq x hx]
  exact flp_nonneg x hx

theorem fl_nonpos (x : ℚ) (hx : x ≤ 0) : fl x ≤ 0 := by
  have := fl_nonneg (-x) (by linarith)
  rw [fl_neg] at this
  linarith

/-- Rounding is monotone. -/
theorem fl_mono {x y : ℚ} (h : x ≤ y) : fl x ≤ fl y := by
  rcases le_or_lt 0 x with hx | hx
  · rw [fl_nonneg_eq x hx, fl_nonneg_eq y (le_trans hx h)]
    exact flp_mono x y hx h
  · rcases le_or_lt 0 y with hy | hy
    · exact le_trans (fl_nonpos x (le_of_lt hx)) (fl_nonneg y hy)
    · rw [fl_neg_eq x hx, fl_neg_eq y hy]
      have := flp_mono (-y) (-x) (by linarith) (by linarith)
      linarith

/-- A multiple `m * 2^k` of a power of two with `|m| <= 2^53` and `k >= -1074` is a
binary64 value. -/
theorem is_double_mul_pow (m : Int) (k : Int) (hm : |m| ≤ 2 ^ 53) (hk : -1074 ≤ k) :
    is_double ((m : ℚ) * 2 ^ k) := by
  unfold is_double
  have hq := two_zpow_pos k
  rcases le_or_lt 0 m with h0 | h0
  · have hx : (0 : ℚ) ≤ (m : ℚ) * 2 ^ k := mul_nonneg (by exact_mod_cast h0) (le_of_lt hq)
    rw [fl_nonneg_eq _ hx]
    exact flp_rep m k h0 (by rw [abs_of_nonneg h0] at hm; exact hm) hk
  · have hx : (m : ℚ) * 2 ^ k < 0 := mul_neg_of_neg_of_pos (by exact_mod_cast h0) hq
    rw [fl_neg_eq _ hx]
    have e : -((m : ℚ) * 2 ^ k) = ((-m : Int) : ℚ) * 2 ^ k := by
      push_cast
      ring
    rw [e, flp_rep (-m) k (by omega) (by rw [abs_of_neg h0] at hm; exact hm) hk]
    push_cast
    ring

theorem is_double_int (n : Int) (h : |n| ≤ 2 ^ 53) : is_double (n : ℚ) := by
  have := is_double_mul_pow n 0 h (by norm_num)
  rwa [zpow_zero, mul_one] at this

theorem is_double_zero : is_double 0 := fl_zero

theorem is_double_fl (x : ℚ) : is_double (fl x) := by
  unfold is_double
  rcases le_or_lt 0 x with hx | hx
  · rw [fl_nonneg_eq x hx, fl_nonneg_eq _ (flp_nonneg x hx), flp_idem x hx]
  · rw [fl_neg_eq x hx, fl_neg, fl_nonneg_eq _ (flp_nonneg (-x) (by linarith)),
      flp_idem (-x) (by linarith)]

theorem is_double_neg (x : ℚ) (h : is_double x) : is_double (-x) := by
  unfold is_double at *
  rw [fl_neg, h]

/-- Rounding does not cross a binary64 value. -/
theorem fl_le_of_le {x b : ℚ} (hb : is_double b) (h : x ≤ b) : fl x ≤ b := by
  have := fl_mono h
  rwa [hb] at this

theorem fl_ge_of_ge {x a : ℚ} (ha : is_double a) (h : a ≤ x) : a ≤ fl x := by
  have := fl_mono h
  rwa [ha] at this

/-- In the normal range the relative rounding error is at most `2^-53`. -/
theorem fl_err_rel (x : ℚ) (hx : (2 : ℚ) ^ (-1022 : Int) ≤ |x|) :
    |fl x - x| ≤ |x| / 2 ^ (53 : Int) := by
  rcases le_or_lt 0 x with h | h
  · rw [abs_of_nonneg h] at hx ⊢
    rw [fl_nonneg_eq x h]
    exact flp_err_rel x hx
  · rw [abs_of_neg h] at hx ⊢
    rw [fl_neg_eq x h]
    have := flp_err_rel (-x) hx
    have e : -flp (-x) - x = -(flp (-x) - -x) := by ring
    rw [e, abs_neg]
    exact this

/-- Evaluation of `fl` at a positive number of the normal range. -/
theorem fl_eval (x : ℚ) (e : Int) (n : Int) (q : ℚ) (hq : q = 2 ^ (e - 52))
    (he : -1022 ≤ e) (h1 : (2 : ℚ) ^ e ≤ x) (h2 : x < (2 : ℚ) ^ (e + 1))
    (hn : |x / q - (n : ℚ)| < 1 / 2) : fl x = (n : ℚ) * q := by
  have hpos : 0 < x := lt_of_lt_of_le (two_zpow_pos _) h1
  rw [fl_nonneg_eq x (le_of_lt hpos)]
  exact flp_eval x e n q hq he h1 h2 hn

theorem is_double_half : is_double (1 / 2) := by
  have := is_double_mul_pow 1 (-1) (by norm_num) (by norm_num)
  have e : ((1 : Int) : ℚ) * 2 ^ (-1 : Int) = 1 / 2 := by norm_num
  rwa [e] at this

theorem is_double_one : is_double 1 := by
  have := is_double_int 1 (by norm_num)
  exact_mod_cast this

theorem round_even_tie (y : ℚ) (n : Int) (h : y = (n : ℚ) + 1 / 2) :
    round_even y = if n % 2 = 0 then n else n + 1 := by
  have hf : ⌊y⌋ = n := by
    rw [Int.floor_eq_iff]
    constructor <;> linarith
  unfold round_even
  rw [hf, if_neg (by rw [h]; norm_num), if_neg (by rw [h]; norm_num)]

/-- Evaluation of `fl` at a positive number of the normal range that lies half way between
two neighbouring binary64 values: the one with the even significand is taken. -/
theorem fl_eval_tie (x : ℚ) (e : Int) (n m : Int) (q : ℚ) (hq : q = 2 ^ (e - 52))
    (he : -1022 ≤ e) (h1 : (2 : ℚ) ^ e ≤ x) (h2 : x < (2 : ℚ) ^ (e + 1))
    (hn : x / q = (n : ℚ) + 1 / 2) (hm : m = if n % 2 = 0 then n else n + 1) :
    fl x = (m : ℚ) * q := by
  have hpos : 0 < x := lt_of_lt_of_le (two_zpow_pos _) h1
  rw [fl_nonneg_eq x (le_of_lt hpos)]
  have hl := log2_unique x e h1 h2
  have hu : ulp_exp x = e - 52 := by
    rw [ulp_exp_pos x hpos, hl]
    exact max_eq_left (by omega)
  unfold flp
  rw [hu, ← hq, round_even_tie _ n hn, hm]

/-- The rounding error is at most the relative `2^-53` plus the absolute `2^-1075`. -/
theorem fl_err_abs (x : ℚ) : |fl x - x| ≤ |x| / 2 ^ (53 : Int) + 2 ^ (-1075 : Int) := by
  have key : ∀ y : ℚ, 0 ≤ y → |flp y - y| ≤ y / 2 ^ (53 : Int) + 2 ^ (-1075 : Int) := by
    intro y hy
    rcases le_or_lt ((2 : ℚ) ^ (-1022 : Int)) y with hn | hs
    · have := flp_err_rel y hn
      have h0 : (0 : ℚ) < 2 ^ (-1075 : Int) := two_zpow_pos _
      exact le_trans this (le_add_of_nonneg_right (le_of_lt h0))
    · rcases eq_or_lt_of_le hy with h0 | hpos
      · rw [← h0, flp_zero, sub_zero, abs_zero, zero_div, zero_add]
        exact le_of_lt (two_zpow_pos _)
      · have h1 := flp_err_ulp y
        have hu : ulp_exp y = -1074 := by
          rw [ulp_exp_pos y hpos]
          have := log2_lt y (-1022) hpos hs
          exact max_eq_right (by omega)
        rw [hu] at h1
        have e : (2 : ℚ) ^ (-1074 : Int) / 2 = 2 ^ (-1075 : Int) := by
          have : (-1074 : Int) = -1075 + 1 := by norm_num
          rw [this, two_zpow_add]
          norm_num
        rw [e] at h1
        have : 0 ≤ y / 2 ^ (53 : Int) := div_nonneg hy (le_of_lt (two_zpow_pos _))
        exact le_trans h1 (le_add_of_nonneg_left this)
  rcases le_or_lt 0 x with h | h
  · rw [abs_of_nonneg h, fl_nonneg_eq x h]
    exact key x h
  · rw [abs_of_neg h, fl_neg_eq x h]
    have := key (-x) (by linarith)
    have e : -flp (-x) - x = -(flp (-x) - -x) := by ring
    rw [e, abs_neg]
    exact this

theorem fl_of_double {x : ℚ} (h : is_double x) : fl x = x := h

theorem fl_fl (x : ℚ) : fl (fl x) = fl x := is_double_fl x

theorem fl_pos_of_double {x y : ℚ} (hx : is_double x) (h0 : 0 < x) (h : x ≤ y) : 0 < fl y :=
  lt_of_lt_of_le h0 (fl_ge_of_ge hx h)

/-! ## C24: the quality mean of a division -/

theorem division_times_cons (d : Nat) (e : entry_t) (l : List entry_t) :
    division_times d (e :: l) =
      if dq_ok e.dq = true ∧ e.prov_div = (d : Int) then
        time_to_usec e.time :: division_times d l
      else division_times d l := by
  unfold division_times
  rw [List.filter_cons]
  by_cases h : dq_ok e.dq = true ∧ e.prov_div = (d : Int)
  · rw [if_pos h, if_pos (by rw [h.1, Bool.true_and]; exact decide_eq_true h.2), List.map_cons]
  · rw [if_neg h, if_neg]
    intro hc
    rw [Bool.and_eq_true, decide_eq_true_eq] at hc
    exact h hc

theorem division_times_above (d : Nat) (l : List entry_t)
    (h : ∀ e ∈ l, dq_ok e.dq = true → (d : Int) < e.prov_div) : division_times d l = [] := by
  induction l with
  | nil => rfl
  | cons a t ih =>
    rw [division_times_cons, if_neg, ih (fun e he => h e (List.mem_cons_of_mem _ he))]
    intro hc
    have := h a (List.mem_cons_self _ _) hc.1
    omega

theorem par_quality_mean_skip (db : Nat → player_t) (cur : entry_t) (rest : List entry_t)
    (div q : Nat) (ds : Nat → stat_t) (hq : dq_ok cur.dq = false) :
    par_quality_mean db (cur :: rest) div q ds =
      (cur :: (par_quality_mean db rest div q ds).1, (par_quality_mean db rest div q ds).2) := by
  have hm : ¬ entry_match db DIV_ALL dq_iter_e.ITER_DQ_OK cur = true := by
    rw [entry_match_all, hq]
    decide
  simp only [par_quality_mean, if_neg hm]

theorem par_close_mean_q_mean (stat : stat_t) (q : Nat) :
    (par_close_mean stat q).q_mean =
      time_from_usec (i32 (((if q ≠ 0 then
        u32 ((stat.q_mean.msec : Int) + ((q / 2 : Nat) : Int)) / q else 0 : Nat)) : Int)) :=
  rfl

theorem par_close_mean_spec (stat : stat_t) (q : Nat)
    (hb : (stat.q_mean.msec : Int) + (q : Int) < 2147483648) :
    (par_close_mean stat q).q_mean =
      time_from_usec (if q ≠ 0 then
        ((stat.q_mean.msec : Int) + ((q / 2 : Nat) : Int)) / (q : Int) else 0) := by
  rw [par_close_mean_q_mean]
  congr 1
  by_cases hq : q ≠ 0
  · rw [if_pos hq, if_pos hq]
    have hu : ((u32 ((stat.q_mean.msec : Int) + ((q / 2 : Nat) : Int)) : Nat) : Int) =
        (stat.q_mean.msec : Int) + ((q / 2 : Nat) : Int) := by
      rw [u32_cast]
      omega
    rw [Int.natCast_div, hu]
    have h1 : 0 ≤ ((stat.q_mean.msec : Int) + ((q / 2 : Nat) : Int)) / (q : Int) :=
      Int.ediv_nonneg (by omega) (Int.ofNat_nonneg q)
    have h2 : ((stat.q_mean.msec : Int) + ((q / 2 : Nat) : Int)) / (q : Int) ≤
        (stat.q_mean.msec : Int) + ((q / 2 : Nat) : Int) := Int.ediv_le_self _ (by omega)
    exact i32_of_range _ (by omega) (by omega)
  · rw [if_neg hq, if_neg hq]
    unfold i32
    decide

theorem par_add_mean_msec (stat : stat_t) (cur : entry_t) :
    (par_add_mean stat cur).q_mean.msec =
      u32 ((stat.q_mean.msec : Int) + time_to_usec cur.time) :=
  rfl

theorem par_reset_mean_msec (stat : stat_t) : (par_reset_mean stat).q_mean.msec = 0 :=
  rfl

theorem entry_set_div (cur : entry_t) (p : Int) :
    ({ cur with prov_div := p } : entry_t).dq = cur.dq ∧
    ({ cur with prov_div := p } : entry_t).time = cur.time ∧
    ({ cur with prov_div := p } : entry_t).prov_div = p :=
  ⟨rfl, rfl, rfl⟩

/-- The quality mean loop of `calculate_par` when no valid entry reaches the bronze
threshold `B (DIV_COUNT - 1)`, started in division `div` with `q` entries counted: the
valid entries get a division from `div` on, the records below `div` are not written, the
record of `div` gets the mean of the sum so far and the times of the entries given `div`,
and every later division that is given an entry gets the mean of the times of its
entries. -/
theorem par_quality_mean_means (db : Nat → player_t) (B : Nat → Int) (L : List entry_t) :
    ∀ (div q : Nat) (ds : Nat → stat_t),
      (∀ d, time_to_usec (ds d).bronze = B d) → div < DIV_COUNT →
      (∀ e ∈ L, dq_ok e.dq = true →
        0 ≤ time_to_usec e.time ∧ time_to_usec e.time < B (DIV_COUNT - 1)) →
      ((ds div).q_mean.msec : Int) + (valid_times L).sum + (q : Int) +
        ((valid_times L).length : Int) < 2147483648 →
      (∀ e ∈ (par_quality_mean db L div q ds).1, dq_ok e.dq = true →
        (div : Int) ≤ e.prov_div) ∧
      (∀ d, d < div → (par_quality_mean db L div q ds).2 d = ds d) ∧
      ((par_quality_mean db L div q ds).2 div).q_mean =
        time_from_usec
          (if q + (division_times div (par_quality_mean db L div q ds).1).length ≠ 0 then
            (((ds div).q_mean.msec : Int) +
                (division_times div (par_quality_mean db L div q ds).1).sum +
              (((q + (division_times div (par_quality_mean db L div q ds).1).length) / 2 :
                Nat) : Int)) /
              ((q + (division_times div (par_quality_mean db L div q ds).1).length : Nat) : Int)
          else 0) ∧
      (∀ d, div < d → division_times d (par_quality_mean db L div q ds).1 ≠ [] →
        ((par_quality_mean db L div q ds).2 d).q_mean =
          time_from_usec (rounded_mean (division_times d (par_quality_mean db L div q ds).1))) := by
  induction L with
  | nil =>
    intro div q ds _ _ _ hb
    rw [par_quality_mean_nil]
    have e0 : division_times div ([] : List entry_t) = [] := rfl
    have v0 : valid_times ([] : List entry_t) = [] := rfl
    rw [v0] at hb
    simp only [List.sum_nil, List.length_nil, Nat.cast_zero, add_zero] at hb
    refine ⟨fun e he => absurd he (List.not_mem_nil _), ?_, ?_, ?_⟩
    · intro d hd
      exact Function.update_noteq (by omega) _ _
    · simp only []
      rw [Function.update_same, par_close_mean_spec _ _ hb, e0]
      simp only [List.sum_nil, List.length_nil, add_zero]
    · intro d _ h
      exact absurd rfl h
  | cons cur rest ih =>
    intro div q ds hB hdiv hL hb
    have hLr : ∀ e ∈ rest, dq_ok e.dq = true →
        0 ≤ time_to_usec e.time ∧ time_to_usec e.time < B (DIV_COUNT - 1) :=
      fun e he => hL e (List.mem_cons_of_mem _ he)
    rw [valid_times_cons] at hb
    have hsum : 0 ≤ (valid_times rest).sum := by
      apply sum_nonneg_int
      intro t ht
      obtain ⟨e, he, hv, rfl⟩ := (valid_times_mem rest t).mp ht
      exact (hLr e he hv).1
    by_cases hq : dq_ok cur.dq = true
    · rw [if_pos hq, List.sum_cons, List.length_cons] at hb
      push_cast at hb
      obtain ⟨ht0, htB⟩ := hL cur (List.mem_cons_self _ _) hq
      have hvl : (0 : Int) ≤ ((valid_times rest).length : Int) := Int.ofNat_nonneg _
      have hS0 : (0 : Int) ≤ ((ds div).q_mean.msec : Int) := Int.ofNat_nonneg _
      have hq0 : (0 : Int) ≤ (q : Int) := Int.ofNat_nonneg _
      by_cases hbz : time_to_usec cur.time ≥ time_to_usec (ds div).bronze
      · -- the entry opens division div + 1
        have hd : ¬ div + 1 ≥ DIV_COUNT := by
          intro hc
          have hdc : div = DIV_COUNT - 1 := by
            have : DIV_COUNT = 8 := rfl
            omega
          rw [hB div, hdc] at hbz
          omega
        rw [par_quality_mean_next db cur rest div q ds hq hbz hd]
        have adv := par_mean_advance_at ds div q cur
        have hmsec : (((par_mean_advance ds div q cur) (div + 1)).q_mean.msec : Int) =
            time_to_usec cur.time := by
          rw [adv.1, par_add_mean_msec, par_reset_mean_msec, u32_cast]
          omega
        obtain ⟨i1, i2, i3, i4⟩ := ih (div + 1) 1 (par_mean_advance ds div q cur)
          (fun d => by rw [par_mean_advance_bronze]; exact hB d) (by omega) hLr
          (by rw [hmsec]; push_cast; omega)
        dsimp only at i1 i2 i3 i4 ⊢
        generalize (par_quality_mean db rest (div + 1) 1 (par_mean_advance ds div q cur)) = r
          at i1 i2 i3 i4 ⊢
        have f := entry_set_div cur ((div + 1 : Nat) : Int)
        have hnone : division_times div
            ({ cur with prov_div := ((div + 1 : Nat) : Int) } :: r.1) = [] := by
          apply division_times_above
          intro e he hv
          rcases List.mem_cons.mp he with rfl | he
          · rw [f.2.2]
            push_cast
            omega
          · have := i1 e he hv
            push_cast at this
            omega
        refine ⟨?_, ?_, ?_, ?_⟩
        · intro e he hv
          rcases List.mem_cons.mp he with rfl | he
          · rw [f.2.2]
            push_cast
            omega
          · have := i1 e he hv
            push_cast at this
            omega
        · intro d hd2
          rw [i2 d (by omega)]
          exact adv.2.2 d (by omega) (by omega)
        · rw [i2 div (by omega), adv.2.1, par_close_mean_spec _ _ (by omega), hnone]
          simp only [List.sum_nil, List.length_nil, add_zero]
        · intro d hd2 hne
          by_cases hd3 : d = div + 1
          · subst hd3
            have hdt : division_times (div + 1)
                ({ cur with prov_div := ((div + 1 : Nat) : Int) } :: r.1) =
                time_to_usec cur.time :: division_times (div + 1) r.1 := by
              rw [division_times_cons, f.1, f.2.1, f.2.2, if_pos ⟨hq, rfl⟩]
            rw [hdt, i3, hmsec, if_pos (by omega)]
            unfold rounded_mean
            rw [List.sum_cons, List.length_cons]
            have e1 : 1 + (division_times (div + 1) r.1).length =
                (division_times (div + 1) r.1).length + 1 := by omega
            rw [e1]
          · have hnd : ¬ (dq_ok cur.dq = true ∧ ((div + 1 : Nat) : Int) = (d : Int)) := by
              intro hc
              have := hc.2
              push_cast at this
              omega
            rw [division_times_cons, f.1, f.2.1, f.2.2, if_neg hnd] at hne ⊢
            exact i4 d (by omega) hne
      · -- the entry stays in division div
        rw [par_quality_mean_stay db cur rest div q ds hq hbz]
        have hmsec : (((Function.update ds div (par_add_mean (ds div) cur)) div).q_mean.msec :
            Int) = ((ds div).q_mean.msec : Int) + time_to_usec cur.time := by
          rw [Function.update_same, par_add_mean_msec, u32_cast]
          omega
        obtain ⟨i1, i2, i3, i4⟩ := ih div (q + 1)
          (Function.update ds div (par_add_mean (ds div) cur))
          (fun d => by
            rw [bronze_update _ _ _ (par_add_mean_thr _ _)]
            exact hB d) hdiv hLr
          (by rw [hmsec]; push_cast; omega)
        dsimp only at i1 i2 i3 i4 ⊢
        generalize (par_quality_mean db rest div (q + 1)
          (Function.update ds div (par_add_mean (ds div) cur))) = r at i1 i2 i3 i4 ⊢
        have f := entry_set_div cur (div : Int)
        refine ⟨?_, ?_, ?_, ?_⟩
        · intro e he hv
          rcases List.mem_cons.mp he with rfl | he
          · rw [f.2.2]
          · exact i1 e he hv
        · intro d hd2
          rw [i2 d hd2]
          exact Function.update_noteq (by omega) _ _
        · have hdt : division_times div ({ cur with prov_div := (div : Int) } :: r.1) =
              time_to_usec cur.time :: division_times div r.1 := by
            rw [division_times_cons, f.1, f.2.1, f.2.2, if_pos ⟨hq, rfl⟩]
          rw [hdt, i3, hmsec, List.sum_cons, List.length_cons]
          have e1 : q + 1 + (division_times div r.1).length =
              q + ((division_times div r.1).length + 1) := by omega
          rw [e1]
          congr 1
          rw [if_pos (by omega), if_pos (by omega)]
          congr 2
          ring
        · intro d hd2 hne
          have hnd : ¬ (dq_ok cur.dq = true ∧ (div : Int) = (d : Int)) := by
            intro hc
            have := hc.2
            omega
          rw [division_times_cons, f.1, f.2.1, f.2.2, if_neg hnd] at hne ⊢
          exact i4 d hd2 hne
    · have hq2 : dq_ok cur.dq = false := by
        cases h : dq_ok cur.dq
        · rfl
        · exact absurd h hq
      rw [if_neg hq] at hb
      rw [par_quality_mean_skip db cur rest div q ds hq2]
      obtain ⟨i1, i2, i3, i4⟩ := ih div q ds hB hdiv hLr hb
      dsimp only at i1 i2 i3 i4 ⊢
      have hskip : ∀ d, division_times d (cur :: (par_quality_mean db rest div q ds).1) =
          division_times d (par_quality_mean db rest div q ds).1 := by
        intro d
        rw [division_times_cons, if_neg (fun hc => hq hc.1)]
      refine ⟨?_, i2, ?_, ?_⟩
      · intro e he hv
        rcases List.mem_cons.mp he with rfl | he
        · exact absurd hv hq
        · exact i1 e he hv
      · rw [hskip]
        exact i3
      · intro d hd2 hne
        rw [hskip] at hne ⊢
        exact i4 d hd2 hne

/-- The quality means `calculate_par` stores when no valid entry reaches the bronze
threshold of division `DIV_COUNT - 1`: every division that is given a valid entry gets
the rounded mean of the times of its entries, however few they are. -/
theorem calculate_par_means (sqrt : ℚ → ℚ) (s : state)
    (hL : ∀ e ∈ s.ov, dq_ok e.dq = true → 0 ≤ time_to_usec e.time ∧
      time_to_usec e.time <
        time_to_usec ((calculate_par sqrt s).div_stat (DIV_COUNT - 1)).bronze)
    (hb : (valid_times s.ov).sum + ((valid_times s.ov).length : Int) < 2147483648) :
    List.Forall₂
      (fun e e' => e' = { e with prov_div := e'.prov_div } ∧ (dq_ok e.dq = false → e' = e))
      s.ov (calculate_par sqrt s).ov ∧
    (∀ e ∈ (calculate_par sqrt s).ov, dq_ok e.dq = true → 1 ≤ e.prov_div) ∧
    (∀ d, 1 ≤ d → division_times d (calculate_par sqrt s).ov ≠ [] →
      ((calculate_par sqrt s).div_stat d).q_mean =
        time_from_usec (rounded_mean (division_times d (calculate_par sqrt s).ov))) := by
  have hbr : ∀ d, time_to_usec ((Function.update (calculate_par_thresholds s) 1
      (par_reset_mean (calculate_par_thresholds s 1))) d).bronze =
      time_to_usec ((calculate_par sqrt s).div_stat d).bronze := by
    intro d
    rw [bronze_update _ _ _ (par_reset_mean_thr _), calculate_par_bronze]
  have h0 : (((Function.update (calculate_par_thresholds s) 1
      (par_reset_mean (calculate_par_thresholds s 1))) 1).q_mean.msec : Int) = 0 := by
    rw [Function.update_same, par_reset_mean_msec]
    rfl
  obtain ⟨m1, _, m3, m4⟩ := par_quality_mean_means s.player_db
    (fun d => time_to_usec ((calculate_par sqrt s).div_stat d).bronze) s.ov 1 0 _ hbr
    (by decide) hL (by rw [h0]; push_cast; omega)
  rw [h0] at m3
  refine ⟨?_, ?_, ?_⟩
  · rw [calculate_par_ov]
    exact par_quality_mean_frame s.player_db s.ov 1 0 _
  · rw [calculate_par_ov]
    intro e he hv
    have := m1 e he hv
    push_cast at this
    exact this
  · intro d hd hne
    rw [calculate_par_q_mean]
    rw [calculate_par_ov] at hne ⊢
    rcases Nat.eq_or_lt_of_le hd with h1 | h1
    · subst h1
      have hlen : (division_times 1 (par_quality_mean s.player_db s.ov 1 0
          (Function.update (calculate_par_thresholds s) 1
            (par_reset_mean (calculate_par_thresholds s 1)))).1).length ≠ 0 := by
        intro hc
        exact hne (List.length_eq_zero.mp hc)
      rw [m3, if_pos (by omega)]
      unfold rounded_mean
      rw [zero_add, zero_add]
    · exact m4 d h1 hne

theorem ex_hi_seven (ov : List entry_t) (q : ℚ) : parXhi (example_state ov q) 7 = 67 / 2 := by
  unfold parXhi example_state example_event standard_par_multiple DIV_IN_USE
  norm_num

theorem ex_bronze_seven (ov : List entry_t) :
    time_to_usec ((calculate_par sqrt_milli (example_state ov 1)).div_stat 7).bronze =
      98199 := by
  rw [(calculate_par_stat sqrt_milli (example_state ov 1) 7 (by decide) (by decide)).2.2.2,
    time_to_from_usec]
  unfold bronze_time
  rw [ex_base, ex_inc, ex_hi_seven]
  rw [d2i_eval 98199 1 (by norm_num) _ (by norm_num)]
  unfold i32
  decide

theorem trio_times :
    time_to_usec (entry_at 1 dq_reason_e.DQ_OK 0 58 500).time = 58500 ∧
    time_to_usec (entry_at 2 dq_reason_e.DQ_OK 0 59 0).time = 59000 ∧
    time_to_usec (entry_at 3 dq_reason_e.DQ_OK 1 0 0).time = 60000 :=
  ⟨time_to_usec_entry_at 1 dq_reason_e.DQ_OK 0 58 500 (by norm_num),
    time_to_usec_entry_at 2 dq_reason_e.DQ_OK 0 59 0 (by norm_num),
    time_to_usec_entry_at 3 dq_reason_e.DQ_OK 1 0 0 (by norm_num)⟩

/-- The provisional divisions `calculate_par` gives the entries of `trio_entries` (quality
deviation 1, bronze threshold of division 1 at 59.199): 1, 1 and 2. -/
theorem trio_divisions :
    (calculate_par sqrt_milli (example_state trio_entries 1)).ov =
      [{ entry_at 1 dq_reason_e.DQ_OK 0 58 500 with prov_div := 1 },
        { entry_at 2 dq_reason_e.DQ_OK 0 59 0 with prov_div := 1 },
        { entry_at 3 dq_reason_e.DQ_OK 1 0 0 with prov_div := 2 }] := by
  have hbz : ∀ ds : Nat → stat_t,
      (∀ d, (ds d).bronze = ((Function.update (calculate_par_thresholds
        (example_state trio_entries 1)) 1 (par_reset_mean (calculate_par_thresholds
          (example_state trio_entries 1) 1))) d).bronze) →
      time_to_usec (ds 1).bronze = 59199 := by
    intro ds h
    rw [h 1, bronze_update _ _ _ (par_reset_mean_thr _), ← calculate_par_bronze sqrt_milli,
      ex_bronze_one trio_entries]
  have hov : (example_state trio_entries 1).ov = trio_entries := rfl
  rw [calculate_par_ov, hov]
  generalize hds : (Function.update (calculate_par_thresholds (example_state trio_entries 1)) 1
    (par_reset_mean (calculate_par_thresholds (example_state trio_entries 1) 1))) = ds0
  generalize (example_state trio_entries 1).player_db = db
  have b0 : time_to_usec (ds0 1).bronze = 59199 := by
    apply hbz
    intro d
    rw [hds]
  have b1 : time_to_usec ((Function.update ds0 1
      (par_add_mean (ds0 1) (entry_at 1 dq_reason_e.DQ_OK 0 58 500))) 1).bronze = 59199 := by
    rw [bronze_update _ _ _ (par_add_mean_thr _ _)]
    exact b0
  have b2 : time_to_usec ((Function.update (Function.update ds0 1
      (par_add_mean (ds0 1) (entry_at 1 dq_reason_e.DQ_OK 0 58 500))) 1
      (par_add_mean ((Function.update ds0 1
        (par_add_mean (ds0 1) (entry_at 1 dq_reason_e.DQ_OK 0 58 500))) 1)
        (entry_at 2 dq_reason_e.DQ_OK 0 59 0))) 1).bronze = 59199 := by
    rw [bronze_update _ _ _ (par_add_mean_thr _ _)]
    exact b1
  show (par_quality_mean db [entry_at 1 dq_reason_e.DQ_OK 0 58 500,
    entry_at 2 dq_reason_e.DQ_OK 0 59 0, entry_at 3 dq_reason_e.DQ_OK 1 0 0] 1 0 ds0).1 = _
  rw [par_quality_mean_stay db (entry_at 1 dq_reason_e.DQ_OK 0 58 500)
    [entry_at 2 dq_reason_e.DQ_OK 0 59 0, entry_at 3 dq_reason_e.DQ_OK 1 0 0] 1 0 ds0 rfl
    (by rw [b0, trio_times.1]; decide)]
  dsimp only
  rw [par_quality_mean_stay db (entry_at 2 dq_reason_e.DQ_OK 0 59 0)
    [entry_at 3 dq_reason_e.DQ_OK 1 0 0] 1 (0 + 1) _ rfl
    (by rw [b1, trio_times.2.1]; decide)]
  dsimp only
  rw [par_quality_mean_next db (entry_at 3 dq_reason_e.DQ_OK 1 0 0) [] 1 (0 + 1 + 1) _ rfl
    (by rw [b2, trio_times.2.2]; decide) (by decide)]
  dsimp only
  rw [par_quality_mean_nil]
  rfl

theorem trio_division_times :
    division_times 1
      [{ entry_at 1 dq_reason_e.DQ_OK 0 58 500 with prov_div := 1 },
        { entry_at 2 dq_reason_e.DQ_OK 0 59 0 with prov_div := 1 },
        { entry_at 3 dq_reason_e.DQ_OK 1 0 0 with prov_div := 2 }] = [58500, 59000] ∧
    division_times 2
      [{ entry_at 1 dq_reason_e.DQ_OK 0 58 500 with prov_div := 1 },
        { entry_at 2 dq_reason_e.DQ_OK 0 59 0 with prov_div := 1 },
        { entry_at 3 dq_reason_e.DQ_OK 1 0 0 with prov_div := 2 }] = [60000] := by
  constructor <;> decide!

theorem trio_valid_times : valid_times trio_entries = [58500, 59000, 60000] := by
  decide!

/-- C24 (amended): `calculate_par` has no rule for a division of fewer than three entries.
When no valid entry reaches the bronze threshold of division `DIV_COUNT - 1` (times not
negative, no integer overflow), it writes only the provisional division of the valid
entries, each at least 1, and every division that is given at least one valid entry gets
as its quality mean the rounded mean of the times of its entries, however few they are;
a valid entry that is alone in the overall list, below the bronze threshold of division 1,
is given division 1 and its time becomes the quality mean of division 1.
`calculate_auto_scoot` samples from all valid entries of the overall list when
`div_stat[1].count` is below 3, and from the valid entries of division 1 otherwise. -/
theorem small_division_quality (sqrt : ℚ → ℚ) (s : state) :
    ((∀ e ∈ s.ov, dq_ok e.dq = true → 0 ≤ time_to_usec e.time ∧
        time_to_usec e.time <
          time_to_usec ((calculate_par sqrt s).div_stat (DIV_COUNT - 1)).bronze) →
      (valid_times s.ov).sum + ((valid_times s.ov).length : Int) < 2147483648 →
      List.Forall₂
        (fun e e' => e' = { e with prov_div := e'.prov_div } ∧ (dq_ok e.dq = false → e' = e))
        s.ov (calculate_par sqrt s).ov ∧
      (∀ e ∈ (calculate_par sqrt s).ov, dq_ok e.dq = true → 1 ≤ e.prov_div) ∧
      (∀ d, 1 ≤ d → division_times d (calculate_par sqrt s).ov ≠ [] →
        ((calculate_par sqrt s).div_stat d).q_mean =
          time_from_usec (rounded_mean (division_times d (calculate_par sqrt s).ov)))) ∧
    (∀ e : entry_t, s.ov = [e] → dq_ok e.dq = true → 0 ≤ time_to_usec e.time →
      time_to_usec e.time < time_to_usec ((calculate_par sqrt s).div_stat 1).bronze →
      (calculate_par sqrt s).ov = [{ e with prov_div := 1 }] ∧
      ((calculate_par sqrt s).div_stat 1).q_mean = time_from_usec (time_to_usec e.time)) ∧
    ((s.div_stat 1).count < 3 →
      calculate_auto_scoot s =
        s.g_event.scoot - scoot_sample_mean s (s.ov.filter (fun e => dq_ok e.dq))) ∧
    (¬ (s.div_stat 1).count < 3 →
      calculate_auto_scoot s =
        s.g_event.scoot - scoot_sample_mean s
          (s.ov.filter (entry_match s.player_db 1 dq_iter_e.ITER_DQ_OK))) := by
  refine ⟨fun hL hb => calculate_par_means sqrt s hL hb,
    fun e h1 h2 h3 h4 => calculate_par_single sqrt s e h1 h2 h3 h4, ?_, ?_⟩
  · intro h
    rw [calculate_auto_scoot_eq, if_pos h]
    have : (entry_match s.player_db DIV_ALL dq_iter_e.ITER_DQ_OK) = (fun e => dq_ok e.dq) :=
      funext (fun e => entry_match_all s.player_db e)
    rw [this]
  · intro h
    rw [calculate_auto_scoot_eq, if_neg h]

/-- C24, instance: of the three valid entries 0:58.500, 0:59.000 and 1:00.000 (quality
deviation 1, bronze threshold of division 1 at 59.199) the first two are given division 1
and the third division 2; division 1, with two entries, gets the quality mean 0:58.750,
and division 2, with one entry, the quality mean 1:00.000. -/
theorem small_division_quality_witness :
    (calculate_par sqrt_milli (example_state trio_entries 1)).ov =
      [{ entry_at 1 dq_reason_e.DQ_OK 0 58 500 with prov_div := 1 },
        { entry_at 2 dq_reason_e.DQ_OK 0 59 0 with prov_div := 1 },
        { entry_at 3 dq_reason_e.DQ_OK 1 0 0 with prov_div := 2 }] ∧
    ((calculate_par sqrt_milli (example_state trio_entries 1)).div_stat 1).q_mean =
      time_from_usec 58750 ∧
    ((calculate_par sqrt_milli (example_state trio_entries 1)).div_stat 2).q_mean =
      time_from_usec 60000 := by
  have hov : (example_state trio_entries 1).ov = trio_entries := rfl
  have h := (small_division_quality sqrt_milli (example_state trio_entries 1)).1
    (by
      have h7 : DIV_COUNT - 1 = 7 := rfl
      rw [h7, ex_bronze_seven, hov]
      intro e he _
      unfold trio_entries at he
      simp only [List.mem_cons, List.mem_singleton, List.not_mem_nil, or_false] at he
      rcases he with rfl | rfl | rfl
      · rw [trio_times.1]
        decide
      · rw [trio_times.2.1]
        decide
      · rw [trio_times.2.2]
        decide)
    (by rw [hov, trio_valid_times]; decide)
  have h1 := h.2.2 1 (le_refl 1)
  have h2 := h.2.2 2 (by decide)
  rw [trio_divisions] at h1 h2
  rw [trio_division_times.1] at h1
  rw [trio_division_times.2] at h2
  exact ⟨trio_divisions, h1 (by decide), h2 (by decide)⟩

/-! ## C9: the range of weight_adjust -/

theorem is_double_two : is_double 2 := by
  have := is_double_int 2 (by norm_num)
  exact_mod_cast this

/-- C9 (amended): for all ratings that are numbers (not NaN), `weight_adjust` returns a
number `w` with `0 < w <= 1`; every double operation is rounded. -/
theorem weight_adjust_d_range (p e : ℚ) :
    ∃ w : ℚ, weight_adjust_d (dbl.num p) (dbl.num e) = dbl.num w ∧ 0 < w ∧ w ≤ 1 := by
  unfold weight_adjust_d
  simp only [dsub, dle, dlt]
  by_cases hg : (decide (p ≤ 0) || decide (fl (e - p) < 1)) = true
  · rw [if_pos hg]
    simp only [dmul, ddiv, dadd]
    have h2 : fl (2 * 1) = 2 := by
      rw [mul_one]
      exact is_double_two
    rw [h2, if_neg (by norm_num)]
    have h3 : fl (1 / 2) = 1 / 2 := is_double_half
    rw [h3]
    have h4 : fl (1 / 2 + 1 / 2) = 1 := by
      norm_num
      exact is_double_one
    exact ⟨_, rfl, by rw [h4]; norm_num, by rw [h4]⟩
  · rw [if_neg hg]
    simp only [Bool.or_eq_true, decide_eq_true_eq, not_or, not_le, not_lt] at hg
    simp only [dmul, ddiv, dadd]
    have hm : 2 ≤ fl (2 * fl (e - p)) := fl_ge_of_ge is_double_two (by linarith [hg.2])
    rw [if_neg (by linarith)]
    have hr0 : 0 ≤ fl (1 / fl (2 * fl (e - p))) :=
      fl_nonneg _ (div_nonneg (by norm_num) (by linarith))
    have hr1 : fl (1 / fl (2 * fl (e - p))) ≤ 1 / 2 := by
      apply fl_le_of_le is_double_half
      rw [div_le_div_iff₀ (by linarith) (by norm_num)]
      linarith
    refine ⟨_, rfl, ?_, ?_⟩
    · have : 1 / 2 ≤ fl (1 / 2 + fl (1 / fl (2 * fl (e - p)))) :=
        fl_ge_of_ge is_double_half (by linarith)
      linarith
    · exact fl_le_of_le is_double_one (by linarith)

/-- C9, counterexample: for the player rating 1 and a NaN event rating both guards of
`weight_adjust` are false and it returns NaN, which is no number in `(0, 1]`. -/
theorem weight_adjust_d_nan :
    weight_adjust_d (dbl.num 1) dbl.nan = dbl.nan ∧
    ¬ ∃ w : ℚ, weight_adjust_d (dbl.num 1) dbl.nan = dbl.num w ∧ 0 < w ∧ w ≤ 1 := by
  have h : weight_adjust_d (dbl.num 1) dbl.nan = dbl.nan := by
    unfold weight_adjust_d
    simp only [dsub, dle, dlt]
    rw [if_neg (by norm_num)]
    rfl
  refine ⟨h, ?_⟩
  rintro ⟨w, hw, _⟩
  rw [h] at hw
  cases hw

/-! ## Blocks of `player_update_rating` with rounding -/

theorem fold_ratings_fl_eq (db : Nat → player_t) (k : Nat) (p : player_t)
    (hq : p.qualifier = (db k).qualifier) (ht : p.total_weight = (db k).total_weight)
    (hv : p.verified_count = (db k).verified_count) :
    fold_ratings_fl db k p =
      if fold_weight_fl p > 0 then
        if player_is_rookie db p.id = false then
          { p with real_rating := fl (real_agg_fl p / fold_weight_fl p),
                   rating := fl (agg_fl p / fold_weight_fl p) }
        else
          { p with real_rating := fl (real_agg_fl p / fold_weight_fl p),
                   rating := fl (real_agg_fl p / fold_weight_fl p) }
      else { p with rating := 0 } := by
  unfold fold_ratings_fl
  by_cases h : fold_weight_fl p > 0
  · rw [if_pos h, if_pos h]
    simp only []
    rw [player_is_rookie_update db k
      { p with real_rating := fl (real_agg_fl p / fold_weight_fl p) } p.id hq ht hv]
    by_cases hr : player_is_rookie db p.id = false
    · rw [if_pos hr, if_pos ⟨rfl, hr⟩]
    · rw [if_neg hr, if_neg (fun hh => hr hh.2)]
  · rw [if_neg h, if_neg h]

/-- What `fold_counts_fl` stores. -/
theorem fold_counts_fl_fields (p : player_t) :
    (fold_counts_fl p).total_weight = fl (p.total_weight + p.latest.weight) ∧
    (fold_counts_fl p).verified_count =
      (if p.latest.dq = dq_reason_e.DQ_VERIFIED then
        d2u (fl ((p.verified_count : ℚ) + p.latest.weight)) else p.verified_count) ∧
    (fold_counts_fl p).real_rating = p.real_rating ∧ (fold_counts_fl p).rating = p.rating := by
  unfold fold_counts_fl
  split_ifs <;> exact ⟨rfl, rfl, rfl, rfl⟩

/-- Fields `fold_ratings_fl` does not write. -/
theorem fold_ratings_fl_frame (db : Nat → player_t) (k : Nat) (p : player_t) :
    (fold_ratings_fl db k p).verified_count = p.verified_count ∧
    (fold_ratings_fl db k p).latest = p.latest ∧
    (fold_ratings_fl db k p).total_weight = p.total_weight := by
  unfold fold_ratings_fl
  simp only []
  split_ifs <;> exact ⟨rfl, rfl, rfl⟩

theorem fold_ratings_fl_values (db : Nat → player_t) (k : Nat) (p : player_t)
    (hq : p.qualifier = (db k).qualifier) (ht : p.total_weight = (db k).total_weight)
    (hv : p.verified_count = (db k).verified_count) :
    (fold_ratings_fl db k p).real_rating =
      (if fold_weight_fl p > 0 then fl (real_agg_fl p / fold_weight_fl p)
        else p.real_rating) ∧
    (fold_ratings_fl db k p).rating =
      (if fold_weight_fl p > 0 then
        (if player_is_rookie db p.id = false then fl (agg_fl p / fold_weight_fl p)
          else fl (real_agg_fl p / fold_weight_fl p))
        else 0) := by
  rw [fold_ratings_fl_eq db k p hq ht hv]
  split_ifs <;> exact ⟨rfl, rfl⟩

theorem fold_locals_fl_congr (p q : player_t) (h1 : q.total_weight = p.total_weight)
    (h2 : q.latest = p.latest) (h3 : q.real_rating = p.real_rating)
    (h4 : q.rating = p.rating) :
    use_weight_fl q = use_weight_fl p ∧ fold_weight_fl q = fold_weight_fl p ∧
      real_agg_fl q = real_agg_fl p ∧ agg_fl q = agg_fl p := by
  have hu : use_weight_fl q = use_weight_fl p := by
    unfold use_weight_fl
    rw [h1, h2]
  refine ⟨hu, ?_, ?_, ?_⟩
  · unfold fold_weight_fl
    rw [hu, h2]
  · unfold real_agg_fl
    rw [hu, h2, h3]
  · unfold agg_fl
    rw [hu, h2, h4]

/-- Unfolding of `player_update_rating_fl` for a valid player whose latest result is not a
disqualification. -/
theorem player_update_rating_fl_ok (db : Nat → player_t) (k : Nat) (hv : (db k).valid ≠ 0)
    (hd : dq_ok (db k).latest.dq = true) (n : Nat)
    (hn : n = u32 (((db k).event_count : Int) + 1)) :
    player_update_rating_fl db k k =
      rating_floor (fold_counts_fl (fold_ratings_fl
        (Function.update db k { db k with event_count := n }) k
        { db k with event_count := n })) := by
  subst hn
  unfold player_update_rating_fl
  rw [if_pos hv]
  simp only []
  rw [if_pos hd, Function.update_same]

/-- Unfolding of `player_update_rating_fl` for a valid player whose latest result is a
disqualification. -/
theorem player_update_rating_fl_dq (db : Nat → player_t) (k : Nat) (hv : (db k).valid ≠ 0)
    (hd : dq_ok (db k).latest.dq = false) :
    player_update_rating_fl db k k =
      rating_floor { db k with
        event_count := u32 (((db k).event_count : Int) + 1)
        dq_count := u32 (((db k).dq_count : Int) + 1) } := by
  unfold player_update_rating_fl
  rw [if_pos hv]
  simp only []
  rw [if_neg (by rw [hd]; decide), Function.update_same]

/-- The ratings after `player_update_rating_fl`, for a valid player whose latest result is
not a disqualification: `q` is the folded real rating and `a` the folded displayed
rating. -/
theorem player_update_rating_fl_values (db : Nat → player_t) (k : Nat)
    (hv : (db k).valid ≠ 0) (hd : dq_ok (db k).latest.dq = true) (q a : ℚ)
    (hq : q = (if fold_weight_fl (db k) > 0 then
      fl (real_agg_fl (db k) / fold_weight_fl (db k)) else (db k).real_rating))
    (ha : a = (if fold_weight_fl (db k) > 0 then
        (if player_is_rookie db (db k).id = false then
          fl (agg_fl (db k) / fold_weight_fl (db k))
          else fl (real_agg_fl (db k) / fold_weight_fl (db k)))
        else 0)) :
    (player_update_rating_fl db k k).real_rating = (if q ≤ 0 then a else q) ∧
    (player_update_rating_fl db k k).rating =
      (if q ≤ 0 then a else if a ≤ 0 then q else a) := by
  rw [player_update_rating_fl_ok db k hv hd _ rfl]
  generalize hn : u32 (((db k).event_count : Int) + 1) = n
  have hc := fold_locals_fl_congr (db k) { db k with event_count := n } rfl rfl rfl rfl
  have hf := fold_ratings_fl_values (Function.update db k { db k with event_count := n }) k
    { db k with event_count := n } (by rw [Function.update_same])
    (by rw [Function.update_same]) (by rw [Function.update_same])
  rw [hc.2.1, hc.2.2.1, hc.2.2.2,
    player_is_rookie_update db k { db k with event_count := n } _ rfl rfl rfl] at hf
  have hfl := rating_floor_values (fold_counts_fl (fold_ratings_fl
    (Function.update db k { db k with event_count := n }) k { db k with event_count := n }))
  have hcf := fold_counts_fl_fields (fold_ratings_fl
    (Function.update db k { db k with event_count := n }) k { db k with event_count := n })
  rw [hcf.2.2.1, hcf.2.2.2, hf.1, hf.2] at hfl
  rw [hq, ha]
  exact hfl

/-- The verified count after `player_update_rating_fl` of a valid player. -/
theorem verified_count_fl_after (db : Nat → player_t) (k : Nat) (hv : (db k).valid ≠ 0) :
    (player_update_rating_fl db k k).verified_count =
      (if (db k).latest.dq = dq_reason_e.DQ_VERIFIED then
        d2u (fl (((db k).verified_count : ℚ) + (db k).latest.weight))
      else (db k).verified_count) := by
  by_cases hd : dq_ok (db k).latest.dq = true
  · rw [player_update_rating_fl_ok db k hv hd _ rfl]
    generalize u32 (((db k).event_count : Int) + 1) = n
    rw [(rating_floor_frame _).2.2.2.2.2.2.2.1, (fold_counts_fl_fields _).2.1,
      (fold_ratings_fl_frame _ _ _).1, (fold_ratings_fl_frame _ _ _).2.1]
  · have hd2 : dq_ok (db k).latest.dq = false := by
      cases h : dq_ok (db k).latest.dq
      · rfl
      · exact absurd h hd
    rw [player_update_rating_fl_dq db k hv hd2, (rating_floor_frame _).2.2.2.2.2.2.2.1]
    have hne : (db k).latest.dq ≠ dq_reason_e.DQ_VERIFIED := by
      intro hc
      rw [hc] at hd
      exact hd dq_ok_verified
    rw [if_neg hne]

/-! ## C15: the verified count -/

theorem is_double_nat (n : Nat) (h : n ≤ 4294967296) : is_double (n : ℚ) := by
  have := is_double_int (n : Int) (by
    rw [abs_of_nonneg (Int.ofNat_nonneg n)]
    have : (n : Int) ≤ 4294967296 := by exact_mod_cast h
    exact le_trans this (by norm_num))
  exact_mod_cast this

theorem d2u_floor (x : ℚ) (h0 : 0 ≤ x) (h1 : x < 4294967296) : d2u x = ⌊x⌋₊ := by
  unfold d2u
  rw [d2i_eq, if_pos h0]
  have hf : ⌊x⌋ = ((⌊x⌋₊ : Nat) : Int) := (Int.natCast_floor_eq_floor h0).symm
  rw [hf]
  apply u32_small
  have h2 : ((⌊x⌋₊ : Nat) : ℚ) ≤ x := Nat.floor_le h0
  have h3 : ((⌊x⌋₊ : Nat) : ℚ) < 4294967296 := lt_of_le_of_lt h2 h1
  exact_mod_cast h3

/-- The integer part of a rounded sum of a count and a weight: the count plus the integer
part of the weight, or one more. -/
theorem floor_fl_add (n : Nat) (w : ℚ) (hw : 0 ≤ w) (h : (n : ℚ) + w < 4294967295) :
    n + ⌊w⌋₊ ≤ ⌊fl ((n : ℚ) + w)⌋₊ ∧ ⌊fl ((n : ℚ) + w)⌋₊ ≤ n + ⌊w⌋₊ + 1 ∧
    fl ((n : ℚ) + w) < 4294967296 ∧ 0 ≤ fl ((n : ℚ) + w) := by
  have h1 : ((⌊w⌋₊ : Nat) : ℚ) ≤ w := Nat.floor_le hw
  have h2 : w < ((⌊w⌋₊ : Nat) : ℚ) + 1 := Nat.lt_floor_add_one w
  have hb : n + ⌊w⌋₊ + 1 ≤ 4294967295 := by
    have : ((n + ⌊w⌋₊ : Nat) : ℚ) < 4294967295 := by
      push_cast
      linarith
    have : n + ⌊w⌋₊ < 4294967295 := by exact_mod_cast this
    omega
  have lo : ((n + ⌊w⌋₊ : Nat) : ℚ) ≤ fl ((n : ℚ) + w) :=
    fl_ge_of_ge (is_double_nat _ (by omega)) (by push_cast; linarith)
  have hi : fl ((n : ℚ) + w) ≤ ((n + ⌊w⌋₊ + 1 : Nat) : ℚ) :=
    fl_le_of_le (is_double_nat _ (by omega)) (by push_cast; linarith)
  have h0 : 0 ≤ fl ((n : ℚ) + w) := le_trans (Nat.cast_nonneg _) lo
  refine ⟨Nat.le_floor lo, ?_, ?_, h0⟩
  · have := Nat.floor_mono hi
    rwa [Nat.floor_natCast] at this
  · have : ((n + ⌊w⌋₊ + 1 : Nat) : ℚ) ≤ 4294967295 := by exact_mod_cast hb
    linarith

/-- C15 (amended): for a valid player whose latest result has the state `DQ_VERIFIED` and
a weight `w >= 0` (no 32-bit overflow), `player_update_rating` stores in the `unsigned`
field `verified_count` the integer part of the double sum `verified_count + w`: the count
plus the integer part of `w`, or one more when the sum rounds up to a whole number; it is
the count plus the integer part of `w` whenever the sum is itself a double, as it is
for a whole `w`. For any other state `verified_count` is unchanged. -/
theorem player_update_rating_fl_verified (db : Nat → player_t) (k : Nat)
    (hv : (db k).valid ≠ 0) :
    ((db k).latest.dq = dq_reason_e.DQ_VERIFIED → 0 ≤ (db k).latest.weight →
      ((db k).verified_count : ℚ) + (db k).latest.weight < 4294967295 →
      (player_update_rating_fl db k k).verified_count =
        ⌊fl (((db k).verified_count : ℚ) + (db k).latest.weight)⌋₊ ∧
      (db k).verified_count + ⌊(db k).latest.weight⌋₊ ≤
        (player_update_rating_fl db k k).verified_count ∧
      (player_update_rating_fl db k k).verified_count ≤
        (db k).verified_count + ⌊(db k).latest.weight⌋₊ + 1 ∧
      (is_double (((db k).verified_count : ℚ) + (db k).latest.weight) →
        (player_update_rating_fl db k k).verified_count =
          (db k).verified_count + ⌊(db k).latest.weight⌋₊)) ∧
    ((db k).latest.dq ≠ dq_reason_e.DQ_VERIFIED →
      (player_update_rating_fl db k k).verified_count = (db k).verified_count) := by
  rw [verified_count_fl_after db k hv]
  constructor
  · intro h hw hlt
    obtain ⟨a, b, c, d⟩ := floor_fl_add _ _ hw hlt
    rw [if_pos h, d2u_floor _ d c]
    refine ⟨rfl, a, b, ?_⟩
    intro hx
    rw [hx, add_comm, Nat.floor_add_nat hw, add_comm]
  · intro h
    rw [if_neg h]

theorem verified_sum_fraction :
    fl (((2 : Nat) : ℚ) + 3 / 4) = 11 / 4 := by
  have := is_double_mul_pow 11 (-2) (by norm_num) (by norm_num)
  have e : ((11 : Int) : ℚ) * 2 ^ (-2 : Int) = ((2 : Nat) : ℚ) + 3 / 4 := by norm_num
  rw [e] at this
  rw [this]
  norm_num

theorem verified_sum_near_one :
    fl (((2 : Nat) : ℚ) + 9007199254740991 / 9007199254740992) = 3 := by
  have h := fl_eval (((2 : Nat) : ℚ) + 9007199254740991 / 9007199254740992) 1
    6755399441055744 (1 / 2251799813685248) (by norm_num) (by norm_num) (by norm_num)
    (by norm_num) (by rw [abs_lt]; constructor <;> norm_num)
  rw [h]
  norm_num

/-- C15, counterexample: a valid player with 2 verified results whose latest result is
verified with weight 3/4 still has `verified_count = 2` afterwards, not 2 + 3/4; and with
the weight `1 - 2^-53` (integer part 0) the double sum rounds to 3 and the count
becomes 3. -/
theorem player_update_rating_fl_verified_fraction :
    player_verified.valid ≠ 0 ∧ player_verified.latest.dq = dq_reason_e.DQ_VERIFIED ∧
    player_verified.latest.weight = 3 / 4 ∧ player_verified.verified_count = 2 ∧
    (player_update_rating_fl (fun _ => player_verified) 1 1).verified_count = 2 ∧
    (((player_update_rating_fl (fun _ => player_verified) 1 1).verified_count : Nat) : ℚ) ≠
      (player_verified.verified_count : ℚ) + player_verified.latest.weight ∧
    player_verified_near_one.verified_count = 2 ∧
    ⌊player_verified_near_one.latest.weight⌋₊ = 0 ∧
    (player_update_rating_fl (fun _ => player_verified_near_one) 1 1).verified_count = 3 := by
  have h : (player_update_rating_fl (fun _ => player_verified) 1 1).verified_count = 2 := by
    rw [verified_count_fl_after _ _ (by decide),
      if_pos (show player_verified.latest.dq = dq_reason_e.DQ_VERIFIED from rfl)]
    have e : fl ((player_verified.verified_count : ℚ) + player_verified.latest.weight) =
        11 / 4 := verified_sum_fraction
    rw [e]
    unfold d2u
    rw [d2i_eval 11 4 (by norm_num) _ (by norm_num)]
    unfold u32
    decide
  have h3 : (player_update_rating_fl (fun _ => player_verified_near_one) 1 1).verified_count
      = 3 := by
    rw [verified_count_fl_after _ _ (by decide),
      if_pos (show player_verified_near_one.latest.dq = dq_reason_e.DQ_VERIFIED from rfl)]
    have e : fl ((player_verified_near_one.verified_count : ℚ) +
        player_verified_near_one.latest.weight) = 3 := verified_sum_near_one
    rw [e]
    unfold d2u
    rw [d2i_eval 3 1 (by norm_num) _ (by norm_num)]
    unfold u32
    decide
  refine ⟨by decide, rfl, rfl, rfl, h, ?_, rfl, ?_, h3⟩
  · rw [h]
    norm_num [player_verified, zero_result]
  · rw [Nat.floor_eq_zero]
    norm_num [player_verified_near_one, zero_result]

/-- C15, instance: a valid player with 2 verified results whose latest result is verified
with weight 1 has `verified_count = 3` afterwards. -/
theorem player_update_rating_fl_verified_witness :
    (player_update_rating_fl (fun _ => player_verified_whole) 1 1).verified_count = 3 :=
  have hw : player_verified_whole.latest.weight = 1 := rfl
  have hc : player_verified_whole.verified_count = 2 := rfl
  have h := ((player_update_rating_fl_verified (fun _ => player_verified_whole) 1
    (by decide)).1 rfl (by rw [hw]; norm_num) (by rw [hw, hc]; norm_num)).2.2.2
    (by
      rw [hw, hc]
      have := is_double_int 3 (by norm_num)
      have e : ((3 : Int) : ℚ) = ((2 : Nat) : ℚ) + 1 := by norm_num
      rwa [e] at this)
  h.trans (by rw [hw, hc]; norm_num)

/-! ## C14: the first fold -/

theorem two_pow_53 : (2 : ℚ) ^ (53 : Int) = 9007199254740992 := by norm_num

theorem fl_err_rel_num (x : ℚ) (hx : (2 : ℚ) ^ (-1022 : Int) ≤ |x|) :
    |fl x - x| ≤ |x| / 9007199254740992 := by
  have := fl_err_rel x hx
  rwa [two_pow_53] at this

/-- The locals of the first fold, for a player with `rating = 0`, `real_rating = 0` and
`total_weight = 0` and a latest result whose weight is a positive double. -/
theorem first_fold_fl_locals (p : player_t) (hr : p.rating = 0) (hrr : p.real_rating = 0)
    (htw : p.total_weight = 0) (hw : is_double p.latest.weight) :
    fold_weight_fl p = p.latest.weight ∧
    real_agg_fl p = fl (p.latest.rating * p.latest.weight) ∧
    agg_fl p = fl ((if p.latest.rating < 0 then p.latest.rating else 0) * p.latest.weight) := by
  have hu : use_weight_fl p = 0 := by
    unfold use_weight_fl
    simp only []
    rw [htw, if_neg (by norm_num [RATING_WEIGHT_CAP])]
  refine ⟨?_, ?_, ?_⟩
  · unfold fold_weight_fl
    rw [hu, zero_add]
    exact hw
  · unfold real_agg_fl
    rw [hu, hrr, mul_zero, fl_zero, zero_add, fl_fl]
  · unfold agg_fl
    simp only []
    rw [hu, hr, mul_zero, fl_zero, zero_add, fl_fl]

/-- The real rating after the first fold: the rounded quotient of the rounded product of
event rating and weight by the weight. -/
theorem first_fold_fl_value (db : Nat → player_t) (k : Nat)
    (hv : (db k).valid ≠ 0) (hr : (db k).rating = 0) (hrr : (db k).real_rating = 0)
    (htw : (db k).total_weight = 0) (hd : dq_ok (db k).latest.dq = true)
    (hw0 : 0 < (db k).latest.weight) (hw : is_double (db k).latest.weight) :
    (player_update_rating_fl db k k).real_rating =
      fl (fl ((db k).latest.rating * (db k).latest.weight) / (db k).latest.weight) := by
  obtain ⟨l1, l2, l3⟩ := first_fold_fl_locals (db k) hr hrr htw hw
  have hpos : fold_weight_fl (db k) > 0 := by
    rw [l1]
    exact hw0
  rw [(player_update_rating_fl_values db k hv hd _ _ rfl rfl).1, if_pos hpos, if_pos hpos,
    l1, l2, l3]
  by_cases hq : fl (fl ((db k).latest.rating * (db k).latest.weight) /
      (db k).latest.weight) ≤ 0
  · rw [if_pos hq]
    by_cases hrk : player_is_rookie db (db k).id = false
    · rw [if_pos hrk]
      by_cases hneg : (db k).latest.rating < 0
      · rw [if_pos hneg]
      · rw [if_neg hneg, zero_mul, fl_zero, zero_div, fl_zero]
        have h0 : 0 ≤ fl (fl ((db k).latest.rating * (db k).latest.weight) /
            (db k).latest.weight) := by
          apply fl_nonneg
          apply div_nonneg _ (le_of_lt hw0)
          apply fl_nonneg
          exact mul_nonneg (not_lt.mp hneg) (le_of_lt hw0)
        exact le_antisymm h0 hq
    · rw [if_neg hrk]
  · rw [if_neg hq]

/-- The rounded quotient `(er * w) / w` differs from `er` by at most a relative `2^-51`
when neither the product nor `er` is in the subnormal range. -/
theorem fl_mul_div_err (er w : ℚ) (hw0 : 0 < w)
    (h1 : (2 : ℚ) ^ (-1022 : Int) ≤ |er * w|) (h2 : (2 : ℚ) ^ (-1021 : Int) ≤ |er|) :
    |fl (fl (er * w) / w) - er| ≤ |er| / 2251799813685248 := by
  have e1 := fl_err_rel_num (er * w) h1
  have hd : |fl (er * w) / w - er| ≤ |er| / 9007199254740992 := by
    have : fl (er * w) / w - er = (fl (er * w) - er * w) / w := by
      field_simp
      ring
    rw [this, abs_div, abs_of_pos hw0, div_le_iff₀ hw0]
    have : |er| / 9007199254740992 * w = |er * w| / 9007199254740992 := by
      rw [abs_mul, abs_of_pos hw0]
      ring
    rw [this]
    exact e1
  have ht : (2 : ℚ) ^ (-1021 : Int) = 2 * 2 ^ (-1022 : Int) := by
    have : (-1021 : Int) = 1 + -1022 := by norm_num
    rw [this, two_zpow_add]
    norm_num
  rw [ht] at h2
  have e2 := fl_err_rel_num (fl (er * w) / w)
  generalize (2 : ℚ) ^ (-1022 : Int) = t at h1 h2 e2
  have hE : 0 ≤ |er| := abs_nonneg er
  have hx2 : |er| - |er| / 9007199254740992 ≤ |fl (er * w) / w| := by
    have := abs_sub_abs_le_abs_sub er (fl (er * w) / w)
    rw [abs_sub_comm] at this
    linarith
  have hx3 : |fl (er * w) / w| ≤ |er| + |er| / 9007199254740992 := by
    have := abs_sub_abs_le_abs_sub (fl (er * w) / w) er
    linarith
  have e3 := e2 (by linarith)
  have tri := abs_sub_le (fl (fl (er * w) / w)) (fl (er * w) / w) er
  linarith

theorem is_double_seven_halves : is_double (7 / 2) := by
  have := is_double_mul_pow 7 (-1) (by norm_num) (by norm_num)
  have e : ((7 : Int) : ℚ) * 2 ^ (-1 : Int) = 7 / 2 := by norm_num
  rwa [e] at this

theorem is_double_tenth : is_double (3602879701896397 / 36028797018963968) := by
  have := is_double_mul_pow 3602879701896397 (-55) (by norm_num) (by norm_num)
  have e : ((3602879701896397 : Int) : ℚ) * 2 ^ (-55 : Int) =
      3602879701896397 / 36028797018963968 := by norm_num
  rwa [e] at this

/-- C14 (amended): for a valid player with `rating = 0`, `real_rating = 0` and
`total_weight = 0` whose latest result is not a disqualification and has a positive
weight `w`, `player_update_rating` sets `real_rating` to the double quotient
`(eventRating * w) / w`, product and quotient rounded (weight and event rating at most
`2^500` in absolute value, so that no operation overflows). That is the event rating when
`w` is 1, and it differs from the event rating by at most the relative rounding error
`2^-51` (no underflow: the product is at least `2^-1022` and the event rating at least
`2^-1021` in absolute value). -/
theorem player_update_rating_fl_first (db : Nat → player_t) (k : Nat)
    (hv : (db k).valid ≠ 0) (hr : (db k).rating = 0) (hrr : (db k).real_rating = 0)
    (htw : (db k).total_weight = 0) (hd : dq_ok (db k).latest.dq = true)
    (hw0 : 0 < (db k).latest.weight) (hw : is_double (db k).latest.weight)
    (_ : (db k).latest.weight ≤ (2 : ℚ) ^ (500 : Int))
    (_ : |(db k).latest.rating| ≤ (2 : ℚ) ^ (500 : Int)) :
    (player_update_rating_fl db k k).real_rating =
      fl (fl ((db k).latest.rating * (db k).latest.weight) / (db k).latest.weight) ∧
    ((db k).latest.weight = 1 → is_double (db k).latest.rating →
      (player_update_rating_fl db k k).real_rating = (db k).latest.rating) ∧
    ((2 : ℚ) ^ (-1022 : Int) ≤ |(db k).latest.rating * (db k).latest.weight| →
      (2 : ℚ) ^ (-1021 : Int) ≤ |(db k).latest.rating| →
      |(player_update_rating_fl db k k).real_rating - (db k).latest.rating| ≤
        |(db k).latest.rating| / 2251799813685248) := by
  have h := first_fold_fl_value db k hv hr hrr htw hd hw0 hw
  refine ⟨h, ?_, ?_⟩
  · intro h1 he
    rw [h, h1, mul_one, div_one, fl_fl]
    exact he
  · intro h1 h2
    rw [h]
    exact fl_mul_div_err _ _ hw0 h1 h2

/-- C14, counterexample: a valid player without history whose latest result is valid with
the event rating 1.258 and the weight 0.1 (as doubles) gets
`real_rating = 1.2579999999999998`, the double below the event rating. -/
theorem player_update_rating_fl_first_inexact :
    player_new_tenth.valid ≠ 0 ∧ player_new_tenth.rating = 0 ∧
    player_new_tenth.real_rating = 0 ∧ player_new_tenth.total_weight = 0 ∧
    dq_ok player_new_tenth.latest.dq = true ∧ 0 < player_new_tenth.latest.weight ∧
    player_new_tenth.latest.rating = 5665528331232084 / 4503599627370496 ∧
    (player_update_rating_fl (fun _ => player_new_tenth) 1 1).real_rating =
      5665528331232083 / 4503599627370496 ∧
    (player_update_rating_fl (fun _ => player_new_tenth) 1 1).real_rating ≠
      player_new_tenth.latest.rating := by
  have hw : player_new_tenth.latest.weight = 3602879701896397 / 36028797018963968 := rfl
  have her : player_new_tenth.latest.rating = 5665528331232084 / 4503599627370496 := rfl
  have hw0 : 0 < player_new_tenth.latest.weight := by
    rw [hw]
    norm_num
  have h := first_fold_fl_value (fun _ => player_new_tenth) 1 (by decide) rfl rfl rfl rfl hw0
    (by rw [hw]; exact is_double_tenth)
  have hval : (player_update_rating_fl (fun _ => player_new_tenth) 1 1).real_rating =
      5665528331232083 / 4503599627370496 := by
    rw [h, hw, her]
    have p1 : fl (5665528331232084 / 4503599627370496 *
        (3602879701896397 / 36028797018963968)) =
        4532422664985667 * (1 / 36028797018963968) :=
      fl_eval _ (-3) 4532422664985667 (1 / 36028797018963968) (by norm_num) (by norm_num)
        (by norm_num) (by norm_num) (by rw [abs_lt]; constructor <;> norm_num)
    rw [p1]
    have p2 : fl (4532422664985667 * (1 / 36028797018963968) /
        (3602879701896397 / 36028797018963968)) =
        5665528331232083 * (1 / 4503599627370496) :=
      fl_eval _ 0 5665528331232083 (1 / 4503599627370496) (by norm_num) (by norm_num)
        (by norm_num) (by norm_num) (by rw [abs_lt]; constructor <;> norm_num)
    rw [p2]
    norm_num
  refine ⟨by decide, rfl, rfl, rfl, rfl, hw0, rfl, hval, ?_⟩
  rw [hval, her]
  norm_num

/-- C14, instance: a valid player without history whose latest result is valid with
rating 7/2 and weight 1 gets `real_rating = 7/2`. -/
theorem player_update_rating_fl_first_witness :
    (player_update_rating_fl (fun _ => player_new) 1 1).real_rating = 7 / 2 :=
  have hw : player_new.latest.weight = 1 := rfl
  (player_update_rating_fl_first (fun _ => player_new) 1 (by decide) rfl rfl rfl
    (by decide) (by rw [hw]; norm_num) (by rw [hw]; exact is_double_one)
    (by rw [hw]; exact le_trans (by norm_num) (two_zpow_le (show (0 : Int) ≤ 500 by norm_num)))
    (by
      have he : player_new.latest.rating = 7 / 2 := rfl
      rw [he]
      exact le_trans (by rw [abs_of_nonneg] <;> norm_num)
        (two_zpow_le (show (2 : Int) ≤ 500 by norm_num)))).2.1 hw
    is_double_seven_halves

/-! ## C12: the no-harm rule with rounding -/

/-- Upper bound of a rounded number of the normal range. -/
theorem fl_le_rel (x : ℚ) (h0 : 0 ≤ x) (hx : (2 : ℚ) ^ (-1022 : Int) ≤ x) :
    fl x ≤ x * (1 + 1 / 9007199254740992) := by
  have h := fl_err_rel_num x (by rwa [abs_of_nonneg h0])
  rw [abs_of_nonneg h0] at h
  have := (abs_le.mp h).2
  linarith

/-- Lower bound of a rounded number of the normal range. -/
theorem fl_ge_rel (x : ℚ) (h0 : 0 ≤ x) (hx : (2 : ℚ) ^ (-1022 : Int) ≤ x) :
    x * (1 - 1 / 9007199254740992) ≤ fl x := by
  have h := fl_err_rel_num x (by rwa [abs_of_nonneg h0])
  rw [abs_of_nonneg h0] at h
  have := (abs_le.mp h).1
  linarith

/-- Upper bound of a rounded number that is not negative. -/
theorem fl_le_abs (x : ℚ) (h0 : 0 ≤ x) :
    fl x ≤ x * (1 + 1 / 9007199254740992) + 2 ^ (-1075 : Int) := by
  have h := fl_err_abs x
  rw [abs_of_nonneg h0, two_pow_53] at h
  have := (abs_le.mp h).2
  linarith

/-- The capped prior weight lies between 0 and the cap. -/
theorem use_weight_fl_range (p : player_t) (htw : 0 ≤ p.total_weight)
    (hw0 : 0 < p.latest.weight) : 0 ≤ use_weight_fl p ∧
    (use_weight_fl p ≤ 5) := by
  have h5 : ((RATING_WEIGHT_CAP : Nat) : ℚ) = 5 := by norm_num [RATING_WEIGHT_CAP]
  have d5 : is_double 5 := by
    have := is_double_int 5 (by norm_num)
    exact_mod_cast this
  unfold use_weight_fl
  simp only []
  rw [h5]
  by_cases hc : p.total_weight ≥ 5
  · rw [if_pos hc]
    by_cases hz : fl (5 - p.latest.weight) ≤ 0
    · rw [if_pos hz]
      norm_num
    · rw [if_neg hz]
      exact ⟨le_of_lt (not_le.mp hz), fl_le_of_le d5 (by linarith)⟩
  · rw [if_neg hc]
    exact ⟨htw, le_of_lt (not_le.mp hc)⟩

theorem agg_fl_min (p : player_t) :
    agg_fl p = fl (fl (p.rating * use_weight_fl p) +
      fl (min p.latest.rating p.rating * p.latest.weight)) := by
  unfold agg_fl
  simp only []
  by_cases h : p.latest.rating < p.rating
  · rw [if_pos h, min_eq_left (le_of_lt h)]
  · rw [if_neg h, min_eq_right (not_lt.mp h)]

/-- The arithmetic of the error bound of the fold. -/
theorem no_harm_arith (r u w A1 A2 N D Q a η : ℚ) (ha : 0 < a)
    (hηa : η * 1152921504606846976 ≤ a * a) (hr : a ≤ r) (hw : a ≤ w) (hu : 0 ≤ u)
    (h1 : A1 ≤ r * u * (1 + 1 / 9007199254740992) + η)
    (h2 : A2 ≤ r * w * (1 + 1 / 9007199254740992))
    (h3 : N ≤ (A1 + A2) * (1 + 1 / 9007199254740992)) (hN : 0 ≤ N)
    (h4 : (u + w) * (1 - 1 / 9007199254740992) ≤ D)
    (h5 : Q ≤ N / D * (1 + 1 / 9007199254740992)) :
    Q ≤ r * (1 + 1 / 1125899906842624) := by
  have huw : 0 < u + w := by linarith
  have hD' : 0 < (u + w) * (1 - 1 / 9007199254740992) := mul_pos huw (by norm_num)
  have hD : 0 < D := lt_of_lt_of_le hD' h4
  have hP : a * a ≤ r * (u + w) := mul_le_mul hr (by linarith) (le_of_lt ha) (by linarith)
  have e1 : N / D ≤ N / ((u + w) * (1 - 1 / 9007199254740992)) :=
    div_le_div_of_nonneg_left hN hD' h4
  have e2 : N / ((u + w) * (1 - 1 / 9007199254740992)) * (1 + 1 / 9007199254740992) ≤
      r * (1 + 1 / 1125899906842624) := by
    rw [div_mul_eq_mul_div, div_le_iff₀ hD']
    have hN2 : N ≤ (r * (u + w) * (1 + 1 / 9007199254740992) + η) *
        (1 + 1 / 9007199254740992) := by
      have : A1 + A2 ≤ r * (u + w) * (1 + 1 / 9007199254740992) + η := by linarith
      have := mul_le_mul_of_nonneg_right this
        (show (0 : ℚ) ≤ 1 + 1 / 9007199254740992 by norm_num)
      linarith
    have hN3 := mul_le_mul_of_nonneg_right hN2
      (show (0 : ℚ) ≤ 1 + 1 / 9007199254740992 by norm_num)
    have e : r * (1 + 1 / 1125899906842624) * ((u + w) * (1 - 1 / 9007199254740992)) =
        r * (u + w) * ((1 + 1 / 1125899906842624) * (1 - 1 / 9007199254740992)) := by ring
    rw [e]
    generalize r * (u + w) = P at hP hN3 ⊢
    nlinarith [hN3, hP, hηa]
  have e3 := mul_le_mul_of_nonneg_right e1
    (show (0 : ℚ) ≤ 1 + 1 / 9007199254740992 by norm_num)
  linarith

theorem is_double_two_pow (k : Int) (hk : -1074 ≤ k) : is_double ((2 : ℚ) ^ k) := by
  have := is_double_mul_pow 1 k (by norm_num) hk
  rwa [Int.cast_one, one_mul] at this

/-- The displayed rating of the fold for a non-rookie, with the bounds that rounding
leaves. -/
theorem no_harm_fl_bound (p : player_t) (htw : 0 ≤ p.total_weight)
    (hr0 : (2 : ℚ) ^ (-300 : Int) ≤ p.rating)
    (he0 : (2 : ℚ) ^ (-300 : Int) ≤ p.latest.rating)
    (hw0 : (2 : ℚ) ^ (-300 : Int) ≤ p.latest.weight)
    (hw1 : p.latest.weight ≤ (2 : ℚ) ^ (300 : Int)) :
    0 < fold_weight_fl p ∧ 0 < fl (agg_fl p / fold_weight_fl p) ∧
    fl (agg_fl p / fold_weight_fl p) ≤ p.rating * (1 + 1 / 1125899906842624) := by
  have ha : (0 : ℚ) < 2 ^ (-300 : Int) := two_zpow_pos _
  have hwp : 0 < p.latest.weight := lt_of_lt_of_le ha hw0
  obtain ⟨hu0, hu5⟩ := use_weight_fl_range p htw hwp
  have haa : (2 : ℚ) ^ (-300 : Int) * 2 ^ (-300 : Int) = 2 ^ (-600 : Int) := by
    rw [← two_zpow_add]
    norm_num
  have hn600 : (2 : ℚ) ^ (-1022 : Int) ≤ 2 ^ (-600 : Int) := two_zpow_le (by norm_num)
  have hm0 : (2 : ℚ) ^ (-300 : Int) ≤ min p.latest.rating p.rating := le_min he0 hr0
  have hmw : (2 : ℚ) ^ (-600 : Int) ≤ min p.latest.rating p.rating * p.latest.weight := by
    rw [← haa]
    exact mul_le_mul hm0 hw0 (le_of_lt ha) (le_trans (le_of_lt ha) hm0)
  have hA1 : 0 ≤ fl (p.rating * use_weight_fl p) :=
    fl_nonneg _ (mul_nonneg (le_trans (le_of_lt ha) hr0) hu0)
  have hA2 : (2 : ℚ) ^ (-600 : Int) ≤
      fl (min p.latest.rating p.rating * p.latest.weight) :=
    fl_ge_of_ge (is_double_two_pow _ (by norm_num)) hmw
  have hNx : (2 : ℚ) ^ (-600 : Int) ≤ fl (p.rating * use_weight_fl p) +
      fl (min p.latest.rating p.rating * p.latest.weight) := by linarith
  have hN : (2 : ℚ) ^ (-600 : Int) ≤ agg_fl p := by
    rw [agg_fl_min]
    exact fl_ge_of_ge (is_double_two_pow _ (by norm_num)) hNx
  have hDx : (2 : ℚ) ^ (-1022 : Int) ≤ use_weight_fl p + p.latest.weight :=
    le_trans (two_zpow_le (by norm_num)) (le_trans hw0 (by linarith))
  have hD1 : fold_weight_fl p ≤ (2 : ℚ) ^ (301 : Int) := by
    unfold fold_weight_fl
    apply fl_le_of_le (is_double_two_pow _ (by norm_num))
    have e : (2 : ℚ) ^ (301 : Int) = 2 ^ (300 : Int) + 2 ^ (300 : Int) := by
      have : (301 : Int) = 1 + 300 := by norm_num
      rw [this, two_zpow_add]
      norm_num
    have h8 : (5 : ℚ) ≤ 2 ^ (300 : Int) :=
      le_trans (by norm_num) (two_zpow_le (show (3 : Int) ≤ 300 by norm_num))
    rw [e]
    linarith
  have hD4 := fl_ge_rel (use_weight_fl p + p.latest.weight) (by linarith) hDx
  have hD0 : 0 < fold_weight_fl p := by
    unfold fold_weight_fl
    have : 0 < (use_weight_fl p + p.latest.weight) * (1 - 1 / 9007199254740992) :=
      mul_pos (by linarith) (by norm_num)
    linarith
  have hq : (2 : ℚ) ^ (-901 : Int) ≤ agg_fl p / fold_weight_fl p := by
    have e : (2 : ℚ) ^ (-901 : Int) = 2 ^ (-600 : Int) / 2 ^ (301 : Int) := by
      rw [eq_div_iff (ne_of_gt (two_zpow_pos _)), ← two_zpow_add]
      norm_num
    rw [e]
    exact div_le_div₀ (le_trans (le_of_lt (two_zpow_pos _)) hN) hN hD0 hD1
  have hQ0 : 0 < fl (agg_fl p / fold_weight_fl p) :=
    fl_pos_of_double (is_double_two_pow _ (by norm_num)) (two_zpow_pos _) hq
  refine ⟨hD0, hQ0, ?_⟩
  have h5 := fl_le_rel (agg_fl p / fold_weight_fl p)
    (le_trans (le_of_lt (two_zpow_pos _)) hq)
    (le_trans (two_zpow_le (by norm_num)) hq)
  have h1 := fl_le_abs (p.rating * use_weight_fl p)
    (mul_nonneg (le_trans (le_of_lt ha) hr0) hu0)
  have h2 : fl (min p.latest.rating p.rating * p.latest.weight) ≤
      p.rating * p.latest.weight * (1 + 1 / 9007199254740992) := by
    have := fl_le_rel (min p.latest.rating p.rating * p.latest.weight)
      (le_trans (le_of_lt (two_zpow_pos _)) hmw) (le_trans hn600 hmw)
    have hm := mul_le_mul_of_nonneg_right (min_le_right p.latest.rating p.rating)
      (le_of_lt hwp)
    have := mul_le_mul_of_nonneg_right hm
      (show (0 : ℚ) ≤ 1 + 1 / 9007199254740992 by norm_num)
    linarith
  have h3 : agg_fl p ≤ (fl (p.rating * use_weight_fl p) +
      fl (min p.latest.rating p.rating * p.latest.weight)) *
        (1 + 1 / 9007199254740992) := by
    rw [agg_fl_min]
    exact fl_le_rel _ (le_trans (le_of_lt (two_zpow_pos _)) hNx) (le_trans hn600 hNx)
  have hη : (2 : ℚ) ^ (-1075 : Int) * 1152921504606846976 ≤
      2 ^ (-300 : Int) * 2 ^ (-300 : Int) := by
    have e : (1152921504606846976 : ℚ) = 2 ^ (60 : Int) := by norm_num
    rw [e, ← two_zpow_add, haa]
    exact two_zpow_le (by norm_num)
  exact no_harm_arith p.rating (use_weight_fl p) p.latest.weight _ _ (agg_fl p)
    (fold_weight_fl p) _ _ _ ha hη hr0 hw0 hu0 h1 h2 h3
    (le_trans (le_of_lt (two_zpow_pos _)) hN) hD4 h5

theorem pow_range (x : ℚ) (h1 : 1 / 1024 ≤ x) (h2 : x ≤ 1024) :
    (2 : ℚ) ^ (-300 : Int) ≤ x ∧ x ≤ (2 : ℚ) ^ (300 : Int) := by
  constructor
  · refine le_trans (two_zpow_le (show (-300 : Int) ≤ -10 by norm_num)) ?_
    norm_num
    linarith
  · refine le_trans ?_ (two_zpow_le (show (10 : Int) ≤ 300 by norm_num))
    norm_num
    linarith

/-- C12 (amended): for a valid player whose latest result is not a disqualification,
(a) if the player is not a rookie, `total_weight >= 0`, and the rating, the event rating
and the weight `w` of the result are positive (between `2^-300` and `2^300`, so that no
double operation overflows or loses a positive value), the displayed rating becomes the
double value of `(rating * u + min(eventRating, rating) * w) / (u + w)` with `u` the capped
prior weight, each of the five operations rounded; it is at most `rating * (1 + 2^-50)`,
and it is the exact value of the formula and not greater than the rating before when none
of the five operations rounds; (b) if the player is a rookie, the displayed rating becomes
the new `real_rating`. -/
theorem player_update_rating_fl_no_harm (db : Nat → player_t) (k : Nat)
    (hv : (db k).valid ≠ 0) (hd : dq_ok (db k).latest.dq = true) :
    (player_is_rookie db (db k).id = false → 0 ≤ (db k).total_weight →
      (2 : ℚ) ^ (-300 : Int) ≤ (db k).rating → (db k).rating ≤ (2 : ℚ) ^ (300 : Int) →
      (2 : ℚ) ^ (-300 : Int) ≤ (db k).latest.rating →
      (db k).latest.rating ≤ (2 : ℚ) ^ (300 : Int) →
      (2 : ℚ) ^ (-300 : Int) ≤ (db k).latest.weight →
      (db k).latest.weight ≤ (2 : ℚ) ^ (300 : Int) →
      (player_update_rating_fl db k k).rating =
        fl (fl (fl ((db k).rating * use_weight_fl (db k)) +
            fl (min (db k).latest.rating (db k).rating * (db k).latest.weight)) /
          fl (use_weight_fl (db k) + (db k).latest.weight)) ∧
      (player_update_rating_fl db k k).rating ≤ (db k).rating * (1 + 1 / 1125899906842624) ∧
      (is_double ((db k).rating * use_weight_fl (db k)) →
        is_double (min (db k).latest.rating (db k).rating * (db k).latest.weight) →
        is_double ((db k).rating * use_weight_fl (db k) +
          min (db k).latest.rating (db k).rating * (db k).latest.weight) →
        is_double (use_weight_fl (db k) + (db k).latest.weight) →
        is_double (((db k).rating * use_weight_fl (db k) +
            min (db k).latest.rating (db k).rating * (db k).latest.weight) /
          (use_weight_fl (db k) + (db k).latest.weight)) →
        (player_update_rating_fl db k k).rating =
          ((db k).rating * use_weight_fl (db k) +
              min (db k).latest.rating (db k).rating * (db k).latest.weight) /
            (use_weight_fl (db k) + (db k).latest.weight) ∧
        (player_update_rating_fl db k k).rating ≤ (db k).rating)) ∧
    (player_is_rookie db (db k).id = true →
      (player_update_rating_fl db k k).rating =
        (player_update_rating_fl db k k).real_rating) := by
  have hval := player_update_rating_fl_values db k hv hd _ _ rfl rfl
  constructor
  · intro hrk htw hr0 _ he0 _ hw0 hw1
    obtain ⟨hD0, hQ0, hQ1⟩ := no_harm_fl_bound (db k) htw hr0 he0 hw0 hw1
    have hrat : (player_update_rating_fl db k k).rating =
        fl (agg_fl (db k) / fold_weight_fl (db k)) := by
      rw [hval.2, if_pos hD0, if_pos hrk]
      split_ifs with h1 h2
      · rfl
      · exact absurd h2 (not_le.mpr hQ0)
      · rfl
    have hform : fl (agg_fl (db k) / fold_weight_fl (db k)) =
        fl (fl (fl ((db k).rating * use_weight_fl (db k)) +
            fl (min (db k).latest.rating (db k).rating * (db k).latest.weight)) /
          fl (use_weight_fl (db k) + (db k).latest.weight)) := by
      rw [agg_fl_min]
      rfl
    refine ⟨hrat.trans hform, by rw [hrat]; exact hQ1, ?_⟩
    intro d1 d2 d3 d4 d5
    have hwp : 0 < (db k).latest.weight := lt_of_lt_of_le (two_zpow_pos _) hw0
    have hu := (use_weight_fl_range (db k) htw hwp).1
    have hex : (player_update_rating_fl db k k).rating =
        ((db k).rating * use_weight_fl (db k) +
            min (db k).latest.rating (db k).rating * (db k).latest.weight) /
          (use_weight_fl (db k) + (db k).latest.weight) := by
      rw [hrat, hform, fl_of_double d1, fl_of_double d2, fl_of_double d3, fl_of_double d4,
        fl_of_double d5]
    refine ⟨hex, ?_⟩
    rw [hex, div_le_iff₀ (by linarith)]
    have := mul_le_mul_of_nonneg_right (min_le_right (db k).latest.rating (db k).rating)
      (le_of_lt hwp)
    linarith
  · intro hrk
    rw [hval.1, hval.2]
    have hne : ¬ (player_is_rookie db (db k).id = false) := by rw [hrk]; decide
    by_cases hfw : fold_weight_fl (db k) > 0
    · rw [if_pos hfw, if_neg hne]
      split_ifs <;> rfl
    · rw [if_neg hfw]
      split_ifs with h1 h2
      · rfl
      · rfl
      · exact absurd (le_refl (0 : ℚ)) h2

theorem qualified_negative_fold_fl : fold_weight_fl player_qualified_negative = -1 := by
  have hu : use_weight_fl player_qualified_negative = -2 := by
    unfold use_weight_fl player_qualified_negative
    norm_num [RATING_WEIGHT_CAP, zero_player, zero_result]
  have hw : player_qualified_negative.latest.weight = 1 := rfl
  unfold fold_weight_fl
  rw [hu, hw]
  have : is_double (-1) := is_double_neg 1 is_double_one
  have e : (-2 : ℚ) + 1 = -1 := by norm_num
  rw [e]
  exact this

theorem rounding_use_fl : use_weight_fl player_rounding = 3 := by
  unfold use_weight_fl player_rounding
  norm_num [RATING_WEIGHT_CAP, zero_player, zero_result]

theorem rounding_fold_fl :
    fold_weight_fl player_rounding = 8556839292003942 * (1 / 2251799813685248) := by
  have hw : player_rounding.latest.weight = 3602879701896397 / 4503599627370496 := rfl
  unfold fold_weight_fl
  rw [rounding_use_fl, hw]
  exact fl_eval_tie _ 1 8556839292003942 8556839292003942 (1 / 2251799813685248)
    (by norm_num) (by norm_num) (by norm_num) (by norm_num) (by norm_num) (by decide)

theorem rounding_agg_fl :
    agg_fl player_rounding = 8565396131295946 * (1 / 2251799813685248) := by
  have hw : player_rounding.latest.weight = 3602879701896397 / 4503599627370496 := rfl
  have hr : player_rounding.rating = 2254051613498933 / 2251799813685248 := rfl
  have he : player_rounding.latest.rating = 4505851427184181 / 2251799813685248 := rfl
  rw [agg_fl_min, rounding_use_fl, hw, hr, he, min_eq_right (by norm_num)]
  have p1 : fl (2254051613498933 / 2251799813685248 * 3) =
      6762154840496799 * (1 / 2251799813685248) :=
    fl_eval _ 1 6762154840496799 (1 / 2251799813685248) (by norm_num) (by norm_num)
      (by norm_num) (by norm_num) (by rw [abs_lt]; constructor <;> norm_num)
  have p2 : fl (2254051613498933 / 2251799813685248 *
      (3602879701896397 / 4503599627370496)) =
      7212965163196586 * (1 / 9007199254740992) :=
    fl_eval _ (-1) 7212965163196586 (1 / 9007199254740992) (by norm_num) (by norm_num)
      (by norm_num) (by norm_num) (by rw [abs_lt]; constructor <;> norm_num)
  rw [p1, p2]
  exact fl_eval_tie _ 1 8565396131295945 8565396131295946 (1 / 2251799813685248)
    (by norm_num) (by norm_num) (by norm_num) (by norm_num) (by norm_num) (by decide)

theorem rounding_quotient_fl :
    fl (agg_fl player_rounding / fold_weight_fl player_rounding) =
      4508103226997867 / 4503599627370496 := by
  rw [rounding_agg_fl, rounding_fold_fl]
  have p := fl_eval (8565396131295946 * (1 / 2251799813685248) /
      (8556839292003942 * (1 / 2251799813685248))) 0 4508103226997867
    (1 / 4503599627370496) (by norm_num) (by norm_num)
      (by norm_num) (by norm_num) (by rw [abs_lt]; constructor <;> norm_num)
  rw [p]
  norm_num

/-- C12, counterexamples: (1) a valid player who is not a rookie, with displayed rating 1,
real rating 5 and `total_weight = -2`, whose latest result is valid with rating 2 and
weight 1: the displayed rating becomes 5; (2) a valid player who is not a rookie, with
rating 1.001 and `total_weight = 3`, whose latest result is valid with rating 2.001 and
weight 0.8 (as doubles): the displayed rating becomes 1.0010000000000001, the double above
the rating before. -/
theorem player_update_rating_fl_harm :
    (player_is_rookie (fun _ => player_qualified_negative) player_qualified_negative.id
      = false ∧
    player_qualified_negative.valid ≠ 0 ∧ 0 < player_qualified_negative.rating ∧
    dq_ok player_qualified_negative.latest.dq = true ∧
    0 < player_qualified_negative.latest.weight ∧
    0 < player_qualified_negative.latest.rating ∧
    (player_update_rating_fl (fun _ => player_qualified_negative) 1 1).rating = 5 ∧
    player_qualified_negative.rating = 1) ∧
    (player_is_rookie (fun _ => player_rounding) player_rounding.id = false ∧
    player_rounding.valid ≠ 0 ∧ dq_ok player_rounding.latest.dq = true ∧
    player_rounding.total_weight = 3 ∧
    player_rounding.rating = 2254051613498933 / 2251799813685248 ∧
    player_rounding.latest.rating = 4505851427184181 / 2251799813685248 ∧
    player_rounding.latest.weight = 3602879701896397 / 4503599627370496 ∧
    (player_update_rating_fl (fun _ => player_rounding) 1 1).rating =
      4508103226997867 / 4503599627370496 ∧
    player_rounding.rating <
      (player_update_rating_fl (fun _ => player_rounding) 1 1).rating) := by
  have hneg : (player_update_rating_fl (fun _ => player_qualified_negative) 1 1).rating
      = 5 := by
    rw [(player_update_rating_fl_values (fun _ => player_qualified_negative) 1 (by decide)
      (by decide) _ _ rfl rfl).2]
    simp only [qualified_negative_fold_fl]
    norm_num [player_qualified_negative]
  have hrd : (player_update_rating_fl (fun _ => player_rounding) 1 1).rating =
      4508103226997867 / 4503599627370496 := by
    rw [(player_update_rating_fl_values (fun _ => player_rounding) 1 (by decide)
      (by decide) _ _ rfl rfl).2]
    simp only []
    have hf : fold_weight_fl player_rounding > 0 := by
      rw [rounding_fold_fl]
      norm_num
    rw [if_pos hf, if_pos hf, if_pos (qualified_not_rookie player_rounding rfl),
      rounding_quotient_fl]
    split_ifs with h1 h2
    · rfl
    · exact absurd h2 (by norm_num)
    · rfl
  refine ⟨⟨qualified_not_rookie _ rfl, by decide, ?_, by decide, ?_, ?_, hneg, ?_⟩,
    qualified_not_rookie _ rfl, by decide, by decide, rfl, rfl, rfl, rfl, hrd, ?_⟩
  · norm_num [player_qualified_negative]
  · norm_num [player_qualified_negative, zero_result]
  · norm_num [player_qualified_negative, zero_result]
  · norm_num [player_qualified_negative]
  · rw [hrd]
    norm_num [player_rounding]

theorem seasoned_use_fl : use_weight_fl player_seasoned = 1 := by
  unfold use_weight_fl player_seasoned
  norm_num [RATING_WEIGHT_CAP, zero_player, zero_result]

theorem is_double_three_halves : is_double (3 / 2) := by
  have := is_double_mul_pow 3 (-1) (by norm_num) (by norm_num)
  have e : ((3 : Int) : ℚ) * 2 ^ (-1 : Int) = 3 / 2 := by norm_num
  rwa [e] at this

theorem is_double_three : is_double 3 := by
  have := is_double_int 3 (by norm_num)
  exact_mod_cast this

/-- C12, instance: a valid player who is not a rookie, with rating 2 and
`total_weight = 1`, whose latest result is valid with rating 1 and weight 1, gets the
displayed rating `(2 * 1 + 1 * 1) / (1 + 1) = 3/2`, which is not greater than 2. -/
theorem player_update_rating_fl_no_harm_witness :
    (player_update_rating_fl (fun _ => player_seasoned) 1 1).rating = 3 / 2 ∧
    (player_update_rating_fl (fun _ => player_seasoned) 1 1).rating ≤
      player_seasoned.rating := by
  have hr : player_seasoned.rating = 2 := rfl
  have he : player_seasoned.latest.rating = 1 := rfl
  have hw : player_seasoned.latest.weight = 1 := rfl
  have htw : player_seasoned.total_weight = 1 := rfl
  have h := ((player_update_rating_fl_no_harm (fun _ => player_seasoned) 1 (by decide)
    (by decide)).1 (qualified_not_rookie _ rfl) (by rw [htw]; norm_num)
    (by rw [hr]; exact (pow_range 2 (by norm_num) (by norm_num)).1)
    (by rw [hr]; exact (pow_range 2 (by norm_num) (by norm_num)).2)
    (by rw [he]; exact (pow_range 1 (by norm_num) (by norm_num)).1)
    (by rw [he]; exact (pow_range 1 (by norm_num) (by norm_num)).2)
    (by rw [hw]; exact (pow_range 1 (by norm_num) (by norm_num)).1)
    (by rw [hw]; exact (pow_range 1 (by norm_num) (by norm_num)).2)).2.2
    (by rw [seasoned_use_fl, hr, mul_one]; exact is_double_two)
    (by rw [hr, he, hw]; norm_num; exact is_double_one)
    (by rw [seasoned_use_fl, hr, he, hw]; norm_num; exact is_double_three)
    (by rw [seasoned_use_fl, hw]; norm_num; exact is_double_two)
    (by rw [seasoned_use_fl, hr, he, hw]; norm_num; exact is_double_three_halves)
  refine ⟨?_, h.2⟩
  rw [h.1, seasoned_use_fl, hr, he, hw]
  norm_num

/-! ## C36: the tier a promotion stores, with rounding -/

theorem promotion_step_fl_spec (u : Bool) (p : player_t) :
    ((promotion_step_fl u p).2 = true →
      MIN_PROMOTION_EVENT_COUNT ≤ p.verified_count ∧ 1 < promotion_delta_fl p ∧
        (p.div > 1 ∨ p.sub_div > 0) ∧ p.rating ≠ 0) ∧
    ((promotion_step_fl u p).2 = false → (promotion_step_fl u p).1 = p) ∧
    (u = false → (promotion_step_fl u p).1 = p) := by
  unfold promotion_step_fl
  simp only []
  split_ifs with h1 h2 h3
  · exact ⟨fun h => absurd h (by decide), fun _ => rfl, fun _ => rfl⟩
  · exact ⟨fun _ => ⟨not_lt.mp h1, h2.2.2, h2.1, h2.2.1⟩, fun h => absurd h (by decide),
      fun h => absurd h3 (by rw [h]; decide)⟩
  · exact ⟨fun _ => ⟨not_lt.mp h1, h2.2.2, h2.1, h2.2.1⟩, fun h => absurd h (by decide),
      fun _ => rfl⟩
  · exact ⟨fun h => absurd h (by decide), fun _ => rfl, fun _ => rfl⟩

theorem promotion_step_fl_applied (p : player_t) (h : (promotion_step_fl true p).2 = true) :
    (promotion_step_fl true p).1 =
      { p with
        div := u32 (d2i p.rating)
        sub_div := u32 (d2i (fl (3 * fl (p.rating - ((d2i p.rating : Int) : ℚ))))) } := by
  have hs := (promotion_step_fl_spec true p).1 h
  unfold promotion_step_fl
  rw [if_neg (not_lt.mpr hs.1), if_pos ⟨hs.2.2.1, hs.2.2.2, hs.2.1⟩]
  simp only [if_true]

theorem promotion_step_fl_printed (u : Bool) (p : player_t)
    (h1 : MIN_PROMOTION_EVENT_COUNT ≤ p.verified_count)
    (h2 : (p.div > 1 ∨ p.sub_div > 0) ∧ p.rating ≠ 0 ∧ promotion_delta_fl p > 1) :
    (promotion_step_fl u p).2 = true := by
  unfold promotion_step_fl
  rw [if_neg (not_lt.mpr h1), if_pos h2]
  simp only []
  split_ifs <;> rfl

theorem promotion_loop_fl_skip (u : Bool) (l : List Nat) (db : Nat → player_t) (i : Nat)
    (hl : ∀ x ∈ l, x < MAX_PLAYERS) (hi : i ∉ l) :
    (promotion_loop_fl u db l).1 i = db i := by
  induction l generalizing db with
  | nil => rfl
  | cons idx rest ih =>
    have hne : i ≠ idx := fun h => hi (h ▸ List.mem_cons_self _ _)
    have hr : ∀ x ∈ rest, x < MAX_PLAYERS := fun x hx => hl x (List.mem_cons_of_mem _ hx)
    have hir : i ∉ rest := fun h => hi (List.mem_cons_of_mem _ h)
    simp only [promotion_loop_fl]
    by_cases hv : (player_get db idx).valid = TRUE
    · rw [if_pos hv]
      simp only []
      rw [ih _ hr hir, player_index_small idx (hl idx (List.mem_cons_self _ _)),
        Function.update_noteq hne]
    · rw [if_neg hv]
      exact ih db hr hir

theorem promotion_loop_fl_at (u : Bool) (l : List Nat) (db : Nat → player_t) (i : Nat)
    (hl : ∀ x ∈ l, x < MAX_PLAYERS) (hn : l.Nodup) (hi : i ∈ l) (hv : (db i).valid = TRUE) :
    (promotion_loop_fl u db l).1 i = (promotion_step_fl u (db i)).1 := by
  induction l generalizing db with
  | nil => cases hi
  | cons idx rest ih =>
    have hr : ∀ x ∈ rest, x < MAX_PLAYERS := fun x hx => hl x (List.mem_cons_of_mem _ hx)
    have hidx : player_index idx = idx := player_index_small idx (hl idx (List.mem_cons_self _ _))
    rw [List.nodup_cons] at hn
    simp only [promotion_loop_fl]
    by_cases he : i = idx
    · subst he
      have hv2 : (player_get db i).valid = TRUE := by
        rw [player_get_index, hidx]
        exact hv
      rw [if_pos hv2]
      simp only []
      rw [promotion_loop_fl_skip u rest _ i hr hn.1, hidx, Function.update_same,
        player_get_index, hidx]
    · have hir : i ∈ rest := by
        rcases List.mem_cons.1 hi with h | h
        · exact absurd h he
        · exact h
      by_cases hv2 : (player_get db idx).valid = TRUE
      · rw [if_pos hv2]
        simp only []
        rw [ih _ hr hn.2 hir (by rw [hidx, Function.update_noteq he]; exact hv), hidx,
          Function.update_noteq he]
      · rw [if_neg hv2]
        exact ih db hr hn.2 hir hv

theorem placement_step_fl_fix (u : Bool) (db : Nat → player_t) (q : player_t)
    (hd : q.div = u32 (d2i q.rating))
    (hs : q.sub_div = u32 (d2i (fl (3 * fl (q.rating - ((d2i q.rating : Int) : ℚ)))))) :
    (placement_step_fl u db q).1 = q := by
  unfold placement_step_fl
  simp only []
  split_ifs
  · rw [← hd, ← hs]
  · rfl
  · rfl

theorem placement_loop_fl_fix (u : Bool) (l : List Nat) (db : Nat → player_t) (i : Nat)
    (hd : (db i).div = u32 (d2i (db i).rating))
    (hs : (db i).sub_div =
      u32 (d2i (fl (3 * fl ((db i).rating - ((d2i (db i).rating : Int) : ℚ)))))) :
    (placement_loop_fl u db l).1 i = db i := by
  induction l generalizing db with
  | nil => rfl
  | cons idx rest ih =>
    simp only [placement_loop_fl]
    by_cases hv : (player_get db idx).valid = TRUE
    · rw [if_pos hv]
      simp only []
      by_cases he : i = player_index idx
      · have hg : player_get db idx = db i := by rw [player_get_index, he]
        have hst : (placement_step_fl u db (player_get db idx)).1 = db i := by
          rw [hg]
          exact placement_step_fl_fix u db (db i) hd hs
        rw [hst, ← he, Function.update_eq_self]
        exact ih db hd hs
      · have hk : (Function.update db (player_index idx)
            (placement_step_fl u db (player_get db idx)).1) i = db i :=
          Function.update_noteq he _ _
        rw [ih _ (by rw [hk]; exact hd) (by rw [hk]; exact hs), hk]
    · rw [if_neg hv]
      exact ih db hd hs

/-- The record of a promoted player after `dump_promotion_report`, with rounding. -/
theorem dump_promotion_report_fl_at (n : Nat) (s : state)
    (hfin : s.g_event.status = STATUS_FINAL)
    (hn : n < MAX_PLAYERS) (i : Nat) (h1 : 1 ≤ i) (h2 : i ≤ n)
    (hv : (s.player_db i).valid = TRUE)
    (hp : (promotion_step_fl true (s.player_db i)).2 = true) :
    (dump_promotion_report_fl n s).1.player_db i =
      { s.player_db i with
        div := u32 (d2i (s.player_db i).rating)
        sub_div := u32 (d2i (fl (3 * fl ((s.player_db i).rating -
          ((d2i (s.player_db i).rating : Int) : ℚ))))) } := by
  have hu : decide (s.g_event.status = STATUS_FINAL) = true := decide_eq_true hfin
  have ha : (promotion_loop_fl true s.player_db (player_iter n)).1 i =
      { s.player_db i with
        div := u32 (d2i (s.player_db i).rating)
        sub_div := u32 (d2i (fl (3 * fl ((s.player_db i).rating -
          ((d2i (s.player_db i).rating : Int) : ℚ))))) } := by
    rw [promotion_loop_fl_at true (player_iter n) s.player_db i
      (fun x hx => lt_of_le_of_lt ((player_iter_mem n x).1 hx).2 hn)
      (List.nodup_range' 1 n) ((player_iter_mem n i).2 ⟨h1, h2⟩) hv]
    exact promotion_step_fl_applied (s.player_db i) hp
  unfold dump_promotion_report_fl
  simp only [hu]
  rw [placement_loop_fl_fix true (player_iter n) _ i (by rw [ha]) (by rw [ha]), ha]

/-- A positive number of the binade `[2^e, 2^(e+1))` is rounded to an integer multiple of
`2^(e-52)`. -/
theorem fl_rep_at (x : ℚ) (e : Int) (he : -1022 ≤ e) (h1 : (2 : ℚ) ^ e ≤ x)
    (h2 : x < (2 : ℚ) ^ (e + 1)) :
    fl x = (round_even (x / 2 ^ (e - 52)) : ℚ) * 2 ^ (e - 52) := by
  have hpos : 0 < x := lt_of_lt_of_le (two_zpow_pos _) h1
  have hl := log2_unique x e h1 h2
  have hu : ulp_exp x = e - 52 := by
    rw [ulp_exp_pos x hpos, hl]
    exact max_eq_left (by omega)
  rw [fl_nonneg_eq x (le_of_lt hpos)]
  unfold flp
  rw [hu]

/-- A double that is at least 1 is an integer multiple of `2^-52`. -/
theorem double_grid (r : ℚ) (hd : is_double r) (h1 : 1 ≤ r) :
    ∃ j : Int, r = (j : ℚ) / 4503599627370496 := by
  have hpos : 0 < r := by linarith
  have hl : 0 ≤ Int.log 2 r := log2_ge r 0 hpos (by rwa [zpow_zero])
  have hu : -52 ≤ ulp_exp r := by
    rw [ulp_exp_pos r hpos]
    exact le_trans (by omega) (le_max_left _ _)
  have hrep : r = (round_even (r / 2 ^ ulp_exp r) : ℚ) * 2 ^ ulp_exp r := by
    have h := hd
    unfold is_double at h
    rw [fl_nonneg_eq r (le_of_lt hpos)] at h
    unfold flp at h
    exact h.symm
  have hk : (2 : ℚ) ^ ulp_exp r =
      (((2 : Int) ^ (ulp_exp r + 52).toNat : Int) : ℚ) / 4503599627370496 := by
    have e1 : ulp_exp r = ((ulp_exp r + 52).toNat : Int) + (-52) := by
      rw [Int.toNat_of_nonneg (by omega)]
      ring
    nth_rewrite 1 [e1]
    rw [two_zpow_add, zpow_natCast]
    push_cast
    norm_num
    ring
  refine ⟨round_even (r / 2 ^ ulp_exp r) * (2 : Int) ^ (ulp_exp r + 52).toNat, ?_⟩
  nth_rewrite 1 [hrep]
  rw [hk]
  push_cast
  ring

/-- The largest double below 1 is `1 - 2^-53`. -/
theorem double_below_one (r : ℚ) (hd : is_double r) (h1 : r < 1) :
    r ≤ 9007199254740991 / 9007199254740992 := by
  by_contra hc
  push_neg at hc
  have hlo : (2 : ℚ) ^ (-1 : Int) ≤ r := by
    have : (2 : ℚ) ^ (-1 : Int) = 1 / 2 := by norm_num
    rw [this]
    linarith
  have hhi : r < (2 : ℚ) ^ ((-1 : Int) + 1) := by
    norm_num
    exact h1
  have h := fl_rep_at r (-1) (by norm_num) hlo hhi
  have hq : (2 : ℚ) ^ ((-1 : Int) - 52) = 1 / 9007199254740992 := by norm_num
  rw [hd, hq] at h
  generalize round_even (r / (1 / 9007199254740992)) = n at h
  have a1 : (n : ℚ) < ((9007199254740992 : Int) : ℚ) := by
    push_cast
    linarith
  have a2 : ((9007199254740991 : Int) : ℚ) < (n : ℚ) := by
    push_cast
    linarith
  have b1 : n < 9007199254740992 := by exact_mod_cast a1
  have b2 : 9007199254740991 < n := by exact_mod_cast a2
  omega

/-- Three times a double below 1 is rounded to a double below 3. -/
theorem triple_below_three (r : ℚ) (hd : is_double r) (h1 : r < 1) :
    fl (3 * r) < 3 := by
  have hb := double_below_one r hd h1
  have hm : fl (3 * r) ≤ fl (3 * (9007199254740991 / 9007199254740992)) :=
    fl_mono (by linarith)
  have hv : fl (3 * (9007199254740991 / 9007199254740992)) =
      6755399441055743 * (1 / 2251799813685248) :=
    fl_eval _ 1 6755399441055743 (1 / 2251799813685248) (by norm_num) (by norm_num)
      (by norm_num) (by norm_num) (by rw [abs_lt]; constructor <;> norm_num)
  rw [hv] at hm
  have : (6755399441055743 : ℚ) * (1 / 2251799813685248) < 3 := by norm_num
  linarith

/-- The fractional part of a double that is at least 1 is a double, and three times it is
rounded without crossing an integer. -/
theorem triple_fraction_floor (r : ℚ) (hd : is_double r) (h1 : 1 ≤ r) :
    fl (r - (⌊r⌋ : ℚ)) = r - (⌊r⌋ : ℚ) ∧
    ⌊fl (3 * (r - (⌊r⌋ : ℚ)))⌋ = ⌊3 * (r - (⌊r⌋ : ℚ))⌋ := by
  obtain ⟨j, hj⟩ := double_grid r hd h1
  have hf0 : 0 ≤ r - (⌊r⌋ : ℚ) := by linarith [Int.floor_le r]
  have hf1 : r - (⌊r⌋ : ℚ) < 1 := by linarith [Int.lt_floor_add_one r]
  have hfj : r - (⌊r⌋ : ℚ) = ((j - ⌊r⌋ * 4503599627370496 : Int) : ℚ) / 4503599627370496 := by
    rw [hj]
    push_cast
    field_simp
    ring
  generalize j - ⌊r⌋ * 4503599627370496 = m at hfj
  generalize r - (⌊r⌋ : ℚ) = f at hf0 hf1 hfj
  have hm0 : 0 ≤ m := by
    have : (0 : ℚ) ≤ (m : ℚ) := by
      rw [hfj] at hf0
      have := (div_nonneg_iff.mp hf0)
      rcases this with a | a
      · exact a.1
      · linarith [a.2]
    exact_mod_cast this
  have hm1 : m < 4503599627370496 := by
    have : (m : ℚ) < ((4503599627370496 : Int) : ℚ) := by
      rw [hfj, div_lt_iff₀ (by norm_num)] at hf1
      push_cast
      linarith
    exact_mod_cast this
  have hdf : is_double f := by
    have := is_double_mul_pow m (-52) (by rw [abs_of_nonneg hm0]; omega) (by norm_num)
    have e : (m : ℚ) * 2 ^ (-52 : Int) = f := by
      rw [hfj]
      norm_num
      ring
    rwa [e] at this
  refine ⟨hdf, ?_⟩
  have hK0 : 0 ≤ ⌊3 * f⌋ := Int.floor_nonneg.mpr (by linarith)
  have hK3 : ⌊3 * f⌋ < 3 := by
    rw [Int.floor_lt]
    push_cast
    linarith
  have hle : (⌊3 * f⌋ : ℚ) ≤ fl (3 * f) :=
    fl_ge_of_ge (is_double_int _ (by rw [abs_of_nonneg hK0]; omega)) (Int.floor_le _)
  have hlt : 3 * f < (⌊3 * f⌋ : ℚ) + 1 := Int.lt_floor_add_one _
  have hm : (m : ℚ) = f * 4503599627370496 := by
    rw [hfj]
    field_simp
  generalize ⌊3 * f⌋ = K at hK0 hK3 hle hlt ⊢
  have hup : fl (3 * f) < (K : ℚ) + 1 := by
    have h3m : ((3 * m : Int) : ℚ) < (((K + 1) * 4503599627370496 : Int) : ℚ) := by
      push_cast
      rw [hm]
      linarith
    have h3i : 3 * m < (K + 1) * 4503599627370496 := by exact_mod_cast h3m
    have hcase : K = 0 ∨ K = 1 ∨ K = 2 := by omega
    rcases hcase with c | c | c
    · rw [c] at h3i ⊢
      have hb : 3 * f ≤ 4503599627370495 / 4503599627370496 := by
        have : ((3 * m : Int) : ℚ) ≤ ((4503599627370495 : Int) : ℚ) := by
          exact_mod_cast (show 3 * m ≤ 4503599627370495 by omega)
        push_cast at this
        rw [hm] at this
        linarith
      have hdb : is_double (4503599627370495 / 4503599627370496) := by
        have := is_double_mul_pow 4503599627370495 (-52) (by norm_num) (by norm_num)
        have e : ((4503599627370495 : Int) : ℚ) * 2 ^ (-52 : Int) =
            4503599627370495 / 4503599627370496 := by norm_num
        rwa [e] at this
      have := fl_le_of_le hdb hb
      push_cast
      linarith
    · rw [c] at h3i ⊢
      have hb : 3 * f ≤ 9007199254740991 / 4503599627370496 := by
        have : ((3 * m : Int) : ℚ) ≤ ((9007199254740991 : Int) : ℚ) := by
          exact_mod_cast (show 3 * m ≤ 9007199254740991 by omega)
        push_cast at this
        rw [hm] at this
        linarith
      have hdb : is_double (9007199254740991 / 4503599627370496) := by
        have := is_double_mul_pow 9007199254740991 (-52) (by norm_num) (by norm_num)
        have e : ((9007199254740991 : Int) : ℚ) * 2 ^ (-52 : Int) =
            9007199254740991 / 4503599627370496 := by norm_num
        rwa [e] at this
      have := fl_le_of_le hdb hb
      push_cast
      linarith
    · rw [c]
      have hb : 3 * f ≤ 6755399441055743 / 2251799813685248 := by
        have : ((3 * m : Int) : ℚ) ≤ ((13510798882111485 : Int) : ℚ) := by
          exact_mod_cast (show 3 * m ≤ 13510798882111485 by omega)
        push_cast at this
        rw [hm] at this
        linarith
      have hdb : is_double (6755399441055743 / 2251799813685248) := by
        have := is_double_mul_pow 6755399441055743 (-51) (by norm_num) (by norm_num)
        have e : ((6755399441055743 : Int) : ℚ) * 2 ^ (-51 : Int) =
            6755399441055743 / 2251799813685248 := by norm_num
        rwa [e] at this
      have := fl_le_of_le hdb hb
      push_cast
      linarith
  rw [Int.floor_eq_iff]
  exact ⟨hle, hup⟩

/-- Three times a double between 0 and 1 is rounded to a value whose integer part is the
integer part of the exact product or one more. -/
theorem triple_small_floor (r : ℚ) (h0 : 0 ≤ r) (h1 : r < 1) :
    ⌊3 * r⌋ ≤ ⌊fl (3 * r)⌋ ∧ ⌊fl (3 * r)⌋ ≤ ⌊3 * r⌋ + 1 := by
  have hK0 : 0 ≤ ⌊3 * r⌋ := Int.floor_nonneg.mpr (by linarith)
  have hK3 : ⌊3 * r⌋ < 3 := by
    rw [Int.floor_lt]
    push_cast
    linarith
  have hle : (⌊3 * r⌋ : ℚ) ≤ fl (3 * r) :=
    fl_ge_of_ge (is_double_int _ (by rw [abs_of_nonneg hK0]; omega)) (Int.floor_le _)
  have herr := fl_le_abs (3 * r) (by linarith)
  have hη : (2 : ℚ) ^ (-1075 : Int) ≤ 1 / 2 := by
    have : (2 : ℚ) ^ (-1 : Int) = 1 / 2 := by norm_num
    rw [← this]
    exact two_zpow_le (by norm_num)
  constructor
  · exact Int.le_floor.mpr hle
  · have hlt : 3 * r < (⌊3 * r⌋ : ℚ) + 1 := Int.lt_floor_add_one _
    have : fl (3 * r) < ((⌊3 * r⌋ + 1 + 1 : Int) : ℚ) := by
      push_cast
      linarith
    have := Int.floor_lt.mpr this
    omega

/-- A player the rounded promotion step promotes has `3 * rating` below the old tier
index, as in exact arithmetic. -/
theorem promoted_rating_fl_bound (p : player_t)
    (h : (promotion_step_fl true p).2 = true) :
    fl (p.rating * 3) <
      ((u32 ((p.div : Int) * 3 + (p.sub_div : Int) + 1) : Nat) : ℚ) - 1 ∧
    3 * p.rating < ((u32 ((p.div : Int) * 3 + (p.sub_div : Int) + 1) : Nat) : ℚ) - 1 ∧
    p.rating < 1431655765 := by
  have hs := ((promotion_step_fl_spec true p).1 h).2.1
  unfold promotion_delta_fl at hs
  have hu := u32_lt ((p.div : Int) * 3 + (p.sub_div : Int) + 1)
  generalize u32 ((p.div : Int) * 3 + (p.sub_div : Int) + 1) = U at hs hu ⊢
  have hq : (U : ℚ) ≤ 4294967295 := by
    have : U ≤ 4294967295 := by omega
    exact_mod_cast this
  have h1 : fl (p.rating * 3) < (U : ℚ) - 1 := by
    by_contra hc
    push_neg at hc
    have := fl_le_of_le is_double_one (show (U : ℚ) - fl (p.rating * 3) ≤ 1 by linarith)
    linarith
  have hdU : is_double ((U : ℚ) - 1) := by
    have := is_double_int ((U : Int) - 1) (by rw [abs_le]; constructor <;> omega)
    push_cast at this
    exact this
  have h2 : 3 * p.rating < (U : ℚ) - 1 := by
    by_contra hc
    push_neg at hc
    have := fl_ge_of_ge hdU (show (U : ℚ) - 1 ≤ p.rating * 3 by linarith)
    linarith
  exact ⟨h1, h2, by linarith⟩

/-- C36 (amended): when the promotion pass of `dump_promotion_report` on a final event
promotes a valid player `i` (in `1 .. max_player_id`, `max_player_id < MAX_PLAYERS`) whose
rating is a double above 0, the record afterwards has `3 * div + sub_div` equal to the
integer part of `3 * rating` when the rating is 1 or more; when the rating is below 1 it
equals the integer part of the double product `3 * rating`, which is the integer part of
`3 * rating` or one more. In both cases it is strictly below the `3 * div + sub_div` of
the record before, and `sub_div` is 0, 1 or 2. -/
theorem promotion_tier_fl (max_player_id : Nat) (s : state)
    (hfin : s.g_event.status = STATUS_FINAL) (hn : max_player_id < MAX_PLAYERS)
    (i : Nat) (h1 : 1 ≤ i) (h2 : i ≤ max_player_id)
    (hv : (s.player_db i).valid = TRUE)
    (hp : (promotion_step_fl true (s.player_db i)).2 = true)
    (hr : 0 < (s.player_db i).rating) (hd : is_double (s.player_db i).rating) :
    (1 ≤ (s.player_db i).rating →
      3 * (((dump_promotion_report_fl max_player_id s).1.player_db i).div : Int) +
          (((dump_promotion_report_fl max_player_id s).1.player_db i).sub_div : Int) =
        ⌊3 * (s.player_db i).rating⌋) ∧
    ((s.player_db i).rating < 1 →
      3 * (((dump_promotion_report_fl max_player_id s).1.player_db i).div : Int) +
          (((dump_promotion_report_fl max_player_id s).1.player_db i).sub_div : Int) =
        ⌊fl (3 * (s.player_db i).rating)⌋ ∧
      ⌊3 * (s.player_db i).rating⌋ ≤ ⌊fl (3 * (s.player_db i).rating)⌋ ∧
      ⌊fl (3 * (s.player_db i).rating)⌋ ≤ ⌊3 * (s.player_db i).rating⌋ + 1) ∧
    3 * ((dump_promotion_report_fl max_player_id s).1.player_db i).div +
        ((dump_promotion_report_fl max_player_id s).1.player_db i).sub_div <
      3 * (s.player_db i).div + (s.player_db i).sub_div ∧
    ((dump_promotion_report_fl max_player_id s).1.player_db i).sub_div ≤ 2 := by
  rw [dump_promotion_report_fl_at max_player_id s hfin hn i h1 h2 hv hp]
  obtain ⟨b0, b1, b2⟩ := promoted_rating_fl_bound (s.player_db i) hp
  obtain ⟨t1, t2, t3, t4, t5, t6⟩ := tier_floor (s.player_db i).rating (le_of_lt hr) b2
  have hu := u32_le (((s.player_db i).div : Int) * 3 + ((s.player_db i).sub_div : Int) + 1)
    (by positivity)
  have hT : (((u32 (((s.player_db i).div : Int) * 3 + ((s.player_db i).sub_div : Int) + 1)
      : Nat) : Int) : ℚ) ≤
      ((((s.player_db i).div : Int) * 3 + ((s.player_db i).sub_div : Int) + 1 : Int) : ℚ) := by
    exact_mod_cast hu
  push_cast at hT
  have hdv : ((u32 (d2i (s.player_db i).rating) : Nat) : Int) = ⌊(s.player_db i).rating⌋ := by
    rw [t1, u32_cast]
    omega
  generalize hS : d2i (fl (3 * fl ((s.player_db i).rating -
      ((d2i (s.player_db i).rating : Int) : ℚ)))) = S
  have key : (1 ≤ (s.player_db i).rating →
        S = ⌊3 * (s.player_db i).rating⌋ - 3 * ⌊(s.player_db i).rating⌋) ∧
      ((s.player_db i).rating < 1 →
        ⌊(s.player_db i).rating⌋ = 0 ∧ S = ⌊fl (3 * (s.player_db i).rating)⌋) ∧
      0 ≤ S ∧ S ≤ 2 ∧
      3 * ⌊(s.player_db i).rating⌋ + S <
        ((s.player_db i).div : Int) * 3 + ((s.player_db i).sub_div : Int) := by
    rw [t1] at hS
    by_cases hge : 1 ≤ (s.player_db i).rating
    · obtain ⟨f1, f2⟩ := triple_fraction_floor (s.player_db i).rating hd hge
      have hf0 : 0 ≤ (s.player_db i).rating - (⌊(s.player_db i).rating⌋ : ℚ) := by
        linarith [Int.floor_le (s.player_db i).rating]
      have hSv : S = ⌊3 * (s.player_db i).rating⌋ - 3 * ⌊(s.player_db i).rating⌋ := by
        rw [← hS, f1, d2i_eq, if_pos (fl_nonneg _ (by linarith)), f2, ← t4, t1, d2i_eq,
          if_pos (by linarith)]
      have hfl : ⌊3 * (s.player_db i).rating⌋ <
          ((s.player_db i).div : Int) * 3 + ((s.player_db i).sub_div : Int) := by
        rw [Int.floor_lt]
        push_cast
        linarith
      refine ⟨fun _ => hSv, fun h => absurd hge (not_le.mpr h), ?_, ?_, ?_⟩
      · rw [hSv]
        exact t5
      · rw [hSv]
        exact t6
      · rw [hSv]
        omega
    · have hlt : (s.player_db i).rating < 1 := not_le.mp hge
      have hz : ⌊(s.player_db i).rating⌋ = 0 := by
        rw [Int.floor_eq_iff]
        constructor
        · push_cast
          exact le_of_lt hr
        · push_cast
          linarith
      rw [hz, Int.cast_zero, sub_zero, fl_of_double hd, d2i_eq,
        if_pos (fl_nonneg _ (by linarith))] at hS
      have h3 := triple_below_three (s.player_db i).rating hd hlt
      have hS0 : 0 ≤ S := by
        rw [← hS]
        exact Int.floor_nonneg.mpr (fl_nonneg _ (by linarith))
      have hS2 : S < 3 := by
        rw [← hS, Int.floor_lt]
        push_cast
        exact h3
      have hST : S < ((s.player_db i).div : Int) * 3 + ((s.player_db i).sub_div : Int) := by
        rw [← hS, Int.floor_lt]
        push_cast
        have e : 3 * (s.player_db i).rating = (s.player_db i).rating * 3 := mul_comm _ _
        rw [e]
        linarith
      refine ⟨fun h => absurd h hge, fun _ => ⟨hz, hS.symm⟩, hS0, by omega, ?_⟩
      rw [hz]
      omega
  obtain ⟨k1, k2, k3, k4, k5⟩ := key
  have hsd : ((u32 S : Nat) : Int) = S := by
    rw [u32_cast]
    omega
  refine ⟨?_, ?_, ?_, ?_⟩
  · intro hge
    show 3 * ((u32 (d2i (s.player_db i).rating) : Nat) : Int) + ((u32 S : Nat) : Int) = _
    rw [hdv, hsd, k1 hge]
    ring
  · intro hlt
    obtain ⟨hz, hSv⟩ := k2 hlt
    refine ⟨?_, triple_small_floor _ (le_of_lt hr) hlt⟩
    show 3 * ((u32 (d2i (s.player_db i).rating) : Nat) : Int) + ((u32 S : Nat) : Int) = _
    rw [hdv, hsd, hz, hSv]
    ring
  · show 3 * u32 (d2i (s.player_db i).rating) + u32 S < _
    omega
  · show u32 S ≤ 2
    omega

theorem is_double_third : is_double (6004799503160661 / 18014398509481984) := by
  have := is_double_mul_pow 6004799503160661 (-54) (by norm_num) (by norm_num)
  have e : ((6004799503160661 : Int) : ℚ) * 2 ^ (-54 : Int) =
      6004799503160661 / 18014398509481984 := by norm_num
  rwa [e] at this

theorem is_double_five_halves : is_double (5 / 2) := by
  have := is_double_mul_pow 5 (-1) (by norm_num) (by norm_num)
  have e : ((5 : Int) : ℚ) * 2 ^ (-1 : Int) = 5 / 2 := by norm_num
  rwa [e] at this

/-- Three times the double nearest to 1/3 is rounded to 1. -/
theorem triple_third : fl (3 * (6004799503160661 / 18014398509481984)) = 1 := by
  have h := fl_eval_tie (3 * (6004799503160661 / 18014398509481984)) (-1)
    9007199254740991 9007199254740992 (1 / 9007199254740992)
    (by norm_num) (by norm_num) (by norm_num) (by norm_num) (by norm_num) (by decide)
  rw [h]
  norm_num

theorem player_third_promoted : (promotion_step_fl true player_third).2 = true := by
  apply promotion_step_fl_printed true player_third (by decide)
  refine ⟨Or.inr (by decide), ?_, ?_⟩
  · show (6004799503160661 / 18014398509481984 : ℚ) ≠ 0
    norm_num
  · have h : u32 ((player_third.div : Int) * 3 + (player_third.sub_div : Int) + 1) = 5 := by
      unfold u32
      decide
    unfold promotion_delta_fl
    rw [h]
    have hr : player_third.rating = 6004799503160661 / 18014398509481984 := rfl
    rw [hr, mul_comm, triple_third]
    have h4 : fl (((5 : Nat) : ℚ) - 1) = 4 := by
      have := is_double_int 4 (by norm_num)
      norm_num
      exact_mod_cast this
    rw [h4]
    norm_num

theorem player_climbing_promoted : (promotion_step_fl true player_climbing).2 = true := by
  apply promotion_step_fl_printed true player_climbing (by decide)
  refine ⟨Or.inl (by decide), ?_, ?_⟩
  · show (5 / 2 : ℚ) ≠ 0
    norm_num
  · have h : u32 ((player_climbing.div : Int) * 3 + (player_climbing.sub_div : Int) + 1) =
        12 := by
      unfold u32
      decide
    unfold promotion_delta_fl
    rw [h]
    have hr : player_climbing.rating = 5 / 2 := rfl
    rw [hr]
    have h1 : fl ((5 / 2 : ℚ) * 3) = 15 / 2 := by
      have := is_double_mul_pow 15 (-1) (by norm_num) (by norm_num)
      have e : ((15 : Int) : ℚ) * 2 ^ (-1 : Int) = 5 / 2 * 3 := by norm_num
      rw [e] at this
      rw [fl_of_double this]
      norm_num
    rw [h1]
    have h2 : fl (((12 : Nat) : ℚ) - 15 / 2) = 9 / 2 := by
      have := is_double_mul_pow 9 (-1) (by norm_num) (by norm_num)
      have e : ((9 : Int) : ℚ) * 2 ^ (-1 : Int) = ((12 : Nat) : ℚ) - 15 / 2 := by norm_num
      rw [e] at this
      rw [fl_of_double this]
      norm_num
    rw [h2]
    norm_num

/-- C36, counterexample: in a final event the valid player 1 of division 1, sub-division
1, with 4 verified results and the double nearest to 1/3 as rating is promoted (the
rounded `3 * rating` is 1) to division 0, sub-division 1: `3 * div + sub_div = 1`, while
the integer part of `3 * rating` is 0. -/
theorem promotion_tier_fl_rounded :
    (final_state player_third).g_event.status = STATUS_FINAL ∧
    ((final_state player_third).player_db 1).valid = TRUE ∧
    (promotion_step_fl true ((final_state player_third).player_db 1)).2 = true ∧
    0 < ((final_state player_third).player_db 1).rating ∧
    ((dump_promotion_report_fl 3 (final_state player_third)).1.player_db 1).div = 0 ∧
    ((dump_promotion_report_fl 3 (final_state player_third)).1.player_db 1).sub_div = 1 ∧
    ⌊3 * ((final_state player_third).player_db 1).rating⌋ = 0 := by
  have hr : ((final_state player_third).player_db 1).rating =
      6004799503160661 / 18014398509481984 := rfl
  have hat := dump_promotion_report_fl_at 3 (final_state player_third) rfl (by decide) 1
    (by decide) (by decide) rfl player_third_promoted
  have hdz : d2i ((final_state player_third).player_db 1).rating = 0 := by
    rw [hr, d2i_eq, if_pos (by norm_num), Int.floor_eq_iff]
    constructor <;> norm_num
  refine ⟨rfl, rfl, player_third_promoted, by rw [hr]; norm_num, ?_, ?_, ?_⟩
  · rw [hat]
    show u32 (d2i ((final_state player_third).player_db 1).rating) = 0
    rw [hdz]
    exact u32_small 0 (by norm_num)
  · rw [hat]
    show u32 (d2i (fl (3 * fl (((final_state player_third).player_db 1).rating -
      ((d2i ((final_state player_third).player_db 1).rating : Int) : ℚ))))) = 1
    rw [hdz, hr, Int.cast_zero, sub_zero, fl_of_double is_double_third, triple_third]
    have : d2i (1 : ℚ) = 1 := by
      have := d2i_int 1
      exact_mod_cast this
    rw [this]
    exact u32_small 1 (by norm_num)
  · rw [hr, Int.floor_eq_iff]
    constructor <;> norm_num

/-- C36, instance: in a final event the valid player 1 of division 3, sub-division 2
(`3 * div + sub_div = 11`) with rating 2.5 is promoted to `3 * div + sub_div = 7`. -/
theorem promotion_tier_fl_witness :
    1 ≤ ((final_state player_climbing).player_db 1).rating ∧
    (3 * (((dump_promotion_report_fl 3 (final_state player_climbing)).1.player_db 1).div
          : Int) +
        (((dump_promotion_report_fl 3 (final_state player_climbing)).1.player_db 1).sub_div
          : Int) =
      ⌊3 * ((final_state player_climbing).player_db 1).rating⌋) ∧
    3 * ((dump_promotion_report_fl 3 (final_state player_climbing)).1.player_db 1).div +
        ((dump_promotion_report_fl 3 (final_state player_climbing)).1.player_db 1).sub_div <
      3 * ((final_state player_climbing).player_db 1).div +
        ((final_state player_climbing).player_db 1).sub_div ∧
    ((dump_promotion_report_fl 3 (final_state player_climbing)).1.player_db 1).sub_div ≤ 2 :=
  have hr : ((final_state player_climbing).player_db 1).rating = 5 / 2 := rfl
  have h1 : 1 ≤ ((final_state player_climbing).player_db 1).rating := by
    rw [hr]
    norm_num
  have h := promotion_tier_fl 3 (final_state player_climbing) rfl (by decide) 1 (by decide)
    (by decide) rfl player_climbing_promoted (by rw [hr]; norm_num)
    (by rw [hr]; exact is_double_five_halves)
  ⟨h1, h.1 h1, h.2.2.1, h.2.2.2⟩

/-! ## C1: order of the thresholds, with rounding -/

/-- A positive double is an integer multiple of its unit in the last place. -/
theorem double_rep (x : ℚ) (hd : is_double x) (h0 : 0 < x) :
    x = (round_even (x / 2 ^ ulp_exp x) : ℚ) * 2 ^ ulp_exp x := by
  have h := hd
  unfold is_double at h
  rw [fl_nonneg_eq x (le_of_lt h0)] at h
  unfold flp at h
  exact h.symm

/-- The difference of two positive doubles `a <= b <= 2 * a` is a double (no rounding in
`b - a`). -/
theorem sub_exact (a b : ℚ) (ha : is_double a) (hb : is_double b) (h0 : 0 < a)
    (h1 : a ≤ b) (h2 : b ≤ 2 * a) : is_double (b - a) := by
  have hua := ulp_exp_mono a b h0 h1
  have ra := double_rep a ha h0
  have rb := double_rep b hb (lt_of_lt_of_le h0 h1)
  generalize round_even (a / 2 ^ ulp_exp a) = na at ra
  generalize round_even (b / 2 ^ ulp_exp b) = nb at rb
  have hk : (2 : ℚ) ^ ulp_exp b =
      (((2 : Int) ^ (ulp_exp b - ulp_exp a).toNat : Int) : ℚ) * 2 ^ ulp_exp a := by
    have e1 : ulp_exp b = ((ulp_exp b - ulp_exp a).toNat : Int) + ulp_exp a := by
      rw [Int.toNat_of_nonneg (by omega)]
      ring
    nth_rewrite 1 [e1]
    rw [two_zpow_add, zpow_natCast]
    push_cast
    rfl
  have hq := two_zpow_pos (ulp_exp a)
  have hrep : b - a =
      ((nb * (2 : Int) ^ (ulp_exp b - ulp_exp a).toNat - na : Int) : ℚ) * 2 ^ ulp_exp a := by
    nth_rewrite 1 [rb, ra]
    rw [hk]
    push_cast
    ring
  generalize nb * (2 : Int) ^ (ulp_exp b - ulp_exp a).toNat - na = m at hrep
  have hm0 : 0 ≤ m := by
    have : (0 : ℚ) ≤ (m : ℚ) * 2 ^ ulp_exp a := by
      rw [← hrep]
      linarith
    have : (0 : ℚ) ≤ (m : ℚ) := by
      rcases le_or_lt 0 (m : ℚ) with h | h
      · exact h
      · have := mul_neg_of_neg_of_pos h hq
        linarith
    exact_mod_cast this
  have hm1 : m ≤ 2 ^ 53 := by
    have hs := scaled_lt a h0
    rw [div_lt_iff₀ hq] at hs
    have : (m : ℚ) * 2 ^ ulp_exp a < 2 ^ (53 : Int) * 2 ^ ulp_exp a := by
      rw [← hrep]
      linarith
    have h3 : (m : ℚ) < 2 ^ (53 : Int) := lt_of_mul_lt_mul_right this (le_of_lt hq)
    have h4 : (m : ℚ) < ((2 ^ 53 : Int) : ℚ) := by
      push_cast
      have e : (2 : ℚ) ^ (53 : Int) = 2 ^ 53 := by norm_num
      rw [e] at h3
      exact h3
    have : m < 2 ^ 53 := by exact_mod_cast h4
    omega
  rw [hrep]
  exact is_double_mul_pow m (ulp_exp a) (by rw [abs_of_nonneg hm0]; exact hm1) (ulp_exp_ge a)

/-- The integer fields `time_from_usec` stores do not depend on the rounding of the
`time` field. -/
theorem time_to_from_usec_fl (u : Int) :
    time_to_usec (time_from_usec_fl u) = time_to_usec (time_from_usec u) := by
  unfold time_to_usec time_from_usec_fl time_from_usec
  simp only []

theorem time_from_usec_fl_time (u : Int) :
    (time_from_usec_fl u).time = fl ((u : ℚ) / 1000) := rfl

/-- Milliseconds converted to seconds and back lose at most one millisecond. -/
theorem milli_round_trip (n : Int) (h0 : 0 < n) (h1 : n < 2147483648) :
    ((n - 1 : Int) : ℚ) ≤ fl (fl ((n : ℚ) / 1000) * 1000) := by
  have hn : (1 : ℚ) ≤ (n : ℚ) := by exact_mod_cast h0
  have hn1 : (n : ℚ) < 2147483648 := by exact_mod_cast h1
  have hsmall : (2 : ℚ) ^ (-1022 : Int) ≤ 1 / 2000 := by
    refine le_trans (two_zpow_le (show (-1022 : Int) ≤ -11 by norm_num)) ?_
    norm_num
  have hx1 : (1 / 1000 : ℚ) ≤ (n : ℚ) / 1000 := by
    rw [div_le_div_iff₀ (by norm_num) (by norm_num)]
    linarith
  have e1 := fl_ge_rel ((n : ℚ) / 1000) (by linarith) (by linarith)
  have hx2 : (n : ℚ) * (1 - 1 / 9007199254740992) ≤ fl ((n : ℚ) / 1000) * 1000 := by
    linarith
  have hx3 : (1 / 2 : ℚ) ≤ fl ((n : ℚ) / 1000) * 1000 := by
    have : (1 : ℚ) * (1 - 1 / 9007199254740992) ≤ (n : ℚ) * (1 - 1 / 9007199254740992) :=
      mul_le_mul_of_nonneg_right hn (by norm_num)
    linarith
  have e2 := fl_ge_rel (fl ((n : ℚ) / 1000) * 1000) (by linarith) (by linarith)
  have hx4 : (n : ℚ) * (1 - 1 / 9007199254740992) * (1 - 1 / 9007199254740992) ≤
      fl ((n : ℚ) / 1000) * 1000 * (1 - 1 / 9007199254740992) :=
    mul_le_mul_of_nonneg_right hx2 (by norm_num)
  push_cast
  linarith

theorem calculate_par_thresholds_fl_eq (s : state) (d : Nat) :
    calculate_par_thresholds_fl s d =
      if 1 ≤ d ∧ d ≤ DIV_COUNT then calculate_par_div_fl s d (s.div_stat d)
      else s.div_stat d := by
  unfold calculate_par_thresholds_fl
  rw [foldl_update_eq (fun div st => calculate_par_div_fl s div st) _
    (List.nodup_range' 1 DIV_COUNT)]
  simp only [List.mem_range'_1, DIV_COUNT]
  by_cases h : 1 ≤ d ∧ d ≤ 8
  · rw [if_pos h, if_pos (by omega)]
  · rw [if_neg h, if_neg (by omega)]

theorem calculate_par_fl_thr (sqrt : ℚ → ℚ) (s : state) (d : Nat) :
    ((calculate_par_fl sqrt s).div_stat d).thr = (calculate_par_thresholds_fl s d).thr := by
  unfold calculate_par_fl
  simp only []
  rw [par_quality_dev_thr, thr_update _ _ _ (par_reset_dev_thr _), par_quality_mean_thr,
    thr_update _ _ _ (par_reset_mean_thr _)]

/-- The thresholds `calculate_par` stores for a division, with rounding. -/
theorem calculate_par_fl_stat (sqrt : ℚ → ℚ) (s : state) (d : Nat) (hd1 : 1 ≤ d)
    (hd2 : d ≤ DIV_COUNT) :
    ((calculate_par_fl sqrt s).div_stat d).par = par_of_fl s d ∧
    ((calculate_par_fl sqrt s).div_stat d).gold =
      time_from_usec_fl (d2i (fl (gold_time_fl s d * 1000))) ∧
    ((calculate_par_fl sqrt s).div_stat d).silver =
      time_from_usec_fl (d2i (fl (silver_time_fl s d * 1000))) ∧
    ((calculate_par_fl sqrt s).div_stat d).bronze =
      time_from_usec_fl (d2i (fl (bronze_time_fl s d * 1000))) := by
  have h := calculate_par_fl_thr sqrt s d
  rw [calculate_par_thresholds_fl_eq, if_pos ⟨hd1, hd2⟩] at h
  unfold stat_t.thr calculate_par_div_fl at h
  simp only [Prod.mk.injEq] at h
  exact h

/-- The order of the rounded times of a division, from which the order of the stored
milliseconds follows. -/
theorem par_times_fl_order (s : state) (d : Nat)
    (hpos : 0 < par_msec_fl s d)
    (hpb : (par_of_fl s d).time ≤ bronze_time_fl s d)
    (hst : bronze_time_fl s d ≤ 2 * (par_of_fl s d).time)
    (hg : 0 ≤ s.g_event.trophy_multiple 0 + s.custom_trophy_adjust d)
    (hgs : s.g_event.trophy_multiple 0 ≤ s.g_event.trophy_multiple 1)
    (hs : s.g_event.trophy_multiple 1 + s.custom_trophy_adjust d ≤ 1) :
    (par_of_fl s d).time ≤ gold_time_fl s d ∧ gold_time_fl s d ≤ silver_time_fl s d ∧
    silver_time_fl s d ≤ bronze_time_fl s d := by
  have hp : (par_of_fl s d).time = fl ((par_msec_fl s d : ℚ) / 1000) := rfl
  have hdp : is_double (par_of_fl s d).time := by
    rw [hp]
    exact is_double_fl _
  have hdb : is_double (bronze_time_fl s d) := by
    unfold bronze_time_fl
    exact is_double_fl _
  have hp0 : 0 < (par_of_fl s d).time := by
    rw [hp]
    have h1 : (1 : ℚ) ≤ (par_msec_fl s d : ℚ) := by exact_mod_cast hpos
    have hd : is_double ((2 : ℚ) ^ (-10 : Int)) := is_double_two_pow _ (by norm_num)
    refine fl_pos_of_double hd (two_zpow_pos _) ?_
    have e : (2 : ℚ) ^ (-10 : Int) = 1 / 1024 := by norm_num
    rw [e, div_le_div_iff₀ (by norm_num) (by norm_num)]
    linarith
  have hsp : par_span_fl s d = bronze_time_fl s d - (par_of_fl s d).time := by
    unfold par_span_fl
    exact sub_exact _ _ hdp hdb hp0 hpb hst
  have hsp0 : 0 ≤ par_span_fl s d := by
    rw [hsp]
    linarith
  have hdsp : is_double (par_span_fl s d) := by
    unfold par_span_fl
    exact is_double_fl _
  have hc0 : 0 ≤ fl (s.g_event.trophy_multiple 0 + s.custom_trophy_adjust d) :=
    fl_nonneg _ hg
  have hc01 : fl (s.g_event.trophy_multiple 0 + s.custom_trophy_adjust d) ≤
      fl (s.g_event.trophy_multiple 1 + s.custom_trophy_adjust d) := fl_mono (by linarith)
  have hc1 : fl (s.g_event.trophy_multiple 1 + s.custom_trophy_adjust d) ≤ 1 :=
    fl_le_of_le is_double_one hs
  refine ⟨?_, ?_, ?_⟩
  · unfold gold_time_fl
    apply fl_ge_of_ge hdp
    have := fl_nonneg _ (mul_nonneg hsp0 hc0)
    linarith
  · unfold gold_time_fl silver_time_fl
    apply fl_mono
    have := fl_mono (mul_le_mul_of_nonneg_left hc01 hsp0)
    linarith
  · unfold silver_time_fl
    apply fl_le_of_le hdb
    have h1 : par_span_fl s d *
        fl (s.g_event.trophy_multiple 1 + s.custom_trophy_adjust d) ≤ par_span_fl s d := by
      have := mul_le_mul_of_nonneg_left hc1 hsp0
      linarith
    have := fl_le_of_le hdsp h1
    linarith

theorem milli_mono {x y : ℚ} (h : x ≤ y) : d2i (fl (x * 1000)) ≤ d2i (fl (y * 1000)) :=
  d2i_mono (fl_mono (by linarith))

/-- C1 (amended): for a division `d` in `1..DIV_COUNT` whose par time is positive and not
above the bronze time, with the bronze time at most twice the par time (both as the
doubles `calculate_par` holds), whose trophy fractions plus custom adjustment satisfy
`0 <= f0 + adj`, `f0 <= f1` and `f1 + adj <= 1`, and whose par and bronze thresholds fit a
32-bit `int` of milliseconds (inputs at most `2^300`, so that no operation overflows), the
thresholds stored by `calculate_par` satisfy `par - 1 <= gold <= silver <= bronze` in total
milliseconds, and `par <= gold` when the par time converted back to milliseconds,
`par.time * 1000.0`, is not below the stored par. -/
theorem calculate_par_fl_ordered (sqrt : ℚ → ℚ) (s : state) (d : Nat) (hd1 : 1 ≤ d)
    (hd2 : d ≤ DIV_COUNT)
    (_ : par_inputs_bounded s d)
    (hpos : 0 < par_msec_fl s d) (hlt : par_msec_fl s d < 2147483648)
    (hpb : (par_of_fl s d).time ≤ bronze_time_fl s d)
    (hst : bronze_time_fl s d ≤ 2 * (par_of_fl s d).time)
    (hg : 0 ≤ s.g_event.trophy_multiple 0 + s.custom_trophy_adjust d)
    (hgs : s.g_event.trophy_multiple 0 ≤ s.g_event.trophy_multiple 1)
    (hs : s.g_event.trophy_multiple 1 + s.custom_trophy_adjust d ≤ 1)
    (hhi : d2i (fl (bronze_time_fl s d * 1000)) < 2147483648) :
    time_to_usec ((calculate_par_fl sqrt s).div_stat d).par - 1 ≤
        time_to_usec ((calculate_par_fl sqrt s).div_stat d).gold ∧
      (((par_msec_fl s d : Int) : ℚ) ≤ fl ((par_of_fl s d).time * 1000) →
        time_to_usec ((calculate_par_fl sqrt s).div_stat d).par ≤
          time_to_usec ((calculate_par_fl sqrt s).div_stat d).gold) ∧
      time_to_usec ((calculate_par_fl sqrt s).div_stat d).gold ≤
        time_to_usec ((calculate_par_fl sqrt s).div_stat d).silver ∧
      time_to_usec ((calculate_par_fl sqrt s).div_stat d).silver ≤
        time_to_usec ((calculate_par_fl sqrt s).div_stat d).bronze := by
  obtain ⟨hp, hgo, hsi, hbr⟩ := calculate_par_fl_stat sqrt s d hd1 hd2
  rw [hp, hgo, hsi, hbr]
  obtain ⟨o1, o2, o3⟩ := par_times_fl_order s d hpos hpb hst hg hgs hs
  have hpt : (par_of_fl s d).time = fl ((par_msec_fl s d : ℚ) / 1000) := rfl
  have m1 : d2i (fl ((par_of_fl s d).time * 1000)) ≤ d2i (fl (gold_time_fl s d * 1000)) :=
    milli_mono o1
  have m2 := milli_mono o2
  have m3 := milli_mono o3
  have r1 : par_msec_fl s d - 1 ≤ d2i (fl ((par_of_fl s d).time * 1000)) := by
    have := d2i_mono (milli_round_trip (par_msec_fl s d) hpos hlt)
    rw [d2i_int, ← hpt] at this
    exact this
  have hpar : time_to_usec (par_of_fl s d) = par_msec_fl s d := by
    unfold par_of_fl
    rw [time_to_from_usec_fl, time_to_from_usec, i32_of_range _ (by omega) (by omega)]
  rw [hpar]
  simp only [time_to_from_usec_fl, time_to_from_usec]
  rw [i32_of_range _ (by omega) (by omega), i32_of_range _ (by omega) (by omega),
    i32_of_range _ (by omega) (by omega)]
  refine ⟨by omega, ?_, m2, m3⟩
  intro hrt
  have := d2i_mono hrt
  rw [d2i_int] at this
  omega

/-! ## C1: evaluation of the rounded threshold loop -/

/-- The threshold loop of `calculate_par` on `par_state_level`, division 1, step by step. -/
theorem par_state_level_eval :
    par_msec_fl par_state_level 1 = 60000 ∧
    (par_of_fl par_state_level 1).time = 60 ∧
    bronze_time_fl par_state_level 1 = 8444108563831325 / 140737488355328 ∧
    d2i (fl (gold_time_fl par_state_level 1 * 1000)) = 59999 ∧
    d2i (fl (bronze_time_fl par_state_level 1 * 1000)) = 59999 := by
  have a1 : fl (60000 / 1000) = 60 := by
    have h := is_double_mul_pow (60) (0) (by norm_num) (by norm_num)
    have e : (((60) : Int) : ℚ) * 2 ^ ((0) : Int) = 60000 / 1000 := by norm_num
    rw [e] at h
    rw [fl_of_double h]
    norm_num
  have a2 : fl (0 * 2) = 0 := by
    rw [show (0 * 2 : ℚ) = 0 by norm_num]
    exact fl_zero
  have a3 : fl (60 - 0) = 60 := by
    have h := is_double_mul_pow (60) (0) (by norm_num) (by norm_num)
    have e : (((60) : Int) : ℚ) * 2 ^ ((0) : Int) = 60 - 0 := by norm_num
    rw [e] at h
    rw [fl_of_double h]
    norm_num
  have a4 : fl (60 + 0) = 60 := by
    have h := is_double_mul_pow (60) (0) (by norm_num) (by norm_num)
    have e : (((60) : Int) : ℚ) * 2 ^ ((0) : Int) = 60 + 0 := by norm_num
    rw [e] at h
    rw [fl_of_double h]
    norm_num
  have b1 : fl (0 * 1) = 0 := by
    rw [show (0 * 1 : ℚ) = 0 by norm_num]
    exact fl_zero
  have c1 : fl (0 * 0) = 0 := by
    rw [show (0 * 0 : ℚ) = 0 by norm_num]
    exact fl_zero
  have c2 : fl (60 + 0) = 60 := by
    have h := is_double_mul_pow (60) (0) (by norm_num) (by norm_num)
    have e : (((60) : Int) : ℚ) * 2 ^ ((0) : Int) = 60 + 0 := by norm_num
    rw [e] at h
    rw [fl_of_double h]
    norm_num
  have c3 : fl (60 * 1000) = 60000 := by
    have h := is_double_mul_pow (60000) (0) (by norm_num) (by norm_num)
    have e : (((60000) : Int) : ℚ) * 2 ^ ((0) : Int) = 60 * 1000 := by norm_num
    rw [e] at h
    rw [fl_of_double h]
    norm_num
  have c4 : d2i (60000) = 60000 := by
    rw [d2i_eq, if_pos (by norm_num), Int.floor_eq_iff]
    constructor <;> norm_num
  have p1 : fl (60000 / 1000) = 60 := by
    have h := is_double_mul_pow (60) (0) (by norm_num) (by norm_num)
    have e : (((60) : Int) : ℚ) * 2 ^ ((0) : Int) = 60000 / 1000 := by norm_num
    rw [e] at h
    rw [fl_of_double h]
    norm_num
  have e1x : fl (0 * 1) = 0 := by
    rw [show (0 * 1 : ℚ) = 0 by norm_num]
    exact fl_zero
  have e2 : fl (60 + 0) = 60 := by
    have h := is_double_mul_pow (60) (0) (by norm_num) (by norm_num)
    have e : (((60) : Int) : ℚ) * 2 ^ ((0) : Int) = 60 + 0 := by norm_num
    rw [e] at h
    rw [fl_of_double h]
    norm_num
  have e3 : fl (1 / 1000) = 1152921504606847 / 1152921504606846976 := by
    rw [fl_eval (1 / 1000) (-10) (4611686018427388) (1 / 4611686018427387904) (by norm_num) (by norm_num) (by norm_num)
      (by norm_num) (by rw [abs_lt]; constructor <;> norm_num)]
    norm_num
  have e4 : fl (60 - (1152921504606847 / 1152921504606846976)) = 8444108563831325 / 140737488355328 := by
    rw [fl_eval (60 - (1152921504606847 / 1152921504606846976)) (5) (8444108563831325) (1 / 140737488355328) (by norm_num) (by norm_num) (by norm_num)
      (by norm_num) (by rw [abs_lt]; constructor <;> norm_num)]
    norm_num
  have f1 : fl ((8444108563831325 / 140737488355328) - 60) = -(140737488355 / 140737488355328) := by
    have h := is_double_mul_pow (-140737488355) (-47) (by norm_num) (by norm_num)
    have e : (((-140737488355) : Int) : ℚ) * 2 ^ ((-47) : Int) = (8444108563831325 / 140737488355328) - 60 := by norm_num
    rw [e] at h
    rw [fl_of_double h]
    norm_num
  have g0 : fl (1 / 4 + 0) = 1 / 4 := by
    have h := is_double_mul_pow (1) (-2) (by norm_num) (by norm_num)
    have e : (((1) : Int) : ℚ) * 2 ^ ((-2) : Int) = 1 / 4 + 0 := by norm_num
    rw [e] at h
    rw [fl_of_double h]
    norm_num
  have g1 : fl ((-(140737488355 / 140737488355328)) * (1 / 4)) = -(140737488355 / 562949953421312) := by
    have h := is_double_mul_pow (-140737488355) (-49) (by norm_num) (by norm_num)
    have e : (((-140737488355) : Int) : ℚ) * 2 ^ ((-49) : Int) = (-(140737488355 / 140737488355328)) * (1 / 4) := by norm_num
    rw [e] at h
    rw [fl_of_double h]
    norm_num
  have g2 : fl (60 + (-(140737488355 / 562949953421312))) = 8444214116947591 / 140737488355328 := by
    rw [fl_eval (60 + (-(140737488355 / 562949953421312))) (5) (8444214116947591) (1 / 140737488355328) (by norm_num) (by norm_num) (by norm_num)
      (by norm_num) (by rw [abs_lt]; constructor <;> norm_num)]
    norm_num
  have g3 : fl ((8444214116947591 / 140737488355328) * 1000) = 239999 / 4 := by
    rw [fl_eval ((8444214116947591 / 140737488355328) * 1000) (15) (8246302848581632) (1 / 137438953472) (by norm_num) (by norm_num) (by norm_num)
      (by norm_num) (by rw [abs_lt]; constructor <;> norm_num)]
    norm_num
  have g4 : d2i (239999 / 4) = 59999 := by
    rw [d2i_eq, if_pos (by norm_num), Int.floor_eq_iff]
    constructor <;> norm_num
  have h3 : fl ((8444108563831325 / 140737488355328) * 1000) = 59999 := by
    rw [fl_eval ((8444108563831325 / 140737488355328) * 1000) (15) (8246199769366528) (1 / 137438953472) (by norm_num) (by norm_num) (by norm_num)
      (by norm_num) (by rw [abs_lt]; constructor <;> norm_num)]
    norm_num
  have h4 : d2i (59999) = 59999 := by
    rw [d2i_eq, if_pos (by norm_num), Int.floor_eq_iff]
    constructor <;> norm_num
  have hq : ((time_to_usec par_state_level.ostat.q_mean : Int) : ℚ) = 60000 := by
    have h : time_to_usec par_state_level.ostat.q_mean = 60000 := by
      unfold time_to_usec i32 par_state_level double_state
      norm_num
    rw [h]
    norm_num
  have hsd : par_state_level.ostat.q_std_dev = 0 := rfl
  have hsc : par_state_level.g_event.scoot = 0 := rfl
  have hsq : par_state_level.g_event.squeeze = 1 := rfl
  have hadj : par_state_level.custom_trophy_adjust 1 = 0 := rfl
  have ht0 : par_state_level.g_event.trophy_multiple 0 = 1 / 4 := rfl
  have hlo : parXlo_fl par_state_level 1 = 0 := by
    unfold parXlo_fl
    rw [if_neg (by decide)]
    rfl
  have hhi : parXhi_fl par_state_level 1 = 1 := by
    unfold parXhi_fl
    rw [if_neg (by decide)]
    rfl
  have hbase : par_base_time_fl par_state_level = 60 := by
    unfold par_base_time_fl
    rw [hq, hsd, hsc, a1, a2, a3, a4]
  have hinc : par_inc_fl par_state_level = 0 := by
    unfold par_inc_fl
    rw [hsd, hsq, b1]
  have hms : par_msec_fl par_state_level 1 = 60000 := by
    unfold par_msec_fl
    rw [hbase, hinc, hlo, c1, c2, c3, c4]
  have hp : (par_of_fl par_state_level 1).time = 60 := by
    unfold par_of_fl
    rw [hms, time_from_usec_fl_time]
    simp only [Int.cast_ofNat]
    exact p1
  have hB : bronze_time_fl par_state_level 1 = 8444108563831325 / 140737488355328 := by
    unfold bronze_time_fl
    rw [hbase, hinc, hhi, e1x, e2, e3, e4]
  have hspan : par_span_fl par_state_level 1 = -(140737488355 / 140737488355328) := by
    unfold par_span_fl
    rw [hB, hp, f1]
  have hG : gold_time_fl par_state_level 1 = 8444214116947591 / 140737488355328 := by
    unfold gold_time_fl
    rw [hp, hspan, ht0, hadj, g0, g1, g2]
  refine ⟨hms, hp, hB, ?_, ?_⟩
  · rw [hG, g3, g4]
  · rw [hB, h3, h4]

/-- The threshold loop of `calculate_par` on `par_state_half`, division 1, step by step. -/
theorem par_state_half_eval :
    par_msec_fl par_state_half 1 = 64002 ∧
    (par_of_fl par_state_half 1).time = 4503740364858851 / 70368744177664 ∧
    bronze_time_fl par_state_half 1 = 4574073100030705 / 70368744177664 ∧
    d2i (fl (gold_time_fl par_state_half 1 * 1000)) = 64001 ∧
    d2i (fl (bronze_time_fl par_state_half 1 * 1000)) = 65001 := by
  have a1 : fl (66002 / 1000) = 4644477853214179 / 70368744177664 := by
    rw [fl_eval (66002 / 1000) (6) (4644477853214179) (1 / 70368744177664) (by norm_num) (by norm_num) (by norm_num)
      (by norm_num) (by rw [abs_lt]; constructor <;> norm_num)]
    norm_num
  have a2 : fl (1 * 2) = 2 := by
    have h := is_double_mul_pow (2) (0) (by norm_num) (by norm_num)
    have e : (((2) : Int) : ℚ) * 2 ^ ((0) : Int) = 1 * 2 := by norm_num
    rw [e] at h
    rw [fl_of_double h]
    norm_num
  have a3 : fl ((4644477853214179 / 70368744177664) - 2) = 4503740364858851 / 70368744177664 := by
    have h := is_double_mul_pow (4503740364858851) (-46) (by norm_num) (by norm_num)
    have e : (((4503740364858851) : Int) : ℚ) * 2 ^ ((-46) : Int) = (4644477853214179 / 70368744177664) - 2 := by norm_num
    rw [e] at h
    rw [fl_of_double h]
    norm_num
  have a4 : fl ((4503740364858851 / 70368744177664) + (1 / 2048)) = 4503774724597219 / 70368744177664 := by
    have h := is_double_mul_pow (4503774724597219) (-46) (by norm_num) (by norm_num)
    have e : (((4503774724597219) : Int) : ℚ) * 2 ^ ((-46) : Int) = (4503740364858851 / 70368744177664) + (1 / 2048) := by norm_num
    rw [e] at h
    rw [fl_of_double h]
    norm_num
  have b1 : fl (1 * 1) = 1 := by
    have h := is_double_mul_pow (1) (0) (by norm_num) (by norm_num)
    have e : (((1) : Int) : ℚ) * 2 ^ ((0) : Int) = 1 * 1 := by norm_num
    rw [e] at h
    rw [fl_of_double h]
    norm_num
  have c1 : fl (1 * 0) = 0 := by
    rw [show (1 * 0 : ℚ) = 0 by norm_num]
    exact fl_zero
  have c2 : fl ((4503774724597219 / 70368744177664) + 0) = 4503774724597219 / 70368744177664 := by
    have h := is_double_mul_pow (4503774724597219) (-46) (by norm_num) (by norm_num)
    have e : (((4503774724597219) : Int) : ℚ) * 2 ^ ((-46) : Int) = (4503774724597219 / 70368744177664) + 0 := by norm_num
    rw [e] at h
    rw [fl_of_double h]
    norm_num
  have c3 : fl ((4503774724597219 / 70368744177664) * 1000) = 8796435008978943 / 137438953472 := by
    rw [fl_eval ((4503774724597219 / 70368744177664) * 1000) (15) (8796435008978943) (1 / 137438953472) (by norm_num) (by norm_num) (by norm_num)
      (by norm_num) (by rw [abs_lt]; constructor <;> norm_num)]
    norm_num
  have c4 : d2i (8796435008978943 / 137438953472) = 64002 := by
    rw [d2i_eq, if_pos (by norm_num), Int.floor_eq_iff]
    constructor <;> norm_num
  have p1 : fl (64002 / 1000) = 4503740364858851 / 70368744177664 := by
    rw [fl_eval (64002 / 1000) (6) (4503740364858851) (1 / 70368744177664) (by norm_num) (by norm_num) (by norm_num)
      (by norm_num) (by rw [abs_lt]; constructor <;> norm_num)]
    norm_num
  have e1x : fl (1 * 1) = 1 := by
    have h := is_double_mul_pow (1) (0) (by norm_num) (by norm_num)
    have e : (((1) : Int) : ℚ) * 2 ^ ((0) : Int) = 1 * 1 := by norm_num
    rw [e] at h
    rw [fl_of_double h]
    norm_num
  have e2 : fl ((4503774724597219 / 70368744177664) + 1) = 4574143468774883 / 70368744177664 := by
    have h := is_double_mul_pow (4574143468774883) (-46) (by norm_num) (by norm_num)
    have e : (((4574143468774883) : Int) : ℚ) * 2 ^ ((-46) : Int) = (4503774724597219 / 70368744177664) + 1 := by norm_num
    rw [e] at h
    rw [fl_of_double h]
    norm_num
  have e3 : fl (1 / 1000) = 1152921504606847 / 1152921504606846976 := by
    rw [fl_eval (1 / 1000) (-10) (4611686018427388) (1 / 4611686018427387904) (by norm_num) (by norm_num) (by norm_num)
      (by norm_num) (by rw [abs_lt]; constructor <;> norm_num)]
    norm_num
  have e4 : fl ((4574143468774883 / 70368744177664) - (1152921504606847 / 1152921504606846976)) = 4574073100030705 / 70368744177664 := by
    rw [fl_eval ((4574143468774883 / 70368744177664) - (1152921504606847 / 1152921504606846976)) (6) (4574073100030705) (1 / 70368744177664) (by norm_num) (by norm_num) (by norm_num)
      (by norm_num) (by rw [abs_lt]; constructor <;> norm_num)]
    norm_num
  have f1 : fl ((4574073100030705 / 70368744177664) - (4503740364858851 / 70368744177664)) = 35166367585927 / 35184372088832 := by
    have h := is_double_mul_pow (35166367585927) (-45) (by norm_num) (by norm_num)
    have e : (((35166367585927) : Int) : ℚ) * 2 ^ ((-45) : Int) = (4574073100030705 / 70368744177664) - (4503740364858851 / 70368744177664) := by norm_num
    rw [e] at h
    rw [fl_of_double h]
    norm_num
  have g0 : fl (1 / 4 + (-(1 / 4))) = 0 := by
    rw [show (1 / 4 + (-(1 / 4)) : ℚ) = 0 by norm_num]
    exact fl_zero
  have g1 : fl ((35166367585927 / 35184372088832) * 0) = 0 := by
    rw [show ((35166367585927 / 35184372088832) * 0 : ℚ) = 0 by norm_num]
    exact fl_zero
  have g2 : fl ((4503740364858851 / 70368744177664) + 0) = 4503740364858851 / 70368744177664 := by
    have h := is_double_mul_pow (4503740364858851) (-46) (by norm_num) (by norm_num)
    have e : (((4503740364858851) : Int) : ℚ) * 2 ^ ((-46) : Int) = (4503740364858851 / 70368744177664) + 0 := by norm_num
    rw [e] at h
    rw [fl_of_double h]
    norm_num
  have g3 : fl ((4503740364858851 / 70368744177664) * 1000) = 8796367900114943 / 137438953472 := by
    rw [fl_eval ((4503740364858851 / 70368744177664) * 1000) (15) (8796367900114943) (1 / 137438953472) (by norm_num) (by norm_num) (by norm_num)
      (by norm_num) (by rw [abs_lt]; constructor <;> norm_num)]
    norm_num
  have g4 : d2i (8796367900114943 / 137438953472) = 64001 := by
    rw [d2i_eq, if_pos (by norm_num), Int.floor_eq_iff]
    constructor <;> norm_num
  have h3 : fl ((4574073100030705 / 70368744177664) * 1000) = 8933736523497471 / 137438953472 := by
    rw [fl_eval ((4574073100030705 / 70368744177664) * 1000) (15) (8933736523497471) (1 / 137438953472) (by norm_num) (by norm_num) (by norm_num)
      (by norm_num) (by rw [abs_lt]; constructor <;> norm_num)]
    norm_num
  have h4 : d2i (8933736523497471 / 137438953472) = 65001 := by
    rw [d2i_eq, if_pos (by norm_num), Int.floor_eq_iff]
    constructor <;> norm_num
  have hq : ((time_to_usec par_state_half.ostat.q_mean : Int) : ℚ) = 66002 := by
    have h : time_to_usec par_state_half.ostat.q_mean = 66002 := by
      unfold time_to_usec i32 par_state_half double_state
      norm_num
    rw [h]
    norm_num
  have hsd : par_state_half.ostat.q_std_dev = 1 := rfl
  have hsc : par_state_half.g_event.scoot = 1 / 2048 := rfl
  have hsq : par_state_half.g_event.squeeze = 1 := rfl
  have hadj : par_state_half.custom_trophy_adjust 1 = -(1 / 4) := rfl
  have ht0 : par_state_half.g_event.trophy_multiple 0 = 1 / 4 := rfl
  have hlo : parXlo_fl par_state_half 1 = 0 := by
    unfold parXlo_fl
    rw [if_neg (by decide)]
    rfl
  have hhi : parXhi_fl par_state_half 1 = 1 := by
    unfold parXhi_fl
    rw [if_neg (by decide)]
    rfl
  have hbase : par_base_time_fl par_state_half = 4503774724597219 / 70368744177664 := by
    unfold par_base_time_fl
    rw [hq, hsd, hsc, a1, a2, a3, a4]
  have hinc : par_inc_fl par_state_half = 1 := by
    unfold par_inc_fl
    rw [hsd, hsq, b1]
  have hms : par_msec_fl par_state_half 1 = 64002 := by
    unfold par_msec_fl
    rw [hbase, hinc, hlo, c1, c2, c3, c4]
  have hp : (par_of_fl par_state_half 1).time = 4503740364858851 / 70368744177664 := by
    unfold par_of_fl
    rw [hms, time_from_usec_fl_time]
    simp only [Int.cast_ofNat]
    exact p1
  have hB : bronze_time_fl par_state_half 1 = 4574073100030705 / 70368744177664 := by
    unfold bronze_time_fl
    rw [hbase, hinc, hhi, e1x, e2, e3, e4]
  have hspan : par_span_fl par_state_half 1 = 35166367585927 / 35184372088832 := by
    unfold par_span_fl
    rw [hB, hp, f1]
  have hG : gold_time_fl par_state_half 1 = 4503740364858851 / 70368744177664 := by
    unfold gold_time_fl
    rw [hp, hspan, ht0, hadj, g0, g1, g2]
  refine ⟨hms, hp, hB, ?_, ?_⟩
  · rw [hG, g3, g4]
  · rw [hB, h3, h4]

/-- The threshold loop of `calculate_par` on `par_state_plain`, division 1, step by step. -/
theorem par_state_plain_eval :
    par_msec_fl par_state_plain 1 = 58000 ∧
    (par_of_fl par_state_plain 1).time = 58 ∧
    bronze_time_fl par_state_plain 1 = 8303371075475997 / 140737488355328 ∧
    d2i (fl (gold_time_fl par_state_plain 1 * 1000)) = 58249 ∧
    d2i (fl (bronze_time_fl par_state_plain 1 * 1000)) = 58999 := by
  have a1 : fl (60000 / 1000) = 60 := by
    have h := is_double_mul_pow (60) (0) (by norm_num) (by norm_num)
    have e : (((60) : Int) : ℚ) * 2 ^ ((0) : Int) = 60000 / 1000 := by norm_num
    rw [e] at h
    rw [fl_of_double h]
    norm_num
  have a2 : fl (1 * 2) = 2 := by
    have h := is_double_mul_pow (2) (0) (by norm_num) (by norm_num)
    have e : (((2) : Int) : ℚ) * 2 ^ ((0) : Int) = 1 * 2 := by norm_num
    rw [e] at h
    rw [fl_of_double h]
    norm_num
  have a3 : fl (60 - 2) = 58 := by
    have h := is_double_mul_pow (58) (0) (by norm_num) (by norm_num)
    have e : (((58) : Int) : ℚ) * 2 ^ ((0) : Int) = 60 - 2 := by norm_num
    rw [e] at h
    rw [fl_of_double h]
    norm_num
  have a4 : fl (58 + 0) = 58 := by
    have h := is_double_mul_pow (58) (0) (by norm_num) (by norm_num)
    have e : (((58) : Int) : ℚ) * 2 ^ ((0) : Int) = 58 + 0 := by norm_num
    rw [e] at h
    rw [fl_of_double h]
    norm_num
  have b1 : fl (1 * 1) = 1 := by
    have h := is_double_mul_pow (1) (0) (by norm_num) (by norm_num)
    have e : (((1) : Int) : ℚ) * 2 ^ ((0) : Int) = 1 * 1 := by norm_num
    rw [e] at h
    rw [fl_of_double h]
    norm_num
  have c1 : fl (1 * 0) = 0 := by
    rw [show (1 * 0 : ℚ) = 0 by norm_num]
    exact fl_zero
  have c2 : fl (58 + 0) = 58 := by
    have h := is_double_mul_pow (58) (0) (by norm_num) (by norm_num)
    have e : (((58) : Int) : ℚ) * 2 ^ ((0) : Int) = 58 + 0 := by norm_num
    rw [e] at h
    rw [fl_of_double h]
    norm_num
  have c3 : fl (58 * 1000) = 58000 := by
    have h := is_double_mul_pow (58000) (0) (by norm_num) (by norm_num)
    have e : (((58000) : Int) : ℚ) * 2 ^ ((0) : Int) = 58 * 1000 := by norm_num
    rw [e] at h
    rw [fl_of_double h]
    norm_num
  have c4 : d2i (58000) = 58000 := by
    rw [d2i_eq, if_pos (by norm_num), Int.floor_eq_iff]
    constructor <;> norm_num
  have p1 : fl (58000 / 1000) = 58 := by
    have h := is_double_mul_pow (58) (0) (by norm_num) (by norm_num)
    have e : (((58) : Int) : ℚ) * 2 ^ ((0) : Int) = 58000 / 1000 := by norm_num
    rw [e] at h
    rw [fl_of_double h]
    norm_num
  have e1x : fl (1 * 1) = 1 := by
    have h := is_double_mul_pow (1) (0) (by norm_num) (by norm_num)
    have e : (((1) : Int) : ℚ) * 2 ^ ((0) : Int) = 1 * 1 := by norm_num
    rw [e] at h
    rw [fl_of_double h]
    norm_num
  have e2 : fl (58 + 1) = 59 := by
    have h := is_double_mul_pow (59) (0) (by norm_num) (by norm_num)
    have e : (((59) : Int) : ℚ) * 2 ^ ((0) : Int) = 58 + 1 := by norm_num
    rw [e] at h
    rw [fl_of_double h]
    norm_num
  have e3 : fl (1 / 1000) = 1152921504606847 / 1152921504606846976 := by
    rw [fl_eval (1 / 1000) (-10) (4611686018427388) (1 / 4611686018427387904) (by norm_num) (by norm_num) (by norm_num)
      (by norm_num) (by rw [abs_lt]; constructor <;> norm_num)]
    norm_num
  have e4 : fl (59 - (1152921504606847 / 1152921504606846976)) = 8303371075475997 / 140737488355328 := by
    rw [fl_eval (59 - (1152921504606847 / 1152921504606846976)) (5) (8303371075475997) (1 / 140737488355328) (by norm_num) (by norm_num) (by norm_num)
      (by norm_num) (by rw [abs_lt]; constructor <;> norm_num)]
    norm_num
  have f1 : fl ((8303371075475997 / 140737488355328) - 58) = 140596750866973 / 140737488355328 := by
    have h := is_double_mul_pow (140596750866973) (-47) (by norm_num) (by norm_num)
    have e : (((140596750866973) : Int) : ℚ) * 2 ^ ((-47) : Int) = (8303371075475997 / 140737488355328) - 58 := by norm_num
    rw [e] at h
    rw [fl_of_double h]
    norm_num
  have g0 : fl (1 / 4 + 0) = 1 / 4 := by
    have h := is_double_mul_pow (1) (-2) (by norm_num) (by norm_num)
    have e : (((1) : Int) : ℚ) * 2 ^ ((-2) : Int) = 1 / 4 + 0 := by norm_num
    rw [e] at h
    rw [fl_of_double h]
    norm_num
  have g1 : fl ((140596750866973 / 140737488355328) * (1 / 4)) = 140596750866973 / 562949953421312 := by
    have h := is_double_mul_pow (140596750866973) (-49) (by norm_num) (by norm_num)
    have e : (((140596750866973) : Int) : ℚ) * 2 ^ ((-49) : Int) = (140596750866973 / 140737488355328) * (1 / 4) := by norm_num
    rw [e] at h
    rw [fl_of_double h]
    norm_num
  have g2 : fl (58 + (140596750866973 / 562949953421312)) = 8197923512325767 / 140737488355328 := by
    rw [fl_eval (58 + (140596750866973 / 562949953421312)) (5) (8197923512325767) (1 / 140737488355328) (by norm_num) (by norm_num) (by norm_num)
      (by norm_num) (by rw [abs_lt]; constructor <;> norm_num)]
    norm_num
  have g3 : fl ((8197923512325767 / 140737488355328) * 1000) = 232999 / 4 := by
    rw [fl_eval ((8197923512325767 / 140737488355328) * 1000) (15) (8005784680005632) (1 / 137438953472) (by norm_num) (by norm_num) (by norm_num)
      (by norm_num) (by rw [abs_lt]; constructor <;> norm_num)]
    norm_num
  have g4 : d2i (232999 / 4) = 58249 := by
    rw [d2i_eq, if_pos (by norm_num), Int.floor_eq_iff]
    constructor <;> norm_num
  have h3 : fl ((8303371075475997 / 140737488355328) * 1000) = 58999 := by
    rw [fl_eval ((8303371075475997 / 140737488355328) * 1000) (15) (8108760815894528) (1 / 137438953472) (by norm_num) (by norm_num) (by norm_num)
      (by norm_num) (by rw [abs_lt]; constructor <;> norm_num)]
    norm_num
  have h4 : d2i (58999) = 58999 := by
    rw [d2i_eq, if_pos (by norm_num), Int.floor_eq_iff]
    constructor <;> norm_num
  have hq : ((time_to_usec par_state_plain.ostat.q_mean : Int) : ℚ) = 60000 := by
    have h : time_to_usec par_state_plain.ostat.q_mean = 60000 := by
      unfold time_to_usec i32 par_state_plain double_state
      norm_num
    rw [h]
    norm_num
  have hsd : par_state_plain.ostat.q_std_dev = 1 := rfl
  have hsc : par_state_plain.g_event.scoot = 0 := rfl
  have hsq : par_state_plain.g_event.squeeze = 1 := rfl
  have hadj : par_state_plain.custom_trophy_adjust 1 = 0 := rfl
  have ht0 : par_state_plain.g_event.trophy_multiple 0 = 1 / 4 := rfl
  have hlo : parXlo_fl par_state_plain 1 = 0 := by
    unfold parXlo_fl
    rw [if_neg (by decide)]
    rfl
  have hhi : parXhi_fl par_state_plain 1 = 1 := by
    unfold parXhi_fl
    rw [if_neg (by decide)]
    rfl
  have hbase : par_base_time_fl par_state_plain = 58 := by
    unfold par_base_time_fl
    rw [hq, hsd, hsc, a1, a2, a3, a4]
  have hinc : par_inc_fl par_state_plain = 1 := by
    unfold par_inc_fl
    rw [hsd, hsq, b1]
  have hms : par_msec_fl par_state_plain 1 = 58000 := by
    unfold par_msec_fl
    rw [hbase, hinc, hlo, c1, c2, c3, c4]
  have hp : (par_of_fl par_state_plain 1).time = 58 := by
    unfold par_of_fl
    rw [hms, time_from_usec_fl_time]
    simp only [Int.cast_ofNat]
    exact p1
  have hB : bronze_time_fl par_state_plain 1 = 8303371075475997 / 140737488355328 := by
    unfold bronze_time_fl
    rw [hbase, hinc, hhi, e1x, e2, e3, e4]
  have hspan : par_span_fl par_state_plain 1 = 140596750866973 / 140737488355328 := by
    unfold par_span_fl
    rw [hB, hp, f1]
  have hG : gold_time_fl par_state_plain 1 = 8197923512325767 / 140737488355328 := by
    unfold gold_time_fl
    rw [hp, hspan, ht0, hadj, g0, g1, g2]
  refine ⟨hms, hp, hB, ?_, ?_⟩
  · rw [hG, g3, g4]
  · rw [hB, h3, h4]

theorem stored_msec (u : Int) (h1 : -2147483648 ≤ u) (h2 : u < 2147483648) :
    time_to_usec (time_from_usec_fl u) = u := by
  rw [time_to_from_usec_fl, time_to_from_usec, i32_of_range u h1 h2]

/-- C1, counterexamples for division 1 with the double curve and squeeze 1: (1) with the
overall quality mean 1:00.000 and deviation 0, `calculate_par` stores par = 60000 ms and
gold = 59999 ms; (2) with the overall quality mean 1:06.002, deviation 1, scoot
0.00048828125 and the custom trophy adjustment -0.25, the par time is not above the bronze
time, the trophy fractions meet `0 <= f0 + adj`, `f0 <= f1`, `f1 + adj <= 1`, and
`calculate_par` stores par = 64002 ms and gold = 64001 ms (the double 64.002 times 1000.0
is 64001.99999999999). -/
theorem calculate_par_fl_unordered :
    (time_to_usec ((calculate_par_fl sqrt_milli par_state_level).div_stat 1).par = 60000 ∧
      time_to_usec ((calculate_par_fl sqrt_milli par_state_level).div_stat 1).gold = 59999) ∧
    ((par_of_fl par_state_half 1).time ≤ bronze_time_fl par_state_half 1 ∧
      bronze_time_fl par_state_half 1 ≤ 2 * (par_of_fl par_state_half 1).time ∧
      0 ≤ par_state_half.g_event.trophy_multiple 0 + par_state_half.custom_trophy_adjust 1 ∧
      par_state_half.g_event.trophy_multiple 0 ≤ par_state_half.g_event.trophy_multiple 1 ∧
      par_state_half.g_event.trophy_multiple 1 + par_state_half.custom_trophy_adjust 1 ≤ 1 ∧
      time_to_usec ((calculate_par_fl sqrt_milli par_state_half).div_stat 1).par = 64002 ∧
      time_to_usec ((calculate_par_fl sqrt_milli par_state_half).div_stat 1).gold = 64001) := by
  obtain ⟨lp, lg, -, -⟩ :=
    calculate_par_fl_stat sqrt_milli par_state_level 1 (by decide) (by decide)
  obtain ⟨hp, hg, -, -⟩ :=
    calculate_par_fl_stat sqrt_milli par_state_half 1 (by decide) (by decide)
  obtain ⟨l1, -, -, l4, -⟩ := par_state_level_eval
  obtain ⟨e1, e2, e3, e4, -⟩ := par_state_half_eval
  have ht0 : par_state_half.g_event.trophy_multiple 0 = 1 / 4 := rfl
  have ht1 : par_state_half.g_event.trophy_multiple 1 =
      5254199565265579 / 9007199254740992 := rfl
  have hadj : par_state_half.custom_trophy_adjust 1 = -(1 / 4) := rfl
  refine ⟨⟨?_, ?_⟩, ?_, ?_, ?_, ?_, ?_, ?_, ?_⟩
  · rw [lp]
    unfold par_of_fl
    rw [l1]
    exact stored_msec _ (by norm_num) (by norm_num)
  · rw [lg, l4]
    exact stored_msec _ (by norm_num) (by norm_num)
  · rw [e2, e3]
    norm_num
  · rw [e2, e3]
    norm_num
  · rw [ht0, hadj]
    norm_num
  · rw [ht0, ht1]
    norm_num
  · rw [ht1, hadj]
    norm_num
  · rw [hp]
    unfold par_of_fl
    rw [e1]
    exact stored_msec _ (by norm_num) (by norm_num)
  · rw [hg, e4]
    exact stored_msec _ (by norm_num) (by norm_num)

theorem par_state_plain_bounded : par_inputs_bounded par_state_plain 1 := by
  have h1 : par_state_plain.ostat.q_std_dev = 1 := rfl
  have h2 : par_state_plain.g_event.squeeze = 1 := rfl
  have h3 : par_state_plain.g_event.scoot = 0 := rfl
  have h4 : par_state_plain.g_event.par_multiple 1 = 0 := rfl
  have h5 : par_state_plain.g_event.par_multiple (1 + 1) = 1 := rfl
  unfold par_inputs_bounded
  rw [h1, h2, h3, h4, h5]
  norm_num

/-- C1, instance: with the double curve, squeeze 1, overall quality mean 1:00.000 and
deviation 1, division 1 meets every hypothesis of `calculate_par_fl_ordered` (par time 58,
bronze time 58.999), and the stored thresholds are in order. -/
theorem calculate_par_fl_ordered_witness :
    (par_of_fl par_state_plain 1).time ≤ bronze_time_fl par_state_plain 1 ∧
    bronze_time_fl par_state_plain 1 ≤ 2 * (par_of_fl par_state_plain 1).time ∧
    (time_to_usec ((calculate_par_fl sqrt_milli par_state_plain).div_stat 1).par - 1 ≤
        time_to_usec ((calculate_par_fl sqrt_milli par_state_plain).div_stat 1).gold ∧
      (((par_msec_fl par_state_plain 1 : Int) : ℚ) ≤
          fl ((par_of_fl par_state_plain 1).time * 1000) →
        time_to_usec ((calculate_par_fl sqrt_milli par_state_plain).div_stat 1).par ≤
          time_to_usec ((calculate_par_fl sqrt_milli par_state_plain).div_stat 1).gold) ∧
      time_to_usec ((calculate_par_fl sqrt_milli par_state_plain).div_stat 1).gold ≤
        time_to_usec ((calculate_par_fl sqrt_milli par_state_plain).div_stat 1).silver ∧
      time_to_usec ((calculate_par_fl sqrt_milli par_state_plain).div_stat 1).silver ≤
        time_to_usec ((calculate_par_fl sqrt_milli par_state_plain).div_stat 1).bronze) :=
  have e := par_state_plain_eval
  have ht0 : par_state_plain.g_event.trophy_multiple 0 = 1 / 4 := rfl
  have ht1 : par_state_plain.g_event.trophy_multiple 1 =
      5254199565265579 / 9007199254740992 := rfl
  have hadj : par_state_plain.custom_trophy_adjust 1 = 0 := rfl
  have hpb : (par_of_fl par_state_plain 1).time ≤ bronze_time_fl par_state_plain 1 := by
    rw [e.2.1, e.2.2.1]
    norm_num
  have hst : bronze_time_fl par_state_plain 1 ≤ 2 * (par_of_fl par_state_plain 1).time := by
    rw [e.2.1, e.2.2.1]
    norm_num
  ⟨hpb, hst, calculate_par_fl_ordered sqrt_milli par_state_plain 1 (by decide) (by decide)
    par_state_plain_bounded (by rw [e.1]; norm_num) (by rw [e.1]; norm_num) hpb hst
    (by rw [ht0, hadj]; norm_num) (by rw [ht0, ht1]; norm_num)
    (by rw [ht1, hadj]; norm_num) (by rw [e.2.2.2.2]; norm_num)⟩

/-! ## C29: two entries of one participant -/

/-- C29, the code at the failing input: after `scan_event` has processed two submission
lines of the registered tag `GTP_A` (times 1:00.000 and 1:01.000), two entries are
registered and both have the `player_id` 1, so the participant has two entries in the
event; `entry_find`, which `event_process_line` does not call, finds the first of them
for the second. -/
theorem scan_event_duplicate_entry :
    (scan_event repeated_lines known_parse_state).g_entry_cnt = 2 ∧
    ((scan_event repeated_lines known_parse_state).entry_db 0).player_id = 1 ∧
    ((scan_event repeated_lines known_parse_state).entry_db 1).player_id = 1 ∧
    entry_find (scan_event repeated_lines known_parse_state)
      ((scan_event repeated_lines known_parse_state).entry_db 1) = some 0 := by
  obtain ⟨h1, h2, h3⟩ := scan_event_repeats_player
  refine ⟨h1, h2, h3, ?_⟩
  unfold entry_find
  rw [h1, h3]
  have hr : List.range 2 = [0, 1] := rfl
  rw [hr, List.find?_cons_of_pos]
  rw [h2]
  decide


end Wrsort
